import Mathlib

/-! # Logic-Maze storage layer: page store, LRU replacer and buffer pool manager

A shallow embedding of `include/config.h`, `include/page.h`,
`src/disk_manager.cpp`, `src/lru_replacer.cpp` and
`src/buffer_pool_manager.cpp`, followed by theorems about the embedded code.

Conventions of the embedding.

* `page_id_t` (uint32) is a `Nat`; the two places where the code does
  arithmetic on it (`num_pages_++`, `page_id + 1`) reduce modulo `2 ^ 32`.
* `frame_id_t` (int32) is an `Int`, with `INVALID_FRAME_ID = -1`.
* The pin count (`int`) is an unbounded `Int`, the hit and miss counters
  (`size_t`) are unbounded `Nat`s: their overflow is not modelled.
* A `Page` is the typed view of its 8192 bytes: the 128 byte header as a record
  and the 8064 byte data area as a list of bytes.
* `std::unordered_map` members that the code reads only through `operator[]`,
  `find` and `erase` are total functions (`pin_count_`, `dirty_` with the
  default value an absent key reads as; `frame_table_` into `Option`).
  `page_table_`, which the code also iterates, is an association list with
  unique keys; iteration follows the list.
* The backing file is a list of whole pages; `failbit` is the sticky failure
  flag of the `std::fstream`.
* A C++ exception is a value of `StoreError` returned next to the state the
  throwing call leaves behind.
* Console output (`std::cout`, `std::cerr`) and the mutexes are not modelled:
  every operation is one atomic step.
-/

namespace logicmaze

/-! ## config.h -/

def PAGE_SIZE : Nat := 8192

def PAGE_HEADER_SIZE : Nat := 128

def PAGE_DATA_SIZE : Nat := PAGE_SIZE - PAGE_HEADER_SIZE

def BUFFER_POOL_SIZE : Nat := 100

/-- The byte values of `enum class PageType : uint8_t`. -/
def PageType.INVALID : Nat := 0

def PageType.HEADER : Nat := 1

def PageType.DATA : Nat := 2

def PageType.INDEX : Nat := 3

def PageType.FREE_LIST : Nat := 4

def INVALID_PAGE_ID : Nat := 0xFFFFFFFF

def HEADER_PAGE_ID : Nat := 0

def INVALID_FRAME_ID : Int := -1

/-- The number of values of `page_id_t` (uint32). -/
def PAGE_ID_MOD : Nat := 2 ^ 32

/-! ## page.h -/

/-- The 128 byte page header, field by field. -/
structure PageHeader where
  page_id : Nat
  page_type : Nat
  padding1 : List Nat
  num_records : Nat
  free_space : Nat
  free_space_offset : Nat
  checksum : Nat
  reserved : List Nat
deriving DecidableEq

/-- The header `PageHeader()` constructs. -/
def PageHeader.default : PageHeader :=
  { page_id := INVALID_PAGE_ID
    page_type := PageType.INVALID
    padding1 := List.replicate 3 0
    num_records := 0
    free_space := PAGE_DATA_SIZE
    free_space_offset := 0
    checksum := 0
    reserved := List.replicate 104 0 }

/-- A page: the header and the bytes of the data area. -/
structure Page where
  header : PageHeader
  data : List Nat
deriving DecidableEq

/-- The page `Page()` constructs: `memset(data_, 0, PAGE_SIZE)`. It is also what a
hole of the backing file reads as. -/
def Page.zero : Page :=
  { header :=
      { page_id := 0
        page_type := 0
        padding1 := List.replicate 3 0
        num_records := 0
        free_space := 0
        free_space_offset := 0
        checksum := 0
        reserved := List.replicate 104 0 }
    data := List.replicate PAGE_DATA_SIZE 0 }

/-- `Page::Reset`: zero the buffer, then assign a default header. -/
def Page.Reset (_p : Page) : Page :=
  { header := PageHeader.default
    data := List.replicate PAGE_DATA_SIZE 0 }

/-- The little-endian 32-bit word at the start of a byte list (absent bytes read 0). -/
def word32 (bs : List Nat) : Nat :=
  bs.getD 0 0 + 256 * bs.getD 1 0 + 65536 * bs.getD 2 0 + 16777216 * bs.getD 3 0

/-- The four bytes of a 32-bit value, little-endian. -/
def bytes32 (v : Nat) : List Nat :=
  [v % 256, v / 256 % 256, v / 65536 % 256, v / 16777216 % 256]

/-- The loop of `Page::CalculateChecksum`: XOR the bytes, one little-endian word of four
bytes at a time, into `sum`. -/
def xorWords : List Nat → Nat → Nat
  | b0 :: b1 :: b2 :: b3 :: rest, sum => xorWords rest (sum ^^^ word32 [b0, b1, b2, b3])
  | _, sum => sum

/-- `Page::CalculateChecksum`: the XOR of the `PAGE_DATA_SIZE / 4` words of the data
area, which are its `PAGE_DATA_SIZE` bytes taken four at a time. -/
def Page.CalculateChecksum (p : Page) : Nat :=
  xorWords (p.data.take PAGE_DATA_SIZE) 0

/-- `Page::VerifyChecksum`. -/
def Page.VerifyChecksum (p : Page) : Bool :=
  p.header.checksum == p.CalculateChecksum

/-- `Page::UpdateChecksum`. -/
def Page.UpdateChecksum (p : Page) : Page :=
  { p with header := { p.header with checksum := p.CalculateChecksum } }

/-- `memcpy(buf + off, bs, bs.size())` into a buffer; bytes that would land past the
end of the buffer are dropped (in C++ they are out of bounds). -/
def writeBytes : List Nat → Nat → List Nat → List Nat
  | [], _, _ => []
  | b :: buf, 0, [] => b :: buf
  | _ :: buf, 0, x :: bs => x :: writeBytes buf 0 bs
  | b :: buf, off + 1, bs => b :: writeBytes buf off bs

/-! ## disk_manager.cpp -/

/-- The exceptions the page store throws. -/
inductive StoreError where
  | out_of_range
  | invalid_argument
  | runtime_error
deriving DecidableEq

/-- The state of a `DiskManager`: `num_pages_`, `free_pages_`, the content of the
backing file as a list of pages, and the failure flag of `db_file_`. -/
structure DiskManager where
  num_pages : Nat
  free_pages : List Nat
  file : List Page
  failbit : Bool
deriving DecidableEq

/-- What `seekp(i * PAGE_SIZE)` followed by `write(PAGE_SIZE bytes)` leaves in the
file: slot `i` is replaced, and a write past the end grows the file, the gap
reading as zero bytes. -/
def fileWrite : List Page → Nat → Page → List Page
  | [], 0, pg => [pg]
  | [], i + 1, pg => Page.zero :: fileWrite [] i pg
  | _ :: rest, 0, pg => pg :: rest
  | x :: rest, i + 1, pg => x :: fileWrite rest i pg

/-- The content of slot `i` of the file, a slot past the end reading as zeros. -/
def fileSlot (file : List Page) (i : Nat) : Page :=
  file.getD i Page.zero

namespace DiskManager

/-- `DiskManager::ReadPage`. The range check throws before the stream is touched; a
stream that has failed makes `seekg` fail; reading at or past the end of the file
fails and sets the failure flag. The checksum verification only prints a warning. -/
def ReadPage (d : DiskManager) (page_id : Nat) : Except StoreError Page × DiskManager :=
  if page_id ≥ d.num_pages then (.error .out_of_range, d)
  else if d.failbit then (.error .runtime_error, d)
  else
    match d.file.get? page_id with
    | none => (.error .runtime_error, { d with failbit := true })
    | some pg => (.ok pg, d)

/-- `DiskManager::WritePage`. -/
def WritePage (d : DiskManager) (page_id : Nat) (page : Page) :
    Except StoreError Unit × DiskManager :=
  let d1 : DiskManager :=
    if page_id ≥ d.num_pages then { d with num_pages := (page_id + 1) % PAGE_ID_MOD } else d
  if d1.failbit then (.error .runtime_error, d1)
  else (.ok (), { d1 with file := fileWrite d1.file page_id page })

/-- `DiskManager::AllocatePage`. -/
def AllocatePage (d : DiskManager) : Nat × DiskManager :=
  match d.free_pages.getLast? with
  | some new_page_id => (new_page_id, { d with free_pages := d.free_pages.dropLast })
  | none => (d.num_pages, { d with num_pages := (d.num_pages + 1) % PAGE_ID_MOD })

/-- `DiskManager::DeallocatePage`. -/
def DeallocatePage (d : DiskManager) (page_id : Nat) : Except StoreError Unit × DiskManager :=
  if page_id = HEADER_PAGE_ID then (.error .invalid_argument, d)
  else if page_id ≥ d.num_pages then (.error .out_of_range, d)
  else (.ok (), { d with free_pages := d.free_pages ++ [page_id] })

/-- The data area `SaveFreePageList` builds: identifier `i` copied to offset `4 * i`. -/
def packIds : List Nat → Nat → List Nat → List Nat
  | data, _, [] => data
  | data, i, id :: ids => packIds (writeBytes data (4 * i) (bytes32 id)) (i + 1) ids

/-- The free-list page `SaveFreePageList` builds before writing it. -/
def freeListPage (free_pages : List Nat) : Page :=
  Page.UpdateChecksum
    { header :=
        { Page.zero.header with
          page_id := 1
          page_type := PageType.FREE_LIST
          num_records := free_pages.length % PAGE_ID_MOD }
      data := packIds Page.zero.data 0 free_pages }

/-- `DiskManager::SaveFreePageList`: page 1 is written straight through the stream
(nothing happens on a failed stream), then `num_pages_` is raised to 2. -/
def SaveFreePageList (d : DiskManager) : DiskManager :=
  let d1 : DiskManager :=
    if d.failbit then d else { d with file := fileWrite d.file 1 (freeListPage d.free_pages) }
  if d1.num_pages < 2 then { d1 with num_pages := 2 } else d1

/-- The identifiers `LoadFreePageList` reads out of a data area. -/
def unpackIds (data : List Nat) (count : Nat) : List Nat :=
  (List.range count).map (fun i => word32 (data.drop (4 * i)))

/-- `DiskManager::LoadFreePageList`. -/
def LoadFreePageList (d : DiskManager) : DiskManager :=
  if d.num_pages < 2 then d
  else if d.failbit then d
  else
    match d.file.get? 1 with
    | none => { d with failbit := true }
    | some free_list_page =>
      if free_list_page.header.page_type ≠ PageType.FREE_LIST then d
      else { d with free_pages := unpackIds free_list_page.data free_list_page.header.num_records }

/-- The header page `InitializeDatabase` builds (`num_pages_` is still 0 then). -/
def headerPage : Page :=
  Page.UpdateChecksum
    { header :=
        { Page.zero.header with
          page_id := HEADER_PAGE_ID
          page_type := PageType.HEADER
          num_records := 0 }
      data :=
        writeBytes (writeBytes (writeBytes Page.zero.data 0 (bytes32 1)) 4 (bytes32 PAGE_SIZE))
          8 (bytes32 0) }

/-- `DiskManager::InitializeDatabase`, run on the empty file just created. -/
def InitializeDatabase (d : DiskManager) : DiskManager :=
  let d1 := (d.WritePage HEADER_PAGE_ID headerPage).2
  SaveFreePageList { d1 with num_pages := 1 }

/-- The constructor `DiskManager::DiskManager`: `existing` is the content of the file
when it exists. -/
def ctor (existing : Option (List Page)) : DiskManager :=
  match existing with
  | some file =>
    LoadFreePageList
      { num_pages := file.length % PAGE_ID_MOD, free_pages := [], file := file, failbit := false }
  | none =>
    InitializeDatabase { num_pages := 0, free_pages := [], file := [], failbit := false }

/-- The destructor `DiskManager::~DiskManager`: the file it leaves behind. -/
def dtor (d : DiskManager) : List Page :=
  (SaveFreePageList d).file

end DiskManager

/-! ## lru_replacer.cpp -/

/-- The state of an `LRUReplacer`: the frame ids of the nodes between the two
sentinels, from `head_->next` to `tail_->prev`. `node_map_` has exactly these
frames as keys, so a lookup in it is a membership test on the list. -/
structure LRUReplacer where
  nodes : List Int
deriving DecidableEq

namespace LRUReplacer

/-- The constructor: an empty list between the sentinels. -/
def ctor (_num_frames : Nat) : LRUReplacer :=
  { nodes := [] }

/-- `LRUReplacer::Victim`: nothing when the list is empty, else the node before `tail_`
is unlinked and its frame returned. -/
def Victim (r : LRUReplacer) : Option Int × LRUReplacer :=
  match r.nodes.getLast? with
  | none => (none, r)
  | some frame_id => (some frame_id, { nodes := r.nodes.dropLast })

/-- `LRUReplacer::Pin`. -/
def Pin (r : LRUReplacer) (frame_id : Int) : LRUReplacer :=
  if frame_id ∈ r.nodes then { nodes := r.nodes.erase frame_id } else r

/-- `LRUReplacer::Unpin`. -/
def Unpin (r : LRUReplacer) (frame_id : Int) : LRUReplacer :=
  if frame_id ∈ r.nodes then { nodes := frame_id :: r.nodes.erase frame_id }
  else { nodes := frame_id :: r.nodes }

/-- `LRUReplacer::Size`. -/
def Size (r : LRUReplacer) : Nat :=
  r.nodes.length

end LRUReplacer

/-! ## buffer_pool_manager.cpp -/

/-- A one point update of a table, `table[key] = value`. -/
def setAt {β : Type} (table : Int → β) (key : Int) (value : β) : Int → β :=
  fun k => if k = key then value else table k

/-- The entry of `page_table_` for a page id: `page_table_.find(page_id)`. -/
def ptFind : List (Nat × Int) → Nat → Option Int
  | [], _ => none
  | (p, f) :: rest, page_id => if p = page_id then some f else ptFind rest page_id

/-- The table after `page_table_.erase(page_id)`. -/
def ptErase : List (Nat × Int) → Nat → List (Nat × Int)
  | [], _ => []
  | (p, f) :: rest, page_id =>
    if p = page_id then ptErase rest page_id else (p, f) :: ptErase rest page_id

/-- The table after `page_table_[page_id] = frame_id`. -/
def ptSet (table : List (Nat × Int)) (page_id : Nat) (frame_id : Int) : List (Nat × Int) :=
  (page_id, frame_id) :: ptErase table page_id

/-- The state of a `BufferPoolManager`, the page store it points to included. -/
structure BufferPoolManager where
  pool_size : Nat
  pages : Int → Page
  disk_manager : DiskManager
  replacer : LRUReplacer
  page_table : List (Nat × Int)
  frame_table : Int → Option Nat
  pin_count : Int → Int
  dirty : Int → Bool
  free_list : List Int
  hit_count : Nat
  miss_count : Nat

namespace BufferPoolManager

/-- The constructor: zeroed frames, an empty replacer, every frame in the free list. -/
def ctor (pool_size : Nat) (disk_manager : DiskManager) : BufferPoolManager :=
  { pool_size := pool_size
    pages := fun _ => Page.zero
    disk_manager := disk_manager
    replacer := LRUReplacer.ctor pool_size
    page_table := []
    frame_table := fun _ => none
    pin_count := fun _ => 0
    dirty := fun _ => false
    free_list := (List.range pool_size).map Int.ofNat
    hit_count := 0
    miss_count := 0 }

/-- `BufferPoolManager::GetVictimFrame`. -/
def GetVictimFrame (s : BufferPoolManager) : Int × BufferPoolManager :=
  match s.free_list.getLast? with
  | some frame_id => (frame_id, { s with free_list := s.free_list.dropLast })
  | none =>
    match s.replacer.Victim with
    | (some victim_frame, r) => (victim_frame, { s with replacer := r })
    | (none, _) => (INVALID_FRAME_ID, s)

/-- Lines 54-68 of `FetchPage`: when the frame holds a page, write it back if dirty
(checksum updated first) and erase its page table entry. A throwing `WritePage`
leaves before the erase. -/
def evictForFetch (s : BufferPoolManager) (frame_id : Int) :
    Option StoreError × BufferPoolManager :=
  match s.frame_table frame_id with
  | none => (none, s)
  | some old_page_id =>
    if s.dirty frame_id then
      let pg := (s.pages frame_id).UpdateChecksum
      let s1 := { s with pages := setAt s.pages frame_id pg }
      match s1.disk_manager.WritePage old_page_id pg with
      | (.error e, d) => (some e, { s1 with disk_manager := d })
      | (.ok _, d) =>
        (none, { s1 with disk_manager := d, page_table := ptErase s1.page_table old_page_id })
    else (none, { s with page_table := ptErase s.page_table old_page_id })

/-- Lines 160-170 of `NewPage`: as in `FetchPage`, but the page is written as it is. -/
def evictForNew (s : BufferPoolManager) (frame_id : Int) :
    Option StoreError × BufferPoolManager :=
  match s.frame_table frame_id with
  | none => (none, s)
  | some old_page_id =>
    if s.dirty frame_id then
      match s.disk_manager.WritePage old_page_id (s.pages frame_id) with
      | (.error e, d) => (some e, { s with disk_manager := d })
      | (.ok _, d) =>
        (none, { s with disk_manager := d, page_table := ptErase s.page_table old_page_id })
    else (none, { s with page_table := ptErase s.page_table old_page_id })

/-- `BufferPoolManager::FetchPage`. The result is the frame whose page is returned
(`&pages_[frame_id]`), `none` for `nullptr`. -/
def FetchPage (s : BufferPoolManager) (page_id : Nat) :
    Except StoreError (Option Int) × BufferPoolManager :=
  match ptFind s.page_table page_id with
  | some frame_id =>
    (.ok (some frame_id),
      { s with
        pin_count := setAt s.pin_count frame_id (s.pin_count frame_id + 1)
        replacer := s.replacer.Pin frame_id
        hit_count := s.hit_count + 1 })
  | none =>
    match GetVictimFrame { s with miss_count := s.miss_count + 1 } with
    | (frame_id, s1) =>
      if frame_id = INVALID_FRAME_ID then (.ok none, s1)
      else
        match evictForFetch s1 frame_id with
        | (some e, s2) => (.error e, s2)
        | (none, s2) =>
          match s2.disk_manager.ReadPage page_id with
          | (.error e, d) => (.error e, { s2 with disk_manager := d })
          | (.ok pg, d) =>
            (.ok (some frame_id),
              { s2 with
                disk_manager := d
                pages := setAt s2.pages frame_id pg.UpdateChecksum
                page_table := ptSet s2.page_table page_id frame_id
                frame_table := setAt s2.frame_table frame_id (some page_id)
                pin_count := setAt s2.pin_count frame_id 1
                dirty := setAt s2.dirty frame_id false
                replacer := s2.replacer.Pin frame_id })

/-- `BufferPoolManager::UnpinPage`. -/
def UnpinPage (s : BufferPoolManager) (page_id : Nat) (is_dirty : Bool) :
    Bool × BufferPoolManager :=
  match ptFind s.page_table page_id with
  | none => (false, s)
  | some frame_id =>
    if s.pin_count frame_id ≤ 0 then (false, s)
    else
      let s1 := { s with pin_count := setAt s.pin_count frame_id (s.pin_count frame_id - 1) }
      let s2 := if is_dirty then { s1 with dirty := setAt s1.dirty frame_id true } else s1
      if s2.pin_count frame_id = 0 then (true, { s2 with replacer := s2.replacer.Unpin frame_id })
      else (true, s2)

/-- `BufferPoolManager::FlushPage`. -/
def FlushPage (s : BufferPoolManager) (page_id : Nat) :
    Except StoreError Bool × BufferPoolManager :=
  match ptFind s.page_table page_id with
  | none => (.ok false, s)
  | some frame_id =>
    let pg := (s.pages frame_id).UpdateChecksum
    let s1 := { s with pages := setAt s.pages frame_id pg }
    match s1.disk_manager.WritePage page_id pg with
    | (.error e, d) => (.error e, { s1 with disk_manager := d })
    | (.ok _, d) => (.ok true, { s1 with disk_manager := d, dirty := setAt s1.dirty frame_id false })

/-- The loop of `FlushAllPages` over the entries that remain to be visited. -/
def flushEntries : List (Nat × Int) → BufferPoolManager → Option StoreError × BufferPoolManager
  | [], s => (none, s)
  | (page_id, frame_id) :: rest, s =>
    if s.dirty frame_id then
      let pg := (s.pages frame_id).UpdateChecksum
      let s1 := { s with pages := setAt s.pages frame_id pg }
      match s1.disk_manager.WritePage page_id pg with
      | (.error e, d) => (some e, { s1 with disk_manager := d })
      | (.ok _, d) =>
        flushEntries rest { s1 with disk_manager := d, dirty := setAt s1.dirty frame_id false }
    else flushEntries rest s

/-- `BufferPoolManager::FlushAllPages`. -/
def FlushAllPages (s : BufferPoolManager) : Option StoreError × BufferPoolManager :=
  flushEntries s.page_table s

/-- The page `NewPage` puts into the frame: reset, stamped, checksum updated. -/
def freshPage (old : Page) (page_id : Nat) : Page :=
  Page.UpdateChecksum
    { old.Reset with
      header := { old.Reset.header with page_id := page_id, page_type := PageType.DATA } }

/-- `BufferPoolManager::NewPage`. The result is the new page id and the frame whose
page is returned, `none` for `nullptr` (then `*page_id` is not written). -/
def NewPage (s : BufferPoolManager) :
    Except StoreError (Option (Nat × Int)) × BufferPoolManager :=
  match GetVictimFrame s with
  | (frame_id, s1) =>
    if frame_id = INVALID_FRAME_ID then (.ok none, s1)
    else
      match evictForNew s1 frame_id with
      | (some e, s2) => (.error e, s2)
      | (none, s2) =>
        match s2.disk_manager.AllocatePage with
        | (page_id, d) =>
          (.ok (some (page_id, frame_id)),
            { s2 with
              disk_manager := d
              pages := setAt s2.pages frame_id (freshPage (s2.pages frame_id) page_id)
              page_table := ptSet s2.page_table page_id frame_id
              frame_table := setAt s2.frame_table frame_id (some page_id)
              pin_count := setAt s2.pin_count frame_id 1
              dirty := setAt s2.dirty frame_id true
              replacer := s2.replacer.Pin frame_id })

/-- `BufferPoolManager::DeletePage`. -/
def DeletePage (s : BufferPoolManager) (page_id : Nat) :
    Except StoreError Bool × BufferPoolManager :=
  match ptFind s.page_table page_id with
  | none =>
    match s.disk_manager.DeallocatePage page_id with
    | (.error e, d) => (.error e, { s with disk_manager := d })
    | (.ok _, d) => (.ok true, { s with disk_manager := d })
  | some frame_id =>
    if s.pin_count frame_id > 0 then (.ok false, s)
    else
      let s1 :=
        { s with
          page_table := ptErase s.page_table page_id
          frame_table := setAt s.frame_table frame_id none
          dirty := setAt s.dirty frame_id false
          pin_count := setAt s.pin_count frame_id 0
          free_list := s.free_list ++ [frame_id] }
      match s1.disk_manager.DeallocatePage page_id with
      | (.error e, d) => (.error e, { s1 with disk_manager := d })
      | (.ok _, d) => (.ok true, { s1 with disk_manager := d })

/-- The destructor `~BufferPoolManager`: flush everything; the store is what remains. -/
def dtor (s : BufferPoolManager) : DiskManager :=
  (FlushAllPages s).2.disk_manager

/-- A client that holds a pin on a page overwrites its data area through the pointer
it was given (the tests do this with `strcpy` and `snprintf` on `GetData()`). Without
a pin on a resident page there is no pointer to write through. -/
def clientWrite (s : BufferPoolManager) (page_id : Nat) (data : List Nat) : BufferPoolManager :=
  match ptFind s.page_table page_id with
  | none => s
  | some frame_id =>
    if s.pin_count frame_id > 0 then
      { s with pages := setAt s.pages frame_id { s.pages frame_id with data := data } }
    else s

end BufferPoolManager

/-! ## Calls and runs -/

/-- One call on the buffer pool manager, or a client writing into a pinned page. -/
inductive Op where
  | fetch (page_id : Nat)
  | new_page
  | unpin (page_id : Nat) (is_dirty : Bool)
  | flush (page_id : Nat)
  | flush_all
  | delete (page_id : Nat)
  | write (page_id : Nat) (data : List Nat)
deriving DecidableEq

/-- What a call gave back: a page pointer (as a frame), a new page, a boolean, nothing,
or a store error that was raised. -/
inductive Outcome where
  | page (frame : Option Int)
  | created (r : Option (Nat × Int))
  | flag (b : Bool)
  | done
  | raised (e : StoreError)
deriving DecidableEq

/-- Whether the call raised a store error. -/
def Outcome.isRaised : Outcome → Bool
  | .raised _ => true
  | _ => false

/-- The outcome of a call that may throw. -/
def Outcome.ofExcept {α : Type} (f : α → Outcome) : Except StoreError α → Outcome
  | .ok a => f a
  | .error e => .raised e

/-- Run one call. -/
def exec (s : BufferPoolManager) : Op → Outcome × BufferPoolManager
  | .fetch page_id => ((Outcome.ofExcept .page (s.FetchPage page_id).1), (s.FetchPage page_id).2)
  | .new_page => ((Outcome.ofExcept .created s.NewPage.1), s.NewPage.2)
  | .unpin page_id is_dirty =>
    (.flag (s.UnpinPage page_id is_dirty).1, (s.UnpinPage page_id is_dirty).2)
  | .flush page_id => ((Outcome.ofExcept .flag (s.FlushPage page_id).1), (s.FlushPage page_id).2)
  | .flush_all =>
    ((match s.FlushAllPages.1 with | none => .done | some e => .raised e), s.FlushAllPages.2)
  | .delete page_id =>
    ((Outcome.ofExcept .flag (s.DeletePage page_id).1), (s.DeletePage page_id).2)
  | .write page_id data => (.done, s.clientWrite page_id data)

/-- Run a sequence of calls, first call first. -/
def run (s : BufferPoolManager) : List Op → BufferPoolManager
  | [] => s
  | op :: ops => run (exec s op).2 ops

/-- No call of the run raises a store error. -/
def noRaise (s : BufferPoolManager) : List Op → Bool
  | [] => true
  | op :: ops => !(exec s op).1.isRaised && noRaise (exec s op).2 ops

/-! ## The replacer's calls and the recency they define -/

/-- One call on the replacer. -/
inductive ReplacerCall where
  | pin (frame_id : Int)
  | unpin (frame_id : Int)
  | victim
deriving DecidableEq

/-- The bookkeeping the specification of the replacer speaks of: a clock that counts
the `unpin` calls, and for each frame the time of its most recent `unpin`, present
as long as the frame has not since been pinned or returned as a victim. -/
structure Recency where
  clock : Nat
  stamp : Int → Option Nat

/-- A frame is tracked: it has been unpinned and not since pinned or victimised. -/
def Recency.tracked (h : Recency) (frame_id : Int) : Prop :=
  h.stamp frame_id ≠ none

/-- A frame is the tracked frame whose most recent unpin is the oldest. -/
def Recency.oldest (h : Recency) (frame_id : Int) : Prop :=
  ∃ t, h.stamp frame_id = some t ∧ ∀ g u, h.stamp g = some u → t ≤ u

/-- Perform one call on the replacer and record it in the bookkeeping. -/
def replay (st : LRUReplacer × Recency) : ReplacerCall → LRUReplacer × Recency
  | .pin f => (st.1.Pin f, { st.2 with stamp := setAt st.2.stamp f none })
  | .unpin f => (st.1.Unpin f, { clock := st.2.clock + 1, stamp := setAt st.2.stamp f (some st.2.clock) })
  | .victim =>
    match st.1.Victim with
    | (some f, r) => (r, { st.2 with stamp := setAt st.2.stamp f none })
    | (none, r) => (r, st.2)

/-- Perform a sequence of calls, first call first, on a new replacer. -/
def replayAll (num_frames : Nat) (calls : List ReplacerCall) : LRUReplacer × Recency :=
  calls.foldl replay (LRUReplacer.ctor num_frames, { clock := 0, stamp := fun _ => none })

/-- The relation the replacer keeps with the bookkeeping: the list holds exactly the
tracked frames, once each, every stamp is in the past, and the list is ordered from
the most recent unpin to the oldest. -/
def lruInv (st : LRUReplacer × Recency) : Prop :=
  st.1.nodes.Nodup ∧
  (∀ f, f ∈ st.1.nodes ↔ st.2.stamp f ≠ none) ∧
  (∀ f t, st.2.stamp f = some t → t < st.2.clock) ∧
  st.1.nodes.Pairwise (fun a b => ∀ ta tb, st.2.stamp a = some ta → st.2.stamp b = some tb → tb < ta)

/-! ## The bookkeeping of the pool and the moves a call can make on it -/

/-- The bookkeeping part of the pool state: everything but the frame contents, the
dirty bits, the store and the counters. -/
structure Ctl where
  pool_size : Nat
  replacer : LRUReplacer
  page_table : List (Nat × Int)
  frame_table : Int → Option Nat
  pin_count : Int → Int
  free_list : List Int

/-- The bookkeeping of a pool state. -/
def BufferPoolManager.ctl (s : BufferPoolManager) : Ctl :=
  { pool_size := s.pool_size
    replacer := s.replacer
    page_table := s.page_table
    frame_table := s.frame_table
    pin_count := s.pin_count
    free_list := s.free_list }

/-- What `GetVictimFrame` does when it hands out frame `f`: `f` leaves the end of the free
list, or the free list is empty and `f` leaves the end of the replacer's list. -/
def Ctl.took (c : Ctl) (f : Int) (fl : List Int) (r0 : LRUReplacer) : Prop :=
  (c.free_list = fl ++ [f] ∧ r0 = c.replacer) ∨
  (c.free_list = [] ∧ fl = [] ∧ c.replacer.nodes = r0.nodes ++ [f])

/-- The page table after the page that frame `f` holds, if any, is erased from it. -/
def Ctl.erased (c : Ctl) (f : Int) : List (Nat × Int) :=
  match c.frame_table f with
  | none => c.page_table
  | some old_page_id => ptErase c.page_table old_page_id

/-- The kinds of moves a call makes on the bookkeeping. -/
inductive MoveKind where
  | same
  | hit
  | lose
  | load
  | unpin
  | delete
deriving DecidableEq

/-- The moves a call makes on the bookkeeping: nothing; a fetch hit; a frame taken by a
call that then raised; a frame taken and a page installed in it; an unpin; a delete of
a resident page. -/
inductive Move (c t : Ctl) : MoveKind → Prop where
  | same (h : t = c) : Move c t .same
  | hit (p : Nat) (f : Int) (hp : ptFind c.page_table p = some f)
      (h : t = { c with
        pin_count := setAt c.pin_count f (c.pin_count f + 1)
        replacer := c.replacer.Pin f }) : Move c t .hit
  | lose (f : Int) (fl : List Int) (r0 : LRUReplacer) (pt1 : List (Nat × Int))
      (ht : c.took f fl r0)
      (hpt : pt1 = c.page_table ∨ pt1 = c.erased f)
      (h : t = { c with free_list := fl, replacer := r0, page_table := pt1 }) : Move c t .lose
  | load (p : Nat) (f : Int) (fl : List Int) (r0 : LRUReplacer)
      (ht : c.took f fl r0)
      (h : t = { c with
        free_list := fl
        replacer := r0.Pin f
        page_table := ptSet (c.erased f) p f
        frame_table := setAt c.frame_table f (some p)
        pin_count := setAt c.pin_count f 1 }) : Move c t .load
  | unpin (p : Nat) (f : Int) (hp : ptFind c.page_table p = some f) (hpin : 0 < c.pin_count f)
      (h : t = { c with
        pin_count := setAt c.pin_count f (c.pin_count f - 1)
        replacer := if c.pin_count f - 1 = 0 then c.replacer.Unpin f else c.replacer }) :
      Move c t .unpin
  | delete (p : Nat) (f : Int) (hp : ptFind c.page_table p = some f) (hpin : c.pin_count f ≤ 0)
      (h : t = { c with
        page_table := ptErase c.page_table p
        frame_table := setAt c.frame_table f none
        pin_count := setAt c.pin_count f 0
        free_list := c.free_list ++ [f] }) : Move c t .delete

/-- The move of a call, with what is known of it: a frame is lost only by a call that
raised (or when the invalid frame id itself was handed out), and only a delete makes the
delete move. -/
def MoveOf (s t : BufferPoolManager) (raised isDelete : Bool) : Prop :=
  ∃ k, Move s.ctl t.ctl k ∧
    (k = .lose → raised = true ∨ INVALID_FRAME_ID ∈ s.free_list ∨
      INVALID_FRAME_ID ∈ s.replacer.nodes) ∧
    (k = .delete → isDelete = true)

/-- Whether a call is a delete. -/
def Op.isDelete : Op → Bool
  | .delete _ => true
  | _ => false

/-- No call of the sequence is a delete. -/
def noDelete (ops : List Op) : Bool :=
  ops.all (fun op => !op.isDelete)

/-- The invariant of the bookkeeping that every call keeps, whatever it returns or
raises: pin counts are not negative; the frames in the replacer and in the free list
have pin count zero; neither list holds a frame twice; a frame of the free list holds
no page and no page table entry points to it; the frame a page table entry points to
holds that page according to the frame table; and all frames named anywhere are
frames of the pool, also those the frame table gives a page; and every entry of the
page table is the one found for its key. -/
structure poolInv (c : Ctl) : Prop where
  pin_nonneg : ∀ f, 0 ≤ c.pin_count f
  replacer_unpinned : ∀ f ∈ c.replacer.nodes, c.pin_count f = 0
  free_unpinned : ∀ f ∈ c.free_list, c.pin_count f = 0
  free_nodup : c.free_list.Nodup
  replacer_nodup : c.replacer.nodes.Nodup
  free_empty : ∀ f ∈ c.free_list, c.frame_table f = none
  resident_not_free : ∀ p f, ptFind c.page_table p = some f → f ∉ c.free_list
  tables_agree : ∀ p f, ptFind c.page_table p = some f → c.frame_table f = some p
  free_range : ∀ f ∈ c.free_list, 0 ≤ f ∧ f < c.pool_size
  replacer_range : ∀ f ∈ c.replacer.nodes, 0 ≤ f ∧ f < c.pool_size
  resident_range : ∀ p f, ptFind c.page_table p = some f → 0 ≤ f ∧ f < c.pool_size
  entries_found : ∀ e ∈ c.page_table, ptFind c.page_table e.1 = some e.2
  holder_range : ∀ f, c.frame_table f ≠ none → 0 ≤ f ∧ f < c.pool_size

/-- A pool state is reachable: it is what some sequence of calls (whatever they return
or raise) and client writes leaves of a newly constructed pool over some page store. -/
def Reachable (s : BufferPoolManager) : Prop :=
  ∃ pool_size d ops, s = run (BufferPoolManager.ctor pool_size d) ops

/-- What holds of the bookkeeping as long as no call has raised a store error: a frame
the replacer tracks holds a page or is (after a delete) in the free list; a frame that
holds a page and has pin count zero is tracked by the replacer; and every frame of the
pool is in the free list or holds a page. -/
structure okInv (c : Ctl) : Prop where
  tracked_holds : ∀ f ∈ c.replacer.nodes, c.frame_table f ≠ none ∨ f ∈ c.free_list
  idle_tracked : ∀ f, c.frame_table f ≠ none → c.pin_count f = 0 → f ∈ c.replacer.nodes
  covered : ∀ f : Int, 0 ≤ f → f < c.pool_size → f ∈ c.free_list ∨ c.frame_table f ≠ none

/-- What holds of the bookkeeping as long as no page has been deleted: every frame the
replacer tracks holds a page. -/
def holdInv (c : Ctl) : Prop :=
  ∀ f ∈ c.replacer.nodes, c.frame_table f ≠ none

/-- Frame `f` holds a page and is pinned. -/
def BufferPoolManager.pinnedFrame (s : BufferPoolManager) (f : Int) : Prop :=
  s.frame_table f ≠ none ∧ 0 < s.pin_count f

/-- Exactly one of three propositions holds. -/
def exactlyOne (a b c : Prop) : Prop :=
  (a ∧ ¬ b ∧ ¬ c) ∨ (¬ a ∧ b ∧ ¬ c) ∨ (¬ a ∧ ¬ b ∧ c)

/-- The state of a new pool after some new_page calls without unpin: the free list is
an initial segment of the frames and the replacer is empty. -/
def freshRun (s : BufferPoolManager) (m : Nat) : Prop :=
  poolInv s.ctl ∧ s.free_list = (List.range m).map Int.ofNat ∧ s.replacer.nodes = []

/-! ## The client's view: an unbounded map from page id to data area -/

/-- One step of a client that keeps to the protocol and deletes nothing: a call, or a
write into a pinned page followed at once by `unpin(page_id, true)`. -/
inductive ClientOp where
  | fetch (page_id : Nat)
  | new_page
  | modify_unpin (page_id : Nat) (data : List Nat)
  | unpin (page_id : Nat) (is_dirty : Bool)
  | flush (page_id : Nat)
  | flush_all
deriving DecidableEq

/-- Run one client step. -/
def cexec (s : BufferPoolManager) : ClientOp → Outcome × BufferPoolManager
  | .fetch page_id => exec s (.fetch page_id)
  | .new_page => exec s .new_page
  | .modify_unpin page_id data => exec (exec s (.write page_id data)).2 (.unpin page_id true)
  | .unpin page_id is_dirty => exec s (.unpin page_id is_dirty)
  | .flush page_id => exec s (.flush page_id)
  | .flush_all => exec s .flush_all

/-- Run a sequence of client steps, first step first. -/
def crun (s : BufferPoolManager) : List ClientOp → BufferPoolManager
  | [] => s
  | c :: rest => crun (cexec s c).2 rest

/-- No client step of the run raises a store error. -/
def cnoRaise (s : BufferPoolManager) : List ClientOp → Bool
  | [] => true
  | c :: rest => !(cexec s c).1.isRaised && cnoRaise (cexec s c).2 rest

/-- The reference model the claim speaks of: pages kept in an unbounded map from page
id to data area. -/
def PageMap : Type := Nat → List Nat

/-- The map with the data area of one page replaced. -/
def PageMap.set (m : PageMap) (page_id : Nat) (data : List Nat) : PageMap :=
  fun p => if p = page_id then data else m p

/-- The reference model's reaction to a client step and its outcome: a page that was
created starts zeroed, a page that was modified (the unpin succeeded, so the client
held a pin) has the data the client left; nothing else changes the map. -/
def PageMap.step (m : PageMap) : ClientOp → Outcome → PageMap
  | .new_page, .created (some (page_id, _)) => m.set page_id (List.replicate PAGE_DATA_SIZE 0)
  | .modify_unpin page_id data, .flag true => m.set page_id data
  | _, _ => m

/-- The map a page store stands for before any page is cached: the data areas in the
file (a slot past the end of the file has never been written and reads as zeros). -/
def PageMap.ofStore (d : DiskManager) : PageMap :=
  fun p => (fileSlot d.file p).data

/-- A successful fetch step returns a frame whose data area is what the map holds. -/
def fetchAgrees (s : BufferPoolManager) (m : PageMap) (c : ClientOp) : Prop :=
  ∀ page_id f, c = .fetch page_id → (cexec s c).1 = .page (some f) →
    ((cexec s c).2.pages f).data = m page_id

/-- Every successful fetch of the run agrees with the reference model, up to the first
step that raises a store error (nothing is said of what follows one). -/
def agrees (s : BufferPoolManager) (m : PageMap) : List ClientOp → Prop
  | [] => True
  | c :: rest =>
    (cexec s c).1.isRaised = false →
      fetchAgrees s m c ∧ agrees (cexec s c).2 (m.step c (cexec s c).1) rest

/-- The relation between a pool state and the reference map: page table and frame table
name each other; resident pages are below `num_pages_` and the store has nothing to
recycle; the frame of a resident page holds the data of the map, and so does the file
when the frame is clean or the page is not resident. -/
structure dataInv (s : BufferPoolManager) (m : PageMap) : Prop where
  frames_agree : ∀ f p, s.frame_table f = some p → ptFind s.page_table p = some f
  tables_agree : ∀ p f, ptFind s.page_table p = some f → s.frame_table f = some p
  resident_lt : ∀ p f, ptFind s.page_table p = some f → p < s.disk_manager.num_pages
  no_recycled : s.disk_manager.free_pages = []
  resident_data : ∀ p f, ptFind s.page_table p = some f → (s.pages f).data = m p
  clean_on_disk : ∀ p f, ptFind s.page_table p = some f → s.dirty f = false →
    (fileSlot s.disk_manager.file p).data = m p
  absent_on_disk : ∀ p, ptFind s.page_table p = none →
    (fileSlot s.disk_manager.file p).data = m p

/-- The same relation in the middle of a fetch miss or a new_page, when frame `f` has
been taken and the page it held has been evicted: no page table entry points to `f`,
and the frame table entry of `f` is stale. -/
structure midInv (s : BufferPoolManager) (m : PageMap) (f : Int) : Prop where
  frames_agree : ∀ g p, g ≠ f → s.frame_table g = some p → ptFind s.page_table p = some g
  tables_agree : ∀ p g, ptFind s.page_table p = some g → s.frame_table g = some p
  no_entry : ∀ p, ptFind s.page_table p ≠ some f
  resident_lt : ∀ p g, ptFind s.page_table p = some g → p < s.disk_manager.num_pages
  no_recycled : s.disk_manager.free_pages = []
  resident_data : ∀ p g, ptFind s.page_table p = some g → (s.pages g).data = m p
  clean_on_disk : ∀ p g, ptFind s.page_table p = some g → s.dirty g = false →
    (fileSlot s.disk_manager.file p).data = m p
  absent_on_disk : ∀ p, ptFind s.page_table p = none →
    (fileSlot s.disk_manager.file p).data = m p

/-- Two pool states have the same tables, frames, dirty bits and store (they may differ
in the free list, the replacer, the pin counts and the counters). -/
def sameData (t s : BufferPoolManager) : Prop :=
  t.page_table = s.page_table ∧ t.frame_table = s.frame_table ∧ t.pages = s.pages ∧
  t.disk_manager = s.disk_manager ∧ t.dirty = s.dirty

/-- A data area of `PAGE_DATA_SIZE` bytes whose first byte is `b` and whose other bytes
are zero. -/
def sampleData (b : Nat) : List Nat :=
  b :: List.replicate (PAGE_DATA_SIZE - 1) 0

/-- Two pages are the same but for the checksum field of the header. -/
def sameExceptChecksum (a b : Page) : Prop :=
  a.data = b.data ∧ { a.header with checksum := 0 } = { b.header with checksum := 0 }

/-- The scenario of the eviction test: ten pages are created, each written with its own
data and unpinned dirty. -/
def evictionScenario : List ClientOp :=
  (List.range 10).flatMap (fun i => [.new_page, .modify_unpin (i + 2) (sampleData (i + 1))])

/-- The first `k` pages of the scenario fetched again and unpinned clean. -/
def refetched (k : Nat) : List ClientOp :=
  (List.range k).flatMap (fun i => [.fetch (i + 2), .unpin (i + 2) false])

/-- The state of a pool of one frame over a new store after page 2 has been created,
written with sample data and unpinned dirty: the header checksum in the frame is still
the one new_page computed for the zeroed page. -/
def staleChecksumState : BufferPoolManager :=
  crun (BufferPoolManager.ctor 1 (DiskManager.ctor none))
    [.new_page, .modify_unpin 2 (sampleData 7)]

/-- A first session on a new store with a pool of ten frames: delete(1), then new_page
(which returns page id 1), the page written with sample data, unpinned dirty and
published with flush_all. -/
def recycledFreeListSession : BufferPoolManager :=
  run (BufferPoolManager.ctor 10 (DiskManager.ctor none))
    [.delete 1, .new_page, .write 1 (sampleData 7), .unpin 1 true, .flush_all]

/-- The second session: the pool and then the store of the first session are destroyed,
and the file they leave is opened again with a new store and a new pool. -/
def recycledFreeListReopened : BufferPoolManager :=
  BufferPoolManager.ctor 10
    (DiskManager.ctor (some (DiskManager.dtor (BufferPoolManager.dtor recycledFreeListSession))))

/-- The state of a pool of one frame over a new store after page 2 has been created,
unpinned and deleted, and a fetch of page 100 has raised the out-of-range error of the
store: the frame has left the free list and is still in the replacer. -/
def staleEntryState : BufferPoolManager :=
  run (BufferPoolManager.ctor 1 (DiskManager.ctor none))
    [.new_page, .unpin 2 false, .delete 2, .fetch 100]

/-! ## Page ids the store holds as free -/

/-- Whether a call names a page id that the store holds as free at the time of the
call: a fetch or a delete of an id in `free_pages_`. -/
def Op.usesFreed (d : DiskManager) : Op → Bool
  | .fetch page_id => decide (page_id ∈ d.free_pages)
  | .delete page_id => decide (page_id ∈ d.free_pages)
  | _ => false

/-- No call of the run fetches or deletes a page id that the store holds as free when
the call is made. -/
def noUseAfterFree (s : BufferPoolManager) : List Op → Bool
  | [] => true
  | op :: ops => !(op.usesFreed s.disk_manager) && noUseAfterFree (exec s op).2 ops

/-- The relation between the two tables of the pool and the page ids of the store: the
frame table and the page table name each other; resident and free page ids are below
`num_pages_`; no free page id is resident; and no page id is free twice. -/
structure tableInv (s : BufferPoolManager) : Prop where
  holders_listed : ∀ f p, s.frame_table f = some p → ptFind s.page_table p = some f
  tables_agree : ∀ p f, ptFind s.page_table p = some f → s.frame_table f = some p
  resident_lt : ∀ p f, ptFind s.page_table p = some f → p < s.disk_manager.num_pages
  freed_lt : ∀ p ∈ s.disk_manager.free_pages, p < s.disk_manager.num_pages
  freed_absent : ∀ p ∈ s.disk_manager.free_pages, ptFind s.page_table p = none
  freed_nodup : s.disk_manager.free_pages.Nodup

/-! ## Calls on the page store -/

/-- One call on the page store. -/
inductive StoreOp where
  | read (page_id : Nat)
  | write (page_id : Nat) (page : Page)
  | allocate
  | deallocate (page_id : Nat)
deriving DecidableEq

/-- The store after one call, whatever the call returned or raised. -/
def sexec (d : DiskManager) : StoreOp → DiskManager
  | .read page_id => (d.ReadPage page_id).2
  | .write page_id page => (d.WritePage page_id page).2
  | .allocate => d.AllocatePage.2
  | .deallocate page_id => (d.DeallocatePage page_id).2

/-- The store after a sequence of calls, first call first. -/
def srun (d : DiskManager) : List StoreOp → DiskManager
  | [] => d
  | op :: ops => srun (sexec d op) ops

/-- A call stays within the range of page ids: a write does not name the last value of
`page_id_t`, an allocate finds `num_pages_` below it, and a deallocate does not name
page 1, the page the store keeps its free list in. -/
def StoreOp.inRange (d : DiskManager) : StoreOp → Bool
  | .read _ => true
  | .write page_id _ => decide (page_id < INVALID_PAGE_ID)
  | .allocate => decide (d.num_pages < INVALID_PAGE_ID)
  | .deallocate page_id => decide (page_id ≠ 1)

/-- Every call of the run stays within the range of page ids. -/
def allInRange (d : DiskManager) : List StoreOp → Bool
  | [] => true
  | op :: ops => op.inRange d && allInRange (sexec d op) ops

/-- A store whose reserved pages are in place: `num_pages_` counts pages 0 and 1 and
fits its type, and the free page ids are neither reserved nor the invalid id. -/
structure storeOk (d : DiskManager) : Prop where
  reserved : 2 ≤ d.num_pages
  fits : d.num_pages < PAGE_ID_MOD
  freed : ∀ q ∈ d.free_pages, 2 ≤ q ∧ q < INVALID_PAGE_ID

/-! ## States with a stale checksum -/

/-- The state of a pool of one frame over a new store after page 2 has been created,
written with sample data and unpinned dirty, page 3 has been created in the same frame
(page 2 was written back on the way) and unpinned. -/
def mismatchedSlotState : BufferPoolManager :=
  run (BufferPoolManager.ctor 1 (DiskManager.ctor none))
    [.new_page, .write 2 (sampleData 7), .unpin 2 true, .new_page, .unpin 3 false]

/-! ## Counting calls of a run -/

/-- Whether a call is a fetch. -/
def Op.isFetch : Op → Bool
  | .fetch _ => true
  | _ => false

/-- The number of fetch calls in a sequence. -/
def fetchCount : List Op → Nat
  | [] => 0
  | op :: ops => (if op.isFetch then 1 else 0) + fetchCount ops

/-- The number of new_page calls in a sequence. -/
def newPageCalls : List Op → Nat
  | [] => 0
  | .new_page :: ops => newPageCalls ops + 1
  | _ :: ops => newPageCalls ops

/-- The page ids that the successful new_page calls of a run returned, in order. -/
def createdIds (s : BufferPoolManager) : List Op → List Nat
  | [] => []
  | op :: ops =>
    match (exec s op).1 with
    | .created (some (page_id, _)) => page_id :: createdIds (exec s op).2 ops
    | _ => createdIds (exec s op).2 ops

/-- A call that creates or publishes pages: new_page, unpin, a client write, flush or
flush_all (no fetch, no delete). -/
def Op.isSetup : Op → Bool
  | .fetch _ => false
  | .delete _ => false
  | _ => true

/-- A call that only accesses the pages `ids`: a fetch of one of them, an unpin, a
client write, flush or flush_all (no new_page, no delete). -/
def Op.accesses (ids : List Nat) : Op → Bool
  | .fetch page_id => decide (page_id ∈ ids)
  | .new_page => false
  | .delete _ => false
  | _ => true

/-- The access pattern of the hit rate test: `r` rounds, each fetching and unpinning
every page of `ids` in turn. -/
def accessRounds (ids : List Nat) : Nat → List Op
  | 0 => []
  | r + 1 => ids.flatMap (fun p => [.fetch p, .unpin p false]) ++ accessRounds ids r

/-- The hit rate test up to its accesses: on a pool of ten frames over a new store five
pages are created, each written by the client and unpinned dirty. -/
def hitRateSetup : List Op :=
  (List.range 5).flatMap (fun i => [.new_page, .write (i + 2) (sampleData i), .unpin (i + 2) true])

/-! ## Page ids while nothing is deleted -/

/-- What holds of the page ids as long as no page has been deleted: the store has
nothing to recycle, and every page id in the frame table is below `num_pages_`. -/
structure idsInv (s : BufferPoolManager) : Prop where
  nothing_free : s.disk_manager.free_pages = []
  holders_lt : ∀ f p, s.frame_table f = some p → p < s.disk_manager.num_pages

/-! ## What the calls of a run gave back -/

/-- The outcomes of the calls of a run, first call first. -/
def outcomes (s : BufferPoolManager) : List Op → List Outcome
  | [] => []
  | op :: ops => (exec s op).1 :: outcomes (exec s op).2 ops

/-- A pool that has no frame to hand out and no page resident: the free list, the
replacer and the page table are empty. -/
def outOfFrames (s : BufferPoolManager) : Prop :=
  s.free_list = [] ∧ s.replacer.nodes = [] ∧ s.page_table = []

/-! ## The checksum in the words of the specification -/

/-- The checksum as the specification words it: the XOR of the `PAGE_DATA_SIZE / 4`
32-bit words of the data area, word `i` being the four bytes at offset `4 * i`. -/
def xorOfDataWords (data : List Nat) : Nat :=
  (List.range (PAGE_DATA_SIZE / 4)).foldl (fun sum i => sum ^^^ word32 (data.drop (4 * i))) 0

/-! ## The page store under disciplined use -/

/-- One step of a client of the page store that keeps track of the page ids it holds:
allocate, write, deallocate, or close the store and open it again on the same file. -/
inductive DiscOp where
  | allocate
  | write (page_id : Nat) (page : Page)
  | deallocate (page_id : Nat)
  | reopen
deriving DecidableEq

/-- One step on the store and on the list of page ids that are currently allocated
(returned by an allocate and not deallocated since). Closing runs the destructor, and
opening runs the constructor on the file the destructor left. -/
def dstep (st : DiskManager × List Nat) : DiscOp → DiskManager × List Nat
  | .allocate => (st.1.AllocatePage.2, st.1.AllocatePage.1 :: st.2)
  | .write page_id page => ((st.1.WritePage page_id page).2, st.2)
  | .deallocate page_id => ((st.1.DeallocatePage page_id).2, st.2.erase page_id)
  | .reopen => (DiskManager.ctor (some st.1.dtor), st.2)

/-- A sequence of steps, first step first. -/
def drun (st : DiskManager × List Nat) : List DiscOp → DiskManager × List Nat
  | [] => st
  | op :: ops => drun (dstep st op) ops

/-- The discipline: only page ids that are currently allocated are written or
deallocated. -/
def DiscOp.disciplined (st : DiskManager × List Nat) : DiscOp → Bool
  | .write page_id _ => decide (page_id ∈ st.2)
  | .deallocate page_id => decide (page_id ∈ st.2)
  | _ => true

/-- Every step of the run keeps the discipline. -/
def allDisciplined (st : DiskManager × List Nat) : List DiscOp → Bool
  | [] => true
  | op :: ops => op.disciplined st && allDisciplined (dstep st op) ops

/-- What a step needs beyond the discipline for the page ids to survive: an allocate
finds `num_pages_` below the last value of its type, and the store is closed only when
the file holds all `num_pages_` pages and the free list fits into its page. -/
def DiscOp.persisted (st : DiskManager × List Nat) : DiscOp → Bool
  | .allocate => decide (st.1.num_pages + 1 < PAGE_ID_MOD)
  | .reopen => decide (st.1.file.length = st.1.num_pages) && decide (st.1.free_pages.length ≤ 2016)
  | _ => true

/-- Every step of the run is persisted. -/
def allPersisted (st : DiskManager × List Nat) : List DiscOp → Bool
  | [] => true
  | op :: ops => op.persisted st && allPersisted (dstep st op) ops

/-- The relation between the store and the page ids currently allocated: the two
reserved pages are counted, the stream has not failed, no page id is free twice or
allocated twice, and free and allocated page ids are disjoint, at least 2 and below
`num_pages_`. -/
structure liveInv (st : DiskManager × List Nat) : Prop where
  reserved : 2 ≤ st.1.num_pages
  fits : st.1.num_pages < PAGE_ID_MOD
  healthy : st.1.failbit = false
  freed_nodup : st.1.free_pages.Nodup
  live_nodup : st.2.Nodup
  freed : ∀ q ∈ st.1.free_pages, 2 ≤ q ∧ q < st.1.num_pages ∧ q ∉ st.2
  live : ∀ q ∈ st.2, 2 ≤ q ∧ q < st.1.num_pages

/-! # Theorems -/

open BufferPoolManager

/-! ## The replacer follows the recency order -/

theorem setAt_same {β : Type} (t : Int → β) (k : Int) (v : β) : setAt t k v k = v := by
  simp [setAt]

theorem setAt_other {β : Type} (t : Int → β) (k j : Int) (v : β) (h : j ≠ k) :
    setAt t k v j = t j := by
  simp [setAt, h]

theorem lruInv_init (n : Nat) :
    lruInv (LRUReplacer.ctor n, { clock := 0, stamp := fun _ => none }) := by
  simp [lruInv, LRUReplacer.ctor]

theorem lruInv_drop (r : LRUReplacer) (h : Recency) (f : Int) (hi : lruInv (r, h)) :
    lruInv ({ nodes := r.nodes.erase f }, { h with stamp := setAt h.stamp f none }) := by
  obtain ⟨hnd, hmem, hclk, hord⟩ := hi
  refine ⟨hnd.erase f, ?_, ?_, ?_⟩
  · intro g
    by_cases hg : g = f
    · subst hg
      simp [setAt_same, hnd.mem_erase_iff]
    · simp [setAt_other _ _ _ _ hg, List.mem_erase_of_ne hg, hmem g]
  · intro g t hgt
    by_cases hg : g = f
    · subst hg
      simp [setAt_same] at hgt
    · simp only [setAt_other _ _ _ _ hg] at hgt
      exact hclk g t hgt
  · have hsub := hord.sublist (List.erase_sublist f r.nodes)
    refine hsub.imp_of_mem ?_
    intro a b ha hb hab ta tb hta htb
    have hane : a ≠ f := ((hnd.mem_erase_iff).1 ha).1
    have hbne : b ≠ f := ((hnd.mem_erase_iff).1 hb).1
    simp only [setAt_other _ _ _ _ hane] at hta
    simp only [setAt_other _ _ _ _ hbne] at htb
    exact hab ta tb hta htb

theorem lruInv_pin (r : LRUReplacer) (h : Recency) (f : Int) (hi : lruInv (r, h)) :
    lruInv (r.Pin f, { h with stamp := setAt h.stamp f none }) := by
  unfold LRUReplacer.Pin
  split
  · exact lruInv_drop r h f hi
  · rename_i hf
    have := lruInv_drop r h f hi
    rwa [List.erase_of_not_mem hf] at this

theorem lruInv_unpin (r : LRUReplacer) (h : Recency) (f : Int) (hi : lruInv (r, h)) :
    lruInv (r.Unpin f, { clock := h.clock + 1, stamp := setAt h.stamp f (some h.clock) }) := by
  have hd := lruInv_drop r h f hi
  obtain ⟨hnd, hmem, hclk, hord⟩ := hd
  have key : lruInv ({ nodes := f :: r.nodes.erase f },
      { clock := h.clock + 1, stamp := setAt h.stamp f (some h.clock) }) := by
    refine ⟨?_, ?_, ?_, ?_⟩
    · refine List.nodup_cons.2 ⟨?_, hnd⟩
      intro hf
      exact absurd ((hi.1.mem_erase_iff).1 hf).1 (by simp)
    · intro g
      by_cases hg : g = f
      · subst hg
        simp [setAt_same]
      · have := hmem g
        simp only [setAt_other _ _ _ _ hg] at this ⊢
        simp [hg, this]
    · intro g t hgt
      by_cases hg : g = f
      · subst hg
        simp only [setAt_same, Option.some.injEq] at hgt
        dsimp only
        omega
      · simp only [setAt_other _ _ _ _ hg] at hgt
        have := hi.2.2.1 g t hgt
        dsimp only at this ⊢
        omega
    · refine List.pairwise_cons.2 ⟨?_, ?_⟩
      · intro b hb ta tb hta htb
        have hbne : b ≠ f := ((hi.1.mem_erase_iff).1 hb).1
        simp only [setAt_same, Option.some.injEq] at hta
        simp only [setAt_other _ _ _ _ hbne] at htb
        have := hi.2.2.1 b tb htb
        dsimp only at this
        omega
      · refine hord.imp_of_mem ?_
        intro a b ha hb hab ta tb hta htb
        have hane : a ≠ f := ((hi.1.mem_erase_iff).1 ha).1
        have hbne : b ≠ f := ((hi.1.mem_erase_iff).1 hb).1
        simp only [setAt_other _ _ _ _ hane] at hta hab
        simp only [setAt_other _ _ _ _ hbne] at htb hab
        exact hab ta tb hta htb
  unfold LRUReplacer.Unpin
  split
  · exact key
  · rename_i hf
    rwa [List.erase_of_not_mem hf] at key

theorem victim_none_iff (r : LRUReplacer) : r.Victim.1 = none ↔ r.nodes = [] := by
  unfold LRUReplacer.Victim
  cases hl : r.nodes.getLast? with
  | none => simpa using List.getLast?_eq_none_iff.1 hl
  | some f =>
    obtain ⟨ys, hys⟩ := List.getLast?_eq_some_iff.1 hl
    simp [hys]

theorem victim_none_same (r : LRUReplacer) (h : r.Victim.1 = none) : r.Victim.2 = r := by
  unfold LRUReplacer.Victim at h ⊢
  cases hl : r.nodes.getLast? with
  | none => simp
  | some f => simp [hl] at h

theorem victim_some (r : LRUReplacer) (f : Int) (h : r.Victim.1 = some f) :
    ∃ ys, r.nodes = ys ++ [f] ∧ r.Victim.2 = { nodes := ys } := by
  unfold LRUReplacer.Victim at h ⊢
  cases hl : r.nodes.getLast? with
  | none => simp [hl] at h
  | some g =>
    simp only [hl, Option.some.injEq] at h
    subst h
    obtain ⟨ys, hys⟩ := List.getLast?_eq_some_iff.1 hl
    exact ⟨ys, hys, by simp [hys]⟩

theorem lruInv_oldest (r : LRUReplacer) (h : Recency) (f : Int) (ys : List Int)
    (hi : lruInv (r, h)) (hys : r.nodes = ys ++ [f]) :
    h.oldest f ∧ f ∉ ys ∧ ys = r.nodes.erase f := by
  obtain ⟨hnd, hmem, _, hord⟩ := hi
  simp only at hnd hmem hord
  rw [hys] at hnd hord
  have hfys : f ∉ ys := by
    intro hf
    exact (List.nodup_append.1 hnd).2.2 hf (by simp)
  have htr : h.stamp f ≠ none := (hmem f).1 (by simp [hys])
  obtain ⟨t, ht⟩ := Option.ne_none_iff_exists'.1 htr
  refine ⟨⟨t, ht, ?_⟩, hfys, ?_⟩
  · intro g u hgu
    by_cases hg : g = f
    · subst hg
      rw [ht] at hgu
      simp only [Option.some.injEq] at hgu
      omega
    · have hgn : g ∈ r.nodes := (hmem g).2 (by simp [hgu])
      rw [hys] at hgn
      have hgy : g ∈ ys := by
        rcases List.mem_append.1 hgn with h1 | h1
        · exact h1
        · simp at h1
          exact absurd h1 hg
      have := (List.pairwise_append.1 hord).2.2 g hgy f (by simp) u t hgu ht
      omega
  · rw [hys, List.erase_append_right _ hfys]
    simp

theorem lruInv_replay (st : LRUReplacer × Recency) (c : ReplacerCall) (hi : lruInv st) :
    lruInv (replay st c) := by
  obtain ⟨r, h⟩ := st
  cases c with
  | pin f => exact lruInv_pin r h f hi
  | unpin f => exact lruInv_unpin r h f hi
  | victim =>
    simp only [replay]
    cases hv : r.Victim with
    | mk o r1 =>
      cases o with
      | none =>
        have := victim_none_same r (by rw [hv])
        rw [hv] at this
        simp only at this
        subst this
        exact hi
      | some f =>
        obtain ⟨ys, hys, hr⟩ := victim_some r f (by rw [hv])
        rw [hv] at hr
        simp only at hr
        subst hr
        have := lruInv_drop r h f hi
        rwa [← (lruInv_oldest r h f ys hi hys).2.2] at this

theorem lruInv_foldl (calls : List ReplacerCall) (st : LRUReplacer × Recency) (hi : lruInv st) :
    lruInv (calls.foldl replay st) := by
  induction calls generalizing st with
  | nil => exact hi
  | cons c cs ih => exact ih _ (lruInv_replay st c hi)

/-- C7: after every sequence of pin, unpin and victim calls on a new replacer, the
replacer holds exactly the tracked frames, victim returns none (changing nothing)
exactly when no frame is tracked, otherwise it returns the tracked frame whose most
recent unpin is the oldest and removes exactly that frame; a pin of an untracked frame
changes nothing; and after unpin a, unpin b, unpin a on a new replacer the victims are
b, then a, then none. -/
theorem lru_victim_is_least_recently_unpinned (num_frames : Nat) (calls : List ReplacerCall) :
    (∀ f, f ∈ (replayAll num_frames calls).1.nodes ↔ (replayAll num_frames calls).2.tracked f) ∧
    ((replayAll num_frames calls).1.Victim.1 = none ↔
      ∀ f, ¬ (replayAll num_frames calls).2.tracked f) ∧
    ((replayAll num_frames calls).1.Victim.1 = none →
      (replayAll num_frames calls).1.Victim.2 = (replayAll num_frames calls).1) ∧
    (∀ f, (replayAll num_frames calls).1.Victim.1 = some f →
      (replayAll num_frames calls).2.oldest f ∧
      (replayAll num_frames calls).1.Victim.2.nodes = (replayAll num_frames calls).1.nodes.erase f ∧
      (∀ g, g ∈ (replayAll num_frames calls).1.Victim.2.nodes ↔
        g ∈ (replayAll num_frames calls).1.nodes ∧ g ≠ f)) ∧
    (∀ f, ¬ (replayAll num_frames calls).2.tracked f →
      (replayAll num_frames calls).1.Pin f = (replayAll num_frames calls).1) ∧
    (∀ a b : Int, a ≠ b →
      ((((LRUReplacer.ctor num_frames).Unpin a).Unpin b).Unpin a).Victim.1 = some b ∧
      ((((LRUReplacer.ctor num_frames).Unpin a).Unpin b).Unpin a).Victim.2.Victim.1 = some a ∧
      ((((LRUReplacer.ctor num_frames).Unpin a).Unpin b).Unpin a).Victim.2.Victim.2.Victim.1
        = none) := by
  have hi : lruInv (replayAll num_frames calls) := lruInv_foldl calls _ (lruInv_init num_frames)
  generalize replayAll num_frames calls = st at hi
  obtain ⟨r, h⟩ := st
  have hmem : ∀ f, f ∈ r.nodes ↔ h.stamp f ≠ none := hi.2.1
  refine ⟨hmem, ?_, victim_none_same r, ?_, ?_, ?_⟩
  · rw [victim_none_iff]
    constructor
    · intro hnil f hf
      have := (hmem f).2 hf
      dsimp only at hnil
      simp [hnil] at this
    · intro hall
      cases hn : r.nodes with
      | nil => rfl
      | cons x xs => exact absurd ((hmem x).1 (by simp [hn])) (hall x)
  · intro f hf
    obtain ⟨ys, hys, hr⟩ := victim_some r f hf
    obtain ⟨hold, hfys, hys2⟩ := lruInv_oldest r h f ys hi hys
    refine ⟨hold, by rw [hr, ← hys2], ?_⟩
    intro g
    rw [hr]
    simp only
    rw [hys2, hi.1.mem_erase_iff]
    tauto
  · intro f hf
    have hfn : f ∉ r.nodes := fun hin => hf ((hmem f).1 hin)
    simp [LRUReplacer.Pin, hfn]
  · intro a b hab
    have hba : b ≠ a := fun e => hab e.symm
    simp [LRUReplacer.ctor, LRUReplacer.Unpin, LRUReplacer.Victim, hab, hba]

/-- Witness for C7: after unpin 0, unpin 1, unpin 0 on a new replacer of three frames the
victim is frame 1, and it is the tracked frame whose most recent unpin is the oldest. -/
theorem lru_victim_is_least_recently_unpinned_witness :
    (replayAll 3 [.unpin 0, .unpin 1, .unpin 0]).1.Victim.1 = some 1 ∧
    (replayAll 3 [.unpin 0, .unpin 1, .unpin 0]).2.oldest 1 :=
  ⟨by decide,
    ((lru_victim_is_least_recently_unpinned 3 [.unpin 0, .unpin 1, .unpin 0]).2.2.2.1 1
      (by decide)).1⟩

/-! ## Every call is one of the moves -/

theorem ptFind_ptErase (t : List (Nat × Int)) (k q : Nat) :
    ptFind (ptErase t k) q = if q = k then none else ptFind t q := by
  induction t with
  | nil => simp [ptErase, ptFind]
  | cons x rest ih =>
    obtain ⟨p, f⟩ := x
    by_cases hpk : p = k
    · simp only [ptErase, hpk, if_true, ih]
      by_cases hq : q = k
      · simp [hq]
      · have : ¬ k = q := fun e => hq e.symm
        simp [hq, ptFind, this]
    · simp only [ptErase, hpk, if_false, ptFind, ih]
      by_cases hq : q = k
      · subst hq
        simp [hpk]
      · simp [hq]

theorem ptFind_ptSet (t : List (Nat × Int)) (k q : Nat) (v : Int) :
    ptFind (ptSet t k v) q = if q = k then some v else ptFind t q := by
  by_cases hq : q = k
  · simp [ptSet, ptFind, hq]
  · have : ¬ k = q := fun e => hq e.symm
    simp [ptSet, ptFind, hq, this, ptFind_ptErase]

theorem getVictim_cases (s : BufferPoolManager) :
    (∃ f fl r0, s.ctl.took f fl r0 ∧
      s.GetVictimFrame = (f, { s with free_list := fl, replacer := r0 })) ∨
    (s.free_list = [] ∧ s.replacer.nodes = [] ∧ s.GetVictimFrame = (INVALID_FRAME_ID, s)) := by
  unfold BufferPoolManager.GetVictimFrame
  cases hfl : s.free_list.getLast? with
  | some f =>
    left
    obtain ⟨ys, hys⟩ := List.getLast?_eq_some_iff.1 hfl
    refine ⟨f, ys, s.replacer, Or.inl ⟨hys, rfl⟩, ?_⟩
    simp [hys]
  | none =>
    have hnil : s.free_list = [] := List.getLast?_eq_none_iff.1 hfl
    cases hv : s.replacer.Victim with
    | mk o r =>
      cases o with
      | some f =>
        left
        obtain ⟨ys, hys, hr⟩ := victim_some s.replacer f (by rw [hv])
        rw [hv] at hr
        simp only at hr
        subst hr
        refine ⟨f, [], { nodes := ys }, Or.inr ⟨hnil, rfl, hys⟩, ?_⟩
        simp [hnil]
      | none =>
        right
        refine ⟨hnil, (victim_none_iff s.replacer).1 (by rw [hv]), rfl⟩

theorem evictForFetch_ctl (s : BufferPoolManager) (f : Int) :
    (s.evictForFetch f).2.ctl =
      { s.ctl with page_table :=
          if (s.evictForFetch f).1 = none then s.ctl.erased f else s.page_table } := by
  unfold evictForFetch Ctl.erased
  cases hft : s.frame_table f with
  | none => simp [ctl, hft]
  | some old =>
    by_cases hd : s.dirty f = true
    · simp only [hd, if_true]
      cases hw : (s.disk_manager.WritePage old (s.pages f).UpdateChecksum) with
      | mk r d =>
        cases r with
        | error e => simp [ctl]
        | ok u => simp [ctl, hft]
    · simp [hd, ctl, hft]

theorem evictForNew_ctl (s : BufferPoolManager) (f : Int) :
    (s.evictForNew f).2.ctl =
      { s.ctl with page_table :=
          if (s.evictForNew f).1 = none then s.ctl.erased f else s.page_table } := by
  unfold evictForNew Ctl.erased
  cases hft : s.frame_table f with
  | none => simp [ctl, hft]
  | some old =>
    by_cases hd : s.dirty f = true
    · simp only [hd, if_true]
      cases hw : (s.disk_manager.WritePage old (s.pages f)) with
      | mk r d =>
        cases r with
        | error e => simp [ctl]
        | ok u => simp [ctl, hft]
    · simp [hd, ctl, hft]

theorem took_invalid (c : Ctl) (f : Int) (fl : List Int) (r0 : LRUReplacer)
    (h : c.took f fl r0) : f ∈ c.free_list ∨ f ∈ c.replacer.nodes := by
  rcases h with ⟨h1, _⟩ | ⟨_, _, h3⟩
  · left; simp [h1]
  · right; simp [h3]

theorem fetch_move (s : BufferPoolManager) (page_id : Nat) :
    MoveOf s (s.FetchPage page_id).2 (Outcome.ofExcept .page (s.FetchPage page_id).1).isRaised
      false := by
  unfold FetchPage
  cases hp : ptFind s.page_table page_id with
  | some f =>
    exact ⟨.hit, .hit page_id f hp rfl, by simp, by simp⟩
  | none =>
    simp only
    rcases getVictim_cases { s with miss_count := s.miss_count + 1 } with
      ⟨f, fl, r0, htook, hg⟩ | ⟨_, _, hg⟩
    · rw [hg]
      simp only
      have htook' : s.ctl.took f fl r0 := htook
      by_cases hf : f = INVALID_FRAME_ID
      · simp only [hf, if_true]
        refine ⟨.lose, .lose f fl r0 s.page_table htook' (Or.inl rfl) rfl, ?_, by simp⟩
        intro _
        right
        have := took_invalid _ _ _ _ htook'
        rw [hf] at this
        exact this
      · simp only [hf, if_false]
        have hev := evictForFetch_ctl { s with miss_count := s.miss_count + 1, free_list := fl, replacer := r0 } f
        cases he : evictForFetch { s with miss_count := s.miss_count + 1, free_list := fl, replacer := r0 } f with
        | mk e s2 =>
          rw [he] at hev
          cases e with
          | some err =>
            simp only at hev ⊢
            refine ⟨.lose, .lose f fl r0 s.page_table htook' (Or.inl rfl) ?_, by simp [Outcome.ofExcept, Outcome.isRaised], by simp⟩
            rw [hev]
            simp [ctl]
          | none =>
            simp only at hev ⊢
            cases hr : s2.disk_manager.ReadPage page_id with
            | mk r d =>
              cases r with
              | error err =>
                simp only
                refine ⟨.lose, .lose f fl r0 (s.ctl.erased f) htook' (Or.inr rfl) ?_, by simp [Outcome.ofExcept, Outcome.isRaised], by simp⟩
                show s2.ctl = _
                rw [hev]
                simp [ctl, Ctl.erased]
              | ok pg =>
                simp only
                refine ⟨.load, .load page_id f fl r0 htook' ?_, by simp, by simp⟩
                have h1 : s2.page_table = s.ctl.erased f := by
                  have := congrArg Ctl.page_table hev
                  simpa [ctl, Ctl.erased] using this
                have h2 : s2.frame_table = s.frame_table := congrArg Ctl.frame_table hev
                have h3 : s2.pin_count = s.pin_count := congrArg Ctl.pin_count hev
                have h4 : s2.replacer = r0 := congrArg Ctl.replacer hev
                have h5 : s2.free_list = fl := congrArg Ctl.free_list hev
                have h6 : s2.pool_size = s.pool_size := congrArg Ctl.pool_size hev
                simp only [ctl, h1, h2, h3, h4, h5, h6]
    · rw [hg]
      exact ⟨.same, .same rfl, by simp, by simp⟩

theorem new_move (s : BufferPoolManager) :
    MoveOf s s.NewPage.2 (Outcome.ofExcept .created s.NewPage.1).isRaised false := by
  unfold NewPage
  rcases getVictim_cases s with ⟨f, fl, r0, htook, hg⟩ | ⟨_, _, hg⟩
  · rw [hg]
    simp only
    by_cases hf : f = INVALID_FRAME_ID
    · simp only [hf, if_true]
      refine ⟨.lose, .lose f fl r0 s.page_table htook (Or.inl rfl) rfl, ?_, by simp⟩
      intro _
      right
      have := took_invalid _ _ _ _ htook
      rw [hf] at this
      exact this
    · simp only [hf, if_false]
      have hev := evictForNew_ctl { s with free_list := fl, replacer := r0 } f
      cases he : evictForNew { s with free_list := fl, replacer := r0 } f with
      | mk e s2 =>
        rw [he] at hev
        cases e with
        | some err =>
          simp only at hev ⊢
          refine ⟨.lose, .lose f fl r0 s.page_table htook (Or.inl rfl) ?_,
            by simp [Outcome.ofExcept, Outcome.isRaised], by simp⟩
          rw [hev]
          simp [ctl]
        | none =>
          simp only at hev ⊢
          refine ⟨.load, .load s2.disk_manager.AllocatePage.1 f fl r0 htook ?_, by simp, by simp⟩
          have h1 : s2.page_table = s.ctl.erased f := by
            have := congrArg Ctl.page_table hev
            simpa [ctl, Ctl.erased] using this
          have h2 : s2.frame_table = s.frame_table := congrArg Ctl.frame_table hev
          have h3 : s2.pin_count = s.pin_count := congrArg Ctl.pin_count hev
          have h4 : s2.replacer = r0 := congrArg Ctl.replacer hev
          have h5 : s2.free_list = fl := congrArg Ctl.free_list hev
          have h6 : s2.pool_size = s.pool_size := congrArg Ctl.pool_size hev
          simp only [ctl, h1, h2, h3, h4, h5, h6]
  · rw [hg]
    exact ⟨.same, .same rfl, by simp, by simp⟩

theorem unpin_move (s : BufferPoolManager) (page_id : Nat) (is_dirty : Bool) :
    MoveOf s (s.UnpinPage page_id is_dirty).2 false false := by
  unfold UnpinPage
  cases hp : ptFind s.page_table page_id with
  | none => exact ⟨.same, .same rfl, by simp, by simp⟩
  | some f =>
    simp only
    by_cases hpin : s.pin_count f ≤ 0
    · simp only [hpin, if_true]
      exact ⟨.same, .same rfl, by simp, by simp⟩
    · simp only [hpin, if_false]
      refine ⟨.unpin, .unpin page_id f hp (by show 0 < s.pin_count f; omega) ?_, by simp, by simp⟩
      cases is_dirty <;> by_cases h0 : s.pin_count f - 1 = 0 <;>
        simp [ctl, setAt_same, h0]

theorem flush_move (s : BufferPoolManager) (page_id : Nat) :
    (s.FlushPage page_id).2.ctl = s.ctl := by
  unfold FlushPage
  cases hp : ptFind s.page_table page_id with
  | none => rfl
  | some f =>
    simp only
    cases hw : (s.disk_manager.WritePage page_id (s.pages f).UpdateChecksum) with
    | mk r d => cases r <;> rfl

theorem flushEntries_ctl (es : List (Nat × Int)) (s : BufferPoolManager) :
    (flushEntries es s).2.ctl = s.ctl := by
  induction es generalizing s with
  | nil => rfl
  | cons x rest ih =>
    obtain ⟨p, f⟩ := x
    unfold flushEntries
    by_cases hd : s.dirty f = true
    · simp only [hd, if_true]
      cases hw : (s.disk_manager.WritePage p (s.pages f).UpdateChecksum) with
      | mk r d =>
        cases r with
        | error e => rfl
        | ok u =>
          simp only
          rw [ih]
          rfl
    · simp only [hd]
      exact ih s

theorem delete_move (s : BufferPoolManager) (page_id : Nat) :
    MoveOf s (s.DeletePage page_id).2 false true := by
  unfold DeletePage
  cases hp : ptFind s.page_table page_id with
  | none =>
    simp only
    cases hw : s.disk_manager.DeallocatePage page_id with
    | mk r d => cases r <;> exact ⟨.same, .same rfl, by simp, by simp⟩
  | some f =>
    simp only
    by_cases hpin : s.pin_count f > 0
    · simp only [hpin, if_true]
      exact ⟨.same, .same rfl, by simp, by simp⟩
    · simp only [hpin, if_false]
      cases hw : DiskManager.DeallocatePage s.disk_manager page_id with
      | mk r d =>
        cases r <;> exact ⟨.delete, .delete page_id f hp (by show s.pin_count f ≤ 0; omega) rfl,
          by simp, by simp⟩

theorem write_ctl (s : BufferPoolManager) (page_id : Nat) (data : List Nat) :
    (s.clientWrite page_id data).ctl = s.ctl := by
  unfold clientWrite
  cases hp : ptFind s.page_table page_id with
  | none => rfl
  | some f =>
    simp only
    split <;> rfl

theorem MoveOf.weaken {s t : BufferPoolManager} {r d r2 d2 : Bool} (h : MoveOf s t r d)
    (hr : r = true → r2 = true) (hd : d = true → d2 = true) : MoveOf s t r2 d2 := by
  obtain ⟨k, hm, h1, h2⟩ := h
  refine ⟨k, hm, ?_, fun hk => hd (h2 hk)⟩
  intro hk
  rcases h1 hk with h | h
  · exact Or.inl (hr h)
  · exact Or.inr h

theorem exec_move (s : BufferPoolManager) (op : Op) :
    MoveOf s (exec s op).2 (exec s op).1.isRaised op.isDelete := by
  cases op with
  | fetch p => exact (fetch_move s p).weaken id (by simp)
  | new_page => exact (new_move s).weaken id (by simp)
  | unpin p b => exact (unpin_move s p b).weaken (by simp) (by simp)
  | flush p => exact ⟨.same, .same (flush_move s p), by simp, by simp⟩
  | flush_all => exact ⟨.same, .same (flushEntries_ctl _ s), by simp, by simp⟩
  | delete p => exact (delete_move s p).weaken (by simp) (by simp [Op.isDelete])
  | write p d => exact ⟨.same, .same (write_ctl s p d), by simp, by simp⟩

/-! ## The invariant of the bookkeeping -/

theorem mem_Pin (r : LRUReplacer) (f g : Int) (hnd : r.nodes.Nodup) :
    g ∈ (r.Pin f).nodes ↔ g ≠ f ∧ g ∈ r.nodes := by
  unfold LRUReplacer.Pin
  split
  · exact hnd.mem_erase_iff
  · rename_i hf
    constructor
    · intro hg
      exact ⟨fun e => hf (e ▸ hg), hg⟩
    · exact fun h => h.2

theorem nodup_Pin (r : LRUReplacer) (f : Int) (hnd : r.nodes.Nodup) : (r.Pin f).nodes.Nodup := by
  unfold LRUReplacer.Pin
  split
  · exact hnd.erase f
  · exact hnd

theorem mem_Unpin (r : LRUReplacer) (f g : Int) :
    g ∈ (r.Unpin f).nodes ↔ g = f ∨ g ∈ r.nodes := by
  unfold LRUReplacer.Unpin
  split
  · rename_i hf
    by_cases hg : g = f
    · simp [hg]
    · simp [hg, List.mem_erase_of_ne hg]
  · simp

theorem nodup_Unpin (r : LRUReplacer) (f : Int) (hnd : r.nodes.Nodup) :
    (r.Unpin f).nodes.Nodup := by
  unfold LRUReplacer.Unpin
  split
  · refine List.nodup_cons.2 ⟨?_, hnd.erase f⟩
    intro hf
    exact absurd ((hnd.mem_erase_iff).1 hf).1 (by simp)
  · rename_i hf
    exact List.nodup_cons.2 ⟨hf, hnd⟩

theorem mem_ptErase (t : List (Nat × Int)) (k : Nat) (e : Nat × Int) :
    e ∈ ptErase t k ↔ e ∈ t ∧ e.1 ≠ k := by
  induction t with
  | nil => simp [ptErase]
  | cons x rest ih =>
    obtain ⟨p, f⟩ := x
    by_cases hpk : p = k
    · simp only [ptErase, hpk, if_true, ih, List.mem_cons]
      constructor
      · rintro ⟨a, b⟩
        exact ⟨Or.inr a, b⟩
      · rintro ⟨a | a, b⟩
        · rw [a] at b
          exact absurd rfl b
        · exact ⟨a, b⟩
    · simp only [ptErase, hpk, if_false, List.mem_cons, ih]
      constructor
      · rintro (a | ⟨a, b⟩)
        · rw [a]
          exact ⟨Or.inl rfl, hpk⟩
        · exact ⟨Or.inr a, b⟩
      · rintro ⟨a | a, b⟩
        · exact Or.inl a
        · exact Or.inr ⟨a, b⟩

theorem entries_ptErase (t : List (Nat × Int)) (k : Nat)
    (h : ∀ e ∈ t, ptFind t e.1 = some e.2) :
    ∀ e ∈ ptErase t k, ptFind (ptErase t k) e.1 = some e.2 := by
  intro e he
  obtain ⟨h1, h2⟩ := (mem_ptErase t k e).1 he
  rw [ptFind_ptErase]
  simp only [h2, if_false]
  exact h e h1

theorem entries_ptSet (t : List (Nat × Int)) (k : Nat) (v : Int)
    (h : ∀ e ∈ t, ptFind t e.1 = some e.2) :
    ∀ e ∈ ptSet t k v, ptFind (ptSet t k v) e.1 = some e.2 := by
  intro e he
  rw [ptFind_ptSet]
  unfold ptSet at he
  rcases List.mem_cons.1 he with e1 | e1
  · rw [e1]
    simp
  · obtain ⟨h1, h2⟩ := (mem_ptErase t k e).1 e1
    simp only [h2, if_false]
    exact h e h1

theorem entries_erased (c : Ctl) (f : Int) (h : ∀ e ∈ c.page_table, ptFind c.page_table e.1 = some e.2) :
    ∀ e ∈ c.erased f, ptFind (c.erased f) e.1 = some e.2 := by
  unfold Ctl.erased
  cases c.frame_table f with
  | none => exact h
  | some old => exact entries_ptErase _ old h

theorem ptFind_erased (c : Ctl) (f : Int) (q : Nat) (g : Int)
    (h : ptFind (c.erased f) q = some g) : ptFind c.page_table q = some g := by
  unfold Ctl.erased at h
  cases hft : c.frame_table f with
  | none => simpa [hft] using h
  | some old =>
    simp only [hft, ptFind_ptErase] at h
    by_cases hq : q = old
    · simp [hq] at h
    · simpa [hq] using h

theorem erased_no_entry (c : Ctl) (hi : poolInv c) (f : Int) (q : Nat) :
    ptFind (c.erased f) q ≠ some f := by
  intro h
  have h0 := ptFind_erased c f q f h
  have h1 := hi.tables_agree q f h0
  unfold Ctl.erased at h
  simp only [h1, ptFind_ptErase, if_true] at h
  exact absurd h (by simp)

/-- What is known of a frame that was taken, under the invariant. -/
theorem took_facts (c : Ctl) (hi : poolInv c) (f : Int) (fl : List Int) (r0 : LRUReplacer)
    (h : c.took f fl r0) :
    fl.Nodup ∧ f ∉ fl ∧ (∀ g ∈ fl, g ∈ c.free_list) ∧ r0.nodes.Nodup ∧
    (∀ g ∈ r0.nodes, g ∈ c.replacer.nodes) ∧ c.pin_count f = 0 ∧ (0 ≤ f ∧ f < c.pool_size) := by
  rcases h with ⟨h1, h2⟩ | ⟨h1, h2, h3⟩
  · have hnd := hi.free_nodup
    rw [h1] at hnd
    have hfm : f ∈ c.free_list := by simp [h1]
    refine ⟨(List.nodup_append.1 hnd).1, ?_, ?_, ?_, ?_, hi.free_unpinned f hfm, hi.free_range f hfm⟩
    · intro hf
      exact (List.nodup_append.1 hnd).2.2 hf (by simp)
    · intro g hg
      simp [h1, hg]
    · rw [h2]; exact hi.replacer_nodup
    · rw [h2]; exact fun g hg => hg
  · have hnd := hi.replacer_nodup
    rw [h3] at hnd
    have hfm : f ∈ c.replacer.nodes := by simp [h3]
    subst h2
    refine ⟨List.nodup_nil, by simp, by simp, (List.nodup_append.1 hnd).1, ?_,
      hi.replacer_unpinned f hfm, hi.replacer_range f hfm⟩
    intro g hg
    simp [h3, hg]

theorem poolInv_init (n : Nat) (d : DiskManager) :
    poolInv (BufferPoolManager.ctor n d).ctl := by
  refine ⟨?_, ?_, ?_, ?_, ?_, ?_, ?_, ?_, ?_, ?_, ?_, ?_, ?_⟩ <;>
    simp [BufferPoolManager.ctor, ctl, LRUReplacer.ctor, ptFind]
  · refine (List.nodup_range n).map ?_
    intro a b h
    exact Int.ofNat.inj h

theorem poolInv_move (c t : Ctl) (k : MoveKind) (hm : Move c t k) (hi : poolInv c) :
    poolInv t := by
  cases hm with
  | same h => rw [h]; exact hi
  | hit p f hp h =>
    subst h
    have hfree : f ∉ c.free_list := hi.resident_not_free p f hp
    refine ⟨?_, ?_, ?_, hi.free_nodup, nodup_Pin _ _ hi.replacer_nodup, hi.free_empty,
      hi.resident_not_free, hi.tables_agree, hi.free_range, ?_, hi.resident_range,
      hi.entries_found, hi.holder_range⟩
    · intro g
      by_cases hg : g = f
      · subst hg
        have := hi.pin_nonneg g
        simp only [setAt_same]
        omega
      · simp only [setAt_other _ _ _ _ hg]
        exact hi.pin_nonneg g
    · intro g hg
      have := (mem_Pin _ _ _ hi.replacer_nodup).1 hg
      simp only [setAt_other _ _ _ _ this.1]
      exact hi.replacer_unpinned g this.2
    · intro g hg
      have hgf : g ≠ f := fun e => hfree (e ▸ hg)
      simp only [setAt_other _ _ _ _ hgf]
      exact hi.free_unpinned g hg
    · intro g hg
      exact hi.replacer_range g ((mem_Pin _ _ _ hi.replacer_nodup).1 hg).2
  | lose f fl r0 pt1 ht hpt h =>
    subst h
    obtain ⟨h1, h2, h3, h4, h5, h6, h7⟩ := took_facts c hi f fl r0 ht
    have hsub : ∀ q g, ptFind pt1 q = some g → ptFind c.page_table q = some g := by
      intro q g hq
      rcases hpt with e | e
      · rw [e] at hq; exact hq
      · rw [e] at hq; exact ptFind_erased c f q g hq
    refine ⟨hi.pin_nonneg, fun g hg => hi.replacer_unpinned g (h5 g hg),
      fun g hg => hi.free_unpinned g (h3 g hg), h1, h4,
      fun g hg => hi.free_empty g (h3 g hg),
      fun q g hq hg => hi.resident_not_free q g (hsub q g hq) (h3 g hg),
      fun q g hq => hi.tables_agree q g (hsub q g hq),
      fun g hg => hi.free_range g (h3 g hg),
      fun g hg => hi.replacer_range g (h5 g hg),
      fun q g hq => hi.resident_range q g (hsub q g hq), ?_, hi.holder_range⟩
    rcases hpt with e | e
    · rw [e]; exact hi.entries_found
    · rw [e]; exact entries_erased c f hi.entries_found
  | load p f fl r0 ht h =>
    subst h
    obtain ⟨h1, h2, h3, h4, h5, h6, h7⟩ := took_facts c hi f fl r0 ht
    have hno := erased_no_entry c hi f
    refine ⟨?_, ?_, ?_, h1, nodup_Pin _ _ h4, ?_, ?_, ?_,
      fun g hg => hi.free_range g (h3 g hg), ?_, ?_,
      entries_ptSet _ p f (entries_erased c f hi.entries_found), ?_⟩
    rotate_right
    · intro g hg
      by_cases hgf : g = f
      · rw [hgf]; exact h7
      · simp only [setAt_other _ _ _ _ hgf] at hg
        exact hi.holder_range g hg
    · intro g
      by_cases hg : g = f
      · simp [hg, setAt_same]
      · simp only [setAt_other _ _ _ _ hg]
        exact hi.pin_nonneg g
    · intro g hg
      have := (mem_Pin _ _ _ h4).1 hg
      simp only [setAt_other _ _ _ _ this.1]
      exact hi.replacer_unpinned g (h5 g this.2)
    · intro g hg
      have hgf : g ≠ f := fun e => h2 (e ▸ hg)
      simp only [setAt_other _ _ _ _ hgf]
      exact hi.free_unpinned g (h3 g hg)
    · intro g hg
      have hgf : g ≠ f := fun e => h2 (e ▸ hg)
      simp only [setAt_other _ _ _ _ hgf]
      exact hi.free_empty g (h3 g hg)
    · intro q g hq hg
      simp only [ptFind_ptSet] at hq
      by_cases hqp : q = p
      · simp only [hqp, if_true, Option.some.injEq] at hq
        exact h2 (hq ▸ hg)
      · simp only [hqp, if_false] at hq
        exact hi.resident_not_free q g (ptFind_erased c f q g hq) (h3 g hg)
    · intro q g hq
      simp only [ptFind_ptSet] at hq
      by_cases hqp : q = p
      · simp only [hqp, if_true, Option.some.injEq] at hq
        subst hq
        simp [hqp, setAt_same]
      · simp only [hqp, if_false] at hq
        have hgf : g ≠ f := fun e => hno q (e ▸ hq)
        simp only [setAt_other _ _ _ _ hgf]
        exact hi.tables_agree q g (ptFind_erased c f q g hq)
    · intro g hg
      exact hi.replacer_range g (h5 g ((mem_Pin _ _ _ h4).1 hg).2)
    · intro q g hq
      simp only [ptFind_ptSet] at hq
      by_cases hqp : q = p
      · simp only [hqp, if_true, Option.some.injEq] at hq
        exact hq ▸ h7
      · simp only [hqp, if_false] at hq
        exact hi.resident_range q g (ptFind_erased c f q g hq)
  | unpin p f hp hpin h =>
    subst h
    have hfree : f ∉ c.free_list := hi.resident_not_free p f hp
    have hfr : f ∉ c.replacer.nodes := by
      intro hf
      have := hi.replacer_unpinned f hf
      omega
    refine ⟨?_, ?_, ?_, hi.free_nodup, ?_, hi.free_empty,
      hi.resident_not_free, hi.tables_agree, hi.free_range, ?_, hi.resident_range,
      hi.entries_found, hi.holder_range⟩
    · intro g
      by_cases hg : g = f
      · subst hg
        simp only [setAt_same]
        omega
      · simp only [setAt_other _ _ _ _ hg]
        exact hi.pin_nonneg g
    · intro g hg
      by_cases h0 : c.pin_count f - 1 = 0
      · simp only [h0, if_true] at hg
        by_cases hgf : g = f
        · subst hgf
          simp only [setAt_same]
          exact h0
        · simp only [setAt_other _ _ _ _ hgf]
          rcases (mem_Unpin _ _ _).1 hg with e | e
          · exact absurd e hgf
          · exact hi.replacer_unpinned g e
      · simp only [h0, if_false] at hg
        have hgf : g ≠ f := fun e => hfr (e ▸ hg)
        simp only [setAt_other _ _ _ _ hgf]
        exact hi.replacer_unpinned g hg
    · intro g hg
      have hgf : g ≠ f := fun e => hfree (e ▸ hg)
      simp only [setAt_other _ _ _ _ hgf]
      exact hi.free_unpinned g hg
    · by_cases h0 : c.pin_count f - 1 = 0
      · simp only [h0, if_true]
        exact nodup_Unpin _ _ hi.replacer_nodup
      · simp only [h0, if_false]
        exact hi.replacer_nodup
    · intro g hg
      by_cases h0 : c.pin_count f - 1 = 0
      · simp only [h0, if_true] at hg
        rcases (mem_Unpin _ _ _).1 hg with e | e
        · exact e ▸ hi.resident_range p f hp
        · exact hi.replacer_range g e
      · simp only [h0, if_false] at hg
        exact hi.replacer_range g hg
  | delete p f hp hpin h =>
    subst h
    have hfree : f ∉ c.free_list := hi.resident_not_free p f hp
    have hother : ∀ q g, ptFind (ptErase c.page_table p) q = some g →
        ptFind c.page_table q = some g ∧ g ≠ f := by
      intro q g hq
      simp only [ptFind_ptErase] at hq
      by_cases hqp : q = p
      · simp [hqp] at hq
      · simp only [hqp, if_false] at hq
        refine ⟨hq, ?_⟩
        intro e
        subst e
        have h1 := hi.tables_agree q g hq
        have h2 := hi.tables_agree p g hp
        rw [h1] at h2
        exact hqp (Option.some.inj h2)
    refine ⟨?_, ?_, ?_, ?_, hi.replacer_nodup, ?_, ?_, ?_, ?_, hi.replacer_range, ?_,
      entries_ptErase _ p hi.entries_found, ?_⟩
    rotate_right
    · intro g hg
      by_cases hgf : g = f
      · simp [hgf, setAt_same] at hg
      · simp only [setAt_other _ _ _ _ hgf] at hg
        exact hi.holder_range g hg
    · intro g
      by_cases hg : g = f
      · simp [hg, setAt_same]
      · simp only [setAt_other _ _ _ _ hg]
        exact hi.pin_nonneg g
    · intro g hg
      by_cases hgf : g = f
      · simp [hgf, setAt_same]
      · simp only [setAt_other _ _ _ _ hgf]
        exact hi.replacer_unpinned g hg
    · intro g hg
      by_cases hgf : g = f
      · simp [hgf, setAt_same]
      · simp only [setAt_other _ _ _ _ hgf]
        rcases List.mem_append.1 hg with e | e
        · exact hi.free_unpinned g e
        · simp at e
          exact absurd e hgf
    · refine List.nodup_append.2 ⟨hi.free_nodup, by simp, ?_⟩
      intro g hg hg2
      simp at hg2
      exact hfree (hg2 ▸ hg)
    · intro g hg
      by_cases hgf : g = f
      · simp [hgf, setAt_same]
      · simp only [setAt_other _ _ _ _ hgf]
        rcases List.mem_append.1 hg with e | e
        · exact hi.free_empty g e
        · simp at e
          exact absurd e hgf
    · intro q g hq hg
      obtain ⟨h1, h2⟩ := hother q g hq
      rcases List.mem_append.1 hg with e | e
      · exact hi.resident_not_free q g h1 e
      · simp at e
        exact h2 e
    · intro q g hq
      obtain ⟨h1, h2⟩ := hother q g hq
      simp only [setAt_other _ _ _ _ h2]
      exact hi.tables_agree q g h1
    · intro g hg
      rcases List.mem_append.1 hg with e | e
      · exact hi.free_range g e
      · simp at e
        exact e ▸ hi.resident_range p f hp
    · intro q g hq
      exact hi.resident_range q g (hother q g hq).1

theorem poolInv_exec (s : BufferPoolManager) (op : Op) (hi : poolInv s.ctl) :
    poolInv (exec s op).2.ctl := by
  obtain ⟨k, hm, _, _⟩ := exec_move s op
  exact poolInv_move _ _ k hm hi

theorem poolInv_run (ops : List Op) (s : BufferPoolManager) (hi : poolInv s.ctl) :
    poolInv (run s ops).ctl := by
  induction ops generalizing s with
  | nil => exact hi
  | cons op rest ih => exact ih _ (poolInv_exec s op hi)

/-! ## Pinned pages are not evicted; the contracts of unpin and delete -/

theorem Reachable.poolInv {s : BufferPoolManager} (h : Reachable s) : poolInv s.ctl := by
  obtain ⟨n, d, ops, rfl⟩ := h
  exact poolInv_run ops _ (poolInv_init n d)

theorem victim_unpinned (s : BufferPoolManager) (hi : poolInv s.ctl) (m : Nat) (f : Int)
    (hf : ({ s with miss_count := m }).GetVictimFrame.1 = f) (hne : f ≠ INVALID_FRAME_ID) :
    s.pin_count f = 0 ∧ 0 ≤ f ∧ f < (s.pool_size : Int) := by
  rcases getVictim_cases { s with miss_count := m } with ⟨g, fl, r0, htook, hg⟩ | ⟨_, _, hg⟩
  · rw [hg] at hf
    simp only at hf
    subst hf
    have := took_facts s.ctl hi g fl r0 htook
    exact ⟨this.2.2.2.2.2.1, this.2.2.2.2.2.2⟩
  · rw [hg] at hf
    exact absurd hf.symm hne

/-- C3: in every state that any sequence of calls leaves of a new pool, every frame the
replacer tracks has pin count zero, and the frame GetVictimFrame hands to new_page or
to fetch (which has incremented the miss counter before) has pin count zero: a frame
that holds a pinned page is never handed out for reuse. -/
theorem pinned_page_never_evicted (pool_size : Nat) (d : DiskManager) (ops : List Op) :
    (∀ f ∈ (run (BufferPoolManager.ctor pool_size d) ops).replacer.nodes,
      (run (BufferPoolManager.ctor pool_size d) ops).pin_count f = 0) ∧
    ((run (BufferPoolManager.ctor pool_size d) ops).GetVictimFrame.1 ≠ INVALID_FRAME_ID →
      (run (BufferPoolManager.ctor pool_size d) ops).pin_count
        (run (BufferPoolManager.ctor pool_size d) ops).GetVictimFrame.1 = 0) ∧
    (({ run (BufferPoolManager.ctor pool_size d) ops with
        miss_count := (run (BufferPoolManager.ctor pool_size d) ops).miss_count + 1
      }).GetVictimFrame.1 ≠ INVALID_FRAME_ID →
      (run (BufferPoolManager.ctor pool_size d) ops).pin_count
        ({ run (BufferPoolManager.ctor pool_size d) ops with
          miss_count := (run (BufferPoolManager.ctor pool_size d) ops).miss_count + 1
        }).GetVictimFrame.1 = 0) := by
  have hi : poolInv (run (BufferPoolManager.ctor pool_size d) ops).ctl :=
    poolInv_run ops _ (poolInv_init pool_size d)
  generalize run (BufferPoolManager.ctor pool_size d) ops = s at hi
  refine ⟨hi.replacer_unpinned, ?_, ?_⟩
  · intro h
    exact (victim_unpinned s hi s.miss_count _ rfl h).1
  · intro h
    exact (victim_unpinned s hi (s.miss_count + 1) _ rfl h).1

/-- Witness for C3: with a pool of one frame, after a page is created and unpinned, the
frame GetVictimFrame hands out is frame 0, and its pin count is zero. -/
theorem pinned_page_never_evicted_witness :
    (run (BufferPoolManager.ctor 1 (DiskManager.ctor none))
      [.new_page, .unpin 2 false]).GetVictimFrame.1 = 0 ∧
    (run (BufferPoolManager.ctor 1 (DiskManager.ctor none)) [.new_page, .unpin 2 false]).pin_count
      (run (BufferPoolManager.ctor 1 (DiskManager.ctor none))
        [.new_page, .unpin 2 false]).GetVictimFrame.1 = 0 :=
  ⟨by decide,
    (pinned_page_never_evicted 1 (DiskManager.ctor none) [.new_page, .unpin 2 false]).2.1
      (by decide)⟩

/-- C9: in a reachable state, unpin returns false exactly when the page is not in the
page table or the pin count of its frame is zero, and then the state is unchanged;
otherwise it returns true, the pin count of the frame goes down by one, the dirty bit
becomes the old bit or is_dirty, the frame is in the replacer afterwards exactly when
its new pin count is zero, and nothing else changes. -/
theorem unpin_contract (s : BufferPoolManager) (hs : Reachable s) (page_id : Nat)
    (is_dirty : Bool) :
    ((s.UnpinPage page_id is_dirty).1 = false ↔
      (ptFind s.page_table page_id = none ∨
        ∃ f, ptFind s.page_table page_id = some f ∧ s.pin_count f = 0)) ∧
    ((s.UnpinPage page_id is_dirty).1 = false → (s.UnpinPage page_id is_dirty).2 = s) ∧
    (∀ f, ptFind s.page_table page_id = some f → s.pin_count f ≠ 0 →
      (s.UnpinPage page_id is_dirty).1 = true ∧
      (s.UnpinPage page_id is_dirty).2.pin_count f = s.pin_count f - 1 ∧
      (s.UnpinPage page_id is_dirty).2.dirty f = (s.dirty f || is_dirty) ∧
      (f ∈ (s.UnpinPage page_id is_dirty).2.replacer.nodes ↔
        (s.UnpinPage page_id is_dirty).2.pin_count f = 0) ∧
      (s.UnpinPage page_id is_dirty).2 =
        { s with
          pin_count := setAt s.pin_count f (s.pin_count f - 1)
          dirty := setAt s.dirty f (s.dirty f || is_dirty)
          replacer := if s.pin_count f - 1 = 0 then s.replacer.Unpin f else s.replacer }) := by
  have hi := hs.poolInv
  have hnn : ∀ f, 0 ≤ s.pin_count f := hi.pin_nonneg
  cases hp : ptFind s.page_table page_id with
  | none => simp [UnpinPage, hp]
  | some f =>
    have hpf := hnn f
    by_cases h0 : s.pin_count f = 0
    · simp [UnpinPage, hp, h0]
    · have hpos : ¬ s.pin_count f ≤ 0 := by omega
      have hst : (s.UnpinPage page_id is_dirty).2 =
          { s with
            pin_count := setAt s.pin_count f (s.pin_count f - 1)
            dirty := setAt s.dirty f (s.dirty f || is_dirty)
            replacer := if s.pin_count f - 1 = 0 then s.replacer.Unpin f else s.replacer } := by
        have hd : setAt s.dirty f (s.dirty f || is_dirty) =
            if is_dirty then setAt s.dirty f true else s.dirty := by
          cases is_dirty
          · funext g
            by_cases hg : g = f <;> simp [setAt, hg]
          · simp
        rw [hd]
        cases is_dirty <;> by_cases h1 : s.pin_count f - 1 = 0 <;>
          simp [UnpinPage, hp, hpos, setAt_same, h1]
      have hres : (s.UnpinPage page_id is_dirty).1 = true := by
        cases is_dirty <;> by_cases h1 : s.pin_count f - 1 = 0 <;>
          simp [UnpinPage, hp, hpos, setAt_same, h1]
      refine ⟨?_, ?_, ?_⟩
      · simp [hres, h0]
      · simp [hres]
      · intro g hg _
        simp only [Option.some.injEq] at hg
        subst hg
        refine ⟨hres, by rw [hst]; simp [setAt_same], by rw [hst]; simp [setAt_same], ?_, hst⟩
        rw [hst]
        simp only [setAt_same]
        have hfr : f ∉ s.replacer.nodes := fun hf => h0 (hi.replacer_unpinned f hf)
        by_cases h1 : s.pin_count f - 1 = 0
        · simp [h1, mem_Unpin]
        · simp [h1, hfr]

/-- Witness for C9: after new_page on a new pool of two frames, page 2 sits in frame 1
with pin count one; unpin(2, false) returns true, the pin count becomes zero, the dirty
bit set by new_page stays set and the frame is in the replacer. -/
theorem unpin_contract_witness :
    ptFind (run (BufferPoolManager.ctor 2 (DiskManager.ctor none)) [.new_page]).page_table 2
      = some 1 ∧
    ((run (BufferPoolManager.ctor 2 (DiskManager.ctor none)) [.new_page]).UnpinPage 2 false).1
      = true ∧
    ((run (BufferPoolManager.ctor 2 (DiskManager.ctor none)) [.new_page]).UnpinPage 2
      false).2.pin_count 1 = 1 - 1 ∧
    ((run (BufferPoolManager.ctor 2 (DiskManager.ctor none)) [.new_page]).UnpinPage 2
      false).2.dirty 1 = (true || false) :=
  ⟨by decide,
    ((unpin_contract (run (BufferPoolManager.ctor 2 (DiskManager.ctor none)) [.new_page])
      ⟨2, DiskManager.ctor none, [.new_page], rfl⟩ 2 false).2.2 1 (by decide) (by decide)).1,
    ((unpin_contract (run (BufferPoolManager.ctor 2 (DiskManager.ctor none)) [.new_page])
      ⟨2, DiskManager.ctor none, [.new_page], rfl⟩ 2 false).2.2 1 (by decide) (by decide)).2.1,
    ((unpin_contract (run (BufferPoolManager.ctor 2 (DiskManager.ctor none)) [.new_page])
      ⟨2, DiskManager.ctor none, [.new_page], rfl⟩ 2 false).2.2 1 (by decide)
        (by decide)).2.2.1⟩

/-- C10: delete of a resident page whose frame has a positive pin count returns false
and leaves the whole state as it was, page store included. -/
theorem delete_pinned_rejected (s : BufferPoolManager) (page_id : Nat) (f : Int)
    (hp : ptFind s.page_table page_id = some f) (hpin : 0 < s.pin_count f) :
    s.DeletePage page_id = (.ok false, s) ∧
    (s.DeletePage page_id).2.page_table = s.page_table ∧
    (s.DeletePage page_id).2.frame_table = s.frame_table ∧
    (s.DeletePage page_id).2.pin_count = s.pin_count ∧
    (s.DeletePage page_id).2.dirty = s.dirty ∧
    (s.DeletePage page_id).2.free_list = s.free_list ∧
    (s.DeletePage page_id).2.replacer = s.replacer ∧
    (s.DeletePage page_id).2.hit_count = s.hit_count ∧
    (s.DeletePage page_id).2.miss_count = s.miss_count ∧
    (s.DeletePage page_id).2.disk_manager.free_pages = s.disk_manager.free_pages ∧
    (s.DeletePage page_id).2.disk_manager.num_pages = s.disk_manager.num_pages := by
  have h : s.DeletePage page_id = (.ok false, s) := by
    simp [DeletePage, hp, hpin]
  rw [h]
  simp

/-- Witness for C10: page 2, just created in a new pool of two frames, is pinned in
frame 1, and delete(2) is rejected. -/
theorem delete_pinned_rejected_witness :
    ptFind (run (BufferPoolManager.ctor 2 (DiskManager.ctor none)) [.new_page]).page_table 2
      = some 1 ∧
    0 < (run (BufferPoolManager.ctor 2 (DiskManager.ctor none)) [.new_page]).pin_count 1 ∧
    (run (BufferPoolManager.ctor 2 (DiskManager.ctor none)) [.new_page]).DeletePage 2 =
      (.ok false, run (BufferPoolManager.ctor 2 (DiskManager.ctor none)) [.new_page]) :=
  ⟨by decide, by decide,
    (delete_pinned_rejected (run (BufferPoolManager.ctor 2 (DiskManager.ctor none)) [.new_page])
      2 1 (by decide) (by decide)).1⟩

/-! ## What holds while no call raises, and while no page is deleted -/

theorem okInv_init (n : Nat) (d : DiskManager) : okInv (BufferPoolManager.ctor n d).ctl := by
  refine ⟨?_, ?_, ?_⟩ <;> simp [BufferPoolManager.ctor, ctl, LRUReplacer.ctor]
  intro f h0 h1
  refine ⟨f.toNat, by omega, ?_⟩
  exact Int.toNat_of_nonneg h0

theorem took_split (c : Ctl) (_hi : poolInv c) (f : Int) (fl : List Int) (r0 : LRUReplacer)
    (h : c.took f fl r0) :
    (∀ g, g ∈ c.free_list → g ≠ f → g ∈ fl) ∧
    (∀ g, g ∈ c.replacer.nodes → g ≠ f → g ∈ r0.nodes) ∧
    (c.free_list = [] ∨ r0 = c.replacer) := by
  rcases h with ⟨h1, h2⟩ | ⟨h1, h2, h3⟩
  · refine ⟨?_, ?_, Or.inr h2⟩
    · intro g hg hgf
      rw [h1] at hg
      rcases List.mem_append.1 hg with e | e
      · exact e
      · simp at e; exact absurd e hgf
    · intro g hg _
      rw [h2]; exact hg
  · refine ⟨?_, ?_, Or.inl h1⟩
    · intro g hg
      rw [h1] at hg
      simp at hg
    · intro g hg hgf
      rw [h3] at hg
      rcases List.mem_append.1 hg with e | e
      · exact e
      · simp at e; exact absurd e hgf

theorem okInv_move (c t : Ctl) (k : MoveKind) (hm : Move c t k) (hk : k ≠ .lose)
    (hi : poolInv c) (ho : okInv c) : okInv t := by
  cases hm with
  | same h => rw [h]; exact ho
  | lose => exact absurd rfl hk
  | hit p f hp h =>
    subst h
    refine ⟨?_, ?_, ho.covered⟩
    · intro g hg
      exact ho.tracked_holds g ((mem_Pin _ _ _ hi.replacer_nodup).1 hg).2
    · intro g hft hpin
      have hgf : g ≠ f := by
        intro e
        subst e
        simp only [setAt_same] at hpin
        have := hi.pin_nonneg g
        omega
      simp only [setAt_other _ _ _ _ hgf] at hpin
      exact (mem_Pin _ _ _ hi.replacer_nodup).2 ⟨hgf, ho.idle_tracked g hft hpin⟩
  | load p f fl r0 ht h =>
    subst h
    obtain ⟨h1, h2, h3, h4, h5, h6, h7⟩ := took_facts c hi f fl r0 ht
    obtain ⟨s1, s2, s3⟩ := took_split c hi f fl r0 ht
    refine ⟨?_, ?_, ?_⟩
    · intro g hg
      obtain ⟨hgf, hgr⟩ := (mem_Pin _ _ _ h4).1 hg
      simp only [setAt_other _ _ _ _ hgf]
      rcases ho.tracked_holds g (h5 g hgr) with e | e
      · exact Or.inl e
      · exact Or.inr (s1 g e hgf)
    · intro g hft hpin
      have hgf : g ≠ f := by
        intro e
        subst e
        simp [setAt_same] at hpin
      simp only [setAt_other _ _ _ _ hgf] at hpin hft
      exact (mem_Pin _ _ _ h4).2 ⟨hgf, s2 g (ho.idle_tracked g hft hpin) hgf⟩
    · intro g hg0 hg1
      by_cases hgf : g = f
      · right; simp [hgf, setAt_same]
      · simp only [setAt_other _ _ _ _ hgf]
        rcases ho.covered g hg0 hg1 with e | e
        · exact Or.inl (s1 g e hgf)
        · exact Or.inr e
  | unpin p f hp hpin h =>
    subst h
    have hft : c.frame_table f = some p := hi.tables_agree p f hp
    refine ⟨?_, ?_, ho.covered⟩
    · intro g hg
      by_cases h0 : c.pin_count f - 1 = 0
      · simp only [h0, if_true] at hg
        rcases (mem_Unpin _ _ _).1 hg with e | e
        · left; rw [e, hft]; simp
        · exact ho.tracked_holds g e
      · simp only [h0, if_false] at hg
        exact ho.tracked_holds g hg
    · intro g hgt hgp
      by_cases hgf : g = f
      · subst hgf
        simp only [setAt_same] at hgp
        simp only [hgp, if_true]
        exact (mem_Unpin _ _ _).2 (Or.inl rfl)
      · simp only [setAt_other _ _ _ _ hgf] at hgp
        have := ho.idle_tracked g hgt hgp
        by_cases h0 : c.pin_count f - 1 = 0
        · simp only [h0, if_true]
          exact (mem_Unpin _ _ _).2 (Or.inr this)
        · simp only [h0, if_false]
          exact this
  | delete p f hp hpin h =>
    subst h
    refine ⟨?_, ?_, ?_⟩
    · intro g hg
      by_cases hgf : g = f
      · right; simp [hgf]
      · simp only [setAt_other _ _ _ _ hgf]
        rcases ho.tracked_holds g hg with e | e
        · exact Or.inl e
        · right; simp [e]
    · intro g hgt hgp
      have hgf : g ≠ f := by
        intro e
        subst e
        simp [setAt_same] at hgt
      simp only [setAt_other _ _ _ _ hgf] at hgt hgp
      exact ho.idle_tracked g hgt hgp
    · intro g hg0 hg1
      by_cases hgf : g = f
      · left; simp [hgf]
      · simp only [setAt_other _ _ _ _ hgf]
        rcases ho.covered g hg0 hg1 with e | e
        · left; simp [e]
        · exact Or.inr e

theorem invalid_not_listed (c : Ctl) (hi : poolInv c) :
    INVALID_FRAME_ID ∉ c.free_list ∧ INVALID_FRAME_ID ∉ c.replacer.nodes := by
  constructor
  · intro h
    have := (hi.free_range _ h).1
    simp [INVALID_FRAME_ID] at this
  · intro h
    have := (hi.replacer_range _ h).1
    simp [INVALID_FRAME_ID] at this

theorem okInv_exec (s : BufferPoolManager) (op : Op) (hi : poolInv s.ctl) (ho : okInv s.ctl)
    (hr : (exec s op).1.isRaised = false) : okInv (exec s op).2.ctl := by
  obtain ⟨k, hm, h1, _⟩ := exec_move s op
  refine okInv_move _ _ k hm ?_ hi ho
  intro hk
  rcases h1 hk with e | e | e
  · rw [hr] at e; exact absurd e (by simp)
  · exact (invalid_not_listed _ hi).1 e
  · exact (invalid_not_listed _ hi).2 e

theorem okInv_run (ops : List Op) (s : BufferPoolManager) (hi : poolInv s.ctl) (ho : okInv s.ctl)
    (hr : noRaise s ops = true) : okInv (run s ops).ctl := by
  induction ops generalizing s with
  | nil => exact ho
  | cons op rest ih =>
    simp only [noRaise, Bool.and_eq_true, Bool.not_eq_true'] at hr
    exact ih _ (poolInv_exec s op hi) (okInv_exec s op hi ho hr.1) hr.2

theorem holdInv_move (c t : Ctl) (k : MoveKind) (hm : Move c t k) (hk : k ≠ .delete)
    (hi : poolInv c) (ho : holdInv c) : holdInv t := by
  cases hm with
  | same h => rw [h]; exact ho
  | delete => exact absurd rfl hk
  | hit p f hp h =>
    subst h
    intro g hg
    exact ho g ((mem_Pin _ _ _ hi.replacer_nodup).1 hg).2
  | lose f fl r0 pt1 ht hpt h =>
    subst h
    obtain ⟨h1, h2, h3, h4, h5, h6, h7⟩ := took_facts c hi f fl r0 ht
    intro g hg
    exact ho g (h5 g hg)
  | load p f fl r0 ht h =>
    subst h
    obtain ⟨h1, h2, h3, h4, h5, h6, h7⟩ := took_facts c hi f fl r0 ht
    intro g hg
    obtain ⟨hgf, hgr⟩ := (mem_Pin _ _ _ h4).1 hg
    simp only [setAt_other _ _ _ _ hgf]
    exact ho g (h5 g hgr)
  | unpin p f hp hpin h =>
    subst h
    have hft : c.frame_table f = some p := hi.tables_agree p f hp
    intro g hg
    by_cases h0 : c.pin_count f - 1 = 0
    · simp only [h0, if_true] at hg
      rcases (mem_Unpin _ _ _).1 hg with e | e
      · show c.frame_table g ≠ none
        rw [e, hft]; simp
      · exact ho g e
    · simp only [h0, if_false] at hg
      exact ho g hg

theorem holdInv_run (ops : List Op) (s : BufferPoolManager) (hi : poolInv s.ctl)
    (ho : holdInv s.ctl) (hd : noDelete ops = true) : holdInv (run s ops).ctl := by
  induction ops generalizing s with
  | nil => exact ho
  | cons op rest ih =>
    simp only [noDelete, List.all_cons, Bool.and_eq_true, Bool.not_eq_true'] at hd
    refine ih _ (poolInv_exec s op hi) ?_ (by simpa [noDelete] using hd.2)
    obtain ⟨k, hm, _, h2⟩ := exec_move s op
    refine holdInv_move _ _ k hm ?_ hi ho
    intro hk
    have := h2 hk
    rw [hd.1] at this
    exact absurd this (by simp)

theorem run_pool_size (ops : List Op) (s : BufferPoolManager) :
    (run s ops).pool_size = s.pool_size := by
  induction ops generalizing s with
  | nil => rfl
  | cons op rest ih =>
    simp only [run]
    rw [ih]
    obtain ⟨k, hm, _, _⟩ := exec_move s op
    cases hm with
    | same h => exact congrArg Ctl.pool_size h
    | hit p f hp h => exact congrArg Ctl.pool_size h
    | lose f fl r0 pt1 ht hpt h => exact congrArg Ctl.pool_size h
    | load p f fl r0 ht h => exact congrArg Ctl.pool_size h
    | unpin p f hp hpin h => exact congrArg Ctl.pool_size h
    | delete p f hp hpin h => exact congrArg Ctl.pool_size h

/-! ## The three sets of frames -/

/-- C6 (amended): after any sequence of calls, a frame of the pool that holds a page
with a positive pin count is neither in the free list nor in the replacer, and a frame
that is in both lists holds no page (it was freed by delete and is still tracked). When
none of the calls raised a store error, the frame is in the free list, or in the
replacer, or holds a page with a positive pin count; and when moreover no call was a
delete, it is in exactly one of the three sets. -/
theorem frames_partitioned_without_store_error (pool_size : Nat) (d : DiskManager)
    (ops : List Op) (f : Int) (h0 : 0 ≤ f) (h1 : f < (pool_size : Int)) :
    ¬ (f ∈ (run (BufferPoolManager.ctor pool_size d) ops).free_list ∧
      (run (BufferPoolManager.ctor pool_size d) ops).pinnedFrame f) ∧
    ¬ (f ∈ (run (BufferPoolManager.ctor pool_size d) ops).replacer.nodes ∧
      (run (BufferPoolManager.ctor pool_size d) ops).pinnedFrame f) ∧
    (f ∈ (run (BufferPoolManager.ctor pool_size d) ops).free_list →
      f ∈ (run (BufferPoolManager.ctor pool_size d) ops).replacer.nodes →
      (run (BufferPoolManager.ctor pool_size d) ops).frame_table f = none) ∧
    (noRaise (BufferPoolManager.ctor pool_size d) ops = true →
      (f ∈ (run (BufferPoolManager.ctor pool_size d) ops).free_list ∨
        f ∈ (run (BufferPoolManager.ctor pool_size d) ops).replacer.nodes ∨
        (run (BufferPoolManager.ctor pool_size d) ops).pinnedFrame f)) ∧
    (noRaise (BufferPoolManager.ctor pool_size d) ops = true → noDelete ops = true →
      exactlyOne (f ∈ (run (BufferPoolManager.ctor pool_size d) ops).free_list)
        (f ∈ (run (BufferPoolManager.ctor pool_size d) ops).replacer.nodes)
        ((run (BufferPoolManager.ctor pool_size d) ops).pinnedFrame f)) := by
  have hi : poolInv (run (BufferPoolManager.ctor pool_size d) ops).ctl :=
    poolInv_run ops _ (poolInv_init pool_size d)
  have ho : noRaise (BufferPoolManager.ctor pool_size d) ops = true →
      okInv (run (BufferPoolManager.ctor pool_size d) ops).ctl :=
    fun hr => okInv_run ops _ (poolInv_init pool_size d) (okInv_init pool_size d) hr
  have hh : noDelete ops = true → holdInv (run (BufferPoolManager.ctor pool_size d) ops).ctl :=
    fun hd => holdInv_run ops _ (poolInv_init pool_size d)
      (by simp [holdInv, BufferPoolManager.ctor, ctl, LRUReplacer.ctor]) hd
  have hps : (run (BufferPoolManager.ctor pool_size d) ops).pool_size = pool_size :=
    run_pool_size ops _
  generalize noRaise (BufferPoolManager.ctor pool_size d) ops = nr at ho
  generalize run (BufferPoolManager.ctor pool_size d) ops = s at hi ho hh hps
  have hcov : nr = true → f ∈ s.free_list ∨ f ∈ s.replacer.nodes ∨ s.pinnedFrame f := by
    intro hr
    rcases (ho hr).covered f h0 (by show f < (s.pool_size : Int); rw [hps]; exact h1) with e | e
    · exact Or.inl e
    · by_cases hz : s.pin_count f = 0
      · exact Or.inr (Or.inl ((ho hr).idle_tracked f e hz))
      · have hnn : 0 ≤ s.pin_count f := hi.pin_nonneg f
        exact Or.inr (Or.inr ⟨e, by show 0 < s.pin_count f; omega⟩)
  have hfree : ¬ (f ∈ s.free_list ∧ s.pinnedFrame f) := by
    rintro ⟨a, _, b⟩
    have := hi.free_unpinned f a
    have b' : 0 < s.pin_count f := b
    have this' : s.pin_count f = 0 := this
    omega
  have hrep : ¬ (f ∈ s.replacer.nodes ∧ s.pinnedFrame f) := by
    rintro ⟨a, _, b⟩
    have := hi.replacer_unpinned f a
    have b' : 0 < s.pin_count f := b
    have this' : s.pin_count f = 0 := this
    omega
  refine ⟨hfree, hrep, fun a _ => hi.free_empty f a, hcov, ?_⟩
  intro hr hd
  have hc := hcov hr
  have hboth : ¬ (f ∈ s.free_list ∧ f ∈ s.replacer.nodes) := by
    rintro ⟨a, b⟩
    exact hh hd f b (hi.free_empty f a)
  unfold exactlyOne
  tauto

/-- Witness for C6 (amended): frame 0 of a pool of one frame after new_page and unpin. -/
theorem frames_partitioned_without_store_error_witness :
    exactlyOne
      ((0 : Int) ∈ (run (BufferPoolManager.ctor 1 (DiskManager.ctor none))
        [.new_page, .unpin 2 false]).free_list)
      ((0 : Int) ∈ (run (BufferPoolManager.ctor 1 (DiskManager.ctor none))
        [.new_page, .unpin 2 false]).replacer.nodes)
      ((run (BufferPoolManager.ctor 1 (DiskManager.ctor none))
        [.new_page, .unpin 2 false]).pinnedFrame 0) :=
  (frames_partitioned_without_store_error 1 (DiskManager.ctor none) [.new_page, .unpin 2 false]
    0 (by decide) (by decide)).2.2.2.2 (by decide) (by decide)

/-- Counterexample to C6 as stated: in a pool of one frame over a new store, after
new_page, unpin(2) and delete(2) (none of which raises) frame 0 is in the free list and
in the replacer at once; and after a fetch of page 100, which raises the out-of-range
error of the store, frame 0 is in none of the three sets. -/
theorem frames_partition_counterexample :
    (noRaise (BufferPoolManager.ctor 1 (DiskManager.ctor none))
        [.new_page, .unpin 2 false, .delete 2] = true ∧
      ¬ exactlyOne
        ((0 : Int) ∈ (run (BufferPoolManager.ctor 1 (DiskManager.ctor none))
          [.new_page, .unpin 2 false, .delete 2]).free_list)
        ((0 : Int) ∈ (run (BufferPoolManager.ctor 1 (DiskManager.ctor none))
          [.new_page, .unpin 2 false, .delete 2]).replacer.nodes)
        ((run (BufferPoolManager.ctor 1 (DiskManager.ctor none))
          [.new_page, .unpin 2 false, .delete 2]).pinnedFrame 0)) ∧
    ((exec (BufferPoolManager.ctor 1 (DiskManager.ctor none)) (.fetch 100)).1
        = .raised .out_of_range ∧
      ¬ exactlyOne
        ((0 : Int) ∈ (run (BufferPoolManager.ctor 1 (DiskManager.ctor none))
          [.fetch 100]).free_list)
        ((0 : Int) ∈ (run (BufferPoolManager.ctor 1 (DiskManager.ctor none))
          [.fetch 100]).replacer.nodes)
        ((run (BufferPoolManager.ctor 1 (DiskManager.ctor none)) [.fetch 100]).pinnedFrame 0)) := by
  refine ⟨⟨by decide, ?_⟩, ⟨by decide, ?_⟩⟩
  · have a : (0 : Int) ∈ (run (BufferPoolManager.ctor 1 (DiskManager.ctor none))
        [.new_page, .unpin 2 false, .delete 2]).free_list := by decide
    have b : (0 : Int) ∈ (run (BufferPoolManager.ctor 1 (DiskManager.ctor none))
        [.new_page, .unpin 2 false, .delete 2]).replacer.nodes := by decide
    unfold exactlyOne
    tauto
  · have a : (0 : Int) ∉ (run (BufferPoolManager.ctor 1 (DiskManager.ctor none))
        [.fetch 100]).free_list := by decide
    have b : (0 : Int) ∉ (run (BufferPoolManager.ctor 1 (DiskManager.ctor none))
        [.fetch 100]).replacer.nodes := by decide
    have c : ¬ (run (BufferPoolManager.ctor 1 (DiskManager.ctor none))
        [.fetch 100]).pinnedFrame 0 := by
      rintro ⟨_, h⟩
      revert h
      decide
    unfold exactlyOne
    tauto

/-! ## Capacity exhaustion -/

theorem evictForNew_ok (s : BufferPoolManager) (f : Int)
    (h : s.disk_manager.failbit = false ∨ s.frame_table f = none ∨ s.dirty f = false) :
    (s.evictForNew f).1 = none := by
  unfold evictForNew
  cases hft : s.frame_table f with
  | none => rfl
  | some old =>
    simp only
    by_cases hd : s.dirty f = true
    · have hfb : s.disk_manager.failbit = false := by
        rcases h with h | h | h
        · exact h
        · rw [hft] at h; exact absurd h (by simp)
        · rw [hd] at h; exact absurd h (by simp)
      have : (s.disk_manager.WritePage old (s.pages f)).1 = .ok () := by
        unfold DiskManager.WritePage
        by_cases hge : old ≥ s.disk_manager.num_pages <;> simp [hge, hfb]
      simp only [hd, if_true]
      cases hw : s.disk_manager.WritePage old (s.pages f) with
      | mk r d2 =>
        rw [hw] at this
        simp only at this
        subst this
        rfl
    · simp [hd]

theorem evictForNew_disk (s : BufferPoolManager) (f : Int) :
    (s.evictForNew f).2.disk_manager.failbit = s.disk_manager.failbit := by
  unfold evictForNew
  cases hft : s.frame_table f with
  | none => rfl
  | some old =>
    simp only
    by_cases hd : s.dirty f = true
    · simp only [hd, if_true]
      have : (s.disk_manager.WritePage old (s.pages f)).2.failbit = s.disk_manager.failbit := by
        unfold DiskManager.WritePage
        by_cases hge : old ≥ s.disk_manager.num_pages <;>
          by_cases hfb : s.disk_manager.failbit = true <;> simp [hge, hfb]
      cases hw : s.disk_manager.WritePage old (s.pages f) with
      | mk r d2 =>
        rw [hw] at this
        cases r <;> exact this
    · simp [hd]

/-- The result of `NewPage` when `GetVictimFrame` has nothing to give, and when it has. -/
theorem newPage_shape (s : BufferPoolManager) (hi : poolInv s.ctl) :
    (s.free_list = [] ∧ s.replacer.nodes = [] ∧ s.NewPage = (.ok none, s)) ∨
    (∃ f fl r0, s.ctl.took f fl r0 ∧ s.NewPage.1 ≠ .ok none ∧
      ((({ s with free_list := fl, replacer := r0 }).evictForNew f).1 = none →
        ∃ r, s.NewPage.1 = .ok (some r) ∧ s.NewPage.2.free_list = fl ∧
          s.NewPage.2.replacer = r0.Pin f)) := by
  rcases getVictim_cases s with ⟨f, fl, r0, htook, hg⟩ | ⟨h1, h2, hg⟩
  · right
    have hf : f ≠ INVALID_FRAME_ID := by
      intro e
      have := (took_facts s.ctl hi f fl r0 htook).2.2.2.2.2.2.1
      rw [e] at this
      simp [INVALID_FRAME_ID] at this
    refine ⟨f, fl, r0, htook, ?_, ?_⟩
    · unfold NewPage
      rw [hg]
      simp only [hf, if_false]
      cases he : evictForNew { s with free_list := fl, replacer := r0 } f with
      | mk e s2 => cases e <;> simp
    · intro hev
      unfold NewPage
      rw [hg]
      simp only [hf, if_false]
      have hctl := evictForNew_ctl { s with free_list := fl, replacer := r0 } f
      cases he : evictForNew { s with free_list := fl, replacer := r0 } f with
      | mk e s2 =>
        rw [he] at hev hctl
        simp only at hev
        subst hev
        simp only at hctl ⊢
        refine ⟨_, rfl, congrArg Ctl.free_list hctl, ?_⟩
        have : s2.replacer = r0 := congrArg Ctl.replacer hctl
        rw [this]
  · left
    refine ⟨h1, h2, ?_⟩
    unfold NewPage
    rw [hg]
    simp

theorem fetchPage_none_iff (s : BufferPoolManager) (hi : poolInv s.ctl) (page_id : Nat)
    (hp : ptFind s.page_table page_id = none) :
    (s.FetchPage page_id).1 = .ok none ↔ s.free_list = [] ∧ s.replacer.nodes = [] := by
  rcases getVictim_cases { s with miss_count := s.miss_count + 1 } with
    ⟨f, fl, r0, htook, hg⟩ | ⟨h1, h2, hg⟩
  · have htook' : s.ctl.took f fl r0 := htook
    have hf : f ≠ INVALID_FRAME_ID := by
      intro e
      have := (took_facts s.ctl hi f fl r0 htook').2.2.2.2.2.2.1
      rw [e] at this
      simp [INVALID_FRAME_ID] at this
    have hne : ¬ (s.free_list = [] ∧ s.replacer.nodes = []) := by
      rintro ⟨a, b⟩
      rcases htook' with ⟨c, _⟩ | ⟨_, _, c⟩
      · have c' : s.free_list = fl ++ [f] := c
        rw [a] at c'
        simp at c'
      · have c' : s.replacer.nodes = r0.nodes ++ [f] := c
        rw [b] at c'
        simp at c'
    have hres : (s.FetchPage page_id).1 ≠ .ok none := by
      unfold FetchPage
      rw [hp]
      simp only
      rw [hg]
      simp only [hf, if_false]
      cases he : evictForFetch
          { s with miss_count := s.miss_count + 1, free_list := fl, replacer := r0 } f with
      | mk e s2 =>
        cases e with
        | some err => simp
        | none =>
          simp only
          cases hr : s2.disk_manager.ReadPage page_id with
          | mk r d2 => cases r <;> simp
    constructor
    · intro h; exact absurd h hres
    · intro h; exact absurd h hne
  · have : (s.FetchPage page_id).1 = .ok none := by
      unfold FetchPage
      rw [hp]
      simp only
      rw [hg]
      simp
    simp only [this, true_iff]
    exact ⟨h1, h2⟩

theorem no_idle_iff (c : Ctl) (hi : poolInv c) (ho : okInv c) (hfree : c.free_list = []) :
    c.replacer.nodes = [] ↔ ∀ f, c.frame_table f ≠ none → c.pin_count f ≠ 0 := by
  constructor
  · intro hnil f hft hpin
    have := ho.idle_tracked f hft hpin
    rw [hnil] at this
    simp at this
  · intro h
    cases hn : c.replacer.nodes with
    | nil => rfl
    | cons g rest =>
      have hg : g ∈ c.replacer.nodes := by simp [hn]
      rcases ho.tracked_holds g hg with e | e
      · exact absurd (hi.replacer_unpinned g hg) (h g e)
      · rw [hfree] at e
        simp at e

theorem freshRun_step (s : BufferPoolManager) (m : Nat) (h : freshRun s (m + 1)) :
    (∃ r, s.NewPage.1 = .ok (some r)) ∧ freshRun s.NewPage.2 m := by
  obtain ⟨hi, hfl, hrp⟩ := h
  have hi2 : poolInv s.NewPage.2.ctl := poolInv_exec s .new_page hi
  rcases newPage_shape s hi with ⟨h1, _, _⟩ | ⟨f, fl, r0, htook, _, hok⟩
  · rw [hfl, List.range_succ] at h1
    simp at h1
  · have hfl2 : s.free_list = (List.range m).map Int.ofNat ++ [Int.ofNat m] := by
      rw [hfl, List.range_succ]
      simp
    rcases htook with ⟨c, c2⟩ | ⟨c, _, _⟩
    · have c' : s.free_list = fl ++ [f] := c
      rw [hfl2] at c'
      have := List.append_inj' c' rfl
      obtain ⟨e1, e2⟩ := this
      simp only [List.cons.injEq, and_true] at e2
      have hfm : f ∈ s.free_list := by
        have c3 : s.free_list = fl ++ [f] := c
        rw [c3]; simp
      have hft : s.frame_table f = none := hi.free_empty f hfm
      obtain ⟨r, hr1, hr2, hr3⟩ := hok (evictForNew_ok _ f (Or.inr (Or.inl hft)))
      refine ⟨⟨r, hr1⟩, hi2, ?_, ?_⟩
      · rw [hr2, ← e1]
      · rw [hr3, c2]
        show (s.replacer.Pin f).nodes = []
        simp [LRUReplacer.Pin, hrp]
    · have c' : s.free_list = [] := c
      rw [hfl2] at c'
      simp at c'

theorem freshRun_run (k m : Nat) (s : BufferPoolManager) (h : freshRun s (m + k)) :
    freshRun (run s (List.replicate k .new_page)) m := by
  induction k generalizing s with
  | zero => simpa using h
  | succ k ih =>
    simp only [List.replicate, run]
    apply ih
    have : m + (k + 1) = (m + k) + 1 := by omega
    rw [this] at h
    exact (freshRun_step s (m + k) h).2

theorem freshRun_init (n : Nat) (d : DiskManager) : freshRun (BufferPoolManager.ctor n d) n :=
  ⟨poolInv_init n d, rfl, rfl⟩

theorem unpinPage_tracks (s : BufferPoolManager) (page_id : Nat) (is_dirty : Bool) (f : Int)
    (hp : ptFind s.page_table page_id = some f) (hres : (s.UnpinPage page_id is_dirty).1 = true)
    (hz : (s.UnpinPage page_id is_dirty).2.pin_count f = 0) :
    f ∈ (s.UnpinPage page_id is_dirty).2.replacer.nodes ∧
    (s.UnpinPage page_id is_dirty).2.disk_manager = s.disk_manager := by
  unfold UnpinPage at hres hz ⊢
  simp only [hp] at hres hz ⊢
  by_cases hpin : s.pin_count f ≤ 0
  · simp [hpin] at hres
  · simp only [hpin, if_false] at hz ⊢
    cases is_dirty <;> by_cases h0 : s.pin_count f - 1 = 0 <;>
      simp_all [setAt_same, mem_Unpin]

/-- C8 (amended): new_page returns none exactly when the free list and the replacer are
both empty, and a new_page that returns none leaves the pool and the store as they were
(nothing is allocated); in a state reached by calls none of which raised a store error,
new_page (and a fetch of a page that is not resident) returns none exactly when the free
list is empty and no frame that holds a page has pin count zero; after an unpin that
brings the pin count of a resident page to zero the next new_page does not return none,
and returns a page when the stream of the store has not failed; and on a new pool of n
frames the first n new_page calls succeed and the next one returns none. -/
theorem capacity_exhaustion (pool_size : Nat) (d : DiskManager) (ops : List Op) :
    (noRaise (BufferPoolManager.ctor pool_size d) ops = true →
      ((run (BufferPoolManager.ctor pool_size d) ops).NewPage.1 = .ok none ↔
        ((run (BufferPoolManager.ctor pool_size d) ops).free_list = [] ∧
          ∀ f, (run (BufferPoolManager.ctor pool_size d) ops).frame_table f ≠ none →
            (run (BufferPoolManager.ctor pool_size d) ops).pin_count f ≠ 0))) ∧
    (noRaise (BufferPoolManager.ctor pool_size d) ops = true →
      ∀ page_id,
        ptFind (run (BufferPoolManager.ctor pool_size d) ops).page_table page_id = none →
        (((run (BufferPoolManager.ctor pool_size d) ops).FetchPage page_id).1 = .ok none ↔
          ((run (BufferPoolManager.ctor pool_size d) ops).free_list = [] ∧
            ∀ f, (run (BufferPoolManager.ctor pool_size d) ops).frame_table f ≠ none →
              (run (BufferPoolManager.ctor pool_size d) ops).pin_count f ≠ 0))) ∧
    ((run (BufferPoolManager.ctor pool_size d) ops).NewPage.1 = .ok none ↔
      ((run (BufferPoolManager.ctor pool_size d) ops).free_list = [] ∧
        (run (BufferPoolManager.ctor pool_size d) ops).replacer.nodes = [])) ∧
    ((run (BufferPoolManager.ctor pool_size d) ops).NewPage.1 = .ok none →
      (run (BufferPoolManager.ctor pool_size d) ops).NewPage.2 =
        run (BufferPoolManager.ctor pool_size d) ops) ∧
    (∀ page_id is_dirty f,
      ptFind (run (BufferPoolManager.ctor pool_size d) ops).page_table page_id = some f →
      ((run (BufferPoolManager.ctor pool_size d) ops).UnpinPage page_id is_dirty).1 = true →
      ((run (BufferPoolManager.ctor pool_size d) ops).UnpinPage page_id is_dirty).2.pin_count f
        = 0 →
      ((run (BufferPoolManager.ctor pool_size d) ops).UnpinPage page_id is_dirty).2.NewPage.1
        ≠ .ok none ∧
      ((run (BufferPoolManager.ctor pool_size d) ops).disk_manager.failbit = false →
        ∃ r, ((run (BufferPoolManager.ctor pool_size d) ops).UnpinPage page_id
          is_dirty).2.NewPage.1 = .ok (some r))) ∧
    (∀ k, k < pool_size →
      ∃ r, (run (BufferPoolManager.ctor pool_size d) (List.replicate k .new_page)).NewPage.1
        = .ok (some r)) ∧
    (run (BufferPoolManager.ctor pool_size d) (List.replicate pool_size .new_page)).NewPage.1
      = .ok none := by
  have hi : poolInv (run (BufferPoolManager.ctor pool_size d) ops).ctl :=
    poolInv_run ops _ (poolInv_init pool_size d)
  have ho : noRaise (BufferPoolManager.ctor pool_size d) ops = true →
      okInv (run (BufferPoolManager.ctor pool_size d) ops).ctl :=
    fun hr => okInv_run ops _ (poolInv_init pool_size d) (okInv_init pool_size d) hr
  have key : ∀ s : BufferPoolManager, poolInv s.ctl →
      (s.NewPage.1 = .ok none ↔ s.free_list = [] ∧ s.replacer.nodes = []) := by
    intro s hi
    rcases newPage_shape s hi with ⟨h1, h2, h3⟩ | ⟨f, fl, r0, htook, hne, _⟩
    · simp [h1, h2, h3]
    · constructor
      · intro h; exact absurd h hne
      · rintro ⟨a, b⟩
        rcases htook with ⟨c, _⟩ | ⟨_, _, c⟩
        · have c' : s.free_list = fl ++ [f] := c
          rw [a] at c'
          simp at c'
        · have c' : s.replacer.nodes = r0.nodes ++ [f] := c
          rw [b] at c'
          simp at c'
  refine ⟨?_, ?_, key _ hi, ?_, ?_, ?_, ?_⟩
  · intro hr
    have ho := ho hr
    generalize run (BufferPoolManager.ctor pool_size d) ops = s at hi ho
    rw [key s hi]
    constructor
    · rintro ⟨a, b⟩
      exact ⟨a, (no_idle_iff s.ctl hi ho a).1 b⟩
    · rintro ⟨a, b⟩
      exact ⟨a, (no_idle_iff s.ctl hi ho a).2 b⟩
  · intro hr
    have ho := ho hr
    generalize run (BufferPoolManager.ctor pool_size d) ops = s at hi ho
    intro page_id hp
    rw [fetchPage_none_iff s hi page_id hp]
    constructor
    · rintro ⟨a, b⟩
      exact ⟨a, (no_idle_iff s.ctl hi ho a).1 b⟩
    · rintro ⟨a, b⟩
      exact ⟨a, (no_idle_iff s.ctl hi ho a).2 b⟩
  · generalize run (BufferPoolManager.ctor pool_size d) ops = s at hi
    intro h
    rcases newPage_shape s hi with ⟨_, _, h3⟩ | ⟨f, fl, r0, _, hne, _⟩
    · rw [h3]
    · exact absurd h hne
  · generalize run (BufferPoolManager.ctor pool_size d) ops = s at hi
    intro page_id is_dirty f hp hres hz
    obtain ⟨hmem, hdisk⟩ := unpinPage_tracks s page_id is_dirty f hp hres hz
    have hi2 : poolInv (s.UnpinPage page_id is_dirty).2.ctl :=
      poolInv_exec s (.unpin page_id is_dirty) hi
    rcases newPage_shape _ hi2 with ⟨_, h2, _⟩ | ⟨g, fl, r0, _, hne, hok⟩
    · rw [h2] at hmem
      simp at hmem
    · refine ⟨hne, ?_⟩
      intro hfb
      obtain ⟨r, hr1, _⟩ := hok (evictForNew_ok _ g (Or.inl (by
        show (s.UnpinPage page_id is_dirty).2.disk_manager.failbit = false
        rw [hdisk]
        exact hfb)))
      exact ⟨r, hr1⟩
  · intro k hk
    have h1 : freshRun (BufferPoolManager.ctor pool_size d) ((pool_size - k - 1 + 1) + k) := by
      have : (pool_size - k - 1 + 1) + k = pool_size := by omega
      rw [this]
      exact freshRun_init pool_size d
    exact (freshRun_step _ _ (freshRun_run k _ _ h1)).1
  · have h1 : freshRun (BufferPoolManager.ctor pool_size d) (0 + pool_size) := by
      rw [Nat.zero_add]
      exact freshRun_init pool_size d
    obtain ⟨hi3, hfl, hrp⟩ := freshRun_run pool_size 0 _ h1
    rcases newPage_shape _ hi3 with ⟨_, _, h3⟩ | ⟨f, fl, r0, htook, _, _⟩
    · rw [h3]
    · rcases htook with ⟨c, _⟩ | ⟨_, _, c⟩
      · have c' : (run (BufferPoolManager.ctor pool_size d)
            (List.replicate pool_size .new_page)).free_list = fl ++ [f] := c
        rw [hfl] at c'
        simp at c'
      · have c' : (run (BufferPoolManager.ctor pool_size d)
            (List.replicate pool_size .new_page)).replacer.nodes = r0.nodes ++ [f] := c
        rw [hrp] at c'
        simp at c'

/-- Witness for C8 (amended): a pool of two frames over a new store. After two new_page calls the
third returns none and changes nothing; after unpin(2) the next new_page returns a
page. -/
theorem capacity_exhaustion_witness :
    (run (BufferPoolManager.ctor 2 (DiskManager.ctor none)) [.new_page, .new_page]).NewPage.1
      = .ok none ∧
    (run (BufferPoolManager.ctor 2 (DiskManager.ctor none)) [.new_page, .new_page]).NewPage.2
      = run (BufferPoolManager.ctor 2 (DiskManager.ctor none)) [.new_page, .new_page] ∧
    (∃ r, ((run (BufferPoolManager.ctor 2 (DiskManager.ctor none))
      [.new_page, .new_page]).UnpinPage 2 false).2.NewPage.1 = .ok (some r)) :=
  ⟨(capacity_exhaustion 2 (DiskManager.ctor none) [.new_page, .new_page]).2.2.1.2
      ⟨by decide, by decide⟩,
    (capacity_exhaustion 2 (DiskManager.ctor none) [.new_page, .new_page]).2.2.2.1
      ((capacity_exhaustion 2 (DiskManager.ctor none) [.new_page, .new_page]).2.2.1.2
        ⟨by decide, by decide⟩),
    ((capacity_exhaustion 2 (DiskManager.ctor none) [.new_page, .new_page]).2.2.2.2.1
      2 false 1 (by decide) (by decide) (by decide)).2 (by decide)⟩

/-- Counterexample to C8 as stated: a pool of one frame over a new store; page 2 is
created, unpinned and deleted (the frame goes to the free list and stays in the
replacer), and a fetch of page 100 takes the frame from the free list before the store
raises its out-of-range error. Now the free list is empty, the page table is empty and
no frame holds a page, so no resident frame has pin count zero; yet new_page does not
return none: it takes the frame from the replacer and returns page 2. -/
theorem capacity_exhaustion_counterexample :
    (exec (run (BufferPoolManager.ctor 1 (DiskManager.ctor none))
      [.new_page, .unpin 2 false, .delete 2]) (.fetch 100)).1 = .raised .out_of_range ∧
    staleEntryState.free_list = [] ∧
    staleEntryState.page_table = [] ∧
    (∀ f, staleEntryState.frame_table f = none) ∧
    (exec staleEntryState .new_page).1 = .created (some (2, 0)) := by
  refine ⟨by decide, by decide, by decide, ?_, by decide⟩
  intro f
  have hi : poolInv staleEntryState.ctl := poolInv_run _ _ (poolInv_init 1 (DiskManager.ctor none))
  by_contra hne
  have hr := hi.holder_range f hne
  have hps : staleEntryState.ctl.pool_size = 1 := by decide
  rw [hps] at hr
  have hf : f = 0 := by omega
  rw [hf] at hne
  exact hne (by decide)

/-! ## The pool is a transparent cache -/

theorem fileSlot_nil (j : Nat) : fileSlot [] j = Page.zero := by
  simp [fileSlot]

theorem fileSlot_cons_zero (x : Page) (rest : List Page) : fileSlot (x :: rest) 0 = x := by
  simp [fileSlot]

theorem fileSlot_cons_succ (x : Page) (rest : List Page) (j : Nat) :
    fileSlot (x :: rest) (j + 1) = fileSlot rest j := by
  simp [fileSlot]

theorem fileSlot_fileWrite (file : List Page) (i j : Nat) (pg : Page) :
    fileSlot (fileWrite file i pg) j = if j = i then pg else fileSlot file j := by
  induction file generalizing i j with
  | nil =>
    induction i generalizing j with
    | zero =>
      cases j with
      | zero => simp [fileWrite, fileSlot]
      | succ j => simp [fileWrite, fileSlot]
    | succ i ih =>
      cases j with
      | zero => simp [fileWrite, fileSlot]
      | succ j =>
        simp only [fileWrite, fileSlot_cons_succ, ih j]
        simp [fileSlot_nil]
  | cons x rest ih =>
    cases i with
    | zero =>
      cases j with
      | zero => simp [fileWrite, fileSlot]
      | succ j => simp [fileWrite, fileSlot]
    | succ i =>
      cases j with
      | zero => simp [fileWrite, fileSlot]
      | succ j =>
        simp only [fileWrite, fileSlot_cons_succ, ih i j]
        simp

theorem writePage_ok (d : DiskManager) (p : Nat) (pg : Page) (d2 : DiskManager) (u : Unit)
    (h : d.WritePage p pg = (.ok u, d2)) :
    d2.file = fileWrite d.file p pg ∧ d2.free_pages = d.free_pages ∧ d2.failbit = false ∧
    d.failbit = false ∧
    (p < d.num_pages → d2.num_pages = d.num_pages) := by
  unfold DiskManager.WritePage at h
  by_cases hge : p ≥ d.num_pages
  · by_cases hfb : d.failbit = true
    · simp [hge, hfb] at h
    · simp only [hge, if_true, hfb] at h
      simp only [Bool.false_eq_true, if_false, Prod.mk.injEq] at h
      obtain ⟨_, rfl⟩ := h
      refine ⟨rfl, rfl, by simp [hfb], by simpa using hfb, fun hlt => by omega⟩
  · by_cases hfb : d.failbit = true
    · simp [hge, hfb] at h
    · simp only [hge, if_false, hfb] at h
      simp only [Bool.false_eq_true, if_false, Prod.mk.injEq] at h
      obtain ⟨_, rfl⟩ := h
      exact ⟨rfl, rfl, by simp [hfb], by simpa using hfb, fun _ => rfl⟩

theorem readPage_ok (d : DiskManager) (p : Nat) (pg : Page) (d2 : DiskManager)
    (h : d.ReadPage p = (.ok pg, d2)) :
    d2 = d ∧ p < d.num_pages ∧ pg = fileSlot d.file p ∧ p < d.file.length := by
  unfold DiskManager.ReadPage at h
  by_cases hge : p ≥ d.num_pages
  · simp [hge] at h
  · by_cases hfb : d.failbit = true
    · simp [hge, hfb] at h
    · simp only [hge, if_false, hfb] at h
      cases hget : d.file[p]? with
      | none =>
        rw [List.get?_eq_getElem?, hget] at h
        simp at h
      | some x =>
        rw [List.get?_eq_getElem?, hget] at h
        simp only [Prod.mk.injEq, Except.ok.injEq] at h
        obtain ⟨rfl, rfl⟩ := h
        have hlt : p < d.file.length := by
          by_contra hcon
          have : d.file[p]? = none := List.getElem?_eq_none (by omega)
          rw [this] at hget
          exact absurd hget (by simp)
        refine ⟨rfl, by omega, ?_, hlt⟩
        simp only [fileSlot, List.getD_eq_getElem?_getD]
        rw [hget]
        simp only [Option.getD_some]

theorem updateChecksum_data (p : Page) : p.UpdateChecksum.data = p.data := by
  simp [Page.UpdateChecksum]

/-- The relation only looks at the two tables, the data areas, the dirty bits and the
store; where a clean frame becomes dirty it is kept. -/
theorem dataInv_mono (s t : BufferPoolManager) (m : PageMap) (h : dataInv s m)
    (hpt : t.page_table = s.page_table) (hft : t.frame_table = s.frame_table)
    (hpg : ∀ f, (t.pages f).data = (s.pages f).data) (hd : t.disk_manager = s.disk_manager)
    (hdirty : ∀ f, t.dirty f = false → s.dirty f = false) : dataInv t m := by
  refine ⟨?_, ?_, ?_, ?_, ?_, ?_, ?_⟩
  · intro f p; rw [hpt, hft]; exact h.frames_agree f p
  · intro p f; rw [hpt, hft]; exact h.tables_agree p f
  · intro p f; rw [hpt, hd]; exact h.resident_lt p f
  · rw [hd]; exact h.no_recycled
  · intro p f; rw [hpt, hpg]; exact h.resident_data p f
  · intro p f hp hdf; rw [hd]; rw [hpt] at hp; exact h.clean_on_disk p f hp (hdirty f hdf)
  · intro p hp; rw [hd]; rw [hpt] at hp; exact h.absent_on_disk p hp

theorem dataInv.injective {s : BufferPoolManager} {m : PageMap} (h : dataInv s m) (p q : Nat)
    (f : Int) (hp : ptFind s.page_table p = some f) (hq : ptFind s.page_table q = some f) :
    p = q := by
  have h1 := h.tables_agree p f hp
  have h2 := h.tables_agree q f hq
  rw [h1] at h2
  exact Option.some.inj h2

/-- Writing a resident page back: the frame keeps its data area (only the checksum may
change), the slot of the page receives the frame, and the frame becomes clean (or stays
as it is). -/
theorem dataInv_writeback (s t : BufferPoolManager) (m : PageMap) (h : dataInv s m) (p : Nat)
    (f : Int) (pg : Page) (d2 : DiskManager) (u : Unit)
    (hp : ptFind s.page_table p = some f) (hpg : pg.data = (s.pages f).data)
    (hw : s.disk_manager.WritePage p pg = (.ok u, d2))
    (hpt : t.page_table = s.page_table) (hft : t.frame_table = s.frame_table)
    (htp : ∀ g, (t.pages g).data = (s.pages g).data) (hd : t.disk_manager = d2)
    (hdirty : ∀ g, g ≠ f → t.dirty g = false → s.dirty g = false) : dataInv t m := by
  obtain ⟨w1, w2, _, _, w5⟩ := writePage_ok _ _ _ _ _ hw
  have hlt := h.resident_lt p f hp
  have hslot : ∀ q, (fileSlot d2.file q).data =
      if q = p then (s.pages f).data else (fileSlot s.disk_manager.file q).data := by
    intro q
    rw [w1, fileSlot_fileWrite]
    by_cases hq : q = p
    · simp [hq, hpg]
    · simp [hq]
  refine ⟨?_, ?_, ?_, ?_, ?_, ?_, ?_⟩
  · intro g q; rw [hpt, hft]; exact h.frames_agree g q
  · intro q g; rw [hpt, hft]; exact h.tables_agree q g
  · intro q g hq
    rw [hpt] at hq
    rw [hd, w5 hlt]
    exact h.resident_lt q g hq
  · rw [hd, w2]; exact h.no_recycled
  · intro q g hq
    rw [hpt] at hq
    rw [htp]
    exact h.resident_data q g hq
  · intro q g hq hdg
    rw [hpt] at hq
    rw [hd, hslot]
    by_cases hqp : q = p
    · simp only [hqp, if_true]
      exact h.resident_data p f hp
    · simp only [hqp, if_false]
      have hgf : g ≠ f := fun e => hqp (h.injective q p f (e ▸ hq) hp)
      exact h.clean_on_disk q g hq (hdirty g hgf hdg)
  · intro q hq
    rw [hpt] at hq
    rw [hd, hslot]
    have hqp : q ≠ p := by
      intro e
      rw [e, hp] at hq
      exact absurd hq (by simp)
    simp only [hqp, if_false]
    exact h.absent_on_disk q hq

/-- After the page that frame `f` held has left the page table (written back first when
the frame was dirty), the relation holds in its middle form. -/
theorem dataInv_evicted (s t : BufferPoolManager) (m : PageMap) (h : dataInv s m) (f : Int)
    (hpt : t.page_table = s.ctl.erased f) (hft : t.frame_table = s.frame_table)
    (htp : ∀ g, (t.pages g).data = (s.pages g).data)
    (hd : t.disk_manager = s.disk_manager) (hdirty : t.dirty = s.dirty)
    (hslot : ∀ old, s.frame_table f = some old →
      (fileSlot s.disk_manager.file old).data = m old) : midInv t m f := by
  have hsub : ∀ q g, ptFind t.page_table q = some g → ptFind s.page_table q = some g := by
    intro q g hq
    rw [hpt] at hq
    exact ptFind_erased s.ctl f q g hq
  have hno : ∀ q, ptFind t.page_table q ≠ some f := by
    intro q hq
    have h0 := hsub q f hq
    have h1 := h.tables_agree q f h0
    rw [hpt] at hq
    unfold Ctl.erased at hq
    have h1' : s.ctl.frame_table f = some q := h1
    simp only [h1', ptFind_ptErase, if_true] at hq
    exact absurd hq (by simp)
  have habs : ∀ q, ptFind t.page_table q = none →
      ptFind s.page_table q = none ∨ s.frame_table f = some q := by
    intro q hq
    rw [hpt] at hq
    unfold Ctl.erased at hq
    cases hfo : s.frame_table f with
    | none =>
      have hfo' : s.ctl.frame_table f = none := hfo
      rw [hfo'] at hq
      exact Or.inl hq
    | some old =>
      have hfo' : s.ctl.frame_table f = some old := hfo
      rw [hfo'] at hq
      simp only [ptFind_ptErase] at hq
      by_cases hqo : q = old
      · right; rw [hqo]
      · simp only [hqo, if_false] at hq
        exact Or.inl hq
  refine ⟨?_, ?_, hno, ?_, ?_, ?_, ?_, ?_⟩
  · intro g q hgf hg
    rw [hft] at hg
    have h0 := h.frames_agree g q hg
    rw [hpt]
    unfold Ctl.erased
    cases hfo : s.frame_table f with
    | none =>
      have hfo' : s.ctl.frame_table f = none := hfo
      rw [hfo']
      exact h0
    | some old =>
      have hfo' : s.ctl.frame_table f = some old := hfo
      rw [hfo']
      simp only [ptFind_ptErase]
      have hqo : q ≠ old := by
        intro e
        have h2 := h.frames_agree f old hfo
        rw [e, h2] at h0
        exact hgf (Option.some.inj h0).symm
      simp only [hqo, if_false]
      exact h0
  · intro q g hq
    rw [hft]
    exact h.tables_agree q g (hsub q g hq)
  · intro q g hq
    rw [hd]
    exact h.resident_lt q g (hsub q g hq)
  · rw [hd]; exact h.no_recycled
  · intro q g hq
    rw [htp]
    exact h.resident_data q g (hsub q g hq)
  · intro q g hq hdg
    rw [hd]
    rw [hdirty] at hdg
    exact h.clean_on_disk q g (hsub q g hq) hdg
  · intro q hq
    rw [hd]
    rcases habs q hq with e | e
    · exact h.absent_on_disk q e
    · exact hslot q e


theorem evictForFetch_mid (s s2 : BufferPoolManager) (m : PageMap) (h : dataInv s m) (f : Int)
    (he : s.evictForFetch f = (none, s2)) : midInv s2 m f := by
  unfold evictForFetch at he
  cases hft : s.frame_table f with
  | none =>
    simp only [hft, Prod.mk.injEq, true_and] at he
    subst he
    refine dataInv_evicted s s m h f ?_ rfl (fun _ => rfl) rfl rfl ?_
    · simp [Ctl.erased, ctl, hft]
    · intro old ho
      rw [hft] at ho
      exact absurd ho (by simp)
  | some old =>
    have hp : ptFind s.page_table old = some f := h.frames_agree f old hft
    simp only [hft] at he
    by_cases hd : s.dirty f = true
    · simp only [hd, if_true] at he
      cases hw : s.disk_manager.WritePage old (s.pages f).UpdateChecksum with
      | mk r d2 =>
        rw [hw] at he
        cases r with
        | error e => simp at he
        | ok u =>
          simp only [Prod.mk.injEq, true_and] at he
          subst he
          have hv : dataInv
              { s with
                pages := setAt s.pages f (s.pages f).UpdateChecksum
                disk_manager := d2
                dirty := setAt s.dirty f false } m := by
            refine dataInv_writeback s _ m h old f _ d2 u hp (updateChecksum_data _) hw rfl rfl
              ?_ rfl ?_
            · intro g
              by_cases hg : g = f
              · simp [hg, setAt_same, updateChecksum_data]
              · simp [setAt_other _ _ _ _ hg]
            · intro g hg hdg
              simpa [setAt_other _ _ _ _ hg] using hdg
          have hslot := hv.clean_on_disk old f hp (by simp [setAt_same])
          have hw2 : dataInv
              { s with
                pages := setAt s.pages f (s.pages f).UpdateChecksum
                disk_manager := d2 } m := by
            refine dataInv_mono _ _ m hv rfl rfl (fun _ => rfl) rfl ?_
            intro g hg
            by_cases hgf : g = f
            · simp [hgf, setAt_same]
            · simpa [setAt_other _ _ _ _ hgf] using hg
          refine dataInv_evicted _ _ m hw2 f ?_ rfl (fun _ => rfl) rfl rfl ?_
          · simp [Ctl.erased, ctl, hft]
          · intro o ho
            have : o = old := by
              have ho' : s.frame_table f = some o := ho
              rw [hft] at ho'
              exact (Option.some.inj ho').symm
            rw [this]
            exact hslot
    · simp only [hd, Bool.false_eq_true, if_false, Prod.mk.injEq, true_and] at he
      subst he
      refine dataInv_evicted s _ m h f ?_ rfl (fun _ => rfl) rfl rfl ?_
      · simp [Ctl.erased, ctl, hft]
      · intro o ho
        rw [hft] at ho
        have : o = old := (Option.some.inj ho).symm
        rw [this]
        exact h.clean_on_disk old f hp (by simpa using hd)

theorem evictForNew_mid (s s2 : BufferPoolManager) (m : PageMap) (h : dataInv s m) (f : Int)
    (he : s.evictForNew f = (none, s2)) : midInv s2 m f := by
  unfold evictForNew at he
  cases hft : s.frame_table f with
  | none =>
    simp only [hft, Prod.mk.injEq, true_and] at he
    subst he
    refine dataInv_evicted s s m h f ?_ rfl (fun _ => rfl) rfl rfl ?_
    · simp [Ctl.erased, ctl, hft]
    · intro old ho
      rw [hft] at ho
      exact absurd ho (by simp)
  | some old =>
    have hp : ptFind s.page_table old = some f := h.frames_agree f old hft
    simp only [hft] at he
    by_cases hd : s.dirty f = true
    · simp only [hd, if_true] at he
      cases hw : s.disk_manager.WritePage old (s.pages f) with
      | mk r d2 =>
        rw [hw] at he
        cases r with
        | error e => simp at he
        | ok u =>
          simp only [Prod.mk.injEq, true_and] at he
          subst he
          have hv : dataInv { s with disk_manager := d2, dirty := setAt s.dirty f false } m := by
            refine dataInv_writeback s _ m h old f _ d2 u hp rfl hw rfl rfl (fun _ => rfl) rfl ?_
            intro g hg hdg
            simpa [setAt_other _ _ _ _ hg] using hdg
          have hslot := hv.clean_on_disk old f hp (by simp [setAt_same])
          have hw2 : dataInv { s with disk_manager := d2 } m := by
            refine dataInv_mono _ _ m hv rfl rfl (fun _ => rfl) rfl ?_
            intro g hg
            by_cases hgf : g = f
            · simp [hgf, setAt_same]
            · simpa [setAt_other _ _ _ _ hgf] using hg
          refine dataInv_evicted _ _ m hw2 f ?_ rfl (fun _ => rfl) rfl rfl ?_
          · simp [Ctl.erased, ctl, hft]
          · intro o ho
            have : o = old := by
              have ho' : s.frame_table f = some o := ho
              rw [hft] at ho'
              exact (Option.some.inj ho').symm
            rw [this]
            exact hslot
    · simp only [hd, Bool.false_eq_true, if_false, Prod.mk.injEq, true_and] at he
      subst he
      refine dataInv_evicted s _ m h f ?_ rfl (fun _ => rfl) rfl rfl ?_
      · simp [Ctl.erased, ctl, hft]
      · intro o ho
        rw [hft] at ho
        have : o = old := (Option.some.inj ho).symm
        rw [this]
        exact h.clean_on_disk old f hp (by simpa using hd)

/-- Installing a page in the frame that was taken restores the relation. -/
theorem dataInv_install (s2 t : BufferPoolManager) (m m2 : PageMap) (f : Int) (page_id : Nat)
    (hm : midInv s2 m f) (hid : ptFind s2.page_table page_id = none)
    (hpt : t.page_table = ptSet s2.page_table page_id f)
    (hft : t.frame_table = setAt s2.frame_table f (some page_id))
    (htp : ∀ g, g ≠ f → (t.pages g).data = (s2.pages g).data)
    (htf : (t.pages f).data = m2 page_id)
    (hfile : t.disk_manager.file = s2.disk_manager.file)
    (hnp : s2.disk_manager.num_pages ≤ t.disk_manager.num_pages)
    (hlt : page_id < t.disk_manager.num_pages) (hfp : t.disk_manager.free_pages = [])
    (hdirty : ∀ g, g ≠ f → t.dirty g = s2.dirty g)
    (hdf : t.dirty f = false → (fileSlot t.disk_manager.file page_id).data = m2 page_id)
    (hm2 : ∀ q, q ≠ page_id → m2 q = m q) : dataInv t m2 := by
  have hfind : ∀ q g, ptFind t.page_table q = some g →
      (q = page_id ∧ g = f) ∨ (q ≠ page_id ∧ g ≠ f ∧ ptFind s2.page_table q = some g) := by
    intro q g hq
    rw [hpt, ptFind_ptSet] at hq
    by_cases hqp : q = page_id
    · simp only [hqp, if_true, Option.some.injEq] at hq
      exact Or.inl ⟨hqp, hq.symm⟩
    · simp only [hqp, if_false] at hq
      exact Or.inr ⟨hqp, fun e => hm.no_entry q (e ▸ hq), hq⟩
  refine ⟨?_, ?_, ?_, hfp, ?_, ?_, ?_⟩
  · intro g q hg
    rw [hft] at hg
    rw [hpt, ptFind_ptSet]
    by_cases hgf : g = f
    · subst hgf
      simp only [setAt_same, Option.some.injEq] at hg
      simp [hg]
    · simp only [setAt_other _ _ _ _ hgf] at hg
      have h0 := hm.frames_agree g q hgf hg
      have hqp : q ≠ page_id := by
        intro e
        rw [e, hid] at h0
        exact absurd h0 (by simp)
      simp only [hqp, if_false]
      exact h0
  · intro q g hq
    rw [hft]
    rcases hfind q g hq with ⟨e1, e2⟩ | ⟨_, e2, e3⟩
    · rw [e1, e2, setAt_same]
    · rw [setAt_other _ _ _ _ e2]
      exact hm.tables_agree q g e3
  · intro q g hq
    rcases hfind q g hq with ⟨e1, _⟩ | ⟨_, _, e3⟩
    · rw [e1]; exact hlt
    · exact lt_of_lt_of_le (hm.resident_lt q g e3) hnp
  · intro q g hq
    rcases hfind q g hq with ⟨e1, e2⟩ | ⟨e1, e2, e3⟩
    · rw [e1, e2]; exact htf
    · rw [htp g e2, hm2 q e1]
      exact hm.resident_data q g e3
  · intro q g hq hdg
    rcases hfind q g hq with ⟨e1, e2⟩ | ⟨e1, e2, e3⟩
    · rw [e2] at hdg
      rw [e1]
      exact hdf hdg
    · rw [hdirty g e2] at hdg
      rw [hfile, hm2 q e1]
      exact hm.clean_on_disk q g e3 hdg
  · intro q hq
    rw [hpt, ptFind_ptSet] at hq
    by_cases hqp : q = page_id
    · simp [hqp] at hq
    · simp only [hqp, if_false] at hq
      rw [hfile, hm2 q hqp]
      exact hm.absent_on_disk q hq

theorem writePage_num_pages (d : DiskManager) (p : Nat) (pg : Page) (h : p < d.num_pages) :
    (d.WritePage p pg).2.num_pages = d.num_pages := by
  unfold DiskManager.WritePage
  have hge : ¬ p ≥ d.num_pages := by omega
  by_cases hfb : d.failbit = true <;> simp [hge, hfb]

/-- The three ways a fetch of a page that is not resident ends: no frame, a store
error, or the page read into the frame that was taken and cleared. -/
theorem fetchPage_shape (s : BufferPoolManager) (page_id : Nat)
    (hp : ptFind s.page_table page_id = none) :
    (∃ s1, s.FetchPage page_id = (.ok none, s1) ∧ sameData s1 s ∧
      s1.miss_count = s.miss_count + 1 ∧ s1.hit_count = s.hit_count) ∨
    (∃ e s1, s.FetchPage page_id = (.error e, s1)) ∨
    (∃ f s1 s2 pg, sameData s1 s ∧
      ({ s with miss_count := s.miss_count + 1 }).GetVictimFrame = (f, s1) ∧
      s1.miss_count = s.miss_count + 1 ∧ s1.hit_count = s.hit_count ∧
      s1.evictForFetch f = (none, s2) ∧
      s2.disk_manager.ReadPage page_id = (.ok pg, s2.disk_manager) ∧
      s.FetchPage page_id = (.ok (some f),
        { s2 with
          pages := setAt s2.pages f pg.UpdateChecksum
          page_table := ptSet s2.page_table page_id f
          frame_table := setAt s2.frame_table f (some page_id)
          pin_count := setAt s2.pin_count f 1
          dirty := setAt s2.dirty f false
          replacer := s2.replacer.Pin f })) := by
  unfold FetchPage
  simp only [hp]
  rcases getVictim_cases { s with miss_count := s.miss_count + 1 } with
    ⟨f, fl, r0, htook, hg⟩ | ⟨_, _, hg⟩
  · rw [hg]
    simp only
    generalize hs1 : ({ s with miss_count := s.miss_count + 1, free_list := fl, replacer := r0 } :
      BufferPoolManager) = s1
    have hsd : sameData s1 s := by subst hs1; exact ⟨rfl, rfl, rfl, rfl, rfl⟩
    have hmc : s1.miss_count = s.miss_count + 1 := by subst hs1; rfl
    have hhc : s1.hit_count = s.hit_count := by subst hs1; rfl
    by_cases hf : f = INVALID_FRAME_ID
    · simp only [hf, if_true]
      exact Or.inl ⟨s1, rfl, hsd, hmc, hhc⟩
    · simp only [hf, if_false]
      cases he : evictForFetch s1 f with
      | mk e s2 =>
        cases e with
        | some err => exact Or.inr (Or.inl ⟨_, _, rfl⟩)
        | none =>
          simp only
          cases hrd : s2.disk_manager.ReadPage page_id with
          | mk r d2 =>
            cases r with
            | error err => exact Or.inr (Or.inl ⟨_, _, rfl⟩)
            | ok pg =>
              obtain ⟨r1, _⟩ := readPage_ok _ _ _ _ hrd
              subst r1
              exact Or.inr (Or.inr ⟨f, s1, s2, pg, hsd, rfl, hmc, hhc, he, hrd, rfl⟩)
  · rw [hg]
    exact Or.inl ⟨_, rfl, ⟨rfl, rfl, rfl, rfl, rfl⟩, rfl, rfl⟩

/-- The three ways a new_page ends: no frame, a store error, or a page allocated and
set up in the frame that was taken and cleared. -/
theorem newPage_ok_shape (s : BufferPoolManager) :
    (s.NewPage = (.ok none, s)) ∨
    (∃ s1, s.NewPage = (.ok none, s1) ∧ INVALID_FRAME_ID ∈ s.free_list ++ s.replacer.nodes) ∨
    (∃ e s1, s.NewPage = (.error e, s1)) ∨
    (∃ f s1 s2, sameData s1 s ∧ s.GetVictimFrame = (f, s1) ∧
      s1.miss_count = s.miss_count ∧ s1.hit_count = s.hit_count ∧
      s1.evictForNew f = (none, s2) ∧
      s.NewPage = (.ok (some (s2.disk_manager.AllocatePage.1, f)),
        { s2 with
          disk_manager := s2.disk_manager.AllocatePage.2
          pages := setAt s2.pages f (freshPage (s2.pages f) s2.disk_manager.AllocatePage.1)
          page_table := ptSet s2.page_table s2.disk_manager.AllocatePage.1 f
          frame_table := setAt s2.frame_table f (some s2.disk_manager.AllocatePage.1)
          pin_count := setAt s2.pin_count f 1
          dirty := setAt s2.dirty f true
          replacer := s2.replacer.Pin f })) := by
  unfold NewPage
  rcases getVictim_cases s with ⟨f, fl, r0, htook, hg⟩ | ⟨_, _, hg⟩
  · rw [hg]
    simp only
    generalize hs1 : ({ s with free_list := fl, replacer := r0 } : BufferPoolManager) = s1
    have hsd : sameData s1 s := by subst hs1; exact ⟨rfl, rfl, rfl, rfl, rfl⟩
    have hmc : s1.miss_count = s.miss_count := by subst hs1; rfl
    have hhc : s1.hit_count = s.hit_count := by subst hs1; rfl
    by_cases hf : f = INVALID_FRAME_ID
    · simp only [hf, if_true]
      refine Or.inr (Or.inl ⟨s1, rfl, ?_⟩)
      have := took_invalid _ _ _ _ htook
      rw [hf] at this
      exact List.mem_append.2 this
    · simp only [hf, if_false]
      cases he : evictForNew s1 f with
      | mk e s2 =>
        cases e with
        | some err => exact Or.inr (Or.inr (Or.inl ⟨_, _, rfl⟩))
        | none => exact Or.inr (Or.inr (Or.inr ⟨f, s1, s2, hsd, rfl, hmc, hhc, he, rfl⟩))
  · rw [hg]
    exact Or.inl rfl

theorem dataInv_same (s t : BufferPoolManager) (m : PageMap) (h : dataInv s m)
    (hsd : sameData t s) : dataInv t m := by
  obtain ⟨h1, h2, h3, h4, h5⟩ := hsd
  exact dataInv_mono s t m h h1 h2 (fun f => by rw [h3]) h4 (fun f hf => by rw [h5] at hf; exact hf)

theorem evictForFetch_num_pages (s : BufferPoolManager) (m : PageMap) (h : dataInv s m)
    (f : Int) :
    (s.evictForFetch f).2.disk_manager.num_pages = s.disk_manager.num_pages := by
  unfold evictForFetch
  cases hft : s.frame_table f with
  | none => rfl
  | some old =>
    have hlt := h.resident_lt old f (h.frames_agree f old hft)
    simp only
    by_cases hd : s.dirty f = true
    · simp only [hd, if_true]
      have h1 := writePage_num_pages s.disk_manager old (s.pages f).UpdateChecksum hlt
      cases hw : s.disk_manager.WritePage old (s.pages f).UpdateChecksum with
      | mk r d2 =>
        rw [hw] at h1
        cases r <;> exact h1
    · simp [hd]

theorem evictForNew_num_pages (s : BufferPoolManager) (m : PageMap) (h : dataInv s m)
    (f : Int) :
    (s.evictForNew f).2.disk_manager.num_pages = s.disk_manager.num_pages := by
  unfold evictForNew
  cases hft : s.frame_table f with
  | none => rfl
  | some old =>
    have hlt := h.resident_lt old f (h.frames_agree f old hft)
    simp only
    by_cases hd : s.dirty f = true
    · simp only [hd, if_true]
      have h1 := writePage_num_pages s.disk_manager old (s.pages f) hlt
      cases hw : s.disk_manager.WritePage old (s.pages f) with
      | mk r d2 =>
        rw [hw] at h1
        cases r <;> exact h1
    · simp [hd]

theorem mid_absent (s s2 : BufferPoolManager) (f : Int) (page_id : Nat)
    (hctl : s2.page_table = s.ctl.erased f) (hp : ptFind s.page_table page_id = none) :
    ptFind s2.page_table page_id = none := by
  cases hq : ptFind s2.page_table page_id with
  | none => rfl
  | some g =>
    rw [hctl] at hq
    have := ptFind_erased _ f page_id g hq
    have this' : ptFind s.page_table page_id = some g := this
    rw [hp] at this'
    exact absurd this' (by simp)

theorem evictForFetch_table (s s2 : BufferPoolManager) (f : Int)
    (he : s.evictForFetch f = (none, s2)) : s2.page_table = s.ctl.erased f := by
  have := evictForFetch_ctl s f
  rw [he] at this
  simpa [ctl] using congrArg Ctl.page_table this

theorem evictForNew_table (s s2 : BufferPoolManager) (f : Int)
    (he : s.evictForNew f = (none, s2)) : s2.page_table = s.ctl.erased f := by
  have := evictForNew_ctl s f
  rw [he] at this
  simpa [ctl] using congrArg Ctl.page_table this

/-- A fetch that does not raise keeps the relation, does not move `num_pages_`, and
returns the data of the map. -/
theorem dataInv_fetch (s : BufferPoolManager) (m : PageMap) (h : dataInv s m) (page_id : Nat)
    (hr : ∀ e, (s.FetchPage page_id).1 ≠ .error e) :
    dataInv (s.FetchPage page_id).2 m ∧
    (s.FetchPage page_id).2.disk_manager.num_pages = s.disk_manager.num_pages ∧
    (∀ f, (s.FetchPage page_id).1 = .ok (some f) →
      (((s.FetchPage page_id).2.pages f).data = m page_id ∧
        ptFind (s.FetchPage page_id).2.page_table page_id = some f)) := by
  cases hp : ptFind s.page_table page_id with
  | some f =>
    have hres : s.FetchPage page_id = (.ok (some f), { s with
        pin_count := setAt s.pin_count f (s.pin_count f + 1)
        replacer := s.replacer.Pin f
        hit_count := s.hit_count + 1 }) := by
      simp [FetchPage, hp]
    rw [hres]
    refine ⟨dataInv_same s _ m h ⟨rfl, rfl, rfl, rfl, rfl⟩, rfl, ?_⟩
    intro g hg
    simp only [Except.ok.injEq, Option.some.injEq] at hg
    subst hg
    exact ⟨h.resident_data page_id f hp, hp⟩
  | none =>
    rcases fetchPage_shape s page_id hp with ⟨s1, hres, hsd, _⟩ | ⟨e, s1, hres⟩ |
      ⟨f, s1, s2, pg, hsd, _, _, _, he, hrd, hres⟩
    · rw [hres]
      refine ⟨dataInv_same s _ m h hsd, by rw [hsd.2.2.2.1], ?_⟩
      intro g hg
      simp at hg
    · exact absurd (by rw [hres]) (hr e)
    · have h1 : dataInv s1 m := dataInv_same s _ m h hsd
      have hmid := evictForFetch_mid s1 s2 m h1 f he
      have hnp : s2.disk_manager.num_pages = s.disk_manager.num_pages := by
        have := evictForFetch_num_pages s1 m h1 f
        rw [he, hsd.2.2.2.1] at this
        exact this
      have hid : ptFind s2.page_table page_id = none :=
        mid_absent s1 s2 f page_id (evictForFetch_table s1 s2 f he) (by rw [hsd.1]; exact hp)
      obtain ⟨_, r2, r3, _⟩ := readPage_ok _ _ _ _ hrd
      have hdata : pg.UpdateChecksum.data = m page_id := by
        rw [updateChecksum_data, r3]
        exact hmid.absent_on_disk page_id hid
      rw [hres]
      refine ⟨?_, hnp, ?_⟩
      · refine dataInv_install s2 _ m m f page_id hmid hid rfl rfl ?_ ?_ rfl
          (le_refl _) r2 hmid.no_recycled ?_ ?_ (fun _ _ => rfl)
        · intro g hg
          simp [setAt_other _ _ _ _ hg]
        · simp only [setAt_same]
          exact hdata
        · intro g hg
          simp [setAt_other _ _ _ _ hg]
        · intro _
          exact hmid.absent_on_disk page_id hid
      · intro g hg
        simp only [Except.ok.injEq, Option.some.injEq] at hg
        subst hg
        simp only [setAt_same]
        exact ⟨hdata, by simp [ptFind_ptSet]⟩

theorem freshPage_data (old : Page) (page_id : Nat) :
    (freshPage old page_id).data = List.replicate PAGE_DATA_SIZE 0 := by
  simp [freshPage, Page.UpdateChecksum, Page.Reset]

/-- A new_page that does not raise keeps the relation with the map in which the new
page is zeroed, and moves `num_pages_` by at most one. -/
theorem dataInv_new (s : BufferPoolManager) (m : PageMap) (h : dataInv s m)
    (hpool : poolInv s.ctl)
    (hb : s.disk_manager.num_pages + 1 < PAGE_ID_MOD)
    (hr : ∀ e, s.NewPage.1 ≠ .error e) :
    dataInv s.NewPage.2 (m.step .new_page (Outcome.ofExcept .created s.NewPage.1)) ∧
    s.NewPage.2.disk_manager.num_pages ≤ s.disk_manager.num_pages + 1 := by
  rcases newPage_ok_shape s with hres | ⟨s1, _, hinv⟩ | ⟨e, s1, hres⟩ |
      ⟨f, s1, s2, hsd, _, _, _, he, hres⟩
  · rw [hres]
    exact ⟨h, by simp⟩
  · have := invalid_not_listed s.ctl hpool
    rcases List.mem_append.1 hinv with e | e
    · exact absurd e this.1
    · exact absurd e this.2
  · exact absurd (by rw [hres]) (hr e)
  · have h1 : dataInv s1 m := dataInv_same s _ m h hsd
    have hmid := evictForNew_mid s1 s2 m h1 f he
    have hnp : s2.disk_manager.num_pages = s.disk_manager.num_pages := by
      have := evictForNew_num_pages s1 m h1 f
      rw [he, hsd.2.2.2.1] at this
      exact this
    have halloc : s2.disk_manager.AllocatePage =
        (s2.disk_manager.num_pages,
          { s2.disk_manager with num_pages := s2.disk_manager.num_pages + 1 }) := by
      have hmod : (s2.disk_manager.num_pages + 1) % PAGE_ID_MOD =
          s2.disk_manager.num_pages + 1 := Nat.mod_eq_of_lt (by rw [hnp]; exact hb)
      simp [DiskManager.AllocatePage, hmid.no_recycled, hmod]
    have hid : ptFind s2.page_table s2.disk_manager.num_pages = none := by
      cases hq : ptFind s2.page_table s2.disk_manager.num_pages with
      | none => rfl
      | some g => exact absurd (hmid.resident_lt _ g hq) (lt_irrefl _)
    rw [hres, halloc]
    simp only [Outcome.ofExcept, PageMap.step]
    refine ⟨?_, by show s2.disk_manager.num_pages + 1 ≤ s.disk_manager.num_pages + 1; omega⟩
    refine dataInv_install s2 _ m _ f s2.disk_manager.num_pages hmid hid rfl rfl ?_ ?_ rfl
      (Nat.le_succ _) (Nat.lt_succ_self _) hmid.no_recycled ?_ ?_ ?_
    · intro g hg
      simp [setAt_other _ _ _ _ hg]
    · simp only [setAt_same, freshPage_data]
      simp [PageMap.set]
    · intro g hg
      simp [setAt_other _ _ _ _ hg]
    · intro hc
      simp [setAt_same] at hc
    · intro q hq
      simp [PageMap.set, hq]

/-- A client write into the frame of a resident page, which becomes dirty, keeps the
relation with the map in which that page has the new data. -/
theorem dataInv_modify (s t : BufferPoolManager) (m : PageMap) (h : dataInv s m) (p : Nat)
    (f : Int) (data : List Nat) (hp : ptFind s.page_table p = some f)
    (hpt : t.page_table = s.page_table) (hft : t.frame_table = s.frame_table)
    (htf : (t.pages f).data = data) (htp : ∀ g, g ≠ f → (t.pages g).data = (s.pages g).data)
    (hd : t.disk_manager = s.disk_manager) (hdf : t.dirty f = true)
    (hdirty : ∀ g, g ≠ f → t.dirty g = false → s.dirty g = false) :
    dataInv t (m.set p data) := by
  refine ⟨?_, ?_, ?_, ?_, ?_, ?_, ?_⟩
  · intro g q; rw [hpt, hft]; exact h.frames_agree g q
  · intro q g; rw [hpt, hft]; exact h.tables_agree q g
  · intro q g; rw [hpt, hd]; exact h.resident_lt q g
  · rw [hd]; exact h.no_recycled
  · intro q g hq
    rw [hpt] at hq
    by_cases hqp : q = p
    · subst hqp
      rw [hp] at hq
      have : g = f := (Option.some.inj hq).symm
      subst this
      simp [PageMap.set, htf]
    · have hgf : g ≠ f := fun e => hqp (h.injective q p f (e ▸ hq) hp)
      simp only [PageMap.set, hqp, if_false]
      rw [htp g hgf]
      exact h.resident_data q g hq
  · intro q g hq hdg
    rw [hpt] at hq
    by_cases hqp : q = p
    · subst hqp
      rw [hp] at hq
      have : g = f := (Option.some.inj hq).symm
      subst this
      rw [hdf] at hdg
      exact absurd hdg (by simp)
    · have hgf : g ≠ f := fun e => hqp (h.injective q p f (e ▸ hq) hp)
      simp only [PageMap.set, hqp, if_false]
      rw [hd]
      exact h.clean_on_disk q g hq (hdirty g hgf hdg)
  · intro q hq
    rw [hpt] at hq
    have hqp : q ≠ p := by
      intro e
      rw [e, hp] at hq
      exact absurd hq (by simp)
    simp only [PageMap.set, hqp, if_false]
    rw [hd]
    exact h.absent_on_disk q hq

theorem unpinPage_data (s : BufferPoolManager) (page_id : Nat) (is_dirty : Bool) :
    (s.UnpinPage page_id is_dirty).2.page_table = s.page_table ∧
    (s.UnpinPage page_id is_dirty).2.frame_table = s.frame_table ∧
    (s.UnpinPage page_id is_dirty).2.pages = s.pages ∧
    (s.UnpinPage page_id is_dirty).2.disk_manager = s.disk_manager ∧
    (∀ g, (s.UnpinPage page_id is_dirty).2.dirty g = false → s.dirty g = false) ∧
    (∀ f, ptFind s.page_table page_id = some f → (s.UnpinPage page_id is_dirty).1 = true →
      is_dirty = true → (s.UnpinPage page_id is_dirty).2.dirty f = true) ∧
    ((s.UnpinPage page_id is_dirty).1 = true →
      ∃ f, ptFind s.page_table page_id = some f ∧ 0 < s.pin_count f) := by
  unfold UnpinPage
  cases hp : ptFind s.page_table page_id with
  | none => simp
  | some f =>
    simp only
    by_cases hpin : s.pin_count f ≤ 0
    · simp [hpin]
    · have hpos : 0 < s.pin_count f := by omega
      cases is_dirty <;> by_cases h0 : s.pin_count f - 1 = 0 <;>
        simp [hpin, setAt_same, h0, hpos]
      all_goals
        intro g hg
        by_cases hgf : g = f
        · subst hgf
          simp [setAt_same] at hg
        · simpa [setAt_other _ _ _ _ hgf] using hg

theorem dataInv_unpin (s : BufferPoolManager) (m : PageMap) (h : dataInv s m) (page_id : Nat)
    (is_dirty : Bool) : dataInv (s.UnpinPage page_id is_dirty).2 m := by
  obtain ⟨h1, h2, h3, h4, h5, _⟩ := unpinPage_data s page_id is_dirty
  exact dataInv_mono s _ m h h1 h2 (fun f => by rw [h3]) h4 h5

theorem clientWrite_data (s : BufferPoolManager) (page_id : Nat) (data : List Nat) :
    (s.clientWrite page_id data).page_table = s.page_table ∧
    (s.clientWrite page_id data).frame_table = s.frame_table ∧
    (s.clientWrite page_id data).disk_manager = s.disk_manager ∧
    (s.clientWrite page_id data).dirty = s.dirty ∧
    (s.clientWrite page_id data).pin_count = s.pin_count ∧
    (∀ f, ptFind s.page_table page_id = some f →
      (∀ g, g ≠ f → (s.clientWrite page_id data).pages g = s.pages g) ∧
      (0 < s.pin_count f → ((s.clientWrite page_id data).pages f).data = data)) := by
  unfold clientWrite
  cases hp : ptFind s.page_table page_id with
  | none => simp
  | some f =>
    simp only
    by_cases hpin : s.pin_count f > 0
    · simp only [hpin, if_true, true_and]
      intro g hg
      simp only [Option.some.injEq] at hg
      subst hg
      refine ⟨?_, ?_⟩
      · intro k hk
        simp [setAt_other _ _ _ _ hk]
      · intro _
        simp [setAt_same]
    · simp only [hpin, if_false, true_and]
      intro g hg
      simp only [Option.some.injEq] at hg
      subst hg
      exact ⟨fun _ _ => trivial, fun hc => absurd hc hpin⟩

/-- A write into a pinned page followed by unpin(page_id, true) keeps the relation with
the map the reference model steps to. -/
theorem dataInv_modify_unpin (s : BufferPoolManager) (m : PageMap) (h : dataInv s m)
    (page_id : Nat) (data : List Nat) :
    dataInv ((s.clientWrite page_id data).UnpinPage page_id true).2
      (m.step (.modify_unpin page_id data)
        (.flag ((s.clientWrite page_id data).UnpinPage page_id true).1)) := by
  obtain ⟨c1, c2, c3, c4, c5, c6⟩ := clientWrite_data s page_id data
  obtain ⟨u1, u2, u3, u4, u5, u6, u7⟩ := unpinPage_data (s.clientWrite page_id data) page_id true
  cases hres : ((s.clientWrite page_id data).UnpinPage page_id true).1 with
  | false =>
    simp only [PageMap.step]
    -- the unpin failed: the page is not resident or not pinned, nothing was written
    have hsame : ∀ g, ((s.clientWrite page_id data).pages g).data = (s.pages g).data := by
      intro g
      unfold clientWrite
      cases hp : ptFind s.page_table page_id with
      | none => rfl
      | some f =>
        simp only
        by_cases hpin : s.pin_count f > 0
        · exfalso
          have : ((s.clientWrite page_id data).UnpinPage page_id true).1 = true := by
            unfold UnpinPage
            rw [c1, hp]
            simp only [c5]
            have : ¬ s.pin_count f ≤ 0 := by omega
            by_cases h0 : s.pin_count f - 1 = 0 <;> simp [this, setAt_same, h0]
          rw [this] at hres
          exact absurd hres (by simp)
        · simp [hpin]
    refine dataInv_mono s _ m h (by rw [u1, c1]) (by rw [u2, c2]) ?_ (by rw [u4, c3]) ?_
    · intro g
      rw [u3]
      exact hsame g
    · intro g hg
      have := u5 g hg
      rw [c4] at this
      exact this
  | true =>
    simp only [PageMap.step]
    obtain ⟨f, hp, hpin⟩ := u7 hres
    rw [c1] at hp
    rw [c5] at hpin
    obtain ⟨w1, w2⟩ := c6 f hp
    refine dataInv_modify s _ m h page_id f data hp (by rw [u1, c1]) (by rw [u2, c2]) ?_ ?_
      (by rw [u4, c3]) (u6 f (by rw [c1]; exact hp) hres rfl) ?_
    · rw [u3]
      exact w2 hpin
    · intro g hg
      rw [u3, w1 g hg]
    · intro g _ hdg
      have := u5 g hdg
      rw [c4] at this
      exact this

/-- The state `FlushPage` and `FlushAllPages` leave after writing one page back. -/
theorem dataInv_flushed (s : BufferPoolManager) (m : PageMap) (h : dataInv s m) (p : Nat)
    (f : Int) (d2 : DiskManager) (u : Unit) (hp : ptFind s.page_table p = some f)
    (hw : s.disk_manager.WritePage p (s.pages f).UpdateChecksum = (.ok u, d2)) :
    dataInv
      { s with
        pages := setAt s.pages f (s.pages f).UpdateChecksum
        disk_manager := d2
        dirty := setAt s.dirty f false } m := by
  refine dataInv_writeback s _ m h p f _ d2 u hp (updateChecksum_data _) hw rfl rfl ?_ rfl ?_
  · intro g
    by_cases hg : g = f
    · simp [hg, setAt_same, updateChecksum_data]
    · simp [setAt_other _ _ _ _ hg]
  · intro g hg hdg
    simpa [setAt_other _ _ _ _ hg] using hdg

/-- A flush that does not raise keeps the relation and does not move `num_pages_`. -/
theorem dataInv_flush (s : BufferPoolManager) (m : PageMap) (h : dataInv s m) (page_id : Nat)
    (hr : ∀ e, (s.FlushPage page_id).1 ≠ .error e) :
    dataInv (s.FlushPage page_id).2 m ∧
    (s.FlushPage page_id).2.disk_manager.num_pages = s.disk_manager.num_pages := by
  unfold FlushPage at hr ⊢
  cases hp : ptFind s.page_table page_id with
  | none => exact ⟨h, rfl⟩
  | some f =>
    simp only [hp] at hr
    simp only
    have hlt := h.resident_lt page_id f hp
    have hnp := writePage_num_pages s.disk_manager page_id (s.pages f).UpdateChecksum hlt
    cases hw : s.disk_manager.WritePage page_id (s.pages f).UpdateChecksum with
    | mk r d2 =>
      rw [hw] at hr hnp
      cases r with
      | error e => exact absurd rfl (hr e)
      | ok u =>
        exact ⟨dataInv_flushed s m h page_id f d2 u hp hw, hnp⟩

theorem dataInv_flushEntries (es : List (Nat × Int)) (s : BufferPoolManager) (m : PageMap)
    (h : dataInv s m) (hes : ∀ e ∈ es, ptFind s.page_table e.1 = some e.2)
    (hr : (flushEntries es s).1 = none) :
    dataInv (flushEntries es s).2 m ∧
    (flushEntries es s).2.disk_manager.num_pages = s.disk_manager.num_pages := by
  induction es generalizing s with
  | nil => exact ⟨h, rfl⟩
  | cons x rest ih =>
    obtain ⟨p, f⟩ := x
    have hp : ptFind s.page_table p = some f := hes (p, f) (by simp)
    unfold flushEntries at hr ⊢
    by_cases hd : s.dirty f = true
    · simp only [hd, if_true] at hr ⊢
      have hlt := h.resident_lt p f hp
      have hnp := writePage_num_pages s.disk_manager p (s.pages f).UpdateChecksum hlt
      cases hw : s.disk_manager.WritePage p (s.pages f).UpdateChecksum with
      | mk r d2 =>
        rw [hw] at hr hnp
        cases r with
        | error e => simp at hr
        | ok u =>
          simp only at hr ⊢
          have h2 := dataInv_flushed s m h p f d2 u hp hw
          obtain ⟨i1, i2⟩ := ih _ h2 (fun e he => hes e (by simp [he])) hr
          exact ⟨i1, by rw [i2]; exact hnp⟩
    · simp only [hd] at hr ⊢
      exact ih s h (fun e he => hes e (by simp [he])) hr

theorem isRaised_ofExcept {α : Type} (f : α → Outcome) (_hf : ∀ a, (f a).isRaised = false)
    (x : Except StoreError α) (h : (Outcome.ofExcept f x).isRaised = false) :
    ∀ e, x ≠ .error e := by
  intro e he
  rw [he] at h
  simp [Outcome.ofExcept, Outcome.isRaised] at h

theorem step_fetch (m : PageMap) (p : Nat) (out : Outcome) : m.step (.fetch p) out = m := by
  cases out <;> rfl

theorem step_unpin (m : PageMap) (p : Nat) (b : Bool) (out : Outcome) :
    m.step (.unpin p b) out = m := by
  cases out <;> rfl

theorem step_flush (m : PageMap) (p : Nat) (out : Outcome) : m.step (.flush p) out = m := by
  cases out <;> rfl

theorem step_flush_all (m : PageMap) (out : Outcome) : m.step .flush_all out = m := by
  cases out <;> rfl

theorem poolInv_cexec (s : BufferPoolManager) (c : ClientOp) (hi : poolInv s.ctl) :
    poolInv (cexec s c).2.ctl := by
  cases c with
  | fetch p => exact poolInv_exec s _ hi
  | new_page => exact poolInv_exec s _ hi
  | modify_unpin p d => exact poolInv_exec _ _ (poolInv_exec s _ hi)
  | unpin p b => exact poolInv_exec s _ hi
  | flush p => exact poolInv_exec s _ hi
  | flush_all => exact poolInv_exec s _ hi

/-- One client step that does not raise keeps the relation with the map the reference
model steps to, moves `num_pages_` up by at most one, and a fetch returns the data of
the map. -/
theorem dataInv_cexec (s : BufferPoolManager) (m : PageMap) (c : ClientOp) (h : dataInv s m)
    (hpool : poolInv s.ctl) (hb : s.disk_manager.num_pages + 1 < PAGE_ID_MOD)
    (hr : (cexec s c).1.isRaised = false) :
    dataInv (cexec s c).2 (m.step c (cexec s c).1) ∧
    (cexec s c).2.disk_manager.num_pages ≤ s.disk_manager.num_pages + 1 ∧
    fetchAgrees s m c := by
  cases c with
  | fetch p =>
    have hr2 := isRaised_ofExcept Outcome.page (fun _ => rfl) _ hr
    obtain ⟨h1, h2, h3⟩ := dataInv_fetch s m h p hr2
    rw [step_fetch]
    refine ⟨h1, ?_, ?_⟩
    · show (s.FetchPage p).2.disk_manager.num_pages ≤ _
      omega
    · intro q f hq hres
      have hqp : q = p := by
        simp only [ClientOp.fetch.injEq] at hq
        exact hq.symm
      subst hqp
      have hres2 : (s.FetchPage q).1 = .ok (some f) := by
        have hres' : Outcome.ofExcept Outcome.page (s.FetchPage q).1 = .page (some f) := hres
        cases hx : (s.FetchPage q).1 with
        | error e => rw [hx] at hres'; simp [Outcome.ofExcept] at hres'
        | ok o =>
          rw [hx] at hres'
          simp only [Outcome.ofExcept, Outcome.page.injEq] at hres'
          rw [hres']
      exact (h3 f hres2).1
  | new_page =>
    have hr2 := isRaised_ofExcept Outcome.created (fun _ => rfl) _ hr
    obtain ⟨h1, h2⟩ := dataInv_new s m h hpool hb hr2
    refine ⟨h1, h2, ?_⟩
    intro q f hq
    simp at hq
  | modify_unpin p d =>
    refine ⟨dataInv_modify_unpin s m h p d, ?_, ?_⟩
    · have := (unpinPage_data (s.clientWrite p d) p true).2.2.2.1
      have h2 := (clientWrite_data s p d).2.2.1
      show ((s.clientWrite p d).UnpinPage p true).2.disk_manager.num_pages ≤ _
      rw [this, h2]
      omega
    · intro q f hq
      simp at hq
  | unpin p b =>
    rw [step_unpin]
    refine ⟨dataInv_unpin s m h p b, ?_, ?_⟩
    · have := (unpinPage_data s p b).2.2.2.1
      show (s.UnpinPage p b).2.disk_manager.num_pages ≤ _
      rw [this]
      omega
    · intro q f hq
      simp at hq
  | flush p =>
    have hr2 := isRaised_ofExcept Outcome.flag (fun _ => rfl) _ hr
    obtain ⟨h1, h2⟩ := dataInv_flush s m h p hr2
    rw [step_flush]
    refine ⟨h1, ?_, ?_⟩
    · show (s.FlushPage p).2.disk_manager.num_pages ≤ _
      omega
    · intro q f hq
      simp at hq
  | flush_all =>
    have hr2 : (flushEntries s.page_table s).1 = none := by
      have hr' : (match s.FlushAllPages.1 with
        | none => Outcome.done
        | some e => Outcome.raised e).isRaised = false := hr
      cases hx : (flushEntries s.page_table s).1 with
      | none => rfl
      | some e =>
        have hx' : s.FlushAllPages.1 = some e := hx
        rw [hx'] at hr'
        simp [Outcome.isRaised] at hr'
    obtain ⟨h1, h2⟩ := dataInv_flushEntries s.page_table s m h hpool.entries_found hr2
    rw [step_flush_all]
    refine ⟨h1, ?_, ?_⟩
    · show (flushEntries s.page_table s).2.disk_manager.num_pages ≤ _
      omega
    · intro q f hq
      simp at hq

theorem agrees_of_dataInv (cops : List ClientOp) (s : BufferPoolManager) (m : PageMap)
    (h : dataInv s m) (hpool : poolInv s.ctl)
    (hb : s.disk_manager.num_pages + cops.length < PAGE_ID_MOD) : agrees s m cops := by
  induction cops generalizing s m with
  | nil => trivial
  | cons c rest ih =>
    intro hr
    simp only [List.length_cons] at hb
    obtain ⟨h1, h2, h3⟩ := dataInv_cexec s m c h hpool (by omega) hr
    exact ⟨h3, ih _ _ h1 (poolInv_cexec s c hpool) (by omega)⟩

theorem dataInv_crun (cops : List ClientOp) (s : BufferPoolManager) (m : PageMap)
    (h : dataInv s m) (hpool : poolInv s.ctl)
    (hb : s.disk_manager.num_pages + cops.length < PAGE_ID_MOD)
    (hr : cnoRaise s cops = true) : ∃ m2, dataInv (crun s cops) m2 := by
  induction cops generalizing s m with
  | nil => exact ⟨m, h⟩
  | cons c rest ih =>
    simp only [List.length_cons] at hb
    simp only [cnoRaise, Bool.and_eq_true, Bool.not_eq_true'] at hr
    obtain ⟨h1, h2, _⟩ := dataInv_cexec s m c h hpool (by omega) hr.1
    exact ih _ _ h1 (poolInv_cexec s c hpool) (by omega) hr.2

theorem dataInv_init (pool_size : Nat) (d : DiskManager) (hfp : d.free_pages = []) :
    dataInv (BufferPoolManager.ctor pool_size d) (PageMap.ofStore d) := by
  refine ⟨?_, ?_, ?_, hfp, ?_, ?_, ?_⟩ <;>
    simp [BufferPoolManager.ctor, ptFind, PageMap.ofStore]

/-- C1: on a new pool of any size over a store that has nothing to recycle, for every
sequence of client steps (fetch, new_page, a write into a pinned page followed by
unpin(id, true), unpin, flush, flush_all) that stays below 2^32 pages, every successful
fetch before the first store error returns a frame whose data area is the one the
unbounded map from page id to data area holds: the data most recently left in that
page by a client (zeros for a page just created, the content of the file for a page
that has never been cached). -/
theorem pool_is_transparent_cache (pool_size : Nat) (d : DiskManager) (cops : List ClientOp)
    (hfp : d.free_pages = []) (hb : d.num_pages + cops.length < PAGE_ID_MOD) :
    agrees (BufferPoolManager.ctor pool_size d) (PageMap.ofStore d) cops :=
  agrees_of_dataInv cops _ _ (dataInv_init pool_size d hfp) (poolInv_init pool_size d) hb

/-- Witness for C1: a pool of one frame over a new store. Page 2 is created, written and
unpinned dirty, page 3 is created in the same frame (page 2 is evicted), and the fetch
of page 2 (which evicts page 3) returns the data that was written. -/
theorem pool_is_transparent_cache_witness :
    (DiskManager.ctor none).free_pages = [] ∧
    (cexec (crun (BufferPoolManager.ctor 1 (DiskManager.ctor none))
        [.new_page, .modify_unpin 2 (sampleData 7), .new_page, .unpin 3 false])
      (.fetch 2)).1 = .page (some 0) ∧
    ((crun (BufferPoolManager.ctor 1 (DiskManager.ctor none))
        [.new_page, .modify_unpin 2 (sampleData 7), .new_page, .unpin 3 false, .fetch 2]).pages
      0).data = sampleData 7 := by
  have h := pool_is_transparent_cache 1 (DiskManager.ctor none)
    [.new_page, .modify_unpin 2 (sampleData 7), .new_page, .unpin 3 false, .fetch 2]
    (by decide) (by decide)
  have h1 := (h (by decide)).2
  have h2 := (h1 (by decide)).2
  have h3 := (h2 (by decide)).2
  have h4 := (h3 (by decide)).2
  have h5 := (h4 (by decide)).1 2 0 rfl (by decide)
  exact ⟨by decide, by decide, h5⟩

/-! ## The tables and the free page ids of the store -/

/-- The relation speaks of the two tables and of the page ids of the store only. -/
theorem tableInv_same (s t : BufferPoolManager) (h : tableInv s)
    (h1 : t.page_table = s.page_table) (h2 : t.frame_table = s.frame_table)
    (h3 : t.disk_manager.num_pages = s.disk_manager.num_pages)
    (h4 : t.disk_manager.free_pages = s.disk_manager.free_pages) : tableInv t := by
  constructor
  · intro f p hf
    rw [h1]; rw [h2] at hf
    exact h.holders_listed f p hf
  · intro p f hp
    rw [h2]; rw [h1] at hp
    exact h.tables_agree p f hp
  · intro p f hp
    rw [h3]; rw [h1] at hp
    exact h.resident_lt p f hp
  · intro p hp
    rw [h3]; rw [h4] at hp
    exact h.freed_lt p hp
  · intro p hp
    rw [h1]; rw [h4] at hp
    exact h.freed_absent p hp
  · rw [h4]; exact h.freed_nodup

/-- What the eviction step of a fetch leaves of the frame table and of the page ids of
the store. -/
theorem evictForFetch_ids (s : BufferPoolManager) (f : Int) (h : tableInv s) :
    (s.evictForFetch f).2.frame_table = s.frame_table ∧
    (s.evictForFetch f).2.disk_manager.num_pages = s.disk_manager.num_pages ∧
    (s.evictForFetch f).2.disk_manager.free_pages = s.disk_manager.free_pages := by
  unfold evictForFetch
  cases hft : s.frame_table f with
  | none => exact ⟨rfl, rfl, rfl⟩
  | some old =>
    have hlt := h.resident_lt old f (h.holders_listed f old hft)
    by_cases hd : s.dirty f = true
    · simp only [hd, if_true]
      have hnp := writePage_num_pages s.disk_manager old (s.pages f).UpdateChecksum hlt
      cases hw : s.disk_manager.WritePage old (s.pages f).UpdateChecksum with
      | mk r d2 =>
        rw [hw] at hnp
        cases r with
        | error e =>
          refine ⟨rfl, hnp, ?_⟩
          have : d2 = (s.disk_manager.WritePage old (s.pages f).UpdateChecksum).2 := by rw [hw]
          rw [this]
          unfold DiskManager.WritePage
          have hge : ¬ old ≥ s.disk_manager.num_pages := by omega
          by_cases hfb : s.disk_manager.failbit = true <;> simp [hge, hfb]
        | ok u => exact ⟨rfl, hnp, (writePage_ok _ _ _ _ _ hw).2.1⟩
    · simp only [hd]
      exact ⟨rfl, rfl, rfl⟩

/-- The same for the eviction step of new_page. -/
theorem evictForNew_ids (s : BufferPoolManager) (f : Int) (h : tableInv s) :
    (s.evictForNew f).2.frame_table = s.frame_table ∧
    (s.evictForNew f).2.disk_manager.num_pages = s.disk_manager.num_pages ∧
    (s.evictForNew f).2.disk_manager.free_pages = s.disk_manager.free_pages := by
  unfold evictForNew
  cases hft : s.frame_table f with
  | none => exact ⟨rfl, rfl, rfl⟩
  | some old =>
    have hlt := h.resident_lt old f (h.holders_listed f old hft)
    by_cases hd : s.dirty f = true
    · simp only [hd, if_true]
      have hnp := writePage_num_pages s.disk_manager old (s.pages f) hlt
      cases hw : s.disk_manager.WritePage old (s.pages f) with
      | mk r d2 =>
        rw [hw] at hnp
        cases r with
        | error e =>
          refine ⟨rfl, hnp, ?_⟩
          have : d2 = (s.disk_manager.WritePage old (s.pages f)).2 := by rw [hw]
          rw [this]
          unfold DiskManager.WritePage
          have hge : ¬ old ≥ s.disk_manager.num_pages := by omega
          by_cases hfb : s.disk_manager.failbit = true <;> simp [hge, hfb]
        | ok u => exact ⟨rfl, hnp, (writePage_ok _ _ _ _ _ hw).2.1⟩
    · simp only [hd]
      exact ⟨rfl, rfl, rfl⟩

/-- A page that is not resident is installed in a frame whose old page, if any, has
been erased from the page table. -/
theorem tableInv_install (s t : BufferPoolManager) (h : tableInv s) (f : Int) (p : Nat)
    (hp : ptFind s.page_table p = none)
    (hpt : t.page_table = ptSet (s.ctl.erased f) p f)
    (hft : t.frame_table = setAt s.frame_table f (some p))
    (hn : s.disk_manager.num_pages ≤ t.disk_manager.num_pages)
    (hlt : p < t.disk_manager.num_pages)
    (hsub : ∀ q ∈ t.disk_manager.free_pages, q ∈ s.disk_manager.free_pages ∧ q ≠ p)
    (hnd : t.disk_manager.free_pages.Nodup) : tableInv t := by
  have herased : ∀ q g, g ≠ f → ptFind s.page_table q = some g →
      ptFind (s.ctl.erased f) q = some g := by
    intro q g hg hq
    unfold Ctl.erased
    show ptFind (match s.frame_table f with
      | none => s.page_table
      | some old_page_id => ptErase s.page_table old_page_id) q = some g
    cases hold : s.frame_table f with
    | none => exact hq
    | some old =>
      simp only
      rw [ptFind_ptErase]
      have hne : q ≠ old := by
        intro e
        have := h.holders_listed f old hold
        rw [← e, hq] at this
        exact hg (Option.some.inj this)
      simp [hne, hq]
  have hback : ∀ q g, ptFind (s.ctl.erased f) q = some g →
      ptFind s.page_table q = some g ∧ g ≠ f := by
    intro q g hq
    have h1 : ptFind s.page_table q = some g := ptFind_erased s.ctl f q g hq
    refine ⟨h1, ?_⟩
    intro e
    subst e
    have h2 := h.tables_agree q g h1
    unfold Ctl.erased at hq
    have hq' : ptFind (match s.frame_table g with
      | none => s.page_table
      | some old_page_id => ptErase s.page_table old_page_id) q = some g := hq
    rw [h2] at hq'
    simp only at hq'
    rw [ptFind_ptErase] at hq'
    simp at hq'
  constructor
  · intro g q hg
    rw [hft] at hg
    rw [hpt, ptFind_ptSet]
    by_cases hgf : g = f
    · subst hgf
      rw [setAt_same] at hg
      have : p = q := Option.some.inj hg
      simp [this]
    · rw [setAt_other _ _ _ _ hgf] at hg
      have hq := h.holders_listed g q hg
      have hne : q ≠ p := by
        intro e
        rw [e, hp] at hq
        exact absurd hq (by simp)
      simp only [hne, if_false]
      exact herased q g hgf hq
  · intro q g hq
    rw [hpt, ptFind_ptSet] at hq
    rw [hft]
    by_cases hqp : q = p
    · simp only [hqp, if_true] at hq
      have : f = g := Option.some.inj hq
      rw [← this, setAt_same, hqp]
    · simp only [hqp, if_false] at hq
      obtain ⟨h1, h2⟩ := hback q g hq
      rw [setAt_other _ _ _ _ h2]
      exact h.tables_agree q g h1
  · intro q g hq
    rw [hpt, ptFind_ptSet] at hq
    by_cases hqp : q = p
    · rw [hqp]; exact hlt
    · simp only [hqp, if_false] at hq
      obtain ⟨h1, _⟩ := hback q g hq
      exact Nat.lt_of_lt_of_le (h.resident_lt q g h1) hn
  · intro q hq
    exact Nat.lt_of_lt_of_le (h.freed_lt q (hsub q hq).1) hn
  · intro q hq
    obtain ⟨h1, h2⟩ := hsub q hq
    rw [hpt, ptFind_ptSet]
    simp only [h2, if_false]
    cases hc : ptFind (s.ctl.erased f) q with
    | none => rfl
    | some g =>
      have := (hback q g hc).1
      rw [h.freed_absent q h1] at this
      exact absurd this (by simp)
  · exact hnd

/-- A fetch that does not raise, of a page id that is not free, keeps the relation and
does not move `num_pages_`. -/
theorem tableInv_fetch (s : BufferPoolManager) (h : tableInv s) (page_id : Nat)
    (hu : page_id ∉ s.disk_manager.free_pages)
    (hr : ∀ e, (s.FetchPage page_id).1 ≠ .error e) :
    tableInv (s.FetchPage page_id).2 ∧
    (s.FetchPage page_id).2.disk_manager.num_pages = s.disk_manager.num_pages := by
  cases hp : ptFind s.page_table page_id with
  | some f =>
    unfold FetchPage
    simp only [hp]
    exact ⟨tableInv_same s _ h rfl rfl rfl rfl, trivial⟩
  | none =>
    rcases fetchPage_shape s page_id hp with ⟨s1, he, hsd, _, _⟩ | ⟨e, s1, he⟩ |
      ⟨f, s1, s2, pg, hsd, hg, _, _, hev, hrd, he⟩
    · rw [he]
      obtain ⟨a, b, _, c, _⟩ := hsd
      exact ⟨tableInv_same s s1 h a b (by rw [c]) (by rw [c]), by rw [c]⟩
    · rw [he] at hr
      exact absurd rfl (hr e)
    · rw [he]
      obtain ⟨a, b, _, c, _⟩ := hsd
      have h1 : tableInv s1 := tableInv_same s s1 h a b (by rw [c]) (by rw [c])
      obtain ⟨i1, i2, i3⟩ := evictForFetch_ids s1 f h1
      rw [hev] at i1 i2 i3
      simp only at i1 i2 i3
      have hpt := evictForFetch_table s1 s2 f hev
      have hlt := (readPage_ok _ _ _ _ hrd).2.1
      refine ⟨tableInv_install s1 _ h1 f page_id (by rw [a]; exact hp) ?_ ?_ ?_ ?_ ?_ ?_, ?_⟩
      · show ptSet s2.page_table page_id f = _
        rw [hpt]
      · show setAt s2.frame_table f (some page_id) = _
        rw [i1]
      · show s1.disk_manager.num_pages ≤ s2.disk_manager.num_pages
        rw [i2]
      · exact hlt
      · intro q hq
        have hq' : q ∈ s2.disk_manager.free_pages := hq
        rw [i3, c] at hq'
        refine ⟨by rw [c]; exact hq', ?_⟩
        intro e
        rw [e] at hq'
        exact hu hq'
      · show s2.disk_manager.free_pages.Nodup
        rw [i3]
        exact h1.freed_nodup
      · show s2.disk_manager.num_pages = _
        rw [i2, c]

/-- What `AllocatePage` returns and leaves, when free page ids are below `num_pages_`
and `num_pages_` is not the last value of its type. -/
theorem allocatePage_ids (d : DiskManager) (hb : d.num_pages + 1 < PAGE_ID_MOD) :
    (d.AllocatePage.1 ∈ d.free_pages ∧ d.AllocatePage.2.num_pages = d.num_pages ∧
      d.free_pages = d.AllocatePage.2.free_pages ++ [d.AllocatePage.1]) ∨
    (d.free_pages = [] ∧ d.AllocatePage.1 = d.num_pages ∧
      d.AllocatePage.2.num_pages = d.num_pages + 1 ∧ d.AllocatePage.2.free_pages = []) := by
  unfold DiskManager.AllocatePage
  cases hl : d.free_pages.getLast? with
  | some p =>
    left
    obtain ⟨ys, hys⟩ := List.getLast?_eq_some_iff.1 hl
    simp [hys]
  | none =>
    right
    have hnil : d.free_pages = [] := List.getLast?_eq_none_iff.1 hl
    have hmod : (d.num_pages + 1) % PAGE_ID_MOD = d.num_pages + 1 := Nat.mod_eq_of_lt hb
    simp [hnil, hmod]

/-- A new_page that does not raise keeps the relation and moves `num_pages_` by at
most one. -/
theorem tableInv_new (s : BufferPoolManager) (h : tableInv s)
    (hb : s.disk_manager.num_pages + 1 < PAGE_ID_MOD)
    (hr : ∀ e, s.NewPage.1 ≠ .error e) :
    tableInv s.NewPage.2 ∧
    s.NewPage.2.disk_manager.num_pages ≤ s.disk_manager.num_pages + 1 := by
  rcases newPage_ok_shape s with he | ⟨s1, he, hinv⟩ | ⟨e, s1, he⟩ |
    ⟨f, s1, s2, hsd, hg, _, _, hev, he⟩
  · rw [he]
    exact ⟨h, Nat.le_succ _⟩
  · have hs1 : s1.page_table = s.page_table ∧ s1.frame_table = s.frame_table ∧
        s1.disk_manager = s.disk_manager := by
      have hh : s.NewPage.2 = s1 := by rw [he]
      rw [← hh]
      unfold NewPage
      rcases getVictim_cases s with ⟨f, fl, r0, _, hg⟩ | ⟨_, _, hg⟩
      · rw [hg]
        simp only
        by_cases hf : f = INVALID_FRAME_ID
        · simp [hf]
        · exfalso
          have hne : s.NewPage.1 ≠ .ok none := by
            unfold NewPage
            rw [hg]
            simp only [hf, if_false]
            cases hev : evictForNew { s with free_list := fl, replacer := r0 } f with
            | mk e s2 =>
              cases e with
              | some err => simp
              | none => simp
          rw [he] at hne
          exact hne rfl
      · rw [hg]
        simp
    rw [he]
    obtain ⟨a, b, c⟩ := hs1
    exact ⟨tableInv_same s s1 h a b (by rw [c]) (by rw [c]), by rw [c]; exact Nat.le_succ _⟩
  · rw [he] at hr
    exact absurd rfl (hr e)
  · rw [he]
    obtain ⟨a, b, _, c, _⟩ := hsd
    have h1 : tableInv s1 := tableInv_same s s1 h a b (by rw [c]) (by rw [c])
    obtain ⟨i1, i2, i3⟩ := evictForNew_ids s1 f h1
    rw [hev] at i1 i2 i3
    simp only at i1 i2 i3
    have hpt := evictForNew_table s1 s2 f hev
    have hb2 : s2.disk_manager.num_pages + 1 < PAGE_ID_MOD := by rw [i2, c]; exact hb
    have hfa : ∀ q ∈ s2.disk_manager.free_pages, ptFind s1.page_table q = none := by
      intro q hq
      rw [i3] at hq
      exact h1.freed_absent q hq
    have hnd2 : s2.disk_manager.free_pages.Nodup := by rw [i3]; exact h1.freed_nodup
    have hfl2 : ∀ q ∈ s2.disk_manager.free_pages, q < s2.disk_manager.num_pages := by
      intro q hq
      rw [i2]
      rw [i3] at hq
      exact h1.freed_lt q hq
    rcases allocatePage_ids s2.disk_manager hb2 with ⟨m1, m2, m3⟩ | ⟨m1, m2, m3, m4⟩
    · refine ⟨tableInv_install s1 _ h1 f _ (hfa _ m1) ?_ ?_ ?_ ?_ ?_ ?_, ?_⟩
      · show ptSet s2.page_table _ f = _
        rw [hpt]
      · show setAt s2.frame_table f _ = _
        rw [i1]
      · show s1.disk_manager.num_pages ≤ s2.disk_manager.AllocatePage.2.num_pages
        rw [m2, i2]
      · show s2.disk_manager.AllocatePage.1 < s2.disk_manager.AllocatePage.2.num_pages
        rw [m2]
        exact hfl2 _ m1
      · intro q hq
        have hq' : q ∈ s2.disk_manager.AllocatePage.2.free_pages := hq
        rw [m3] at hnd2
        have hdis := List.nodup_append.1 hnd2
        refine ⟨?_, ?_⟩
        · rw [← i3, m3]
          exact List.mem_append_left _ hq'
        · intro e
          rw [e] at hq'
          exact hdis.2.2 hq' (by simp)
      · show s2.disk_manager.AllocatePage.2.free_pages.Nodup
        rw [m3] at hnd2
        exact (List.nodup_append.1 hnd2).1
      · show s2.disk_manager.AllocatePage.2.num_pages ≤ _
        rw [m2, i2, c]
        exact Nat.le_succ _
    · have hnr : ptFind s1.page_table s2.disk_manager.AllocatePage.1 = none := by
        cases hc : ptFind s1.page_table s2.disk_manager.AllocatePage.1 with
        | none => rfl
        | some g =>
          have := h1.resident_lt _ g hc
          rw [m2, i2] at this
          exact absurd this (Nat.lt_irrefl _)
      refine ⟨tableInv_install s1 _ h1 f _ hnr ?_ ?_ ?_ ?_ ?_ ?_, ?_⟩
      · show ptSet s2.page_table _ f = _
        rw [hpt]
      · show setAt s2.frame_table f _ = _
        rw [i1]
      · show s1.disk_manager.num_pages ≤ s2.disk_manager.AllocatePage.2.num_pages
        rw [m3, i2]
        exact Nat.le_succ _
      · show s2.disk_manager.AllocatePage.1 < s2.disk_manager.AllocatePage.2.num_pages
        rw [m2, m3]
        exact Nat.lt_succ_self _
      · intro q hq
        have hq' : q ∈ s2.disk_manager.AllocatePage.2.free_pages := hq
        rw [m4] at hq'
        exact absurd hq' (by simp)
      · show s2.disk_manager.AllocatePage.2.free_pages.Nodup
        rw [m4]
        exact List.nodup_nil
      · show s2.disk_manager.AllocatePage.2.num_pages ≤ _
        rw [m3, i2, c]

/-- Writing a resident page to the store keeps the relation. -/
theorem tableInv_written (s t : BufferPoolManager) (h : tableInv s) (p : Nat) (f : Int)
    (pg : Page) (d2 : DiskManager) (u : Unit) (hp : ptFind s.page_table p = some f)
    (hw : s.disk_manager.WritePage p pg = (.ok u, d2))
    (h1 : t.page_table = s.page_table) (h2 : t.frame_table = s.frame_table)
    (h3 : t.disk_manager = d2) :
    tableInv t ∧ t.disk_manager.num_pages = s.disk_manager.num_pages := by
  obtain ⟨_, w2, _, _, w5⟩ := writePage_ok _ _ _ _ _ hw
  have hn := w5 (h.resident_lt p f hp)
  exact ⟨tableInv_same s t h h1 h2 (by rw [h3, hn]) (by rw [h3, w2]), by rw [h3, hn]⟩

/-- A flush that does not raise keeps the relation and does not move `num_pages_`. -/
theorem tableInv_flush (s : BufferPoolManager) (h : tableInv s) (page_id : Nat)
    (hr : ∀ e, (s.FlushPage page_id).1 ≠ .error e) :
    tableInv (s.FlushPage page_id).2 ∧
    (s.FlushPage page_id).2.disk_manager.num_pages = s.disk_manager.num_pages := by
  unfold FlushPage at hr ⊢
  cases hp : ptFind s.page_table page_id with
  | none => exact ⟨h, rfl⟩
  | some f =>
    simp only [hp] at hr
    simp only
    cases hw : s.disk_manager.WritePage page_id (s.pages f).UpdateChecksum with
    | mk r d2 =>
      rw [hw] at hr
      cases r with
      | error e => exact absurd rfl (hr e)
      | ok u => exact tableInv_written s _ h page_id f _ d2 u hp hw rfl rfl rfl

/-- The loop of flush_all, when it does not raise, keeps the relation. -/
theorem tableInv_flushEntries (es : List (Nat × Int)) (s : BufferPoolManager)
    (h : tableInv s) (hes : ∀ e ∈ es, ptFind s.page_table e.1 = some e.2)
    (hr : (flushEntries es s).1 = none) :
    tableInv (flushEntries es s).2 ∧
    (flushEntries es s).2.disk_manager.num_pages = s.disk_manager.num_pages := by
  induction es generalizing s with
  | nil => exact ⟨h, rfl⟩
  | cons x rest ih =>
    obtain ⟨p, f⟩ := x
    have hp : ptFind s.page_table p = some f := hes (p, f) (by simp)
    unfold flushEntries at hr ⊢
    by_cases hd : s.dirty f = true
    · simp only [hd, if_true] at hr ⊢
      cases hw : s.disk_manager.WritePage p (s.pages f).UpdateChecksum with
      | mk r d2 =>
        rw [hw] at hr
        cases r with
        | error e => simp at hr
        | ok u =>
          simp only at hr ⊢
          generalize hs1 : ({ s with pages := setAt s.pages f (s.pages f).UpdateChecksum, disk_manager := d2, dirty := setAt s.dirty f false } : BufferPoolManager) = s1 at hr ⊢
          have h2 : tableInv s1 ∧ s1.disk_manager.num_pages = s.disk_manager.num_pages := by
            subst hs1
            exact tableInv_written s _ h p f _ d2 u hp hw rfl rfl rfl
          have hpt : s1.page_table = s.page_table := by subst hs1; rfl
          obtain ⟨i1, i2⟩ := ih s1 h2.1 (fun e he => by rw [hpt]; exact hes e (by simp [he])) hr
          exact ⟨i1, by rw [i2]; exact h2.2⟩
    · simp only [hd] at hr ⊢
      exact ih s h (fun e he => hes e (by simp [he])) hr

/-- A delete that does not raise, of a page id that is not free, keeps the relation and
does not move `num_pages_`. -/
theorem tableInv_delete (s : BufferPoolManager) (h : tableInv s) (page_id : Nat)
    (hu : page_id ∉ s.disk_manager.free_pages)
    (hr : ∀ e, (s.DeletePage page_id).1 ≠ .error e) :
    tableInv (s.DeletePage page_id).2 ∧
    (s.DeletePage page_id).2.disk_manager.num_pages = s.disk_manager.num_pages := by
  have hdealloc : ∀ d : DiskManager, ∀ u d2, d.DeallocatePage page_id = (.ok u, d2) →
      page_id < d.num_pages ∧ d2.num_pages = d.num_pages ∧
      d2.free_pages = d.free_pages ++ [page_id] := by
    intro d u d2 hd
    unfold DiskManager.DeallocatePage at hd
    by_cases h0 : page_id = HEADER_PAGE_ID
    · simp [h0] at hd
    · by_cases hge : page_id ≥ d.num_pages
      · simp [h0, hge] at hd
      · simp only [h0, hge, if_false] at hd
        have := (Prod.mk.inj hd).2
        subst this
        exact ⟨by omega, rfl, rfl⟩
  unfold DeletePage at hr ⊢
  cases hp : ptFind s.page_table page_id with
  | none =>
    simp only [hp] at hr
    simp only
    cases hd : s.disk_manager.DeallocatePage page_id with
    | mk r d2 =>
      rw [hd] at hr
      cases r with
      | error e => exact absurd rfl (hr e)
      | ok u =>
        obtain ⟨a, b, c⟩ := hdealloc _ u d2 hd
        simp only
        refine ⟨?_, b⟩
        constructor
        · exact h.holders_listed
        · exact h.tables_agree
        · intro q g hq
          show q < d2.num_pages
          rw [b]
          exact h.resident_lt q g hq
        · intro q hq
          have hq' : q ∈ d2.free_pages := hq
          show q < d2.num_pages
          rw [b]
          rw [c, List.mem_append] at hq'
          rcases hq' with hq' | hq'
          · exact h.freed_lt q hq'
          · have : q = page_id := by simpa using hq'
            rw [this]; exact a
        · intro q hq
          have hq' : q ∈ d2.free_pages := hq
          rw [c, List.mem_append] at hq'
          rcases hq' with hq' | hq'
          · exact h.freed_absent q hq'
          · have : q = page_id := by simpa using hq'
            rw [this]; exact hp
        · show d2.free_pages.Nodup
          rw [c]
          exact List.Nodup.append h.freed_nodup (List.nodup_singleton _)
            (by
              intro x hx1 hx2
              have : x = page_id := by simpa using hx2
              rw [this] at hx1
              exact hu hx1)
  | some f =>
    simp only [hp] at hr
    simp only
    by_cases hpin : s.pin_count f > 0
    · simp only [hpin, if_true]
      exact ⟨h, trivial⟩
    · simp only [hpin, if_false] at hr ⊢
      cases hd : s.disk_manager.DeallocatePage page_id with
      | mk r d2 =>
        rw [hd] at hr
        cases r with
        | error e => exact absurd rfl (hr e)
        | ok u =>
          obtain ⟨a, b, c⟩ := hdealloc _ u d2 hd
          simp only
          refine ⟨?_, b⟩
          constructor
          · intro g q hg
            have hg' : setAt s.frame_table f none g = some q := hg
            show ptFind (ptErase s.page_table page_id) q = some g
            by_cases hgf : g = f
            · rw [hgf, setAt_same] at hg'
              exact absurd hg' (by simp)
            · rw [setAt_other _ _ _ _ hgf] at hg'
              have hq := h.holders_listed g q hg'
              rw [ptFind_ptErase]
              have hne : q ≠ page_id := by
                intro e
                rw [e, hp] at hq
                exact hgf (Option.some.inj hq).symm
              simp [hne, hq]
          · intro q g hq
            have hq' : ptFind (ptErase s.page_table page_id) q = some g := hq
            show setAt s.frame_table f none g = some q
            rw [ptFind_ptErase] at hq'
            by_cases hqp : q = page_id
            · simp [hqp] at hq'
            · simp only [hqp, if_false] at hq'
              have hgf : g ≠ f := by
                intro e
                rw [e] at hq'
                have t1 := h.tables_agree q f hq'
                have t2 := h.tables_agree page_id f hp
                rw [t1] at t2
                exact hqp (Option.some.inj t2)
              rw [setAt_other _ _ _ _ hgf]
              exact h.tables_agree q g hq'
          · intro q g hq
            have hq' : ptFind (ptErase s.page_table page_id) q = some g := hq
            show q < d2.num_pages
            rw [b]
            rw [ptFind_ptErase] at hq'
            by_cases hqp : q = page_id
            · simp [hqp] at hq'
            · simp only [hqp, if_false] at hq'
              exact h.resident_lt q g hq'
          · intro q hq
            have hq' : q ∈ d2.free_pages := hq
            show q < d2.num_pages
            rw [b]
            rw [c, List.mem_append] at hq'
            rcases hq' with hq' | hq'
            · exact h.freed_lt q hq'
            · have : q = page_id := by simpa using hq'
              rw [this]; exact a
          · intro q hq
            have hq' : q ∈ d2.free_pages := hq
            show ptFind (ptErase s.page_table page_id) q = none
            rw [ptFind_ptErase]
            rw [c, List.mem_append] at hq'
            rcases hq' with hq' | hq'
            · simp [h.freed_absent q hq']
            · have : q = page_id := by simpa using hq'
              simp [this]
          · show d2.free_pages.Nodup
            rw [c]
            exact List.Nodup.append h.freed_nodup (List.nodup_singleton _)
              (by
                intro x hx1 hx2
                have : x = page_id := by simpa using hx2
                rw [this] at hx1
                exact hu hx1)

/-- Every call that does not raise and does not name a free page id keeps the relation
and moves `num_pages_` by at most one. -/
theorem tableInv_exec (s : BufferPoolManager) (op : Op) (h : tableInv s) (hi : poolInv s.ctl)
    (hb : s.disk_manager.num_pages + 1 < PAGE_ID_MOD)
    (hu : op.usesFreed s.disk_manager = false)
    (hr : (exec s op).1.isRaised = false) :
    tableInv (exec s op).2 ∧
    (exec s op).2.disk_manager.num_pages ≤ s.disk_manager.num_pages + 1 := by
  cases op with
  | fetch p =>
    have hu' : p ∉ s.disk_manager.free_pages := by simpa [Op.usesFreed] using hu
    have hr' : ∀ e, (s.FetchPage p).1 ≠ .error e := by
      intro e he
      simp [exec, he, Outcome.ofExcept, Outcome.isRaised] at hr
    obtain ⟨a, b⟩ := tableInv_fetch s h p hu' hr'
    exact ⟨a, by show (s.FetchPage p).2.disk_manager.num_pages ≤ _; rw [b]; exact Nat.le_succ _⟩
  | new_page =>
    have hr' : ∀ e, s.NewPage.1 ≠ .error e := by
      intro e he
      simp [exec, he, Outcome.ofExcept, Outcome.isRaised] at hr
    exact tableInv_new s h hb hr'
  | unpin p b =>
    obtain ⟨a1, a2, _, a4, _⟩ := unpinPage_data s p b
    exact ⟨tableInv_same s (s.UnpinPage p b).2 h a1 a2 (by rw [a4]) (by rw [a4]),
      by show (s.UnpinPage p b).2.disk_manager.num_pages ≤ _; rw [a4]; exact Nat.le_succ _⟩
  | flush p =>
    have hr' : ∀ e, (s.FlushPage p).1 ≠ .error e := by
      intro e he
      simp [exec, he, Outcome.ofExcept, Outcome.isRaised] at hr
    obtain ⟨a, b⟩ := tableInv_flush s h p hr'
    exact ⟨a, by show (s.FlushPage p).2.disk_manager.num_pages ≤ _; rw [b]; exact Nat.le_succ _⟩
  | flush_all =>
    have hr' : (flushEntries s.page_table s).1 = none := by
      cases hc : (flushEntries s.page_table s).1 with
      | none => rfl
      | some e =>
        have hc' : s.FlushAllPages.1 = some e := hc
        simp [exec, hc', Outcome.isRaised] at hr
    obtain ⟨a, b⟩ := tableInv_flushEntries s.page_table s h hi.entries_found hr'
    exact ⟨a, by show (flushEntries s.page_table s).2.disk_manager.num_pages ≤ _; rw [b]; exact Nat.le_succ _⟩
  | delete p =>
    have hu' : p ∉ s.disk_manager.free_pages := by simpa [Op.usesFreed] using hu
    have hr' : ∀ e, (s.DeletePage p).1 ≠ .error e := by
      intro e he
      simp [exec, he, Outcome.ofExcept, Outcome.isRaised] at hr
    obtain ⟨a, b⟩ := tableInv_delete s h p hu' hr'
    exact ⟨a, by show (s.DeletePage p).2.disk_manager.num_pages ≤ _; rw [b]; exact Nat.le_succ _⟩
  | write p data =>
    obtain ⟨a1, a2, a3, _⟩ := clientWrite_data s p data
    exact ⟨tableInv_same s (s.clientWrite p data) h a1 a2 (by rw [a3]) (by rw [a3]),
      by show (s.clientWrite p data).disk_manager.num_pages ≤ _; rw [a3]; exact Nat.le_succ _⟩

/-- A run without a store error and without a call on a free page id keeps the
relation, as long as `num_pages_` cannot wrap. -/
theorem tableInv_run (ops : List Op) (s : BufferPoolManager) (h : tableInv s)
    (hi : poolInv s.ctl) (hb : s.disk_manager.num_pages + ops.length < PAGE_ID_MOD)
    (hr : noRaise s ops = true) (hu : noUseAfterFree s ops = true) :
    tableInv (run s ops) := by
  induction ops generalizing s with
  | nil => exact h
  | cons op rest ih =>
    simp only [noRaise, Bool.and_eq_true, Bool.not_eq_true'] at hr
    simp only [noUseAfterFree, Bool.and_eq_true, Bool.not_eq_true'] at hu
    simp only [List.length_cons] at hb
    obtain ⟨a, b⟩ := tableInv_exec s op h hi (by omega) hu.1 hr.1
    exact ih (exec s op).2 a (poolInv_exec s op hi) (by omega) hr.2 hu.2

/-- A new pool satisfies the relation when the free page ids of its store are distinct
and below `num_pages_`. -/
theorem tableInv_init (pool_size : Nat) (d : DiskManager) (hnd : d.free_pages.Nodup)
    (hlt : ∀ p ∈ d.free_pages, p < d.num_pages) :
    tableInv (BufferPoolManager.ctor pool_size d) := by
  constructor
  · intro f p hf
    simp [BufferPoolManager.ctor] at hf
  · intro p f hp
    simp [BufferPoolManager.ctor, ptFind] at hp
  · intro p f hp
    simp [BufferPoolManager.ctor, ptFind] at hp
  · exact hlt
  · intro p _
    rfl
  · exact hnd

/-! ## No page in two frames -/

/-- C5 (amended): after any sequence of calls on a new pool, two distinct frames that
page table entries point to hold distinct page ids according to the frame table; and
after a sequence of calls of which none raised a store error and none fetched or deleted
a page id that the store held as free at the time of the call (a second delete of the
same page, a fetch of a deleted page), on a store whose free page ids are distinct and
below `num_pages_` and that stays below 2^32 pages, the frame table as a whole never
maps two distinct frames to the same page id. -/
theorem no_page_in_two_frames (pool_size : Nat) (d : DiskManager) :
    (∀ (ops : List Op) (f g : Int) (p q : Nat), f ≠ g →
      ptFind (run (BufferPoolManager.ctor pool_size d) ops).page_table p = some f →
      ptFind (run (BufferPoolManager.ctor pool_size d) ops).page_table q = some g →
      (run (BufferPoolManager.ctor pool_size d) ops).frame_table f = some p ∧
      (run (BufferPoolManager.ctor pool_size d) ops).frame_table g = some q ∧ p ≠ q) ∧
    (∀ (ops : List Op), d.free_pages.Nodup → (∀ p ∈ d.free_pages, p < d.num_pages) →
      d.num_pages + ops.length < PAGE_ID_MOD →
      noRaise (BufferPoolManager.ctor pool_size d) ops = true →
      noUseAfterFree (BufferPoolManager.ctor pool_size d) ops = true →
      ∀ (f g : Int) (p : Nat),
        (run (BufferPoolManager.ctor pool_size d) ops).frame_table f = some p →
        (run (BufferPoolManager.ctor pool_size d) ops).frame_table g = some p → f = g) := by
  constructor
  · intro ops f g p q hfg hp hq
    have hi : poolInv (run (BufferPoolManager.ctor pool_size d) ops).ctl :=
      poolInv_run ops _ (poolInv_init pool_size d)
    refine ⟨hi.tables_agree p f hp, hi.tables_agree q g hq, ?_⟩
    intro e
    rw [e, hq] at hp
    exact hfg (Option.some.inj hp).symm
  · intro ops hnd hlt hb hr hu f g p hf hg
    have h := tableInv_run ops _ (tableInv_init pool_size d hnd hlt) (poolInv_init pool_size d)
      hb hr hu
    have h1 := h.holders_listed f p hf
    have h2 := h.holders_listed g p hg
    rw [h1] at h2
    exact Option.some.inj h2

/-- Witness for C5 (amended): a pool of two frames over a new store; page 2 is created,
unpinned and deleted once, and two more pages are created: the first of them gets page
id 2 again, in frame 1, the second gets page id 3 in frame 0, and no other frame holds
page 2. -/
theorem no_page_in_two_frames_witness :
    (run (BufferPoolManager.ctor 2 (DiskManager.ctor none))
      [.new_page, .unpin 2 false, .delete 2, .new_page, .new_page]).frame_table 1 = some 2 ∧
    (run (BufferPoolManager.ctor 2 (DiskManager.ctor none))
      [.new_page, .unpin 2 false, .delete 2, .new_page, .new_page]).frame_table 0 = some 3 ∧
    (∀ g, (run (BufferPoolManager.ctor 2 (DiskManager.ctor none))
      [.new_page, .unpin 2 false, .delete 2, .new_page, .new_page]).frame_table g = some 2 →
      (1 : Int) = g) :=
  ⟨by decide, by decide, fun g hg =>
    (no_page_in_two_frames 2 (DiskManager.ctor none)).2
      [.new_page, .unpin 2 false, .delete 2, .new_page, .new_page] (by decide) (by decide)
      (by decide) (by decide) (by decide) 1 g 2 (by decide) hg⟩

/-- Counterexample to C5 as stated: on a pool of two frames over a new store, page 2 is
created, unpinned and deleted; a second delete(2) finds the page not resident and
deallocates it once more (it returns true), so the free list of the store holds page id
2 twice; the next two new_page calls both get page id 2, and the frame table maps frame
1 and frame 0 to page 2. No call raises. -/
theorem no_page_in_two_frames_counterexample :
    noRaise (BufferPoolManager.ctor 2 (DiskManager.ctor none))
      [.new_page, .unpin 2 false, .delete 2, .delete 2, .new_page, .new_page] = true ∧
    (exec (run (BufferPoolManager.ctor 2 (DiskManager.ctor none))
      [.new_page, .unpin 2 false, .delete 2]) (.delete 2)).1 = .flag true ∧
    (run (BufferPoolManager.ctor 2 (DiskManager.ctor none))
      [.new_page, .unpin 2 false, .delete 2, .delete 2, .new_page, .new_page]).frame_table 1
      = some 2 ∧
    (run (BufferPoolManager.ctor 2 (DiskManager.ctor none))
      [.new_page, .unpin 2 false, .delete 2, .delete 2, .new_page, .new_page]).frame_table 0
      = some 2 ∧
    (1 : Int) ≠ 0 := by
  decide

/-! ## Dirty pages are written back before their frame is reused -/

theorem readPage_file (d : DiskManager) (p : Nat) : (d.ReadPage p).2.file = d.file := by
  unfold DiskManager.ReadPage
  by_cases hge : p ≥ d.num_pages
  · simp [hge]
  · by_cases hfb : d.failbit = true
    · simp [hge, hfb]
    · simp only [hge, if_false, hfb]
      cases d.file.get? p <;> rfl

theorem writePage_slot (d : DiskManager) (p : Nat) (pg : Page) (h : d.failbit = false) :
    fileSlot (d.WritePage p pg).2.file p = pg ∧ (d.WritePage p pg).2.failbit = false ∧
    ∃ u, (d.WritePage p pg).1 = .ok u := by
  unfold DiskManager.WritePage
  by_cases hge : p ≥ d.num_pages <;> simp [hge, h, fileSlot_fileWrite]

theorem evictForFetch_written (s : BufferPoolManager) (f : Int) (p : Nat)
    (hft : s.frame_table f = some p) :
    (s.dirty f = true → s.disk_manager.failbit = false →
      fileSlot (s.evictForFetch f).2.disk_manager.file p = (s.pages f).UpdateChecksum) ∧
    (s.dirty f = false → (s.evictForFetch f).2.disk_manager = s.disk_manager) := by
  unfold evictForFetch
  simp only [hft]
  constructor
  · intro hd hfb
    simp only [hd, if_true]
    obtain ⟨w1, _, u, w3⟩ := writePage_slot s.disk_manager p (s.pages f).UpdateChecksum hfb
    cases hw : s.disk_manager.WritePage p (s.pages f).UpdateChecksum with
    | mk r d2 =>
      rw [hw] at w1 w3
      simp only at w3
      subst w3
      exact w1
  · intro hd
    simp [hd]

theorem evictForNew_written (s : BufferPoolManager) (f : Int) (p : Nat)
    (hft : s.frame_table f = some p) :
    (s.dirty f = true → s.disk_manager.failbit = false →
      fileSlot (s.evictForNew f).2.disk_manager.file p = s.pages f) ∧
    (s.dirty f = false → (s.evictForNew f).2.disk_manager = s.disk_manager) := by
  unfold evictForNew
  simp only [hft]
  constructor
  · intro hd hfb
    simp only [hd, if_true]
    obtain ⟨w1, _, u, w3⟩ := writePage_slot s.disk_manager p (s.pages f) hfb
    cases hw : s.disk_manager.WritePage p (s.pages f) with
    | mk r d2 =>
      rw [hw] at w1 w3
      simp only at w3
      subst w3
      exact w1
  · intro hd
    simp [hd]

/-- The file a fetch miss leaves is the file its eviction step leaves. -/
theorem fetchPage_file (s : BufferPoolManager) (page_id : Nat)
    (hp : ptFind s.page_table page_id = none) (f : Int)
    (hv : ({ s with miss_count := s.miss_count + 1 }).GetVictimFrame.1 = f)
    (hf : f ≠ INVALID_FRAME_ID) :
    ∃ s1, sameData s1 s ∧
      (s.FetchPage page_id).2.disk_manager.file = (s1.evictForFetch f).2.disk_manager.file := by
  unfold FetchPage
  simp only [hp]
  rcases getVictim_cases { s with miss_count := s.miss_count + 1 } with
    ⟨g, fl, r0, _, hg⟩ | ⟨_, _, hg⟩
  · rw [hg] at hv ⊢
    simp only at hv
    subst hv
    simp only [hf, if_false]
    generalize hs1 : ({ s with miss_count := s.miss_count + 1, free_list := fl, replacer := r0 } :
      BufferPoolManager) = s1
    have hsd : sameData s1 s := by subst hs1; exact ⟨rfl, rfl, rfl, rfl, rfl⟩
    refine ⟨s1, hsd, ?_⟩
    cases he : evictForFetch s1 g with
    | mk e s2 =>
      cases e with
      | some err => rfl
      | none =>
        simp only
        have := readPage_file s2.disk_manager page_id
        cases hrd : s2.disk_manager.ReadPage page_id with
        | mk r d2 =>
          rw [hrd] at this
          cases r <;> exact this
  · rw [hg] at hv
    exact absurd hv.symm hf

/-- The file a new_page leaves is the file its eviction step leaves. -/
theorem newPage_file (s : BufferPoolManager) (f : Int) (hv : s.GetVictimFrame.1 = f)
    (hf : f ≠ INVALID_FRAME_ID) :
    ∃ s1, sameData s1 s ∧
      s.NewPage.2.disk_manager.file = (s1.evictForNew f).2.disk_manager.file := by
  unfold NewPage
  rcases getVictim_cases s with ⟨g, fl, r0, _, hg⟩ | ⟨_, _, hg⟩
  · rw [hg] at hv ⊢
    simp only at hv
    subst hv
    simp only [hf, if_false]
    generalize hs1 : ({ s with free_list := fl, replacer := r0 } : BufferPoolManager) = s1
    have hsd : sameData s1 s := by subst hs1; exact ⟨rfl, rfl, rfl, rfl, rfl⟩
    refine ⟨s1, hsd, ?_⟩
    cases he : evictForNew s1 g with
    | mk e s2 =>
      cases e with
      | some err => rfl
      | none =>
        simp only
        unfold DiskManager.AllocatePage
        cases s2.disk_manager.free_pages.getLast? <;> rfl
  · rw [hg] at hv
    exact absurd hv.symm hf

theorem sameExceptChecksum_update (p : Page) : sameExceptChecksum p.UpdateChecksum p := by
  simp [sameExceptChecksum, Page.UpdateChecksum]

theorem scenario_step (k : Nat) (hk : k < 5) :
    cnoRaise (BufferPoolManager.ctor 5 (DiskManager.ctor none))
      (evictionScenario ++ refetched k ++ [.fetch (k + 2)]) = true ∧
    ptFind (crun (BufferPoolManager.ctor 5 (DiskManager.ctor none))
      (evictionScenario ++ refetched k)).page_table (k + 2) = none ∧
    (cexec (crun (BufferPoolManager.ctor 5 (DiskManager.ctor none))
      (evictionScenario ++ refetched k)) (.fetch (k + 2))).1 = .page (some (4 - (k : Int))) ∧
    (((cexec (crun (BufferPoolManager.ctor 5 (DiskManager.ctor none))
      (evictionScenario ++ refetched k)) (.fetch (k + 2))).2.pages (4 - (k : Int))).data
        == sampleData (k + 1)) = true ∧
    (cexec (crun (BufferPoolManager.ctor 5 (DiskManager.ctor none))
      (evictionScenario ++ refetched k)) (.fetch (k + 2))).2.miss_count =
      (crun (BufferPoolManager.ctor 5 (DiskManager.ctor none))
        (evictionScenario ++ refetched k)).miss_count + 1 := by
  interval_cases k <;> decide!

/-- C2 (amended): when a fetch miss reuses a frame that holds page p with its dirty bit
set (and the stream of the store has not failed), slot p of the store afterwards holds
the frame's page with the header checksum recomputed from the data area, so the data
area and every other header field are as they were before the call; when new_page
reuses such a frame, slot p holds a page with the frame's data area and header fields
(of its checksum field nothing is said); a frame whose dirty bit is clear is not
written: the file stays as it was. In the eviction scenario (pool of 5 over a new store,
ten pages created, written and unpinned dirty, then pages 2..6 fetched and unpinned in
turn) no call raises, each fetched page is not resident, its fetch returns a frame with
the data that was written, and the miss counter goes up by one. -/
theorem dirty_victim_written_back_before_reuse :
    (∀ (s : BufferPoolManager) (page_id : Nat) (f : Int) (p : Nat),
      ptFind s.page_table page_id = none →
      ({ s with miss_count := s.miss_count + 1 }).GetVictimFrame.1 = f →
      f ≠ INVALID_FRAME_ID → s.frame_table f = some p →
      (s.dirty f = true → s.disk_manager.failbit = false →
        fileSlot (s.FetchPage page_id).2.disk_manager.file p = (s.pages f).UpdateChecksum ∧
        sameExceptChecksum (fileSlot (s.FetchPage page_id).2.disk_manager.file p) (s.pages f) ∧
        (fileSlot (s.FetchPage page_id).2.disk_manager.file p).header.checksum =
          (s.pages f).CalculateChecksum) ∧
      (s.dirty f = false → (s.FetchPage page_id).2.disk_manager.file = s.disk_manager.file)) ∧
    (∀ (s : BufferPoolManager) (f : Int) (p : Nat),
      s.GetVictimFrame.1 = f → f ≠ INVALID_FRAME_ID → s.frame_table f = some p →
      (s.dirty f = true → s.disk_manager.failbit = false →
        sameExceptChecksum (fileSlot s.NewPage.2.disk_manager.file p) (s.pages f)) ∧
      (s.dirty f = false → s.NewPage.2.disk_manager.file = s.disk_manager.file)) ∧
    (∀ k, k < 5 →
      cnoRaise (BufferPoolManager.ctor 5 (DiskManager.ctor none))
        (evictionScenario ++ refetched k ++ [.fetch (k + 2)]) = true ∧
      ptFind (crun (BufferPoolManager.ctor 5 (DiskManager.ctor none))
        (evictionScenario ++ refetched k)).page_table (k + 2) = none ∧
      (cexec (crun (BufferPoolManager.ctor 5 (DiskManager.ctor none))
        (evictionScenario ++ refetched k)) (.fetch (k + 2))).1 = .page (some (4 - (k : Int))) ∧
      ((cexec (crun (BufferPoolManager.ctor 5 (DiskManager.ctor none))
        (evictionScenario ++ refetched k)) (.fetch (k + 2))).2.pages (4 - (k : Int))).data
          = sampleData (k + 1) ∧
      (cexec (crun (BufferPoolManager.ctor 5 (DiskManager.ctor none))
        (evictionScenario ++ refetched k)) (.fetch (k + 2))).2.miss_count =
        (crun (BufferPoolManager.ctor 5 (DiskManager.ctor none))
          (evictionScenario ++ refetched k)).miss_count + 1) := by
  refine ⟨?_, ?_, ?_⟩
  · intro s page_id f p hp hv hf hft
    obtain ⟨s1, hsd, hfile⟩ := fetchPage_file s page_id hp f hv hf
    obtain ⟨h1, h2, h3, h4, h5⟩ := hsd
    have hw := evictForFetch_written s1 f p (by rw [h2]; exact hft)
    rw [hfile]
    constructor
    · intro hd hfb
      have := hw.1 (by rw [h5]; exact hd) (by rw [h4]; exact hfb)
      rw [h3] at this
      rw [this]
      exact ⟨rfl, sameExceptChecksum_update _, rfl⟩
    · intro hd
      rw [hw.2 (by rw [h5]; exact hd), h4]
  · intro s f p hv hf hft
    obtain ⟨s1, hsd, hfile⟩ := newPage_file s f hv hf
    obtain ⟨h1, h2, h3, h4, h5⟩ := hsd
    have hw := evictForNew_written s1 f p (by rw [h2]; exact hft)
    rw [hfile]
    constructor
    · intro hd hfb
      have := hw.1 (by rw [h5]; exact hd) (by rw [h4]; exact hfb)
      rw [h3] at this
      rw [this]
      exact ⟨rfl, rfl⟩
    · intro hd
      rw [hw.2 (by rw [h5]; exact hd), h4]
  · intro k hk
    obtain ⟨a, b, c, d, e⟩ := scenario_step k hk
    exact ⟨a, b, c, eq_of_beq d, e⟩

/-- Witness for C2 (amended): in a pool of one frame, page 2 was created, written and
unpinned dirty; the fetch of page 0 reuses frame 0 and slot 2 of the file then holds
the frame's page with its checksum recomputed. -/
theorem dirty_victim_written_back_before_reuse_witness :
    fileSlot (staleChecksumState.FetchPage 0).2.disk_manager.file 2 =
      (staleChecksumState.pages 0).UpdateChecksum :=
  ((dirty_victim_written_back_before_reuse.1 staleChecksumState 0 0 2 (by decide!) (by decide!)
    (by decide) (by decide!)).1 (by decide!) (by decide!)).1

/-- Counterexample to C2 as stated: in the same state frame 0 holds page 2 with its
dirty bit set and a header checksum of 0, while the data area written by the client has
checksum 7. The fetch of page 0 reuses frame 0 (it returns it), and slot 2 of the store
then holds a page whose checksum field is 7: not the frame's bytes as they were before
the call. -/
theorem dirty_victim_written_back_counterexample :
    staleChecksumState.frame_table 0 = some 2 ∧
    staleChecksumState.dirty 0 = true ∧
    (staleChecksumState.pages 0).header.checksum = 0 ∧
    (exec staleChecksumState (.fetch 0)).1 = .page (some 0) ∧
    (fileSlot (staleChecksumState.FetchPage 0).2.disk_manager.file 2).header.checksum = 7 ∧
    fileSlot (staleChecksumState.FetchPage 0).2.disk_manager.file 2 ≠
      staleChecksumState.pages 0 := by
  have h1 : (staleChecksumState.pages 0).header.checksum = 0 := by decide!
  have h2 : (fileSlot (staleChecksumState.FetchPage 0).2.disk_manager.file 2).header.checksum
      = 7 := by decide!
  refine ⟨by decide!, by decide!, h1, by decide!, h2, ?_⟩
  intro h
  rw [h, h1] at h2
  exact absurd h2 (by decide)

/-! ## Persistence across a reopen -/

/-- C4, evaluated at the failing input: after delete(1) on a new store new_page returns
page id 1 (the free-list page); the page is written, unpinned dirty and flushed, so slot
1 of the file holds the data; no call raises. Closing the store saves the free list into
slot 1, and after the reopen fetch(1) succeeds but returns a zeroed data area, not the
data that was published. -/
theorem persistence_lost_for_recycled_free_list_page :
    (exec (run (BufferPoolManager.ctor 10 (DiskManager.ctor none)) [.delete 1]) .new_page).1
      = .created (some (1, 9)) ∧
    noRaise (BufferPoolManager.ctor 10 (DiskManager.ctor none))
      [.delete 1, .new_page, .write 1 (sampleData 7), .unpin 1 true, .flush_all] = true ∧
    (fileSlot recycledFreeListSession.disk_manager.file 1).data = sampleData 7 ∧
    (exec recycledFreeListReopened (.fetch 1)).1 = .page (some 9) ∧
    ((exec recycledFreeListReopened (.fetch 1)).2.pages 9).data
      = List.replicate PAGE_DATA_SIZE 0 ∧
    ((exec recycledFreeListReopened (.fetch 1)).2.pages 9).data ≠ sampleData 7 := by
  have h1 : (((exec recycledFreeListReopened (.fetch 1)).2.pages 9).data
      == List.replicate PAGE_DATA_SIZE 0) = true := by decide!
  have h2 : ((fileSlot recycledFreeListSession.disk_manager.file 1).data == sampleData 7)
      = true := by decide!
  refine ⟨by decide!, by decide!, eq_of_beq h2, by decide!, eq_of_beq h1, ?_⟩
  rw [eq_of_beq h1]
  decide!

/-! ## The page store: allocate and deallocate -/

/-- C14: when the free list of the store is not empty, allocate returns its last
element and removes exactly that element, and nothing else changes (`num_pages_`
included); when it is empty, allocate returns `num_pages_`, the free list stays empty,
and `num_pages_` goes up by one (in uint32 arithmetic, so by one whenever it is not the
last value of its type). -/
theorem allocate_is_lifo_with_fresh_fallback (d : DiskManager) :
    (∀ rest last, d.free_pages = rest ++ [last] →
      d.AllocatePage = (last, { d with free_pages := rest })) ∧
    (d.free_pages ≠ [] → d.AllocatePage.2.num_pages = d.num_pages) ∧
    (d.free_pages = [] →
      d.AllocatePage.1 = d.num_pages ∧ d.AllocatePage.2.free_pages = [] ∧
      d.AllocatePage.2.num_pages = (d.num_pages + 1) % PAGE_ID_MOD ∧
      d.AllocatePage.2.file = d.file ∧ d.AllocatePage.2.failbit = d.failbit ∧
      (d.num_pages + 1 < PAGE_ID_MOD → d.AllocatePage.2.num_pages = d.num_pages + 1)) := by
  refine ⟨?_, ?_, ?_⟩
  · intro rest last h
    simp [DiskManager.AllocatePage, h]
  · intro h
    unfold DiskManager.AllocatePage
    cases hl : d.free_pages.getLast? with
    | some p => rfl
    | none => exact absurd (List.getLast?_eq_none_iff.1 hl) h
  · intro h
    have hmod : d.num_pages + 1 < PAGE_ID_MOD →
        (d.num_pages + 1) % PAGE_ID_MOD = d.num_pages + 1 := Nat.mod_eq_of_lt
    simp [DiskManager.AllocatePage, h]
    exact hmod

/-- Witness for C14: with free list [5, 7] and 9 pages allocate returns 7 and leaves
[5]; a new store (2 pages, nothing free) allocates page 2 and then counts 3 pages. -/
theorem allocate_is_lifo_with_fresh_fallback_witness :
    (({ num_pages := 9, free_pages := [5, 7], file := [], failbit := false } :
      DiskManager).AllocatePage =
      (7, { num_pages := 9, free_pages := [5], file := [], failbit := false })) ∧
    (DiskManager.ctor none).AllocatePage.1 = 2 ∧
    (DiskManager.ctor none).AllocatePage.2.num_pages = 2 + 1 :=
  ⟨(allocate_is_lifo_with_fresh_fallback
      { num_pages := 9, free_pages := [5, 7], file := [], failbit := false }).1 [5] 7 rfl,
    ((allocate_is_lifo_with_fresh_fallback (DiskManager.ctor none)).2.2 (by decide)).1,
    ((allocate_is_lifo_with_fresh_fallback (DiskManager.ctor none)).2.2
      (by decide)).2.2.2.2.2 (by decide)⟩

/-- C15: deallocate raises exactly when the page id is the header page or is not below
`num_pages_`, and then the store is as it was; otherwise the page id is appended to
the end of the free list, and `num_pages_`, the file and the stream flag are as they
were. -/
theorem deallocate_contract (d : DiskManager) (page_id : Nat) :
    ((∃ e, (d.DeallocatePage page_id).1 = .error e) ↔
      (page_id = HEADER_PAGE_ID ∨ page_id ≥ d.num_pages)) ∧
    ((page_id = HEADER_PAGE_ID ∨ page_id ≥ d.num_pages) → (d.DeallocatePage page_id).2 = d) ∧
    (page_id ≠ HEADER_PAGE_ID → page_id < d.num_pages →
      d.DeallocatePage page_id =
        (.ok (), { d with free_pages := d.free_pages ++ [page_id] }) ∧
      (d.DeallocatePage page_id).2.free_pages = d.free_pages ++ [page_id] ∧
      (d.DeallocatePage page_id).2.num_pages = d.num_pages ∧
      (d.DeallocatePage page_id).2.file = d.file) := by
  unfold DiskManager.DeallocatePage
  by_cases h0 : page_id = HEADER_PAGE_ID
  · simp [h0]
  · by_cases hge : page_id ≥ d.num_pages
    · simp [h0, hge]
    · have hlt : page_id < d.num_pages := by omega
      simp [h0, hge, hlt]

/-- Witness for C15: on a new store (2 pages) deallocate of page 0 and of page 2 raise,
and after one page is allocated deallocate of page 2 puts it on the free list. -/
theorem deallocate_contract_witness :
    (∃ e, ((DiskManager.ctor none).DeallocatePage 0).1 = .error e) ∧
    (∃ e, ((DiskManager.ctor none).DeallocatePage 2).1 = .error e) ∧
    ((DiskManager.ctor none).AllocatePage.2.DeallocatePage 2).2.free_pages = [] ++ [2] :=
  ⟨(deallocate_contract (DiskManager.ctor none) 0).1.2 (Or.inl rfl),
    (deallocate_contract (DiskManager.ctor none) 2).1.2 (Or.inr (by decide)),
    ((deallocate_contract (DiskManager.ctor none).AllocatePage.2 2).2.2 (by decide)
      (by decide)).2.1⟩

/-! ## The page store: reserved page ids -/

theorem readPage_ids (d : DiskManager) (p : Nat) :
    (d.ReadPage p).2.num_pages = d.num_pages ∧ (d.ReadPage p).2.free_pages = d.free_pages ∧
    (d.ReadPage p).2.file = d.file := by
  unfold DiskManager.ReadPage
  by_cases hge : p ≥ d.num_pages
  · simp [hge]
  · by_cases hfb : d.failbit = true
    · simp [hge, hfb]
    · simp only [hge, hfb, if_false]
      cases d.file.get? p <;> exact ⟨rfl, rfl, rfl⟩

theorem writePage_free_pages (d : DiskManager) (p : Nat) (pg : Page) :
    (d.WritePage p pg).2.free_pages = d.free_pages := by
  unfold DiskManager.WritePage
  by_cases hge : p ≥ d.num_pages <;> by_cases hfb : d.failbit = true <;> simp [hge, hfb]

theorem writePage_num_pages_ge (d : DiskManager) (p : Nat) (pg : Page) (hge : p ≥ d.num_pages) :
    (d.WritePage p pg).2.num_pages = (p + 1) % PAGE_ID_MOD := by
  unfold DiskManager.WritePage
  by_cases hfb : d.failbit = true <;> simp [hge, hfb]

theorem storeOk_new : storeOk (DiskManager.ctor none) := by
  refine ⟨by decide, by decide, ?_⟩
  intro q hq
  have hnil : (DiskManager.ctor none).free_pages = [] := by decide
  rw [hnil] at hq
  exact absurd hq (by simp)

/-- A call within the range of page ids keeps the reserved pages in place. -/
theorem storeOk_sexec (d : DiskManager) (op : StoreOp) (h : storeOk d)
    (hr : op.inRange d = true) : storeOk (sexec d op) := by
  have hI : INVALID_PAGE_ID + 1 = PAGE_ID_MOD := by decide
  cases op with
  | read p =>
    obtain ⟨a, b, _⟩ := readPage_ids d p
    exact ⟨by show 2 ≤ (d.ReadPage p).2.num_pages; rw [a]; exact h.reserved,
      by show (d.ReadPage p).2.num_pages < _; rw [a]; exact h.fits,
      by show ∀ q ∈ (d.ReadPage p).2.free_pages, _; rw [b]; exact h.freed⟩
  | write p pg =>
    have hp : p < INVALID_PAGE_ID := by simpa [StoreOp.inRange] using hr
    have hf := writePage_free_pages d p pg
    refine ⟨?_, ?_, by show ∀ q ∈ (d.WritePage p pg).2.free_pages, _; rw [hf]; exact h.freed⟩
    · show 2 ≤ (d.WritePage p pg).2.num_pages
      by_cases hge : p ≥ d.num_pages
      · rw [writePage_num_pages_ge d p pg hge, Nat.mod_eq_of_lt (by omega)]
        have := h.reserved
        omega
      · rw [writePage_num_pages d p pg (by omega)]
        exact h.reserved
    · show (d.WritePage p pg).2.num_pages < PAGE_ID_MOD
      by_cases hge : p ≥ d.num_pages
      · rw [writePage_num_pages_ge d p pg hge]
        exact Nat.mod_lt _ (by decide)
      · rw [writePage_num_pages d p pg (by omega)]
        exact h.fits
  | allocate =>
    have hn : d.num_pages < INVALID_PAGE_ID := by simpa [StoreOp.inRange] using hr
    show storeOk d.AllocatePage.2
    unfold DiskManager.AllocatePage
    cases hl : d.free_pages.getLast? with
    | some p =>
      refine ⟨h.reserved, h.fits, ?_⟩
      intro q hq
      exact h.freed q (List.mem_of_mem_dropLast hq)
    | none =>
      have hnil : d.free_pages = [] := List.getLast?_eq_none_iff.1 hl
      have hmod : (d.num_pages + 1) % PAGE_ID_MOD = d.num_pages + 1 :=
        Nat.mod_eq_of_lt (by omega)
      refine ⟨?_, ?_, ?_⟩
      · show 2 ≤ (d.num_pages + 1) % PAGE_ID_MOD
        rw [hmod]
        have := h.reserved
        omega
      · show (d.num_pages + 1) % PAGE_ID_MOD < PAGE_ID_MOD
        exact Nat.mod_lt _ (by decide)
      · intro q hq
        have hq' : q ∈ d.free_pages := hq
        rw [hnil] at hq'
        exact absurd hq' (by simp)
  | deallocate p =>
    have hp : p ≠ 1 := by simpa [StoreOp.inRange] using hr
    show storeOk (d.DeallocatePage p).2
    unfold DiskManager.DeallocatePage
    by_cases h0 : p = HEADER_PAGE_ID
    · simp only [h0, if_true]
      exact h
    · by_cases hge : p ≥ d.num_pages
      · simp only [h0, hge, if_true, if_false]
        exact h
      · simp only [h0, hge, if_false]
        refine ⟨h.reserved, h.fits, ?_⟩
        intro q hq
        have hq' : q ∈ d.free_pages ++ [p] := hq
        rcases List.mem_append.1 hq' with hq' | hq'
        · exact h.freed q hq'
        · have hqp : q = p := by simpa using hq'
          have h0' : p ≠ 0 := h0
          have := h.fits
          rw [hqp]
          omega

theorem storeOk_srun (ops : List StoreOp) (d : DiskManager) (h : storeOk d)
    (hr : allInRange d ops = true) : storeOk (srun d ops) := by
  induction ops generalizing d with
  | nil => exact h
  | cons op rest ih =>
    simp only [allInRange, Bool.and_eq_true] at hr
    exact ih (sexec d op) (storeOk_sexec d op h hr.1) hr.2

/-- C13 (amended): a newly created store has two pages and nothing free, and a store
opened on an existing file counts the whole pages of the file, so it has the two
reserved pages when the file has them. From a store with the reserved pages in
place whose free page ids are neither reserved nor the invalid id, after any sequence of
read, write, allocate and deallocate calls within the range of page ids (no write to
the invalid id, no allocate with `num_pages_` at the invalid id, no deallocate of page
1), allocate returns neither page 0 nor page 1 nor the invalid id, whether the id is
recycled or new. -/
theorem allocate_skips_reserved_ids :
    ((DiskManager.ctor none).num_pages = 2 ∧ (DiskManager.ctor none).free_pages = [] ∧
      storeOk (DiskManager.ctor none)) ∧
    (∀ file, (DiskManager.ctor (some file)).num_pages = file.length % PAGE_ID_MOD) ∧
    (∀ file, 2 ≤ file.length → file.length < PAGE_ID_MOD →
      (∀ q ∈ (DiskManager.ctor (some file)).free_pages, 2 ≤ q ∧ q < INVALID_PAGE_ID) →
      storeOk (DiskManager.ctor (some file))) ∧
    (∀ (d : DiskManager) (ops : List StoreOp), storeOk d → allInRange d ops = true →
      (srun d ops).num_pages < INVALID_PAGE_ID →
      (srun d ops).AllocatePage.1 ≠ HEADER_PAGE_ID ∧ (srun d ops).AllocatePage.1 ≠ 1 ∧
      (srun d ops).AllocatePage.1 ≠ INVALID_PAGE_ID) := by
  have hload : ∀ file, (DiskManager.ctor (some file)).num_pages = file.length % PAGE_ID_MOD := by
    intro file
    simp only [DiskManager.ctor, DiskManager.LoadFreePageList]
    by_cases h2 : file.length % PAGE_ID_MOD < 2
    · simp [h2]
    · simp only [h2, if_false, Bool.false_eq_true]
      cases file.get? 1 with
      | none => rfl
      | some pg =>
        simp only
        by_cases ht : pg.header.page_type ≠ PageType.FREE_LIST
        · simp [ht]
        · simp [ht]
  refine ⟨⟨by decide, by decide, storeOk_new⟩, hload, ?_, ?_⟩
  · intro file h2 hlt hq
    have hn := hload file
    rw [Nat.mod_eq_of_lt hlt] at hn
    exact ⟨by rw [hn]; exact h2, by rw [hn]; exact hlt, hq⟩
  · intro d ops h hr hn
    have hs := storeOk_srun ops d h hr
    generalize srun d ops = d2 at hs hn
    unfold DiskManager.AllocatePage
    cases hl : d2.free_pages.getLast? with
    | some p =>
      have hmem : p ∈ d2.free_pages := List.mem_of_getLast?_eq_some hl
      have := hs.freed p hmem
      have h0 : HEADER_PAGE_ID = 0 := rfl
      simp only
      refine ⟨?_, ?_, ?_⟩ <;> omega
    | none =>
      have := hs.reserved
      have h0 : HEADER_PAGE_ID = 0 := rfl
      simp only
      refine ⟨?_, ?_, ?_⟩ <;> omega

/-- Witness for C13 (amended): on a new store page 2 is allocated, written and
deallocated, and the next allocate returns page 2 again: not a reserved page. -/
theorem allocate_skips_reserved_ids_witness :
    (srun (DiskManager.ctor none) [.allocate, .write 2 Page.zero, .deallocate 2]).AllocatePage.1
      = 2 ∧
    (srun (DiskManager.ctor none) [.allocate, .write 2 Page.zero, .deallocate 2]).AllocatePage.1
      ≠ 1 :=
  ⟨by decide,
    (allocate_skips_reserved_ids.2.2.2 (DiskManager.ctor none)
      [.allocate, .write 2 Page.zero, .deallocate 2] storeOk_new (by decide) (by decide)).2.1⟩

/-- Counterexample to C13 as stated: a store opened on an existing file that is empty
has `num_pages_` 0 after its constructor (the free list is not loaded and nothing is
initialized), and its first allocate returns page 0, the header page id. -/
theorem allocate_skips_reserved_ids_counterexample :
    (DiskManager.ctor (some [])).num_pages = 0 ∧
    ¬ (2 ≤ (DiskManager.ctor (some [])).num_pages) ∧
    (DiskManager.ctor (some [])).AllocatePage.1 = HEADER_PAGE_ID := by
  decide

/-! ## delete and flush -/

/-- C11 (amended): delete returns false exactly for a resident page whose frame has a
positive pin count. For a page that is not resident, delete of a page id other than the
header page and below `num_pages_` appends the id to the free list of the store and
returns true, changing nothing else, and delete of the header page or of an id not
below `num_pages_` raises the error of the store and changes nothing. For a resident
page other than the header page, below `num_pages_`, whose pin count is not positive,
delete erases its page table and frame table entries, its dirty bit and its pin count,
appends its frame to the free list, appends the id to the free list of the store and
returns true. -/
theorem delete_contract (s : BufferPoolManager) (page_id : Nat) :
    ((s.DeletePage page_id).1 = .ok false ↔
      ∃ f, ptFind s.page_table page_id = some f ∧ 0 < s.pin_count f) ∧
    (ptFind s.page_table page_id = none → page_id ≠ HEADER_PAGE_ID →
      page_id < s.disk_manager.num_pages →
      s.DeletePage page_id =
        (.ok true,
          { s with disk_manager :=
            { s.disk_manager with free_pages := s.disk_manager.free_pages ++ [page_id] } })) ∧
    (ptFind s.page_table page_id = none →
      (page_id = HEADER_PAGE_ID ∨ page_id ≥ s.disk_manager.num_pages) →
      ∃ e, s.DeletePage page_id = (.error e, s)) ∧
    (∀ f, ptFind s.page_table page_id = some f → s.pin_count f ≤ 0 →
      page_id ≠ HEADER_PAGE_ID → page_id < s.disk_manager.num_pages →
      s.DeletePage page_id =
        (.ok true,
          { s with
            page_table := ptErase s.page_table page_id
            frame_table := setAt s.frame_table f none
            dirty := setAt s.dirty f false
            pin_count := setAt s.pin_count f 0
            free_list := s.free_list ++ [f]
            disk_manager :=
              { s.disk_manager with free_pages := s.disk_manager.free_pages ++ [page_id] } })) := by
  refine ⟨?_, ?_, ?_, ?_⟩
  · unfold DeletePage DiskManager.DeallocatePage
    cases hp : ptFind s.page_table page_id with
    | none =>
      by_cases h0 : page_id = HEADER_PAGE_ID
      · simp [h0]
      · by_cases hge : page_id ≥ s.disk_manager.num_pages <;> simp [h0, hge]
    | some f =>
      by_cases hpin : s.pin_count f > 0
      · simp [hpin]
      · have hpin' : ¬ 0 < s.pin_count f := hpin
        by_cases h0 : page_id = HEADER_PAGE_ID
        · simp [hpin, hpin', h0]
        · by_cases hge : page_id ≥ s.disk_manager.num_pages <;> simp [hpin, hpin', h0, hge]
  · intro hp h0 hlt
    have hge : ¬ page_id ≥ s.disk_manager.num_pages := by omega
    simp [DeletePage, DiskManager.DeallocatePage, hp, h0, hge]
  · intro hp h
    unfold DeletePage DiskManager.DeallocatePage
    by_cases h0 : page_id = HEADER_PAGE_ID
    · subst h0
      exact ⟨.invalid_argument, by simp [hp]⟩
    · have hge : page_id ≥ s.disk_manager.num_pages := h.resolve_left h0
      exact ⟨.out_of_range, by simp [hp, h0, hge]⟩
  · intro f hp hpin h0 hlt
    have hge : ¬ page_id ≥ s.disk_manager.num_pages := by omega
    have hpin' : ¬ s.pin_count f > 0 := by omega
    simp [DeletePage, DiskManager.DeallocatePage, hp, h0, hge, hpin']

/-- Witness for C11 (amended): in a pool of two frames over a new store, page 2 is
created and unpinned; it sits in frame 1 with pin count zero, and delete(2) returns
true. -/
theorem delete_contract_witness :
    ptFind (run (BufferPoolManager.ctor 2 (DiskManager.ctor none))
      [.new_page, .unpin 2 false]).page_table 2 = some 1 ∧
    ((run (BufferPoolManager.ctor 2 (DiskManager.ctor none))
      [.new_page, .unpin 2 false]).DeletePage 2).1 = .ok true :=
  ⟨by decide,
    congrArg Prod.fst
      ((delete_contract (run (BufferPoolManager.ctor 2 (DiskManager.ctor none))
        [.new_page, .unpin 2 false]) 2).2.2.2 1 (by decide) (by decide) (by decide)
        (by decide))⟩

/-- Counterexample to C11 as stated: on a new pool over a new store neither page 0 nor
page 100 is resident, and no page is pinned; delete(0) raises the invalid-argument
error of the store and delete(100) its out-of-range error: neither returns true, and
the free list of the store stays empty. -/
theorem delete_contract_counterexample :
    ptFind (BufferPoolManager.ctor 2 (DiskManager.ctor none)).page_table 0 = none ∧
    ptFind (BufferPoolManager.ctor 2 (DiskManager.ctor none)).page_table 100 = none ∧
    (exec (BufferPoolManager.ctor 2 (DiskManager.ctor none)) (.delete 0)).1
      = .raised .invalid_argument ∧
    (exec (BufferPoolManager.ctor 2 (DiskManager.ctor none)) (.delete 100)).1
      = .raised .out_of_range ∧
    (exec (BufferPoolManager.ctor 2 (DiskManager.ctor none)) (.delete 0)).2.disk_manager.free_pages
      = [] := by
  decide

theorem writePage_healthy (d : DiskManager) (p : Nat) (pg : Page) (hfb : d.failbit = false) :
    (d.WritePage p pg).1 = .ok () ∧ (d.WritePage p pg).2.file = fileWrite d.file p pg ∧
    (d.WritePage p pg).2.failbit = false := by
  unfold DiskManager.WritePage
  by_cases hge : p ≥ d.num_pages <;> simp [hge, hfb]

/-- C20: flush returns false exactly when the page is not in the page table, and then
the state is as it was. For a page in the page table, pinned or not, dirty or not, on a
store whose stream has not failed, flush returns true; slot `page_id` of the store then
holds the page of the frame with the header checksum recomputed from the data area (as
does the frame); the dirty bit of the frame is clear; and the pin counts, the two
tables, the free list, the replacer, the other dirty bits and the counters are as they
were. -/
theorem flush_contract (s : BufferPoolManager) (page_id : Nat) :
    ((s.FlushPage page_id).1 = .ok false ↔ ptFind s.page_table page_id = none) ∧
    (ptFind s.page_table page_id = none → s.FlushPage page_id = (.ok false, s)) ∧
    (∀ f, ptFind s.page_table page_id = some f → s.disk_manager.failbit = false →
      (s.FlushPage page_id).1 = .ok true ∧
      fileSlot (s.FlushPage page_id).2.disk_manager.file page_id = (s.pages f).UpdateChecksum ∧
      (fileSlot (s.FlushPage page_id).2.disk_manager.file page_id).data = (s.pages f).data ∧
      (fileSlot (s.FlushPage page_id).2.disk_manager.file page_id).header.checksum =
        (s.pages f).CalculateChecksum ∧
      (s.FlushPage page_id).2.pages f = (s.pages f).UpdateChecksum ∧
      (s.FlushPage page_id).2.dirty f = false ∧
      (∀ g, g ≠ f → (s.FlushPage page_id).2.dirty g = s.dirty g) ∧
      (s.FlushPage page_id).2.pin_count = s.pin_count ∧
      (s.FlushPage page_id).2.page_table = s.page_table ∧
      (s.FlushPage page_id).2.frame_table = s.frame_table ∧
      (s.FlushPage page_id).2.free_list = s.free_list ∧
      (s.FlushPage page_id).2.replacer = s.replacer ∧
      (s.FlushPage page_id).2.hit_count = s.hit_count ∧
      (s.FlushPage page_id).2.miss_count = s.miss_count) := by
  refine ⟨?_, ?_, ?_⟩
  · unfold FlushPage
    cases hp : ptFind s.page_table page_id with
    | none => simp
    | some f =>
      simp only
      cases hw : s.disk_manager.WritePage page_id (s.pages f).UpdateChecksum with
      | mk r d2 =>
        cases r <;> simp
  · intro hp
    simp [FlushPage, hp]
  · intro f hp hfb
    obtain ⟨w1, w2, _⟩ := writePage_healthy s.disk_manager page_id (s.pages f).UpdateChecksum hfb
    unfold FlushPage
    simp only [hp]
    cases hw : s.disk_manager.WritePage page_id (s.pages f).UpdateChecksum with
    | mk r d2 =>
      rw [hw] at w1 w2
      simp only at w1 w2
      subst w1
      simp only
      have hslot : fileSlot d2.file page_id = (s.pages f).UpdateChecksum := by
        rw [w2, fileSlot_fileWrite]
        simp
      refine ⟨trivial, hslot, ?_, ?_, ?_, ?_, ?_, ?_, ?_, ?_, ?_, ?_, ?_, ?_⟩
      · rw [hslot]; exact updateChecksum_data _
      · rw [hslot]; rfl
      · exact setAt_same _ _ _
      · exact setAt_same _ _ _
      · intro g hg
        exact setAt_other _ _ _ _ hg
      all_goals trivial

/-- Witness for C20: in a pool of one frame over a new store page 2 is created and
written by the client (it is pinned and dirty, and the checksum in the frame is stale);
flush(2) returns true and slot 2 of the store then holds the data with its checksum,
7. -/
theorem flush_contract_witness :
    ptFind (run (BufferPoolManager.ctor 1 (DiskManager.ctor none))
      [.new_page, .write 2 (sampleData 7)]).page_table 2 = some 0 ∧
    ((run (BufferPoolManager.ctor 1 (DiskManager.ctor none))
      [.new_page, .write 2 (sampleData 7)]).FlushPage 2).1 = .ok true ∧
    (fileSlot ((run (BufferPoolManager.ctor 1 (DiskManager.ctor none))
      [.new_page, .write 2 (sampleData 7)]).FlushPage 2).2.disk_manager.file 2).header.checksum
      = 7 := by
  have h := (flush_contract (run (BufferPoolManager.ctor 1 (DiskManager.ctor none))
    [.new_page, .write 2 (sampleData 7)]) 2).2.2 0 (by decide!) (by decide!)
  refine ⟨by decide!, h.1, ?_⟩
  rw [h.2.2.2.1]
  decide!

/-! ## Checksums on write and on read -/

/-- C12, evaluated at the failing input: in a pool of one frame over a new store, page 2
was created, written by the client and unpinned dirty, so frame 0 holds it with the
checksum new_page computed for the zeroed page. The next new_page reuses frame 0 and
writes page 2 back as it is: slot 2 of the store then holds the client's data, whose
checksum is 7, under a header checksum of 0. In the same state a fetch of page 0, which
also reuses frame 0, writes slot 2 with the checksum 7. -/
theorem new_page_eviction_writes_stale_checksum :
    staleChecksumState.frame_table 0 = some 2 ∧
    staleChecksumState.dirty 0 = true ∧
    (exec staleChecksumState .new_page).1 = .created (some (3, 0)) ∧
    (fileSlot staleChecksumState.NewPage.2.disk_manager.file 2).data = sampleData 7 ∧
    (fileSlot staleChecksumState.NewPage.2.disk_manager.file 2).header.checksum = 0 ∧
    (fileSlot staleChecksumState.NewPage.2.disk_manager.file 2).CalculateChecksum = 7 ∧
    (fileSlot staleChecksumState.NewPage.2.disk_manager.file 2).VerifyChecksum = false ∧
    (fileSlot (staleChecksumState.FetchPage 0).2.disk_manager.file 2).VerifyChecksum = true := by
  have h : ((fileSlot staleChecksumState.NewPage.2.disk_manager.file 2).data == sampleData 7)
      = true := by decide!
  exact ⟨by decide!, by decide!, by decide!, eq_of_beq h, by decide!, by decide!, by decide!,
    by decide!⟩

theorem updateChecksum_of_verify (p : Page) (h : p.VerifyChecksum = true) :
    p.UpdateChecksum = p := by
  have hc : p.header.checksum = p.CalculateChecksum := by
    simpa [Page.VerifyChecksum] using h
  unfold Page.UpdateChecksum
  rw [← hc]

/-- A fetch of a page that was not resident, when it returns a frame, has entered the page
in the page table under that frame. -/
theorem fetchPage_miss_entry (s t : BufferPoolManager) (page_id : Nat) (f : Int)
    (hp : ptFind s.page_table page_id = none)
    (hf : s.FetchPage page_id = (.ok (some f), t)) :
    ptFind t.page_table page_id = some f := by
  rcases fetchPage_shape s page_id hp with ⟨s1, he, _⟩ | ⟨e, s1, he⟩ |
    ⟨g, s1, s2, pg, _, _, _, _, _, _, he⟩
  · rw [he] at hf
    simp at hf
  · rw [he] at hf
    simp at hf
  · rw [he] at hf
    obtain ⟨hg, ht⟩ := Prod.mk.inj hf
    have hgf : g = f := by simpa using hg
    subst hgf
    subst ht
    show ptFind (ptSet s2.page_table page_id g) page_id = some g
    rw [ptFind_ptSet]
    simp

/-- C17 (amended): a fetch of a page that is not resident, when it returns a frame,
leaves in that frame the page of slot `page_id` of the store with the header checksum
recomputed from the data area: the data area and every other header field are as
stored, and the whole page is as stored when the stored checksum matches the data area.
The frame then has pin count 1 and a clear dirty bit, and the two tables name each
other for the page. -/
theorem fetch_installs_stored_page (s t : BufferPoolManager) (page_id : Nat) (f : Int)
    (hp : ptFind s.page_table page_id = none)
    (hf : s.FetchPage page_id = (.ok (some f), t)) :
    t.pages f = (fileSlot t.disk_manager.file page_id).UpdateChecksum ∧
    sameExceptChecksum (t.pages f) (fileSlot t.disk_manager.file page_id) ∧
    (t.pages f).header.checksum = (fileSlot t.disk_manager.file page_id).CalculateChecksum ∧
    ((fileSlot t.disk_manager.file page_id).VerifyChecksum = true →
      t.pages f = fileSlot t.disk_manager.file page_id) ∧
    t.pin_count f = 1 ∧ t.dirty f = false ∧
    ptFind t.page_table page_id = some f ∧ t.frame_table f = some page_id := by
  rcases fetchPage_shape s page_id hp with ⟨s1, he, _⟩ | ⟨e, s1, he⟩ |
    ⟨g, s1, s2, pg, _, _, _, _, _, hrd, he⟩
  · rw [he] at hf
    simp at hf
  · rw [he] at hf
    simp at hf
  · rw [he] at hf
    obtain ⟨hg, ht⟩ := Prod.mk.inj hf
    have hgf : g = f := by simpa using hg
    subst hgf
    subst ht
    obtain ⟨_, _, hpg, _⟩ := readPage_ok _ _ _ _ hrd
    have hpage : setAt s2.pages g pg.UpdateChecksum g = pg.UpdateChecksum := setAt_same _ _ _
    refine ⟨?_, ?_, ?_, ?_, setAt_same _ _ _, setAt_same _ _ _, ?_, setAt_same _ _ _⟩
    · show setAt s2.pages g pg.UpdateChecksum g = (fileSlot s2.disk_manager.file page_id).UpdateChecksum
      rw [hpage, hpg]
    · show sameExceptChecksum (setAt s2.pages g pg.UpdateChecksum g)
        (fileSlot s2.disk_manager.file page_id)
      rw [hpage, hpg]
      exact sameExceptChecksum_update _
    · show (setAt s2.pages g pg.UpdateChecksum g).header.checksum =
        (fileSlot s2.disk_manager.file page_id).CalculateChecksum
      rw [hpage, hpg]
      rfl
    · intro hv
      show setAt s2.pages g pg.UpdateChecksum g = fileSlot s2.disk_manager.file page_id
      rw [hpage, hpg]
      exact updateChecksum_of_verify _ hv
    · show ptFind (ptSet s2.page_table page_id g) page_id = some g
      rw [ptFind_ptSet]
      simp

/-- Witness for C17 (amended): on a pool of one frame over a new store, a fetch of page
0, the header page, returns frame 0 holding the header page as stored. -/
theorem fetch_installs_stored_page_witness :
    ((BufferPoolManager.ctor 1 (DiskManager.ctor none)).FetchPage 0).2.pages 0 =
      fileSlot ((BufferPoolManager.ctor 1 (DiskManager.ctor none)).FetchPage
        0).2.disk_manager.file 0 :=
  (fetch_installs_stored_page (BufferPoolManager.ctor 1 (DiskManager.ctor none))
    ((BufferPoolManager.ctor 1 (DiskManager.ctor none)).FetchPage 0).2 0 0 (by decide)
    (Prod.ext (by rfl) rfl)).2.2.2.1 (by decide!)

/-- Counterexample to C17 as stated: in a pool of one frame, slot 2 of the store holds
the client's data (checksum 7) under a header checksum of 0, and page 2 is not
resident. The fetch of page 2 misses and returns frame 0, whose header checksum is then
7: the frame is not the page as stored. -/
theorem fetch_installs_stored_page_counterexample :
    ptFind mismatchedSlotState.page_table 2 = none ∧
    (fileSlot mismatchedSlotState.disk_manager.file 2).header.checksum = 0 ∧
    (exec mismatchedSlotState (.fetch 2)).1 = .page (some 0) ∧
    (fileSlot (mismatchedSlotState.FetchPage 2).2.disk_manager.file 2).header.checksum = 0 ∧
    ((mismatchedSlotState.FetchPage 2).2.pages 0).header.checksum = 7 ∧
    (mismatchedSlotState.FetchPage 2).2.pages 0 ≠
      fileSlot (mismatchedSlotState.FetchPage 2).2.disk_manager.file 2 := by
  have h1 : (fileSlot (mismatchedSlotState.FetchPage 2).2.disk_manager.file 2).header.checksum
      = 0 := by decide!
  have h2 : ((mismatchedSlotState.FetchPage 2).2.pages 0).header.checksum = 7 := by decide!
  refine ⟨by decide!, by decide!, by decide!, h1, h2, ?_⟩
  intro h
  rw [h, h1] at h2
  exact absurd h2 (by decide)

/-! ## The hit and miss counters -/

theorem getVictim_counters (s : BufferPoolManager) :
    s.GetVictimFrame.2.hit_count = s.hit_count ∧ s.GetVictimFrame.2.miss_count = s.miss_count ∧
    s.GetVictimFrame.2.page_table = s.page_table := by
  rcases getVictim_cases s with ⟨f, fl, r0, _, hg⟩ | ⟨_, _, hg⟩ <;> rw [hg] <;> exact ⟨rfl, rfl, rfl⟩

theorem evictForFetch_counters (s : BufferPoolManager) (f : Int) :
    (s.evictForFetch f).2.hit_count = s.hit_count ∧
    (s.evictForFetch f).2.miss_count = s.miss_count := by
  unfold evictForFetch
  cases s.frame_table f with
  | none => exact ⟨rfl, rfl⟩
  | some old =>
    simp only
    by_cases hd : s.dirty f = true
    · simp only [hd, if_true]
      cases hw : s.disk_manager.WritePage old (s.pages f).UpdateChecksum with
      | mk r d => cases r <;> exact ⟨rfl, rfl⟩
    · simp only [hd]
      exact ⟨rfl, rfl⟩

theorem evictForNew_counters (s : BufferPoolManager) (f : Int) :
    (s.evictForNew f).2.hit_count = s.hit_count ∧
    (s.evictForNew f).2.miss_count = s.miss_count := by
  unfold evictForNew
  cases s.frame_table f with
  | none => exact ⟨rfl, rfl⟩
  | some old =>
    simp only
    by_cases hd : s.dirty f = true
    · simp only [hd, if_true]
      cases hw : s.disk_manager.WritePage old (s.pages f) with
      | mk r d => cases r <;> exact ⟨rfl, rfl⟩
    · simp only [hd]
      exact ⟨rfl, rfl⟩

/-- A fetch of a resident page counts one hit and leaves the page table as it is. -/
theorem fetchPage_hit (s : BufferPoolManager) (page_id : Nat) (f : Int)
    (hp : ptFind s.page_table page_id = some f) :
    (s.FetchPage page_id).1 = .ok (some f) ∧
    (s.FetchPage page_id).2.hit_count = s.hit_count + 1 ∧
    (s.FetchPage page_id).2.miss_count = s.miss_count ∧
    (s.FetchPage page_id).2.page_table = s.page_table := by
  simp [FetchPage, hp]

/-- A fetch of a page that is not resident counts one miss, whatever it returns or
raises. -/
theorem fetchPage_miss (s : BufferPoolManager) (page_id : Nat)
    (hp : ptFind s.page_table page_id = none) :
    (s.FetchPage page_id).2.hit_count = s.hit_count ∧
    (s.FetchPage page_id).2.miss_count = s.miss_count + 1 := by
  unfold FetchPage
  simp only [hp]
  obtain ⟨g1, g2, _⟩ := getVictim_counters { s with miss_count := s.miss_count + 1 }
  cases hg : GetVictimFrame { s with miss_count := s.miss_count + 1 } with
  | mk f s1 =>
    rw [hg] at g1 g2
    simp only at g1 g2 ⊢
    by_cases hf : f = INVALID_FRAME_ID
    · simp only [hf, if_true]
      exact ⟨g1, g2⟩
    · simp only [hf, if_false]
      obtain ⟨e1, e2⟩ := evictForFetch_counters s1 f
      cases he : evictForFetch s1 f with
      | mk e s2 =>
        rw [he] at e1 e2
        simp only at e1 e2
        cases e with
        | some err => exact ⟨e1.trans g1, e2.trans g2⟩
        | none =>
          simp only
          cases hrd : s2.disk_manager.ReadPage page_id with
          | mk r d2 =>
            cases r with
            | error err => exact ⟨e1.trans g1, e2.trans g2⟩
            | ok pg => exact ⟨e1.trans g1, e2.trans g2⟩

theorem newPage_counters (s : BufferPoolManager) :
    s.NewPage.2.hit_count = s.hit_count ∧ s.NewPage.2.miss_count = s.miss_count := by
  unfold NewPage
  obtain ⟨g1, g2, _⟩ := getVictim_counters s
  cases hg : GetVictimFrame s with
  | mk f s1 =>
    rw [hg] at g1 g2
    simp only at g1 g2 ⊢
    by_cases hf : f = INVALID_FRAME_ID
    · simp only [hf, if_true]
      exact ⟨g1, g2⟩
    · simp only [hf, if_false]
      obtain ⟨e1, e2⟩ := evictForNew_counters s1 f
      cases he : evictForNew s1 f with
      | mk e s2 =>
        rw [he] at e1 e2
        simp only at e1 e2
        cases e with
        | some err => exact ⟨e1.trans g1, e2.trans g2⟩
        | none => exact ⟨e1.trans g1, e2.trans g2⟩

theorem unpinPage_counters (s : BufferPoolManager) (page_id : Nat) (is_dirty : Bool) :
    (s.UnpinPage page_id is_dirty).2.hit_count = s.hit_count ∧
    (s.UnpinPage page_id is_dirty).2.miss_count = s.miss_count := by
  unfold UnpinPage
  cases ptFind s.page_table page_id with
  | none => exact ⟨rfl, rfl⟩
  | some f =>
    simp only
    by_cases hpin : s.pin_count f ≤ 0
    · simp only [hpin, if_true]
      exact ⟨trivial, trivial⟩
    · simp only [hpin, if_false]
      cases is_dirty <;> by_cases h0 : s.pin_count f - 1 = 0 <;> simp [setAt_same, h0]

theorem flushPage_counters (s : BufferPoolManager) (page_id : Nat) :
    (s.FlushPage page_id).2.hit_count = s.hit_count ∧
    (s.FlushPage page_id).2.miss_count = s.miss_count := by
  unfold FlushPage
  cases ptFind s.page_table page_id with
  | none => exact ⟨rfl, rfl⟩
  | some f =>
    simp only
    cases hw : s.disk_manager.WritePage page_id (s.pages f).UpdateChecksum with
    | mk r d => cases r <;> exact ⟨rfl, rfl⟩

theorem flushEntries_counters (es : List (Nat × Int)) (s : BufferPoolManager) :
    (flushEntries es s).2.hit_count = s.hit_count ∧
    (flushEntries es s).2.miss_count = s.miss_count := by
  induction es generalizing s with
  | nil => exact ⟨rfl, rfl⟩
  | cons x rest ih =>
    obtain ⟨p, f⟩ := x
    unfold flushEntries
    by_cases hd : s.dirty f = true
    · simp only [hd, if_true]
      cases hw : s.disk_manager.WritePage p (s.pages f).UpdateChecksum with
      | mk r d =>
        cases r with
        | error e => exact ⟨rfl, rfl⟩
        | ok u =>
          simp only
          exact ih _
    · simp only [hd]
      exact ih s

theorem deletePage_counters (s : BufferPoolManager) (page_id : Nat) :
    (s.DeletePage page_id).2.hit_count = s.hit_count ∧
    (s.DeletePage page_id).2.miss_count = s.miss_count := by
  unfold DeletePage
  cases ptFind s.page_table page_id with
  | none =>
    simp only
    cases hd : s.disk_manager.DeallocatePage page_id with
    | mk r d => cases r <;> exact ⟨rfl, rfl⟩
  | some f =>
    simp only
    by_cases hpin : s.pin_count f > 0
    · simp only [hpin, if_true]
      exact ⟨trivial, trivial⟩
    · simp only [hpin, if_false]
      cases hd : s.disk_manager.DeallocatePage page_id with
      | mk r d => cases r <;> exact ⟨rfl, rfl⟩

theorem clientWrite_counters (s : BufferPoolManager) (page_id : Nat) (data : List Nat) :
    (s.clientWrite page_id data).hit_count = s.hit_count ∧
    (s.clientWrite page_id data).miss_count = s.miss_count := by
  unfold clientWrite
  cases ptFind s.page_table page_id with
  | none => exact ⟨rfl, rfl⟩
  | some f =>
    simp only
    split <;> exact ⟨rfl, rfl⟩

/-- No call but a fetch moves the counters. -/
theorem exec_counters (s : BufferPoolManager) (op : Op) (h : op.isFetch = false) :
    (exec s op).2.hit_count = s.hit_count ∧ (exec s op).2.miss_count = s.miss_count := by
  cases op with
  | fetch p => simp [Op.isFetch] at h
  | new_page => exact newPage_counters s
  | unpin p b => exact unpinPage_counters s p b
  | flush p => exact flushPage_counters s p
  | flush_all => exact flushEntries_counters _ s
  | delete p => exact deletePage_counters s p
  | write p data => exact clientWrite_counters s p data

/-! ## Hits on resident pages -/

/-- An unpin, a client write, a flush and a flush_all leave the page table and the free
list as they are. -/
theorem exec_tables_same (s : BufferPoolManager) (op : Op) (h1 : op.isSetup = true)
    (h2 : op ≠ .new_page) :
    (exec s op).2.page_table = s.page_table ∧ (exec s op).2.free_list = s.free_list := by
  cases op with
  | fetch p => simp [Op.isSetup] at h1
  | new_page => exact absurd rfl h2
  | unpin p b =>
    have hm := unpinPage_data s p b
    refine ⟨hm.1, ?_⟩
    show (s.UnpinPage p b).2.free_list = s.free_list
    unfold UnpinPage
    cases ptFind s.page_table p with
    | none => rfl
    | some f =>
      simp only
      by_cases hpin : s.pin_count f ≤ 0
      · simp [hpin]
      · simp only [hpin, if_false]
        cases b <;> by_cases h0 : s.pin_count f - 1 = 0 <;> simp [setAt_same, h0]
  | flush p =>
    have := flush_move s p
    exact ⟨congrArg Ctl.page_table this, congrArg Ctl.free_list this⟩
  | flush_all =>
    have := flushEntries_ctl s.page_table s
    exact ⟨congrArg Ctl.page_table this, congrArg Ctl.free_list this⟩
  | delete p => simp [Op.isSetup] at h1
  | write p data =>
    have := write_ctl s p data
    exact ⟨congrArg Ctl.page_table this, congrArg Ctl.free_list this⟩

/-- A run that only accesses resident pages counts one hit for each fetch and no miss,
and leaves the page table as it is. -/
theorem access_run (ops : List Op) (s : BufferPoolManager) (ids : List Nat)
    (hres : ∀ p ∈ ids, ptFind s.page_table p ≠ none)
    (hops : ∀ op ∈ ops, op.accesses ids = true) :
    (run s ops).hit_count = s.hit_count + fetchCount ops ∧
    (run s ops).miss_count = s.miss_count ∧
    (run s ops).page_table = s.page_table := by
  induction ops generalizing s with
  | nil => exact ⟨rfl, rfl, rfl⟩
  | cons op rest ih =>
    have hop := hops op (by simp)
    have hrest : ∀ o ∈ rest, o.accesses ids = true := fun o ho => hops o (by simp [ho])
    have hstep : (exec s op).2.hit_count = s.hit_count + (if op.isFetch then 1 else 0) ∧
        (exec s op).2.miss_count = s.miss_count ∧
        (exec s op).2.page_table = s.page_table := by
      cases hop' : op with
      | fetch p =>
        rw [hop'] at hop
        have hp : p ∈ ids := by simpa [Op.accesses] using hop
        cases hf : ptFind s.page_table p with
        | none => exact absurd hf (hres p hp)
        | some f =>
          obtain ⟨_, a, b, c⟩ := fetchPage_hit s p f hf
          exact ⟨a, b, c⟩
      | new_page => rw [hop'] at hop; simp [Op.accesses] at hop
      | delete p => rw [hop'] at hop; simp [Op.accesses] at hop
      | unpin p b =>
        obtain ⟨a, b'⟩ := exec_counters s (.unpin p b) rfl
        exact ⟨a, b', (exec_tables_same s (.unpin p b) rfl (by simp)).1⟩
      | flush p =>
        obtain ⟨a, b'⟩ := exec_counters s (.flush p) rfl
        exact ⟨a, b', (exec_tables_same s (.flush p) rfl (by simp)).1⟩
      | flush_all =>
        obtain ⟨a, b'⟩ := exec_counters s .flush_all rfl
        exact ⟨a, b', (exec_tables_same s .flush_all rfl (by simp)).1⟩
      | write p data =>
        obtain ⟨a, b'⟩ := exec_counters s (.write p data) rfl
        exact ⟨a, b', (exec_tables_same s (.write p data) rfl (by simp)).1⟩
    obtain ⟨s1, s2, s3⟩ := hstep
    obtain ⟨i1, i2, i3⟩ := ih (exec s op).2 (by rw [s3]; exact hres) hrest
    refine ⟨?_, ?_, ?_⟩
    · show (run (exec s op).2 rest).hit_count = _
      rw [i1, s1]
      simp only [fetchCount]
      omega
    · show (run (exec s op).2 rest).miss_count = _
      rw [i2, s2]
    · show (run (exec s op).2 rest).page_table = _
      rw [i3, s3]

theorem accessRounds_accesses (ids : List Nat) (r : Nat) :
    ∀ op ∈ accessRounds ids r, op.accesses ids = true := by
  induction r with
  | zero => intro op h; simp [accessRounds] at h
  | succ r ih =>
    intro op h
    simp only [accessRounds, List.mem_append, List.mem_flatMap] at h
    rcases h with ⟨p, hp, h⟩ | h
    · simp only [List.mem_cons, List.mem_singleton, List.not_mem_nil, or_false] at h
      rcases h with h | h
      · rw [h]; simpa [Op.accesses] using hp
      · rw [h]; rfl
    · exact ih op h

theorem fetchCount_append (a b : List Op) : fetchCount (a ++ b) = fetchCount a + fetchCount b := by
  induction a with
  | nil => simp [fetchCount]
  | cons x rest ih =>
    show (if x.isFetch then 1 else 0) + fetchCount (rest ++ b) =
      (if x.isFetch then 1 else 0) + fetchCount rest + fetchCount b
    rw [ih]
    omega

theorem fetchCount_accessRounds (ids : List Nat) (r : Nat) :
    fetchCount (accessRounds ids r) = ids.length * r := by
  have hround : ∀ l : List Nat,
      fetchCount (l.flatMap (fun p => [Op.fetch p, Op.unpin p false])) = l.length := by
    intro l
    induction l with
    | nil => rfl
    | cons x rest ih =>
      rw [List.flatMap_cons, fetchCount_append, ih]
      show (if (Op.fetch x).isFetch then 1 else 0) +
        ((if (Op.unpin x false).isFetch then 1 else 0) + 0) + rest.length = rest.length + 1
      simp only [Op.isFetch, if_true, Bool.false_eq_true, if_false]
      omega
  induction r with
  | zero => rfl
  | succ r ih =>
    simp only [accessRounds, fetchCount_append, hround, ih]
    rw [Nat.mul_succ]
    omega

/-- C18: a fetch of a page in the page table counts one hit and no miss; a fetch of a
page that is not in it counts one miss and no hit, whatever it returns or raises; and
no other call (new_page, unpin, flush, flush_all, delete, a client write) moves either
counter. Hence after a fetch that returned a frame and an unpin, the next fetch of the
page returns the same frame and counts a hit; a run of fetches of resident pages with
unpins, writes and flushes in between counts one hit per fetch and no miss; and r
rounds over k resident pages count k * r hits. -/
theorem counters_change_in_fetch_only (s : BufferPoolManager) :
    (∀ page_id f, ptFind s.page_table page_id = some f →
      (exec s (.fetch page_id)).2.hit_count = s.hit_count + 1 ∧
      (exec s (.fetch page_id)).2.miss_count = s.miss_count) ∧
    (∀ page_id, ptFind s.page_table page_id = none →
      (exec s (.fetch page_id)).2.hit_count = s.hit_count ∧
      (exec s (.fetch page_id)).2.miss_count = s.miss_count + 1) ∧
    (∀ op, op.isFetch = false →
      (exec s op).2.hit_count = s.hit_count ∧ (exec s op).2.miss_count = s.miss_count) ∧
    (∀ page_id f, (exec s (.fetch page_id)).1 = .page (some f) →
      (exec (run s [.fetch page_id, .unpin page_id false]) (.fetch page_id)).1
        = .page (some f) ∧
      (exec (run s [.fetch page_id, .unpin page_id false]) (.fetch page_id)).2.hit_count
        = (run s [.fetch page_id, .unpin page_id false]).hit_count + 1 ∧
      (exec (run s [.fetch page_id, .unpin page_id false]) (.fetch page_id)).2.miss_count
        = (run s [.fetch page_id, .unpin page_id false]).miss_count) ∧
    (∀ (ids : List Nat) (ops : List Op), (∀ p ∈ ids, ptFind s.page_table p ≠ none) →
      (∀ op ∈ ops, op.accesses ids = true) →
      (run s ops).hit_count = s.hit_count + fetchCount ops ∧
      (run s ops).miss_count = s.miss_count) ∧
    (∀ (ids : List Nat) (r : Nat), (∀ p ∈ ids, ptFind s.page_table p ≠ none) →
      (run s (accessRounds ids r)).hit_count = s.hit_count + ids.length * r ∧
      (run s (accessRounds ids r)).miss_count = s.miss_count) := by
  refine ⟨?_, ?_, exec_counters s, ?_, ?_, ?_⟩
  · intro p f hp
    obtain ⟨_, a, b, _⟩ := fetchPage_hit s p f hp
    exact ⟨a, b⟩
  · intro p hp
    exact fetchPage_miss s p hp
  · intro p f hf
    have hres : ptFind (s.FetchPage p).2.page_table p = some f := by
      have hf' : Outcome.ofExcept .page (s.FetchPage p).1 = .page (some f) := hf
      cases hp : ptFind s.page_table p with
      | some g =>
        obtain ⟨a, _, _, d⟩ := fetchPage_hit s p g hp
        rw [a] at hf'
        simp only [Outcome.ofExcept, Outcome.page.injEq, Option.some.injEq] at hf'
        rw [d, hp, hf']
      | none =>
        cases hx : s.FetchPage p with
        | mk r t =>
          rw [hx] at hf'
          cases r with
          | error e => simp [Outcome.ofExcept] at hf'
          | ok o =>
            simp only [Outcome.ofExcept, Outcome.page.injEq] at hf'
            subst hf'
            exact fetchPage_miss_entry s t p f hp hx
    have hun : ptFind (run s [.fetch p, .unpin p false]).page_table p = some f := by
      show ptFind ((s.FetchPage p).2.UnpinPage p false).2.page_table p = some f
      rw [(unpinPage_data _ p false).1]
      exact hres
    obtain ⟨a, b, c, _⟩ := fetchPage_hit _ p f hun
    refine ⟨?_, b, c⟩
    show Outcome.ofExcept .page ((run s [.fetch p, .unpin p false]).FetchPage p).1 = _
    rw [a]
    rfl
  · intro ids ops hres hops
    obtain ⟨a, b, _⟩ := access_run ops s ids hres hops
    exact ⟨a, b⟩
  · intro ids r hres
    obtain ⟨a, b, _⟩ := access_run (accessRounds ids r) s ids hres (accessRounds_accesses ids r)
    rw [fetchCount_accessRounds] at a
    exact ⟨a, b⟩

/-- Witness for C18: after the setup of the hit rate test (pool of ten frames, five
pages created and unpinned) page 2 sits in frame 9, a fetch of it counts one hit, and
ten rounds over the five pages count 5 * 10 hits and no miss. -/
theorem counters_change_in_fetch_only_witness :
    ptFind (run (BufferPoolManager.ctor 10 (DiskManager.ctor none)) hitRateSetup).page_table 2
      = some 9 ∧
    (exec (run (BufferPoolManager.ctor 10 (DiskManager.ctor none)) hitRateSetup)
      (.fetch 2)).2.hit_count
      = (run (BufferPoolManager.ctor 10 (DiskManager.ctor none)) hitRateSetup).hit_count + 1 ∧
    (run (run (BufferPoolManager.ctor 10 (DiskManager.ctor none)) hitRateSetup)
      (accessRounds [2, 3, 4, 5, 6] 10)).hit_count
      = (run (BufferPoolManager.ctor 10 (DiskManager.ctor none)) hitRateSetup).hit_count
        + [2, 3, 4, 5, 6].length * 10 :=
  ⟨by decide!,
    ((counters_change_in_fetch_only
      (run (BufferPoolManager.ctor 10 (DiskManager.ctor none)) hitRateSetup)).1 2 9
      (by decide!)).1,
    ((counters_change_in_fetch_only
      (run (BufferPoolManager.ctor 10 (DiskManager.ctor none)) hitRateSetup)).2.2.2.2.2
      [2, 3, 4, 5, 6] 10 (by decide!)).1⟩

/-! ## Pages created while the pool has free frames -/

/-- Only new_page gives back a created page. -/
theorem exec_created (s : BufferPoolManager) (op : Op) (r : Option (Nat × Int))
    (h : (exec s op).1 = .created r) : op = .new_page := by
  cases op with
  | new_page => rfl
  | fetch p =>
    have h' : Outcome.ofExcept .page (s.FetchPage p).1 = .created r := h
    cases hx : (s.FetchPage p).1 <;> rw [hx] at h' <;> simp [Outcome.ofExcept] at h'
  | unpin p b => simp [exec] at h
  | flush p =>
    have h' : Outcome.ofExcept .flag (s.FlushPage p).1 = .created r := h
    cases hx : (s.FlushPage p).1 <;> rw [hx] at h' <;> simp [Outcome.ofExcept] at h'
  | flush_all =>
    have h' : (match s.FlushAllPages.1 with | none => Outcome.done | some e => .raised e)
        = .created r := h
    cases hx : s.FlushAllPages.1 <;> rw [hx] at h' <;> simp at h'
  | delete p =>
    have h' : Outcome.ofExcept .flag (s.DeletePage p).1 = .created r := h
    cases hx : (s.DeletePage p).1 <;> rw [hx] at h' <;> simp [Outcome.ofExcept] at h'
  | write p data => simp [exec] at h

/-- With a frame in the free list, new_page takes that frame, evicts nothing and
succeeds: the new page is entered in the page table and the free list loses its last
frame. -/
theorem newPage_free (s : BufferPoolManager) (hi : poolInv s.ctl) (hfl : s.free_list ≠ []) :
    ∃ page_id f, s.NewPage.1 = .ok (some (page_id, f)) ∧
      s.NewPage.2.page_table = ptSet s.page_table page_id f ∧
      s.NewPage.2.free_list.length + 1 = s.free_list.length := by
  rcases getVictim_cases s with ⟨f, fl, r0, htook, hg⟩ | ⟨h1, _, _⟩
  · rcases htook with ⟨h1, h2⟩ | ⟨h1, _, _⟩
    · have h1' : s.free_list = fl ++ [f] := h1
      have hmem : f ∈ s.free_list := by simp [h1']
      have hrange := hi.free_range f hmem
      have hempty : s.frame_table f = none := hi.free_empty f hmem
      have hf : f ≠ INVALID_FRAME_ID := by
        intro e
        rw [e] at hrange
        simp [INVALID_FRAME_ID] at hrange
      unfold NewPage
      rw [hg]
      simp only [hf, if_false]
      have hev : evictForNew { s with free_list := fl, replacer := r0 } f =
          (none, { s with free_list := fl, replacer := r0 }) := by
        unfold evictForNew
        simp only [hempty]
      rw [hev]
      simp only
      refine ⟨_, f, rfl, rfl, ?_⟩
      show fl.length + 1 = s.free_list.length
      rw [h1']
      simp
    · exact absurd h1 hfl
  · exact absurd h1 hfl

/-- A run of setup calls with no more new_page calls than free frames: every new_page
succeeds, the counters do not move, and the pages that were resident and the pages that
were created are resident at the end. -/
theorem setup_run (ops : List Op) (s : BufferPoolManager) (hi : poolInv s.ctl)
    (hops : ∀ op ∈ ops, op.isSetup = true) (hn : newPageCalls ops ≤ s.free_list.length) :
    (run s ops).hit_count = s.hit_count ∧ (run s ops).miss_count = s.miss_count ∧
    (∀ p, ptFind s.page_table p ≠ none → ptFind (run s ops).page_table p ≠ none) ∧
    (∀ p ∈ createdIds s ops, ptFind (run s ops).page_table p ≠ none) ∧
    (createdIds s ops).length = newPageCalls ops := by
  induction ops generalizing s with
  | nil => exact ⟨rfl, rfl, fun _ h => h, by intro p hp; simp [createdIds] at hp, rfl⟩
  | cons op rest ih =>
    have hop := hops op (by simp)
    have hrest : ∀ o ∈ rest, o.isSetup = true := fun o ho => hops o (by simp [ho])
    have hi2 : poolInv (exec s op).2.ctl := poolInv_exec s op hi
    have hfetch : op.isFetch = false := by
      cases op <;> simp [Op.isFetch, Op.isSetup] at hop ⊢
    obtain ⟨c1, c2⟩ := exec_counters s op hfetch
    by_cases hnew : op = .new_page
    · subst hnew
      have hn' : newPageCalls rest + 1 ≤ s.free_list.length := hn
      have hfl : s.free_list ≠ [] := by
        intro e
        rw [e] at hn'
        simp at hn'
      obtain ⟨id, f, h1, h2, h3⟩ := newPage_free s hi hfl
      have h2' : (exec s .new_page).2.page_table = ptSet s.page_table id f := h2
      have h3' : (exec s .new_page).2.free_list.length + 1 = s.free_list.length := h3
      have hout : (exec s .new_page).1 = .created (some (id, f)) := by
        show Outcome.ofExcept .created s.NewPage.1 = _
        rw [h1]
        rfl
      obtain ⟨i1, i2, i3, i4, i5⟩ := ih (exec s .new_page).2 hi2 hrest (by omega)
      have hcr : createdIds s (.new_page :: rest) = id :: createdIds (exec s .new_page).2 rest := by
        simp only [createdIds, hout]
      refine ⟨by show (run (exec s .new_page).2 rest).hit_count = _; rw [i1, c1],
        by show (run (exec s .new_page).2 rest).miss_count = _; rw [i2, c2], ?_, ?_, ?_⟩
      · intro p hp
        apply i3 p
        rw [h2', ptFind_ptSet]
        by_cases hpe : p = id
        · simp [hpe]
        · simp only [hpe, if_false]
          exact hp
      · intro p hp
        rw [hcr] at hp
        rcases List.mem_cons.1 hp with hp | hp
        · apply i3 p
          rw [h2', ptFind_ptSet, hp]
          simp
        · exact i4 p hp
      · rw [hcr]
        show (createdIds (exec s .new_page).2 rest).length + 1 = newPageCalls rest + 1
        rw [i5]
    · obtain ⟨t1, t2⟩ := exec_tables_same s op hop hnew
      have hcount : newPageCalls (op :: rest) = newPageCalls rest := by
        cases op <;> first | rfl | exact absurd rfl hnew
      have hcr : createdIds s (op :: rest) = createdIds (exec s op).2 rest := by
        cases hout : (exec s op).1 with
        | created r =>
          exact absurd (exec_created s op r hout) hnew
        | page o => simp only [createdIds, hout]
        | flag b => simp only [createdIds, hout]
        | done => simp only [createdIds, hout]
        | raised e => simp only [createdIds, hout]
      obtain ⟨i1, i2, i3, i4, i5⟩ := ih (exec s op).2 hi2 hrest (by rw [t2]; omega)
      refine ⟨by show (run (exec s op).2 rest).hit_count = _; rw [i1, c1],
        by show (run (exec s op).2 rest).miss_count = _; rw [i2, c2], ?_, ?_, ?_⟩
      · intro p hp
        apply i3 p
        rw [t1]
        exact hp
      · intro p hp
        rw [hcr] at hp
        exact i4 p hp
      · rw [hcr, hcount]
        exact i5

/-- C19 (amended): on a new pool, after a setup of new_page, unpin, client write and
flush calls with at most pool_size new_page calls, every new_page has succeeded, and a
run that then only fetches the pages created (with unpins, client writes and flushes in
between) counts no miss at all and one hit for each fetch: new_page counts neither a
hit nor a miss. -/
theorem no_miss_for_created_pages (pool_size : Nat) (d : DiskManager) (setup accesses : List Op)
    (hsetup : ∀ op ∈ setup, op.isSetup = true) (hk : newPageCalls setup ≤ pool_size)
    (hacc : ∀ op ∈ accesses,
      op.accesses (createdIds (BufferPoolManager.ctor pool_size d) setup) = true) :
    (createdIds (BufferPoolManager.ctor pool_size d) setup).length = newPageCalls setup ∧
    (run (BufferPoolManager.ctor pool_size d) setup).miss_count = 0 ∧
    (run (run (BufferPoolManager.ctor pool_size d) setup) accesses).miss_count = 0 ∧
    (run (run (BufferPoolManager.ctor pool_size d) setup) accesses).hit_count
      = fetchCount accesses := by
  have hlen : (BufferPoolManager.ctor pool_size d).free_list.length = pool_size := by
    simp [BufferPoolManager.ctor]
  obtain ⟨a1, a2, _, a4, a5⟩ := setup_run setup _ (poolInv_init pool_size d) hsetup
    (by rw [hlen]; exact hk)
  obtain ⟨b1, b2, _⟩ := access_run accesses _ _ a4 hacc
  refine ⟨a5, a2, ?_, ?_⟩
  · rw [b2, a2]
    rfl
  · rw [b1, a1]
    show 0 + fetchCount accesses = fetchCount accesses
    omega

/-- Witness for C19 (amended): the hit rate test. On a pool of ten frames over a new
store five pages are created, written and unpinned; they get the page ids 2 to 6; ten
rounds of fetching and unpinning each of them count no miss and 50 hits. -/
theorem no_miss_for_created_pages_witness :
    createdIds (BufferPoolManager.ctor 10 (DiskManager.ctor none)) hitRateSetup
      = [2, 3, 4, 5, 6] ∧
    (run (run (BufferPoolManager.ctor 10 (DiskManager.ctor none)) hitRateSetup)
      (accessRounds [2, 3, 4, 5, 6] 10)).miss_count = 0 ∧
    (run (run (BufferPoolManager.ctor 10 (DiskManager.ctor none)) hitRateSetup)
      (accessRounds [2, 3, 4, 5, 6] 10)).hit_count = fetchCount (accessRounds [2, 3, 4, 5, 6] 10) ∧
    fetchCount (accessRounds [2, 3, 4, 5, 6] 10) = 50 := by
  have hc : createdIds (BufferPoolManager.ctor 10 (DiskManager.ctor none)) hitRateSetup
      = [2, 3, 4, 5, 6] := by decide!
  have h := no_miss_for_created_pages 10 (DiskManager.ctor none) hitRateSetup
    (accessRounds [2, 3, 4, 5, 6] 10) (by decide) (by decide)
    (by rw [hc]; exact accessRounds_accesses _ _)
  exact ⟨hc, h.2.2.1, h.2.2.2, by decide⟩

/-- Counterexample to C19 as stated: in the hit rate test (pool of ten frames over a new
store, five pages created and unpinned, each then fetched and unpinned ten times) the
miss counter ends at 0, not at 5, with 50 hits. -/
theorem no_miss_for_created_pages_counterexample :
    (run (BufferPoolManager.ctor 10 (DiskManager.ctor none))
      (hitRateSetup ++ accessRounds [2, 3, 4, 5, 6] 10)).miss_count = 0 ∧
    (run (BufferPoolManager.ctor 10 (DiskManager.ctor none))
      (hitRateSetup ++ accessRounds [2, 3, 4, 5, 6] 10)).hit_count = 50 ∧
    (run (BufferPoolManager.ctor 10 (DiskManager.ctor none))
      (hitRateSetup ++ accessRounds [2, 3, 4, 5, 6] 10)).miss_count ≠ 5 := by
  decide!

/-! ## The page ids new_page returns -/

theorem getVictim_same (s : BufferPoolManager) :
    s.GetVictimFrame.2.frame_table = s.frame_table ∧
    s.GetVictimFrame.2.disk_manager = s.disk_manager := by
  rcases getVictim_cases s with ⟨f, fl, r0, _, hg⟩ | ⟨_, _, hg⟩ <;> rw [hg] <;> exact ⟨rfl, rfl⟩

theorem writePage_ids (d : DiskManager) (p : Nat) (pg : Page) (h : p < d.num_pages) :
    (d.WritePage p pg).2.num_pages = d.num_pages ∧
    (d.WritePage p pg).2.free_pages = d.free_pages :=
  ⟨writePage_num_pages d p pg h, writePage_free_pages d p pg⟩

/-- The eviction step of a fetch leaves the frame table and the page ids of the store
as they are, whether it raises or not, when the page of the frame is below
`num_pages_`. -/
theorem evictForFetch_ids_lt (s : BufferPoolManager) (f : Int)
    (hlt : ∀ p, s.frame_table f = some p → p < s.disk_manager.num_pages) :
    (s.evictForFetch f).2.frame_table = s.frame_table ∧
    (s.evictForFetch f).2.disk_manager.num_pages = s.disk_manager.num_pages ∧
    (s.evictForFetch f).2.disk_manager.free_pages = s.disk_manager.free_pages := by
  unfold evictForFetch
  cases hft : s.frame_table f with
  | none => exact ⟨rfl, rfl, rfl⟩
  | some old =>
    obtain ⟨w1, w2⟩ := writePage_ids s.disk_manager old (s.pages f).UpdateChecksum (hlt old hft)
    by_cases hd : s.dirty f = true
    · simp only [hd, if_true]
      cases hw : s.disk_manager.WritePage old (s.pages f).UpdateChecksum with
      | mk r d2 =>
        rw [hw] at w1 w2
        cases r <;> exact ⟨rfl, w1, w2⟩
    · simp only [hd]
      exact ⟨rfl, rfl, rfl⟩

/-- The same for the eviction step of new_page. -/
theorem evictForNew_ids_lt (s : BufferPoolManager) (f : Int)
    (hlt : ∀ p, s.frame_table f = some p → p < s.disk_manager.num_pages) :
    (s.evictForNew f).2.frame_table = s.frame_table ∧
    (s.evictForNew f).2.disk_manager.num_pages = s.disk_manager.num_pages ∧
    (s.evictForNew f).2.disk_manager.free_pages = s.disk_manager.free_pages := by
  unfold evictForNew
  cases hft : s.frame_table f with
  | none => exact ⟨rfl, rfl, rfl⟩
  | some old =>
    obtain ⟨w1, w2⟩ := writePage_ids s.disk_manager old (s.pages f) (hlt old hft)
    by_cases hd : s.dirty f = true
    · simp only [hd, if_true]
      cases hw : s.disk_manager.WritePage old (s.pages f) with
      | mk r d2 =>
        rw [hw] at w1 w2
        cases r <;> exact ⟨rfl, w1, w2⟩
    · simp only [hd]
      exact ⟨rfl, rfl, rfl⟩

theorem idsInv_same (s t : BufferPoolManager) (h : idsInv s)
    (h1 : t.frame_table = s.frame_table)
    (h2 : t.disk_manager.num_pages = s.disk_manager.num_pages)
    (h3 : t.disk_manager.free_pages = s.disk_manager.free_pages) : idsInv t :=
  ⟨by rw [h3]; exact h.nothing_free, by rw [h1, h2]; exact h.holders_lt⟩

/-- A fetch, whatever it returns or raises, keeps the relation and does not move
`num_pages_`. -/
theorem idsInv_fetch (s : BufferPoolManager) (h : idsInv s) (page_id : Nat) :
    idsInv (s.FetchPage page_id).2 ∧
    (s.FetchPage page_id).2.disk_manager.num_pages = s.disk_manager.num_pages := by
  unfold FetchPage
  cases hp : ptFind s.page_table page_id with
  | some f => exact ⟨idsInv_same s _ h rfl rfl rfl, rfl⟩
  | none =>
    simp only
    obtain ⟨g1, g2⟩ := getVictim_same { s with miss_count := s.miss_count + 1 }
    cases hg : GetVictimFrame { s with miss_count := s.miss_count + 1 } with
    | mk f s1 =>
      rw [hg] at g1 g2
      simp only at g1 g2 ⊢
      have h1 : idsInv s1 := idsInv_same s s1 h g1 (by rw [g2]) (by rw [g2])
      have hn1 : s1.disk_manager.num_pages = s.disk_manager.num_pages := by rw [g2]
      by_cases hf : f = INVALID_FRAME_ID
      · simp only [hf, if_true]
        exact ⟨h1, hn1⟩
      · simp only [hf, if_false]
        obtain ⟨e1, e2, e3⟩ := evictForFetch_ids_lt s1 f (h1.holders_lt f)
        cases he : evictForFetch s1 f with
        | mk e s2 =>
          rw [he] at e1 e2 e3
          simp only at e1 e2 e3
          have h2 : idsInv s2 := idsInv_same s1 s2 h1 e1 e2 e3
          cases e with
          | some err => exact ⟨h2, e2.trans hn1⟩
          | none =>
            simp only
            obtain ⟨r1, r2, _⟩ := readPage_ids s2.disk_manager page_id
            cases hrd : s2.disk_manager.ReadPage page_id with
            | mk r d2 =>
              rw [hrd] at r1 r2
              simp only at r1 r2
              cases r with
              | error err =>
                exact ⟨idsInv_same s2 _ h2 rfl r1 r2, r1.trans (e2.trans hn1)⟩
              | ok pg =>
                have hlt := (readPage_ok _ _ _ _ hrd).2.1
                refine ⟨⟨?_, ?_⟩, r1.trans (e2.trans hn1)⟩
                · show d2.free_pages = []
                  rw [r2]
                  exact h2.nothing_free
                · intro g q hq
                  have hq' : setAt s2.frame_table f (some page_id) g = some q := hq
                  show q < d2.num_pages
                  rw [r1]
                  by_cases hgf : g = f
                  · rw [hgf, setAt_same] at hq'
                    rw [← Option.some.inj hq']
                    exact hlt
                  · rw [setAt_other _ _ _ _ hgf] at hq'
                    exact h2.holders_lt g q hq'

/-- A new_page, whatever it returns or raises, keeps the relation; when it returns a
page, the page id is the old `num_pages_`, which goes up by one; otherwise `num_pages_`
stays. -/
theorem idsInv_new (s : BufferPoolManager) (h : idsInv s)
    (hb : s.disk_manager.num_pages + 1 < PAGE_ID_MOD) :
    idsInv s.NewPage.2 ∧
    ((∃ f, s.NewPage.1 = .ok (some (s.disk_manager.num_pages, f)) ∧
        s.NewPage.2.disk_manager.num_pages = s.disk_manager.num_pages + 1) ∨
      ((∀ r, s.NewPage.1 ≠ .ok (some r)) ∧
        s.NewPage.2.disk_manager.num_pages = s.disk_manager.num_pages)) := by
  unfold NewPage
  obtain ⟨g1, g2⟩ := getVictim_same s
  cases hg : GetVictimFrame s with
  | mk f s1 =>
    rw [hg] at g1 g2
    simp only at g1 g2 ⊢
    have h1 : idsInv s1 := idsInv_same s s1 h g1 (by rw [g2]) (by rw [g2])
    have hn1 : s1.disk_manager.num_pages = s.disk_manager.num_pages := by rw [g2]
    by_cases hf : f = INVALID_FRAME_ID
    · simp only [hf, if_true]
      exact ⟨h1, Or.inr ⟨by intro r; simp, hn1⟩⟩
    · simp only [hf, if_false]
      obtain ⟨e1, e2, e3⟩ := evictForNew_ids_lt s1 f (h1.holders_lt f)
      cases he : evictForNew s1 f with
      | mk e s2 =>
        rw [he] at e1 e2 e3
        simp only at e1 e2 e3
        have h2 : idsInv s2 := idsInv_same s1 s2 h1 e1 e2 e3
        have hn2 : s2.disk_manager.num_pages = s.disk_manager.num_pages := e2.trans hn1
        cases e with
        | some err => exact ⟨h2, Or.inr ⟨by intro r; simp, hn2⟩⟩
        | none =>
          simp only
          have hmod : (s2.disk_manager.num_pages + 1) % PAGE_ID_MOD
              = s2.disk_manager.num_pages + 1 := Nat.mod_eq_of_lt (by rw [hn2]; exact hb)
          have hal : s2.disk_manager.AllocatePage =
              (s2.disk_manager.num_pages,
                { s2.disk_manager with num_pages := s2.disk_manager.num_pages + 1 }) := by
            simp [DiskManager.AllocatePage, h2.nothing_free, hmod]
          rw [hal]
          simp only
          refine ⟨⟨h2.nothing_free, ?_⟩, Or.inl ⟨f, by rw [hn2], by rw [hn2]⟩⟩
          intro g q hq
          have hq' : setAt s2.frame_table f (some s2.disk_manager.num_pages) g = some q := hq
          show q < s2.disk_manager.num_pages + 1
          by_cases hgf : g = f
          · rw [hgf, setAt_same] at hq'
            rw [← Option.some.inj hq']
            exact Nat.lt_succ_self _
          · rw [setAt_other _ _ _ _ hgf] at hq'
            exact Nat.lt_succ_of_lt (h2.holders_lt g q hq')

theorem idsInv_flush (s : BufferPoolManager) (h : idsInv s) (hi : poolInv s.ctl) (page_id : Nat) :
    idsInv (s.FlushPage page_id).2 ∧
    (s.FlushPage page_id).2.disk_manager.num_pages = s.disk_manager.num_pages := by
  unfold FlushPage
  cases hp : ptFind s.page_table page_id with
  | none => exact ⟨h, rfl⟩
  | some f =>
    simp only
    have hlt := h.holders_lt f page_id (hi.tables_agree page_id f hp)
    obtain ⟨w1, w2⟩ := writePage_ids s.disk_manager page_id (s.pages f).UpdateChecksum hlt
    cases hw : s.disk_manager.WritePage page_id (s.pages f).UpdateChecksum with
    | mk r d2 =>
      rw [hw] at w1 w2
      cases r <;> exact ⟨idsInv_same s _ h rfl w1 w2, w1⟩

theorem idsInv_flushEntries (es : List (Nat × Int)) (s : BufferPoolManager) (h : idsInv s)
    (hes : ∀ e ∈ es, s.frame_table e.2 = some e.1) :
    idsInv (flushEntries es s).2 ∧
    (flushEntries es s).2.disk_manager.num_pages = s.disk_manager.num_pages := by
  induction es generalizing s with
  | nil => exact ⟨h, rfl⟩
  | cons x rest ih =>
    obtain ⟨p, f⟩ := x
    have hlt := h.holders_lt f p (hes (p, f) (by simp))
    have hrest : ∀ e ∈ rest, s.frame_table e.2 = some e.1 := fun e he => hes e (by simp [he])
    unfold flushEntries
    by_cases hd : s.dirty f = true
    · simp only [hd, if_true]
      obtain ⟨w1, w2⟩ := writePage_ids s.disk_manager p (s.pages f).UpdateChecksum hlt
      cases hw : s.disk_manager.WritePage p (s.pages f).UpdateChecksum with
      | mk r d2 =>
        rw [hw] at w1 w2
        cases r with
        | error e => exact ⟨idsInv_same s _ h rfl w1 w2, w1⟩
        | ok u =>
          simp only
          generalize hs1 : ({ s with pages := setAt s.pages f (s.pages f).UpdateChecksum, disk_manager := d2, dirty := setAt s.dirty f false } : BufferPoolManager) = s1
          have h1 : idsInv s1 := by subst hs1; exact idsInv_same s _ h rfl w1 w2
          have hft : s1.frame_table = s.frame_table := by subst hs1; rfl
          have hn : s1.disk_manager.num_pages = s.disk_manager.num_pages := by subst hs1; exact w1
          obtain ⟨i1, i2⟩ := ih s1 h1 (by rw [hft]; exact hrest)
          exact ⟨i1, i2.trans hn⟩
    · simp only [hd]
      exact ih s h hrest

/-- Every call but a delete, whatever it returns or raises, keeps the relation; a
new_page that returns a page returns the old `num_pages_` as its id and moves
`num_pages_` up by one; every other call leaves `num_pages_` as it is. -/
theorem idsInv_exec (s : BufferPoolManager) (op : Op) (h : idsInv s) (hi : poolInv s.ctl)
    (hnd : op.isDelete = false) (hb : s.disk_manager.num_pages + 1 < PAGE_ID_MOD) :
    idsInv (exec s op).2 ∧
    ((∃ f, (exec s op).1 = .created (some (s.disk_manager.num_pages, f)) ∧
        (exec s op).2.disk_manager.num_pages = s.disk_manager.num_pages + 1) ∨
      ((∀ r, (exec s op).1 ≠ .created (some r)) ∧
        (exec s op).2.disk_manager.num_pages = s.disk_manager.num_pages)) := by
  have hother : ∀ o : Op, o ≠ .new_page → ∀ r, (exec s o).1 ≠ .created (some r) :=
    fun o ho r hr => ho (exec_created s o _ hr)
  cases op with
  | fetch p =>
    obtain ⟨a, b⟩ := idsInv_fetch s h p
    exact ⟨a, Or.inr ⟨hother _ (by simp), b⟩⟩
  | new_page =>
    obtain ⟨a, b⟩ := idsInv_new s h hb
    refine ⟨a, ?_⟩
    rcases b with ⟨f, b1, b2⟩ | ⟨b1, b2⟩
    · left
      refine ⟨f, ?_, b2⟩
      show Outcome.ofExcept .created s.NewPage.1 = _
      rw [b1]
      rfl
    · right
      refine ⟨?_, b2⟩
      intro r hr
      have hr' : Outcome.ofExcept .created s.NewPage.1 = .created (some r) := hr
      cases hx : s.NewPage.1 with
      | error e => rw [hx] at hr'; simp [Outcome.ofExcept] at hr'
      | ok o =>
        rw [hx] at hr'
        simp only [Outcome.ofExcept, Outcome.created.injEq] at hr'
        rw [hr'] at hx
        exact b1 r hx
  | unpin p b =>
    obtain ⟨_, a2, _, a4, _⟩ := unpinPage_data s p b
    exact ⟨idsInv_same s (s.UnpinPage p b).2 h a2 (by rw [a4]) (by rw [a4]),
      Or.inr ⟨hother _ (by simp), by show (s.UnpinPage p b).2.disk_manager.num_pages = _; rw [a4]⟩⟩
  | flush p =>
    obtain ⟨a, b⟩ := idsInv_flush s h hi p
    exact ⟨a, Or.inr ⟨hother _ (by simp), b⟩⟩
  | flush_all =>
    obtain ⟨a, b⟩ := idsInv_flushEntries s.page_table s h
      (fun e he => hi.tables_agree e.1 e.2 (hi.entries_found e he))
    exact ⟨a, Or.inr ⟨hother _ (by simp), b⟩⟩
  | delete p => simp [Op.isDelete] at hnd
  | write p data =>
    obtain ⟨_, a2, a3, _⟩ := clientWrite_data s p data
    exact ⟨idsInv_same s (s.clientWrite p data) h a2 (by rw [a3]) (by rw [a3]),
      Or.inr ⟨hother _ (by simp), by show (s.clientWrite p data).disk_manager.num_pages = _; rw [a3]⟩⟩

/-- In a run without delete the page ids created are consecutive, starting at
`num_pages_`. -/
theorem createdIds_consecutive (ops : List Op) (s : BufferPoolManager) (h : idsInv s)
    (hi : poolInv s.ctl) (hnd : noDelete ops = true)
    (hb : s.disk_manager.num_pages + ops.length < PAGE_ID_MOD) :
    createdIds s ops =
      (List.range (createdIds s ops).length).map (fun k => k + s.disk_manager.num_pages) := by
  induction ops generalizing s with
  | nil => rfl
  | cons op rest ih =>
    simp only [noDelete, List.all_cons, Bool.and_eq_true, Bool.not_eq_true'] at hnd
    simp only [List.length_cons] at hb
    have hnd' : noDelete rest = true := by simpa [noDelete] using hnd.2
    obtain ⟨a, b⟩ := idsInv_exec s op h hi hnd.1 (by omega)
    have hi2 := poolInv_exec s op hi
    rcases b with ⟨f, b1, b2⟩ | ⟨b1, b2⟩
    · have hcr : createdIds s (op :: rest) =
          s.disk_manager.num_pages :: createdIds (exec s op).2 rest := by
        simp only [createdIds, b1]
      have := ih (exec s op).2 a hi2 hnd' (by rw [b2]; omega)
      rw [hcr, List.length_cons, List.range_succ_eq_map, List.map_cons, List.map_map]
      rw [b2] at this
      rw [Nat.zero_add]
      congr 1
      rw [this]
      simp only [List.length_map, List.length_range]
      apply List.map_congr_left
      intro k _
      simp only [Function.comp]
      omega
    · have hcr : createdIds s (op :: rest) = createdIds (exec s op).2 rest := by
        cases hout : (exec s op).1 with
        | created r =>
          cases r with
          | none => simp only [createdIds, hout]
          | some r => exact absurd hout (b1 r)
        | page o => simp only [createdIds, hout]
        | flag b => simp only [createdIds, hout]
        | done => simp only [createdIds, hout]
        | raised e => simp only [createdIds, hout]
      have := ih (exec s op).2 a hi2 hnd' (by rw [b2]; omega)
      rw [b2] at this
      rw [hcr]
      exact this

theorem idsInv_init (pool_size : Nat) (d : DiskManager) (hfp : d.free_pages = []) :
    idsInv (BufferPoolManager.ctor pool_size d) :=
  ⟨hfp, by intro f p hf; simp [BufferPoolManager.ctor] at hf⟩

theorem freshPage_checksum (old : Page) (page_id : Nat) :
    (freshPage old page_id).header.checksum = 0 := by
  have h : xorWords ((List.replicate PAGE_DATA_SIZE 0).take PAGE_DATA_SIZE) 0 = 0 := by decide!
  simpa [freshPage, Page.UpdateChecksum, Page.CalculateChecksum, Page.Reset] using h

/-- C16: on a new pool over a newly created store, in any run without delete (below
2^32 pages) the successful new_page calls return the page ids 2, 3, 4, ... in order:
the k-th of them returns k + 1; five new_page calls on a pool of ten frames return 2 to
6. Every page a new_page returns has a zeroed data area and a header with the page id
returned, page type DATA, no records, free space 8064 at offset 0 and checksum 0, and
its frame has pin count 1 and its dirty bit set. -/
theorem new_page_ids_and_contents :
    (∀ (pool_size : Nat) (ops : List Op), noDelete ops = true →
      2 + ops.length < PAGE_ID_MOD →
      createdIds (BufferPoolManager.ctor pool_size (DiskManager.ctor none)) ops =
        (List.range (createdIds (BufferPoolManager.ctor pool_size (DiskManager.ctor none))
          ops).length).map (fun k => k + 2) ∧
      ∀ k page_id,
        (createdIds (BufferPoolManager.ctor pool_size (DiskManager.ctor none)) ops).get? k
          = some page_id → page_id = k + 2) ∧
    createdIds (BufferPoolManager.ctor 10 (DiskManager.ctor none)) (List.replicate 5 .new_page)
      = [2, 3, 4, 5, 6] ∧
    (∀ (s t : BufferPoolManager) (page_id : Nat) (f : Int),
      s.NewPage = (.ok (some (page_id, f)), t) →
      (t.pages f).data = List.replicate PAGE_DATA_SIZE 0 ∧
      (t.pages f).header.page_id = page_id ∧
      (t.pages f).header.page_type = PageType.DATA ∧
      (t.pages f).header.num_records = 0 ∧
      (t.pages f).header.free_space = 8064 ∧
      (t.pages f).header.free_space_offset = 0 ∧
      (t.pages f).header.checksum = 0 ∧
      t.pin_count f = 1 ∧ t.dirty f = true) := by
  refine ⟨?_, by decide, ?_⟩
  · intro pool_size ops hnd hb
    have hnp : (BufferPoolManager.ctor pool_size (DiskManager.ctor none)).disk_manager.num_pages
        = 2 := by
      show (DiskManager.ctor none).num_pages = 2
      decide
    have h := createdIds_consecutive ops _ (idsInv_init pool_size (DiskManager.ctor none) (by decide))
      (poolInv_init pool_size _) hnd (by rw [hnp]; exact hb)
    rw [hnp] at h
    refine ⟨h, ?_⟩
    intro k page_id hk
    rw [h, List.get?_eq_getElem?, List.getElem?_map] at hk
    cases hr : (List.range (createdIds (BufferPoolManager.ctor pool_size (DiskManager.ctor none))
        ops).length)[k]? with
    | none => rw [hr] at hk; simp at hk
    | some j =>
      rw [hr] at hk
      simp only [Option.map_some', Option.some.injEq] at hk
      have hj := @List.getElem?_range k
        (createdIds (BufferPoolManager.ctor pool_size (DiskManager.ctor none)) ops).length
      by_cases hlt : k < (createdIds (BufferPoolManager.ctor pool_size (DiskManager.ctor none))
          ops).length
      · rw [hj hlt] at hr
        have : k = j := Option.some.inj hr
        omega
      · rw [List.getElem?_eq_none (by simp; omega)] at hr
        simp at hr
  · intro s t page_id f hnew
    rcases newPage_ok_shape s with he | ⟨s1, he, _⟩ | ⟨e, s1, he⟩ |
      ⟨g, s1, s2, _, _, _, _, _, he⟩
    · rw [he] at hnew; simp at hnew
    · rw [he] at hnew; simp at hnew
    · rw [he] at hnew; simp at hnew
    · rw [he] at hnew
      obtain ⟨h1, h2⟩ := Prod.mk.inj hnew
      simp only [Except.ok.injEq, Option.some.injEq, Prod.mk.injEq] at h1
      obtain ⟨hid, hgf⟩ := h1
      subst hgf
      subst h2
      have hpage : setAt s2.pages g (freshPage (s2.pages g) s2.disk_manager.AllocatePage.1) g
          = freshPage (s2.pages g) s2.disk_manager.AllocatePage.1 := setAt_same _ _ _
      refine ⟨?_, ?_, ?_, ?_, ?_, ?_, ?_, setAt_same _ _ _, setAt_same _ _ _⟩
      · show (setAt s2.pages g _ g).data = _
        rw [hpage]; exact freshPage_data _ _
      · show (setAt s2.pages g _ g).header.page_id = _
        rw [hpage, ← hid]; rfl
      · show (setAt s2.pages g _ g).header.page_type = _
        rw [hpage]; rfl
      · show (setAt s2.pages g _ g).header.num_records = _
        rw [hpage]; rfl
      · show (setAt s2.pages g _ g).header.free_space = _
        rw [hpage]; rfl
      · show (setAt s2.pages g _ g).header.free_space_offset = _
        rw [hpage]; rfl
      · show (setAt s2.pages g _ g).header.checksum = _
        rw [hpage]; exact freshPage_checksum _ _

/-- Witness for C16: on a pool of two frames over a new store, with an unpin, a fetch
and a flush between them, three new_page calls return the page ids 2, 3 and 4, and the
first page created sits in frame 1 with page id 2 in its header. -/
theorem new_page_ids_and_contents_witness :
    createdIds (BufferPoolManager.ctor 2 (DiskManager.ctor none))
      [.new_page, .unpin 2 true, .new_page, .fetch 2, .flush 3, .unpin 3 false, .new_page]
      = (List.range 3).map (fun k => k + 2) ∧
    ((BufferPoolManager.ctor 2 (DiskManager.ctor none)).NewPage.2.pages 1).header.page_id = 2 := by
  have h := (new_page_ids_and_contents.1 2
    [.new_page, .unpin 2 true, .new_page, .fetch 2, .flush 3, .unpin 3 false, .new_page]
    (by decide) (by decide)).1
  have hlen : (createdIds (BufferPoolManager.ctor 2 (DiskManager.ctor none))
      [.new_page, .unpin 2 true, .new_page, .fetch 2, .flush 3, .unpin 3 false, .new_page]).length
      = 3 := by decide!
  rw [hlen] at h
  exact ⟨h, (new_page_ids_and_contents.2.2 (BufferPoolManager.ctor 2 (DiskManager.ctor none))
    (BufferPoolManager.ctor 2 (DiskManager.ctor none)).NewPage.2 2 1
    (Prod.ext (by rfl) rfl)).2.1⟩

/-! ## The free list and the two tables in every reachable state -/

/-- C22 (amended): after any sequence of calls on a new pool, whatever they returned or
raised, a frame in the free list is a frame of the pool that holds no page and has pin
count zero; and when none of the calls raised a store error, a frame of the pool is in
the free list exactly when it holds no page and its pin count is zero. -/
theorem free_list_iff_empty_frame (pool_size : Nat) (d : DiskManager) (ops : List Op) :
    (∀ f, f ∈ (run (BufferPoolManager.ctor pool_size d) ops).free_list →
      (run (BufferPoolManager.ctor pool_size d) ops).frame_table f = none ∧
      (run (BufferPoolManager.ctor pool_size d) ops).pin_count f = 0 ∧
      0 ≤ f ∧ f < (pool_size : Int)) ∧
    (noRaise (BufferPoolManager.ctor pool_size d) ops = true →
      ∀ f, 0 ≤ f → f < (pool_size : Int) →
        (f ∈ (run (BufferPoolManager.ctor pool_size d) ops).free_list ↔
          ((run (BufferPoolManager.ctor pool_size d) ops).frame_table f = none ∧
            (run (BufferPoolManager.ctor pool_size d) ops).pin_count f = 0))) := by
  have hi : poolInv (run (BufferPoolManager.ctor pool_size d) ops).ctl :=
    poolInv_run ops _ (poolInv_init pool_size d)
  have ho : noRaise (BufferPoolManager.ctor pool_size d) ops = true →
      okInv (run (BufferPoolManager.ctor pool_size d) ops).ctl :=
    fun hr => okInv_run ops _ (poolInv_init pool_size d) (okInv_init pool_size d) hr
  have hps : (run (BufferPoolManager.ctor pool_size d) ops).pool_size = pool_size :=
    run_pool_size ops _
  generalize noRaise (BufferPoolManager.ctor pool_size d) ops = nr at ho
  generalize run (BufferPoolManager.ctor pool_size d) ops = s at hi ho hps
  have hfwd : ∀ f, f ∈ s.free_list →
      s.frame_table f = none ∧ s.pin_count f = 0 ∧ 0 ≤ f ∧ f < (pool_size : Int) := by
    intro f hf
    have hr := hi.free_range f hf
    have hr2 : f < (s.pool_size : Int) := hr.2
    rw [hps] at hr2
    exact ⟨hi.free_empty f hf, hi.free_unpinned f hf, hr.1, hr2⟩
  refine ⟨hfwd, ?_⟩
  intro hr f h0 h1
  constructor
  · intro hf
    exact ⟨(hfwd f hf).1, (hfwd f hf).2.1⟩
  · rintro ⟨hnone, _⟩
    rcases (ho hr).covered f h0 (by show f < (s.pool_size : Int); rw [hps]; exact h1) with e | e
    · exact e
    · exact absurd hnone e

/-- Witness for C22 (amended): in a pool of one frame over a new store, after page 2 is
created, unpinned and deleted (no call raises) frame 0 is in the free list, holds no
page and has pin count zero. -/
theorem free_list_iff_empty_frame_witness :
    (0 : Int) ∈ (run (BufferPoolManager.ctor 1 (DiskManager.ctor none))
      [.new_page, .unpin 2 false, .delete 2]).free_list ∧
    (run (BufferPoolManager.ctor 1 (DiskManager.ctor none))
      [.new_page, .unpin 2 false, .delete 2]).frame_table 0 = none :=
  ⟨((free_list_iff_empty_frame 1 (DiskManager.ctor none)
      [.new_page, .unpin 2 false, .delete 2]).2 (by decide) 0 (by decide) (by decide)).2
      ⟨by decide, by decide⟩,
    by decide⟩

/-- Counterexample to C22 as stated: in a pool of one frame over a new store, the fetch
of page 100 raises the out-of-range error of the store after frame 0 was taken from the
free list: frame 0 then holds no page and has pin count zero, and is not in the free
list. -/
theorem free_list_iff_empty_frame_counterexample :
    (exec (BufferPoolManager.ctor 1 (DiskManager.ctor none)) (.fetch 100)).1
      = .raised .out_of_range ∧
    (run (BufferPoolManager.ctor 1 (DiskManager.ctor none)) [.fetch 100]).frame_table 0 = none ∧
    (run (BufferPoolManager.ctor 1 (DiskManager.ctor none)) [.fetch 100]).pin_count 0 = 0 ∧
    (0 : Int) ∉ (run (BufferPoolManager.ctor 1 (DiskManager.ctor none)) [.fetch 100]).free_list := by
  decide

/-- C25: after any sequence of calls on a new pool, whatever they returned or raised,
the frame a page table entry points to holds that page according to the frame table,
and two distinct page ids never have the same frame in the page table. -/
theorem page_table_injective_and_agrees (pool_size : Nat) (d : DiskManager) (ops : List Op) :
    (∀ p f, ptFind (run (BufferPoolManager.ctor pool_size d) ops).page_table p = some f →
      (run (BufferPoolManager.ctor pool_size d) ops).frame_table f = some p) ∧
    (∀ p q f, p ≠ q →
      ptFind (run (BufferPoolManager.ctor pool_size d) ops).page_table p = some f →
      ptFind (run (BufferPoolManager.ctor pool_size d) ops).page_table q ≠ some f) := by
  have hi : poolInv (run (BufferPoolManager.ctor pool_size d) ops).ctl :=
    poolInv_run ops _ (poolInv_init pool_size d)
  refine ⟨hi.tables_agree, ?_⟩
  intro p q f hpq hp hq
  have h1 := hi.tables_agree p f hp
  have h2 := hi.tables_agree q f hq
  rw [h1] at h2
  exact hpq (Option.some.inj h2)

/-- Witness for C25: in a pool of two frames over a new store with pages 2 and 3
created, page 2 is in frame 1 and page 3 is not. -/
theorem page_table_injective_and_agrees_witness :
    ptFind (run (BufferPoolManager.ctor 2 (DiskManager.ctor none))
      [.new_page, .new_page]).page_table 2 = some 1 ∧
    ptFind (run (BufferPoolManager.ctor 2 (DiskManager.ctor none))
      [.new_page, .new_page]).page_table 3 ≠ some 1 :=
  ⟨by decide,
    (page_table_injective_and_agrees 2 (DiskManager.ctor none) [.new_page, .new_page]).2 2 3 1
      (by decide) (by decide)⟩

/-! ## Frames lost to fetches that raise -/

/-- With a frame in the free list, a fetch of a page that is not resident and not below
`num_pages_` takes the frame, counts a miss and raises the out-of-range error of the
store; nothing else changes. -/
theorem fetchPage_out_of_range (s : BufferPoolManager) (hi : poolInv s.ctl) (page_id : Nat)
    (hfl : s.free_list ≠ []) (hp : ptFind s.page_table page_id = none)
    (hge : s.disk_manager.num_pages ≤ page_id) :
    (s.FetchPage page_id).1 = .error .out_of_range ∧
    (s.FetchPage page_id).2.free_list.length + 1 = s.free_list.length ∧
    (s.FetchPage page_id).2.miss_count = s.miss_count + 1 ∧
    (s.FetchPage page_id).2.hit_count = s.hit_count ∧
    (s.FetchPage page_id).2.page_table = s.page_table ∧
    (s.FetchPage page_id).2.frame_table = s.frame_table ∧
    (s.FetchPage page_id).2.replacer = s.replacer ∧
    (s.FetchPage page_id).2.pin_count = s.pin_count ∧
    (s.FetchPage page_id).2.disk_manager = s.disk_manager := by
  rcases getVictim_cases { s with miss_count := s.miss_count + 1 } with
    ⟨f, fl, r0, htook, hg⟩ | ⟨h1, _, _⟩
  · rcases htook with ⟨h1, h2⟩ | ⟨h1, _, _⟩
    · have h1' : s.free_list = fl ++ [f] := h1
      have h2' : r0 = s.replacer := h2
      have hmem : f ∈ s.free_list := by simp [h1']
      have hrange := hi.free_range f hmem
      have hempty : s.frame_table f = none := hi.free_empty f hmem
      have hf : f ≠ INVALID_FRAME_ID := by
        intro e
        rw [e] at hrange
        simp [INVALID_FRAME_ID] at hrange
      have hge' : page_id ≥ s.disk_manager.num_pages := hge
      unfold FetchPage
      simp only [hp]
      rw [hg]
      simp only [hf, if_false]
      have hev : evictForFetch { s with miss_count := s.miss_count + 1, free_list := fl, replacer := r0 } f = (none, { s with miss_count := s.miss_count + 1, free_list := fl, replacer := r0 }) := by
        unfold evictForFetch
        simp only [hempty]
      rw [hev]
      simp only [DiskManager.ReadPage, hge', if_true]
      refine ⟨trivial, ?_, trivial, trivial, trivial, trivial, h2', trivial, trivial⟩
      show fl.length + 1 = s.free_list.length
      rw [h1']
      simp
    · exact absurd h1 hfl
  · exact absurd h1 hfl

/-- A run of fetches of pages that are not below `num_pages_`, on a pool with nothing
resident, nothing evictable and at least as many free frames: every fetch raises the
out-of-range error and takes one frame from the free list. -/
theorem failed_fetches (ids : List Nat) (s : BufferPoolManager) (hi : poolInv s.ctl)
    (hpt : s.page_table = []) (hlen : ids.length ≤ s.free_list.length)
    (hids : ∀ id ∈ ids, s.disk_manager.num_pages ≤ id) :
    outcomes s (ids.map .fetch) = List.replicate ids.length (.raised .out_of_range) ∧
    (run s (ids.map .fetch)).free_list.length + ids.length = s.free_list.length ∧
    (run s (ids.map .fetch)).miss_count = s.miss_count + ids.length ∧
    (run s (ids.map .fetch)).hit_count = s.hit_count ∧
    (run s (ids.map .fetch)).page_table = [] ∧
    (run s (ids.map .fetch)).replacer = s.replacer ∧
    (run s (ids.map .fetch)).pin_count = s.pin_count ∧
    (run s (ids.map .fetch)).frame_table = s.frame_table ∧
    (run s (ids.map .fetch)).disk_manager = s.disk_manager := by
  induction ids generalizing s with
  | nil => exact ⟨rfl, rfl, rfl, rfl, hpt, rfl, rfl, rfl, rfl⟩
  | cons id rest ih =>
    simp only [List.length_cons] at hlen
    have hfl : s.free_list ≠ [] := by
      intro e
      rw [e] at hlen
      simp at hlen
    have hp : ptFind s.page_table id = none := by rw [hpt]; rfl
    obtain ⟨a1, a2, a3, a4, a5, a6, a7, a8, a9⟩ :=
      fetchPage_out_of_range s hi id hfl hp (hids id (by simp))
    have hout : (exec s (.fetch id)).1 = .raised .out_of_range := by
      show Outcome.ofExcept .page (s.FetchPage id).1 = _
      rw [a1]
      rfl
    obtain ⟨b1, b2, b3, b4, b5, b6, b7, b8, b9⟩ := ih (s.FetchPage id).2
      (poolInv_exec s (.fetch id) hi) (by rw [a5]; exact hpt) (by omega)
      (by intro q hq; rw [a9]; exact hids q (by simp [hq]))
    refine ⟨?_, ?_, ?_, ?_, b5, ?_, ?_, ?_, ?_⟩
    · show (exec s (.fetch id)).1 :: outcomes (s.FetchPage id).2 (rest.map .fetch) = _
      rw [hout, b1]
      rfl
    · show (run (s.FetchPage id).2 (rest.map .fetch)).free_list.length + (rest.length + 1) = _
      omega
    · show (run (s.FetchPage id).2 (rest.map .fetch)).miss_count = _
      rw [b3, a3, List.length_cons]
      omega
    · show (run (s.FetchPage id).2 (rest.map .fetch)).hit_count = _
      rw [b4, a4]
    · show (run (s.FetchPage id).2 (rest.map .fetch)).replacer = _
      rw [b6, a7]
    · show (run (s.FetchPage id).2 (rest.map .fetch)).pin_count = _
      rw [b7, a8]
    · show (run (s.FetchPage id).2 (rest.map .fetch)).frame_table = _
      rw [b8, a6]
    · show (run (s.FetchPage id).2 (rest.map .fetch)).disk_manager = _
      rw [b9, a9]

/-- A pool that is out of frames stays so whatever is called, and its pin counts do
not move. -/
theorem outOfFrames_exec (s : BufferPoolManager) (op : Op) (h : outOfFrames s) :
    outOfFrames (exec s op).2 ∧ (exec s op).2.pin_count = s.pin_count := by
  obtain ⟨h1, h2, h3⟩ := h
  have hv : s.replacer.Victim = (none, s.replacer) := by
    simp [LRUReplacer.Victim, h2]
  cases op with
  | fetch p =>
    simp [exec, FetchPage, GetVictimFrame, outOfFrames, h1, h2, h3, hv, ptFind]
  | new_page =>
    simp [exec, NewPage, GetVictimFrame, outOfFrames, h1, h2, h3, hv]
  | unpin p b =>
    simp [exec, UnpinPage, outOfFrames, h1, h2, h3, ptFind]
  | flush p =>
    simp [exec, FlushPage, outOfFrames, h1, h2, h3, ptFind]
  | flush_all =>
    simp [exec, FlushAllPages, flushEntries, outOfFrames, h1, h2, h3]
  | delete p =>
    show outOfFrames (s.DeletePage p).2 ∧ (s.DeletePage p).2.pin_count = s.pin_count
    have hp : ptFind s.page_table p = none := by rw [h3]; rfl
    unfold DeletePage
    simp only [hp]
    cases hd : s.disk_manager.DeallocatePage p with
    | mk r d2 => cases r <;> exact ⟨⟨h1, h2, h3⟩, rfl⟩
  | write p data =>
    simp [exec, clientWrite, outOfFrames, h1, h2, h3, ptFind]

theorem outOfFrames_run (ops : List Op) (s : BufferPoolManager) (h : outOfFrames s) :
    outOfFrames (run s ops) ∧ (run s ops).pin_count = s.pin_count := by
  induction ops generalizing s with
  | nil => exact ⟨h, rfl⟩
  | cons op rest ih =>
    obtain ⟨a, b⟩ := outOfFrames_exec s op h
    obtain ⟨c, d⟩ := ih (exec s op).2 a
    exact ⟨c, d.trans b⟩

theorem outOfFrames_newPage (s : BufferPoolManager) (h : outOfFrames s) :
    s.NewPage = (.ok none, s) := by
  obtain ⟨h1, h2, _⟩ := h
  simp [NewPage, GetVictimFrame, LRUReplacer.Victim, h1, h2]

/-- C27: on a new pool of n frames over a newly created store, n fetches of page ids
that are not below `num_pages_` (2) all raise the out-of-range error of the store; each
has counted a miss and taken a frame from the free list before, so afterwards the
miss counter is n, the free list, the replacer and the page table are empty and every
pin count is zero; and after any further calls new_page returns none, still with every
pin count zero. Before the last of the fetches the free list is not empty. -/
theorem failed_fetch_loses_frame (n : Nat) (ids : List Nat) (hlen : ids.length = n)
    (hids : ∀ id ∈ ids, 2 ≤ id) :
    outcomes (BufferPoolManager.ctor n (DiskManager.ctor none)) (ids.map .fetch)
      = List.replicate n (.raised .out_of_range) ∧
    (∀ k, k < n →
      (run (BufferPoolManager.ctor n (DiskManager.ctor none))
        ((ids.take k).map .fetch)).free_list.length = n - k) ∧
    (run (BufferPoolManager.ctor n (DiskManager.ctor none)) (ids.map .fetch)).miss_count = n ∧
    (run (BufferPoolManager.ctor n (DiskManager.ctor none)) (ids.map .fetch)).free_list = [] ∧
    (run (BufferPoolManager.ctor n (DiskManager.ctor none)) (ids.map .fetch)).replacer.nodes
      = [] ∧
    (run (BufferPoolManager.ctor n (DiskManager.ctor none)) (ids.map .fetch)).page_table = [] ∧
    (∀ (ops : List Op),
      (run (run (BufferPoolManager.ctor n (DiskManager.ctor none)) (ids.map .fetch))
        ops).NewPage.1 = .ok none ∧
      ∀ f, (run (run (BufferPoolManager.ctor n (DiskManager.ctor none)) (ids.map .fetch))
        ops).pin_count f = 0) := by
  have hnp : (BufferPoolManager.ctor n (DiskManager.ctor none)).disk_manager.num_pages = 2 := by
    show (DiskManager.ctor none).num_pages = 2
    decide
  have hfl : (BufferPoolManager.ctor n (DiskManager.ctor none)).free_list.length = n := by
    simp [BufferPoolManager.ctor]
  have hi := poolInv_init n (DiskManager.ctor none)
  obtain ⟨a1, a2, a3, _, a5, a6, a7, _, _⟩ :=
    failed_fetches ids (BufferPoolManager.ctor n (DiskManager.ctor none)) hi rfl
      (by rw [hfl, hlen]) (by intro id hid; rw [hnp]; exact hids id hid)
  rw [hlen] at a1 a2 a3
  have hempty : (run (BufferPoolManager.ctor n (DiskManager.ctor none))
      (ids.map .fetch)).free_list = [] := by
    apply List.eq_nil_of_length_eq_zero
    omega
  have hrep : (run (BufferPoolManager.ctor n (DiskManager.ctor none))
      (ids.map .fetch)).replacer.nodes = [] := by
    rw [a6]
    rfl
  have hstuck : outOfFrames (run (BufferPoolManager.ctor n (DiskManager.ctor none))
      (ids.map .fetch)) := ⟨hempty, hrep, a5⟩
  refine ⟨a1, ?_, ?_, hempty, hrep, a5, ?_⟩
  · intro k hk
    have hklen : (ids.take k).length = k := by
      rw [List.length_take, hlen]
      omega
    obtain ⟨_, b2, _⟩ := failed_fetches (ids.take k) (BufferPoolManager.ctor n (DiskManager.ctor none))
      hi rfl (by rw [hfl, hklen]; omega)
      (by intro id hid; rw [hnp]; exact hids id (List.mem_of_mem_take hid))
    rw [hklen, hfl] at b2
    omega
  · rw [a3]
    show 0 + n = n
    omega
  · intro ops
    obtain ⟨c1, c2⟩ := outOfFrames_run ops _ hstuck
    refine ⟨by rw [outOfFrames_newPage _ c1], ?_⟩
    intro f
    rw [c2, a7]
    rfl

/-- Witness for C27: a pool of two frames over a new store; the fetches of pages 100 and
7 raise, and then new_page returns none. -/
theorem failed_fetch_loses_frame_witness :
    outcomes (BufferPoolManager.ctor 2 (DiskManager.ctor none)) [.fetch 100, .fetch 7]
      = [.raised .out_of_range, .raised .out_of_range] ∧
    (run (BufferPoolManager.ctor 2 (DiskManager.ctor none)) [.fetch 100, .fetch 7]).NewPage.1
      = .ok none :=
  ⟨(failed_fetch_loses_frame 2 [100, 7] rfl (by decide)).1,
    ((failed_fetch_loses_frame 2 [100, 7] rfl (by decide)).2.2.2.2.2.2 []).1⟩

/-! ## flush_all -/

theorem mem_of_ptFind (t : List (Nat × Int)) (p : Nat) (f : Int) (h : ptFind t p = some f) :
    (p, f) ∈ t := by
  induction t with
  | nil => simp [ptFind] at h
  | cons x rest ih =>
    obtain ⟨q, g⟩ := x
    by_cases hq : q = p
    · simp only [ptFind, hq, if_true, Option.some.injEq] at h
      rw [hq, h]
      exact List.mem_cons_self _ _
    · simp only [ptFind, hq, if_false] at h
      exact List.mem_cons_of_mem _ (ih h)

/-- What the loop of flush_all leaves, when it does not raise, over entries that are
page table entries of a state whose tables agree: a clean frame is untouched and stays
clean; every frame of an entry ends clean; a frame that was dirty holds its page with
the checksum recomputed and the slot of its page holds the same; and the slot of a page
id that no dirty entry names is as it was. -/
theorem flushEntries_effects (es : List (Nat × Int)) (s : BufferPoolManager)
    (hes : ∀ e ∈ es, ptFind s.page_table e.1 = some e.2)
    (hag : ∀ p f, ptFind s.page_table p = some f → s.frame_table f = some p)
    (hr : (flushEntries es s).1 = none) :
    (∀ g, s.dirty g = false →
      (flushEntries es s).2.dirty g = false ∧ (flushEntries es s).2.pages g = s.pages g) ∧
    (∀ g, (∀ e ∈ es, e.2 ≠ g) →
      (flushEntries es s).2.dirty g = s.dirty g ∧ (flushEntries es s).2.pages g = s.pages g) ∧
    (∀ e ∈ es, (flushEntries es s).2.dirty e.2 = false) ∧
    (∀ e ∈ es, s.dirty e.2 = true →
      fileSlot (flushEntries es s).2.disk_manager.file e.1 = (s.pages e.2).UpdateChecksum ∧
      (flushEntries es s).2.pages e.2 = (s.pages e.2).UpdateChecksum) ∧
    (∀ q, (∀ e ∈ es, s.dirty e.2 = true → e.1 ≠ q) →
      fileSlot (flushEntries es s).2.disk_manager.file q = fileSlot s.disk_manager.file q) := by
  induction es generalizing s with
  | nil =>
    refine ⟨fun g hg => ⟨hg, rfl⟩, fun g _ => ⟨rfl, rfl⟩, ?_, ?_, fun q _ => rfl⟩
    · intro e he; simp at he
    · intro e he; simp at he
  | cons x rest ih =>
    obtain ⟨p, f⟩ := x
    have hpf : ptFind s.page_table p = some f := hes (p, f) (by simp)
    have hrest : ∀ e ∈ rest, ptFind s.page_table e.1 = some e.2 :=
      fun e he => hes e (by simp [he])
    unfold flushEntries at hr ⊢
    by_cases hd : s.dirty f = true
    · simp only [hd, if_true] at hr ⊢
      cases hw : s.disk_manager.WritePage p (s.pages f).UpdateChecksum with
      | mk r d2 =>
        rw [hw] at hr
        cases r with
        | error e => simp at hr
        | ok u =>
          simp only at hr ⊢
          have hfile : d2.file = fileWrite s.disk_manager.file p (s.pages f).UpdateChecksum :=
            (writePage_ok _ _ _ _ _ hw).1
          generalize hs1 : ({ s with pages := setAt s.pages f (s.pages f).UpdateChecksum, disk_manager := d2, dirty := setAt s.dirty f false } : BufferPoolManager) = s1 at hr ⊢
          have hpt : s1.page_table = s.page_table := by subst hs1; rfl
          have hft : s1.frame_table = s.frame_table := by subst hs1; rfl
          have hdf : s1.dirty f = false := by subst hs1; exact setAt_same _ _ _
          have hpf1 : s1.pages f = (s.pages f).UpdateChecksum := by subst hs1; exact setAt_same _ _ _
          have hdo : ∀ g, g ≠ f → s1.dirty g = s.dirty g ∧ s1.pages g = s.pages g := by
            intro g hg
            subst hs1
            exact ⟨setAt_other _ _ _ _ hg, setAt_other _ _ _ _ hg⟩
          have hfile1 : s1.disk_manager.file = fileWrite s.disk_manager.file p (s.pages f).UpdateChecksum := by
            subst hs1; exact hfile
          obtain ⟨i1, i2, i3, i4, i5⟩ := ih s1 (by rw [hpt]; exact hrest)
            (by rw [hpt, hft]; exact hag) hr
          have hkey : ∀ e ∈ rest, e.2 = f → e.1 = p := by
            intro e he hef
            have h1 := hag e.1 e.2 (hrest e he)
            have h2 := hag p f hpf
            rw [hef, h2] at h1
            exact (Option.some.inj h1).symm
          have hslotp : fileSlot (flushEntries rest s1).2.disk_manager.file p =
              (s.pages f).UpdateChecksum := by
            rw [i5 p, hfile1, fileSlot_fileWrite]
            · simp
            · intro e he hde hep
              have hef : e.2 = f := by
                have h1 := hrest e he
                rw [hep, hpf] at h1
                exact (Option.some.inj h1).symm
              rw [hef, hdf] at hde
              exact absurd hde (by simp)
          refine ⟨?_, ?_, ?_, ?_, ?_⟩
          · intro g hg
            have hgf : g ≠ f := by
              intro e
              rw [e, hd] at hg
              exact absurd hg (by simp)
            obtain ⟨a, b⟩ := hdo g hgf
            obtain ⟨c, d⟩ := i1 g (by rw [a]; exact hg)
            exact ⟨c, d.trans b⟩
          · intro g hg
            have hgf : g ≠ f := fun e => hg (p, f) (by simp) e.symm
            obtain ⟨a, b⟩ := hdo g hgf
            obtain ⟨c, d⟩ := i2 g (fun e he => hg e (by simp [he]))
            exact ⟨c.trans a, d.trans b⟩
          · intro e he
            rcases List.mem_cons.1 he with he | he
            · rw [he]
              exact (i1 f hdf).1
            · exact i3 e he
          · intro e he hde
            have hcase : e.2 = f ∨ (e ∈ rest ∧ e.2 ≠ f) := by
              rcases List.mem_cons.1 he with he | he
              · left; rw [he]
              · by_cases hef : e.2 = f
                · exact Or.inl hef
                · exact Or.inr ⟨he, hef⟩
            rcases hcase with hef | ⟨he', hef⟩
            · have hep : e.1 = p := by
                rcases List.mem_cons.1 he with he | he
                · rw [he]
                · exact hkey e he hef
              rw [hef, hep]
              exact ⟨hslotp, (i1 f hdf).2.trans hpf1⟩
            · obtain ⟨a, b⟩ := hdo e.2 hef
              obtain ⟨c, d⟩ := i4 e he' (by rw [a]; exact hde)
              rw [b] at c d
              exact ⟨c, d⟩
          · intro q hq
            have hqp : q ≠ p := fun e => hq (p, f) (by simp) hd e.symm
            rw [i5 q, hfile1, fileSlot_fileWrite]
            · simp [hqp]
            · intro e he hde
              have hef : e.2 ≠ f := by
                intro e'
                rw [e', hdf] at hde
                exact absurd hde (by simp)
              apply hq e (by simp [he])
              rw [← (hdo e.2 hef).1]
              exact hde
    · simp only [hd] at hr ⊢
      have hdf : s.dirty f = false := by simpa using hd
      obtain ⟨i1, i2, i3, i4, i5⟩ := ih s hrest hag hr
      refine ⟨i1, ?_, ?_, ?_, ?_⟩
      · intro g hg
        exact i2 g (fun e he => hg e (by simp [he]))
      · intro e he
        rcases List.mem_cons.1 he with he | he
        · rw [he]
          exact (i1 f hdf).1
        · exact i3 e he
      · intro e he hde
        rcases List.mem_cons.1 he with he | he
        · rw [he] at hde
          rw [hdf] at hde
          exact absurd hde (by simp)
        · exact i4 e he hde
      · intro q hq
        exact i5 q (fun e he hde => hq e (by simp [he]) hde)

/-- C21: in a reachable state, when flush_all returns (it raises nothing), no frame
that a page table entry points to is dirty; for every resident page whose dirty bit was
set the slot of the page in the store holds the page of its frame, which is the page the
frame held with the header checksum recomputed; the slot of a resident page whose dirty
bit was clear and its frame are as they were, and so is the slot of every page that is
not resident; and the pin counts, the two tables, the free list, the replacer and the
counters are as they were. -/
theorem flush_all_contract (s : BufferPoolManager) (hs : Reachable s)
    (hr : s.FlushAllPages.1 = none) :
    (∀ p f, ptFind s.FlushAllPages.2.page_table p = some f →
      s.FlushAllPages.2.dirty f = false) ∧
    (∀ p f, ptFind s.page_table p = some f → s.dirty f = true →
      fileSlot s.FlushAllPages.2.disk_manager.file p = s.FlushAllPages.2.pages f ∧
      s.FlushAllPages.2.pages f = (s.pages f).UpdateChecksum) ∧
    (∀ p f, ptFind s.page_table p = some f → s.dirty f = false →
      fileSlot s.FlushAllPages.2.disk_manager.file p = fileSlot s.disk_manager.file p ∧
      s.FlushAllPages.2.pages f = s.pages f) ∧
    (∀ q, ptFind s.page_table q = none →
      fileSlot s.FlushAllPages.2.disk_manager.file q = fileSlot s.disk_manager.file q) ∧
    s.FlushAllPages.2.pin_count = s.pin_count ∧
    s.FlushAllPages.2.page_table = s.page_table ∧
    s.FlushAllPages.2.frame_table = s.frame_table ∧
    s.FlushAllPages.2.free_list = s.free_list ∧
    s.FlushAllPages.2.replacer = s.replacer ∧
    s.FlushAllPages.2.hit_count = s.hit_count ∧
    s.FlushAllPages.2.miss_count = s.miss_count := by
  have hi := hs.poolInv
  have hctl : s.FlushAllPages.2.ctl = s.ctl := flushEntries_ctl s.page_table s
  have hpt : s.FlushAllPages.2.page_table = s.page_table := congrArg Ctl.page_table hctl
  obtain ⟨c1, c2⟩ := flushEntries_counters s.page_table s
  obtain ⟨e1, _, e3, e4, e5⟩ :=
    flushEntries_effects s.page_table s hi.entries_found hi.tables_agree hr
  have hclean : ∀ p f, ptFind s.page_table p = some f → s.dirty f = false →
      ∀ e ∈ s.page_table, s.dirty e.2 = true → e.1 ≠ p := by
    intro p f hp hd e he hde hep
    have h1 := hi.entries_found e he
    have h1' : ptFind s.page_table e.1 = some e.2 := h1
    rw [hep, hp] at h1'
    rw [← Option.some.inj h1', hd] at hde
    exact absurd hde (by simp)
  refine ⟨?_, ?_, ?_, ?_, congrArg Ctl.pin_count hctl, hpt, congrArg Ctl.frame_table hctl,
    congrArg Ctl.free_list hctl, congrArg Ctl.replacer hctl, c1, c2⟩
  · intro p f hp
    rw [hpt] at hp
    exact e3 (p, f) (mem_of_ptFind _ p f hp)
  · intro p f hp hd
    obtain ⟨a, b⟩ := e4 (p, f) (mem_of_ptFind _ p f hp) hd
    exact ⟨a.trans b.symm, b⟩
  · intro p f hp hd
    exact ⟨e5 p (hclean p f hp hd), (e1 f hd).2⟩
  · intro q hq
    apply e5 q
    intro e he _ heq
    have h1 : ptFind s.page_table e.1 = some e.2 := hi.entries_found e he
    rw [heq, hq] at h1
    exact absurd h1 (by simp)

/-- Witness for C21: in a pool of two frames over a new store, page 2 was created,
written by the client and unpinned dirty, and page 3 created; flush_all returns, slot 2
of the store then holds the page of frame 1, and frame 1 is clean. -/
theorem flush_all_contract_witness :
    (run (BufferPoolManager.ctor 2 (DiskManager.ctor none))
      [.new_page, .write 2 (sampleData 7), .unpin 2 true, .new_page]).FlushAllPages.1 = none ∧
    fileSlot (run (BufferPoolManager.ctor 2 (DiskManager.ctor none))
      [.new_page, .write 2 (sampleData 7), .unpin 2 true, .new_page]).FlushAllPages.2.disk_manager.file
      2 = (run (BufferPoolManager.ctor 2 (DiskManager.ctor none))
      [.new_page, .write 2 (sampleData 7), .unpin 2 true, .new_page]).FlushAllPages.2.pages 1 ∧
    (run (BufferPoolManager.ctor 2 (DiskManager.ctor none))
      [.new_page, .write 2 (sampleData 7), .unpin 2 true, .new_page]).FlushAllPages.2.dirty 1
      = false := by
  have hr : (run (BufferPoolManager.ctor 2 (DiskManager.ctor none))
      [.new_page, .write 2 (sampleData 7), .unpin 2 true, .new_page]).FlushAllPages.1 = none := by
    decide
  have h := flush_all_contract (run (BufferPoolManager.ctor 2 (DiskManager.ctor none))
    [.new_page, .write 2 (sampleData 7), .unpin 2 true, .new_page])
    ⟨2, DiskManager.ctor none, _, rfl⟩ hr
  exact ⟨hr, (h.2.1 2 1 (by decide) (by decide)).1, by decide⟩

/-! ## The checksum of a page -/

theorem word32_cons4 (b0 b1 b2 b3 : Nat) (rest : List Nat) :
    word32 (b0 :: b1 :: b2 :: b3 :: rest) = word32 [b0, b1, b2, b3] := by
  simp [word32]

/-- The loop over the bytes, four at a time, is the XOR over the words by index. -/
theorem xorWords_eq_foldl (n : Nat) (data : List Nat) (sum : Nat) (h : data.length = 4 * n) :
    xorWords data sum =
      (List.range n).foldl (fun acc i => acc ^^^ word32 (data.drop (4 * i))) sum := by
  induction n generalizing data sum with
  | zero =>
    have : data = [] := List.eq_nil_of_length_eq_zero (by omega)
    subst this
    rfl
  | succ n ih =>
    match data, h with
    | b0 :: b1 :: b2 :: b3 :: rest, h =>
      have hrest : rest.length = 4 * n := by
        simp only [List.length_cons] at h
        omega
      rw [List.range_succ_eq_map, List.foldl_cons, List.foldl_map]
      show xorWords rest (sum ^^^ word32 [b0, b1, b2, b3]) = _
      rw [ih rest _ hrest]
      have hw : word32 ((b0 :: b1 :: b2 :: b3 :: rest).drop (4 * 0)) = word32 [b0, b1, b2, b3] :=
        word32_cons4 b0 b1 b2 b3 rest
      have hf : (fun (x y : Nat) => x ^^^ word32 ((b0 :: b1 :: b2 :: b3 :: rest).drop (4 * y.succ)))
          = (fun acc i => acc ^^^ word32 (rest.drop (4 * i))) := by
        funext x y
        have e : 4 * y.succ = 4 * y + 4 := by omega
        rw [e]
        rfl
      show _ = List.foldl (fun (x y : Nat) => x ^^^ word32 ((b0 :: b1 :: b2 :: b3 :: rest).drop (4 * y.succ)))
        (sum ^^^ word32 ((b0 :: b1 :: b2 :: b3 :: rest).drop (4 * 0))) (List.range n)
      rw [hw, hf]
    | [], h => simp at h
    | [_], h => simp at h; omega
    | [_, _], h => simp at h; omega
    | [_, _, _], h => simp at h; omega

theorem fileWrite_get (file : List Page) (i : Nat) (pg : Page) :
    (fileWrite file i pg).get? i = some pg := by
  induction file generalizing i with
  | nil =>
    induction i with
    | zero => rfl
    | succ i ih => simpa [fileWrite] using ih
  | cons x rest ih =>
    cases i with
    | zero => rfl
    | succ i => simpa [fileWrite] using ih i

theorem fileWrite_length (file : List Page) (i : Nat) (pg : Page) :
    (fileWrite file i pg).length = max file.length (i + 1) := by
  induction file generalizing i with
  | nil =>
    induction i with
    | zero => rfl
    | succ i ih =>
      simp only [fileWrite, List.length_cons, ih]
      simp
  | cons x rest ih =>
    cases i with
    | zero =>
      simp only [fileWrite, List.length_cons]
      omega
    | succ i =>
      simp only [fileWrite, List.length_cons, ih]
      omega

/-- A page written to a store whose stream has not failed is read back as written. -/
theorem write_then_read (d : DiskManager) (page_id : Nat) (pg : Page)
    (hfb : d.failbit = false) (hid : page_id < INVALID_PAGE_ID) :
    (d.WritePage page_id pg).1 = .ok () ∧
    ((d.WritePage page_id pg).2.ReadPage page_id).1 = .ok pg := by
  have hI : INVALID_PAGE_ID + 1 = PAGE_ID_MOD := by decide
  obtain ⟨w1, w2, w3⟩ := writePage_healthy d page_id pg hfb
  refine ⟨w1, ?_⟩
  have hlt : page_id < (d.WritePage page_id pg).2.num_pages := by
    by_cases hge : page_id ≥ d.num_pages
    · rw [writePage_num_pages_ge d page_id pg hge, Nat.mod_eq_of_lt (by omega)]
      omega
    · rw [writePage_num_pages d page_id pg (by omega)]
      omega
  have hge : ¬ page_id ≥ (d.WritePage page_id pg).2.num_pages := by omega
  have hget : (d.WritePage page_id pg).2.file.get? page_id = some pg := by
    rw [w2]
    exact fileWrite_get _ _ _
  unfold DiskManager.ReadPage
  simp only [hge, if_false, w3, Bool.false_eq_true, hget]

/-- C24: the checksum CalculateChecksum computes for a page with a data area of 8064
bytes is the XOR of its 2016 32-bit words; it is the same whatever the header holds;
UpdateChecksum leaves the data area and every header field but the checksum as they
are and stores the checksum computed; after it VerifyChecksum holds, also for the page
read back after it was written to a store whose stream has not failed. -/
theorem checksum_contract (p : Page) :
    (p.data.length = PAGE_DATA_SIZE → p.CalculateChecksum = xorOfDataWords p.data) ∧
    PAGE_DATA_SIZE / 4 = 2016 ∧
    (∀ h : PageHeader, ({ p with header := h } : Page).CalculateChecksum = p.CalculateChecksum) ∧
    p.UpdateChecksum.data = p.data ∧
    p.UpdateChecksum.header = { p.header with checksum := p.CalculateChecksum } ∧
    sameExceptChecksum p.UpdateChecksum p ∧
    p.UpdateChecksum.VerifyChecksum = true ∧
    (∀ (d : DiskManager) (page_id : Nat), d.failbit = false → page_id < INVALID_PAGE_ID →
      ∃ q, ((d.WritePage page_id p.UpdateChecksum).2.ReadPage page_id).1 = .ok q ∧
        q = p.UpdateChecksum ∧ q.VerifyChecksum = true) := by
  have hv : p.UpdateChecksum.VerifyChecksum = true := by
    simp [Page.VerifyChecksum, Page.UpdateChecksum, Page.CalculateChecksum]
  refine ⟨?_, by decide, fun _ => rfl, rfl, rfl, sameExceptChecksum_update p, hv, ?_⟩
  · intro hlen
    unfold Page.CalculateChecksum xorOfDataWords
    have htake : p.data.take PAGE_DATA_SIZE = p.data := by
      rw [← hlen]
      exact List.take_length _
    have h4 : p.data.length = 4 * (PAGE_DATA_SIZE / 4) := by
      rw [hlen]
      rfl
    rw [htake]
    exact xorWords_eq_foldl _ _ _ h4
  · intro d page_id hfb hid
    exact ⟨p.UpdateChecksum, (write_then_read d page_id _ hfb hid).2, rfl, hv⟩

/-- Witness for C24: the zeroed page has a data area of 8064 bytes, and a page with
updated checksum written to slot 2 of a new store is read back with a checksum that
verifies. -/
theorem checksum_contract_witness :
    Page.zero.CalculateChecksum = xorOfDataWords Page.zero.data ∧
    ∃ q, (((DiskManager.ctor none).WritePage 2 Page.zero.UpdateChecksum).2.ReadPage 2).1
      = .ok q ∧ q = Page.zero.UpdateChecksum ∧ q.VerifyChecksum = true :=
  ⟨(checksum_contract Page.zero).1 (List.length_replicate PAGE_DATA_SIZE 0),
    (checksum_contract Page.zero).2.2.2.2.2.2.2 (DiskManager.ctor none) 2 (by decide)
      (by decide)⟩

/-! ## The free list page: save and load -/

/-- Bytes written inside a buffer replace the bytes at their offset. -/
theorem writeBytes_eq (buf : List Nat) (off : Nat) (bs : List Nat)
    (h : off + bs.length ≤ buf.length) :
    writeBytes buf off bs = buf.take off ++ bs ++ buf.drop (off + bs.length) := by
  induction buf generalizing off bs with
  | nil =>
    simp only [List.length_nil] at h
    have h1 : off = 0 := by omega
    have h2 : bs = [] := List.eq_nil_of_length_eq_zero (by omega)
    subst h1 h2
    rfl
  | cons b rest ih =>
    cases off with
    | zero =>
      cases bs with
      | nil => rfl
      | cons x bs =>
        have h' : 0 + bs.length ≤ rest.length := by
          simp only [List.length_cons] at h
          omega
        have := ih 0 bs h'
        simp only [writeBytes, this, List.take_zero, List.nil_append, Nat.zero_add,
          List.length_cons, List.cons_append]
        rw [List.drop_succ_cons]
    | succ off =>
      have h' : off + bs.length ≤ rest.length := by
        simp only [List.length_cons] at h
        omega
      have := ih off bs h'
      have e : off + 1 + bs.length = (off + bs.length) + 1 := by omega
      simp only [writeBytes, this, List.take_succ_cons, List.cons_append, e, List.drop_succ_cons]

theorem bytes32_length (v : Nat) : (bytes32 v).length = 4 := rfl

theorem flatMap_bytes32_length (ids : List Nat) : (ids.flatMap bytes32).length = 4 * ids.length := by
  induction ids with
  | nil => rfl
  | cons x rest ih =>
    rw [List.flatMap_cons, List.length_append, ih, bytes32_length, List.length_cons]
    omega

/-- The data area `SaveFreePageList` builds: the identifiers as consecutive 4-byte values
from offset `4 * i` on, the rest of the buffer as it was. -/
theorem packIds_eq (ids : List Nat) (data : List Nat) (i : Nat)
    (h : 4 * i + 4 * ids.length ≤ data.length) :
    DiskManager.packIds data i ids =
      data.take (4 * i) ++ ids.flatMap bytes32 ++ data.drop (4 * i + 4 * ids.length) := by
  induction ids generalizing data i with
  | nil => simp [DiskManager.packIds]
  | cons id rest ih =>
    simp only [List.length_cons] at h
    have hw : writeBytes data (4 * i) (bytes32 id) =
        data.take (4 * i) ++ bytes32 id ++ data.drop (4 * i + 4) := by
      have := writeBytes_eq data (4 * i) (bytes32 id) (by rw [bytes32_length]; omega)
      rw [bytes32_length] at this
      exact this
    have htl : (data.take (4 * i)).length = 4 * i := by
      rw [List.length_take]
      omega
    have hlen : (writeBytes data (4 * i) (bytes32 id)).length = data.length := by
      rw [hw, List.length_append, List.length_append, htl, bytes32_length, List.length_drop]
      omega
    unfold DiskManager.packIds
    rw [ih _ (i + 1) (by rw [hlen]; omega)]
    have e1 : 4 * (i + 1) = 4 * i + 4 := by omega
    have htake : (writeBytes data (4 * i) (bytes32 id)).take (4 * (i + 1)) =
        data.take (4 * i) ++ bytes32 id := by
      rw [hw, e1, List.take_append_eq_append_take]
      have hl : (data.take (4 * i) ++ bytes32 id).length = 4 * i + 4 := by
        rw [List.length_append, htl, bytes32_length]
      rw [hl, Nat.sub_self, List.take_zero, List.append_nil, ← hl, List.take_length]
    have hdrop : (writeBytes data (4 * i) (bytes32 id)).drop (4 * (i + 1) + 4 * rest.length) =
        data.drop (4 * i + 4 * (rest.length + 1)) := by
      rw [hw, e1]
      have hl : (data.take (4 * i) ++ bytes32 id).length = 4 * i + 4 := by
        rw [List.length_append, htl, bytes32_length]
      have e2 : 4 * i + 4 + 4 * rest.length = (data.take (4 * i) ++ bytes32 id).length
          + 4 * rest.length := by rw [hl]
      rw [e2, List.drop_append, List.drop_drop]
      congr 1
      omega
    rw [htake, hdrop, List.flatMap_cons]
    simp only [List.append_assoc, List.length_cons]

theorem word32_bytes32 (v : Nat) (tail : List Nat) (h : v < PAGE_ID_MOD) :
    word32 (bytes32 v ++ tail) = v := by
  have h' : v < 4294967296 := h
  simp only [bytes32, word32, List.cons_append, List.nil_append, List.getD_cons_zero,
    List.getD_cons_succ]
  omega

/-- Reading back as many identifiers as were packed gives the identifiers. -/
theorem unpackIds_flatMap (ids : List Nat) (tail : List Nat)
    (h : ∀ id ∈ ids, id < PAGE_ID_MOD) :
    DiskManager.unpackIds (ids.flatMap bytes32 ++ tail) ids.length = ids := by
  induction ids with
  | nil => rfl
  | cons id rest ih =>
    have hrest : ∀ q ∈ rest, q < PAGE_ID_MOD := fun q hq => h q (by simp [hq])
    have ih' := ih hrest
    unfold DiskManager.unpackIds at ih' ⊢
    rw [List.length_cons, List.range_succ_eq_map, List.map_cons, List.map_map]
    have h0 : word32 (((id :: rest).flatMap bytes32 ++ tail).drop (4 * 0)) = id := by
      rw [List.flatMap_cons, List.append_assoc]
      exact word32_bytes32 id _ (h id (by simp))
    rw [h0]
    congr 1

/-- The free list page of at most 2016 identifiers: its header fields and its data
area. -/
theorem freeListPage_eq (ids : List Nat) (hlen : ids.length ≤ 2016) :
    (DiskManager.freeListPage ids).header.page_type = PageType.FREE_LIST ∧
    (DiskManager.freeListPage ids).header.page_id = 1 ∧
    (DiskManager.freeListPage ids).header.num_records = ids.length ∧
    (DiskManager.freeListPage ids).data =
      ids.flatMap bytes32 ++ List.replicate (PAGE_DATA_SIZE - 4 * ids.length) 0 := by
  have hsz : PAGE_DATA_SIZE = 8064 := rfl
  have hmod : ids.length % PAGE_ID_MOD = ids.length :=
    Nat.mod_eq_of_lt (Nat.lt_of_le_of_lt hlen (by decide))
  refine ⟨rfl, rfl, hmod, ?_⟩
  show DiskManager.packIds (List.replicate PAGE_DATA_SIZE 0) 0 ids = _
  rw [packIds_eq ids _ 0 (by rw [List.length_replicate, hsz]; omega)]
  simp only [Nat.mul_zero, List.take_zero, List.nil_append, Nat.zero_add, List.drop_replicate]

/-- What LoadFreePageList does on a healthy store of at least two pages whose slot 1 is
a free list page: the free list is read from it and nothing else changes. -/
theorem loadFreePageList_of_slot (d : DiskManager) (pg : Page) (h2 : 2 ≤ d.num_pages)
    (hfb : d.failbit = false) (hget : d.file.get? 1 = some pg)
    (ht : pg.header.page_type = PageType.FREE_LIST) :
    d.LoadFreePageList = { d with free_pages := DiskManager.unpackIds pg.data pg.header.num_records } := by
  have hnp : ¬ d.num_pages < 2 := by omega
  simp only [DiskManager.LoadFreePageList, hnp, if_false, hfb, Bool.false_eq_true, hget, ht,
    ne_eq, not_true_eq_false]

theorem saveFreePageList_eq (d : DiskManager) (hfb : d.failbit = false) :
    d.SaveFreePageList.file = fileWrite d.file 1 (DiskManager.freeListPage d.free_pages) ∧
    2 ≤ d.SaveFreePageList.num_pages ∧ d.SaveFreePageList.failbit = false ∧
    d.SaveFreePageList.free_pages = d.free_pages ∧
    (2 ≤ d.num_pages → d.SaveFreePageList.num_pages = d.num_pages) := by
  unfold DiskManager.SaveFreePageList
  simp only [hfb, Bool.false_eq_true, if_false]
  by_cases h : d.num_pages < 2
  · simp only [h, if_true]
    exact ⟨trivial, Nat.le_refl 2, trivial, trivial, fun h2 => absurd h (by omega)⟩
  · simp only [h, if_false]
    exact ⟨trivial, by omega, trivial, trivial, fun _ => trivial⟩

/-- What a store that is saved and opened again finds as its free list. -/
theorem reopen_free_pages (d : DiskManager) (hfb : d.failbit = false)
    (hlen : d.free_pages.length ≤ 2016) (hids : ∀ id ∈ d.free_pages, id < PAGE_ID_MOD)
    (hfile : d.file.length < PAGE_ID_MOD) :
    fileSlot d.SaveFreePageList.file 1 = DiskManager.freeListPage d.free_pages ∧
    d.dtor.length = max d.file.length 2 ∧
    (DiskManager.ctor (some d.dtor)).free_pages = d.free_pages ∧
    (DiskManager.ctor (some d.dtor)).num_pages = max d.file.length 2 ∧
    (DiskManager.ctor (some d.dtor)).failbit = false ∧
    (DiskManager.ctor (some d.dtor)).file = d.dtor := by
  obtain ⟨p1, _, p3, p4⟩ := freeListPage_eq d.free_pages hlen
  obtain ⟨hsave, _, _, _, _⟩ := saveFreePageList_eq d hfb
  have hdt : d.dtor = fileWrite d.file 1 (DiskManager.freeListPage d.free_pages) := hsave
  have hl : d.dtor.length = max d.file.length 2 := by
    rw [hdt, fileWrite_length]
  have hget : d.dtor.get? 1 = some (DiskManager.freeListPage d.free_pages) := by
    rw [hdt]
    exact fileWrite_get _ _ _
  have hnum : d.dtor.length % PAGE_ID_MOD = max d.file.length 2 := by
    rw [hl]
    apply Nat.mod_eq_of_lt
    have : (2 : Nat) < PAGE_ID_MOD := by decide
    omega
  have hun : DiskManager.unpackIds (DiskManager.freeListPage d.free_pages).data
      (DiskManager.freeListPage d.free_pages).header.num_records = d.free_pages := by
    rw [p3, p4]
    exact unpackIds_flatMap _ _ hids
  have hctor : DiskManager.ctor (some d.dtor) =
      { num_pages := max d.file.length 2, free_pages := d.free_pages, file := d.dtor,
        failbit := false } := by
    show DiskManager.LoadFreePageList { num_pages := d.dtor.length % PAGE_ID_MOD, free_pages := [], file := d.dtor, failbit := false } = _
    rw [loadFreePageList_of_slot { num_pages := d.dtor.length % PAGE_ID_MOD, free_pages := [], file := d.dtor, failbit := false } (DiskManager.freeListPage d.free_pages) (by show 2 ≤ d.dtor.length % PAGE_ID_MOD; rw [hnum]; omega) rfl hget p1, hun, hnum]
  refine ⟨?_, hl, ?_, ?_, ?_, ?_⟩
  · rw [hsave, fileSlot_fileWrite]
    simp
  all_goals rw [hctor]

/-- C23: for a free list of at most 2016 page ids (of 32 bits), the page
SaveFreePageList builds for slot 1 has page type FREE_LIST, the list length as
num_records and a data area that is the page ids as consecutive 4-byte little-endian
values in the order of the list, followed by zeros; reading that many ids back from
the data area, as LoadFreePageList does, gives the list again; and a store whose
stream has not failed, closed and opened again on the file it leaves, has the same
free list. -/
theorem free_list_round_trip (ids : List Nat) (hlen : ids.length ≤ 2016)
    (hids : ∀ id ∈ ids, id < PAGE_ID_MOD) :
    (DiskManager.freeListPage ids).header.page_type = PageType.FREE_LIST ∧
    (DiskManager.freeListPage ids).header.num_records = ids.length ∧
    (DiskManager.freeListPage ids).data =
      ids.flatMap bytes32 ++ List.replicate (PAGE_DATA_SIZE - 4 * ids.length) 0 ∧
    DiskManager.unpackIds (DiskManager.freeListPage ids).data
      (DiskManager.freeListPage ids).header.num_records = ids ∧
    (∀ d : DiskManager, d.free_pages = ids → d.failbit = false →
      d.file.length < PAGE_ID_MOD →
      fileSlot d.SaveFreePageList.file 1 = DiskManager.freeListPage ids ∧
      (DiskManager.LoadFreePageList { d.SaveFreePageList with free_pages := [] }).free_pages
        = ids ∧
      (DiskManager.ctor (some d.dtor)).free_pages = ids) := by
  obtain ⟨p1, _, p3, p4⟩ := freeListPage_eq ids hlen
  have hun : DiskManager.unpackIds (DiskManager.freeListPage ids).data
      (DiskManager.freeListPage ids).header.num_records = ids := by
    rw [p3, p4]
    exact unpackIds_flatMap _ _ hids
  refine ⟨p1, p3, p4, hun, ?_⟩
  intro d hd hfb hfile
  subst hd
  obtain ⟨r1, _, r3, _⟩ := reopen_free_pages d hfb hlen hids hfile
  obtain ⟨hsave, hnp, hfb2, _, _⟩ := saveFreePageList_eq d hfb
  have hget : d.SaveFreePageList.file.get? 1 = some (DiskManager.freeListPage d.free_pages) := by
    rw [hsave]
    exact fileWrite_get _ _ _
  refine ⟨r1, ?_, r3⟩
  rw [loadFreePageList_of_slot { d.SaveFreePageList with free_pages := [] } (DiskManager.freeListPage d.free_pages) hnp hfb2 hget p1, hun]

/-- Witness for C23: the free list [5, 7, 300] is packed as twelve bytes and read back
as it was. -/
theorem free_list_round_trip_witness :
    (DiskManager.freeListPage [5, 7, 300]).data.take 12
      = [5, 0, 0, 0, 7, 0, 0, 0, 44, 1, 0, 0] ∧
    DiskManager.unpackIds (DiskManager.freeListPage [5, 7, 300]).data
      (DiskManager.freeListPage [5, 7, 300]).header.num_records = [5, 7, 300] :=
  ⟨by decide, (free_list_round_trip [5, 7, 300] (by decide) (by decide)).2.2.2.1⟩

/-! ## Allocation under disciplined use -/

theorem liveInv_new : liveInv (DiskManager.ctor none, []) := by
  have hnil : (DiskManager.ctor none).free_pages = [] := by decide
  refine ⟨by decide, by decide, by decide, ?_, List.nodup_nil, ?_, ?_⟩
  · show (DiskManager.ctor none).free_pages.Nodup
    rw [hnil]
    exact List.nodup_nil
  · intro q hq
    have hq' : q ∈ (DiskManager.ctor none).free_pages := hq
    rw [hnil] at hq'
    exact absurd hq' (by simp)
  · intro q hq
    exact absurd hq (by simp)

/-- With the relation in place, allocate returns a page id that is at least 2 and not
currently allocated. -/
theorem liveInv_fresh (st : DiskManager × List Nat) (h : liveInv st) :
    2 ≤ st.1.AllocatePage.1 ∧ st.1.AllocatePage.1 ∉ st.2 := by
  unfold DiskManager.AllocatePage
  cases hl : st.1.free_pages.getLast? with
  | some p =>
    have hmem : p ∈ st.1.free_pages := List.mem_of_getLast?_eq_some hl
    exact ⟨(h.freed p hmem).1, (h.freed p hmem).2.2⟩
  | none =>
    refine ⟨h.reserved, ?_⟩
    intro hm
    exact Nat.lt_irrefl _ (h.live _ hm).2

/-- A disciplined and persisted step keeps the relation. -/
theorem liveInv_dstep (st : DiskManager × List Nat) (op : DiscOp) (h : liveInv st)
    (hd : op.disciplined st = true) (hp : op.persisted st = true) : liveInv (dstep st op) := by
  cases op with
  | allocate =>
    have hb : st.1.num_pages + 1 < PAGE_ID_MOD := by simpa [DiscOp.persisted] using hp
    obtain ⟨f1, f2⟩ := liveInv_fresh st h
    show liveInv (st.1.AllocatePage.2, st.1.AllocatePage.1 :: st.2)
    have hnd : (st.1.AllocatePage.1 :: st.2).Nodup := List.nodup_cons.2 ⟨f2, h.live_nodup⟩
    revert f1 f2 hnd
    unfold DiskManager.AllocatePage
    cases hl : st.1.free_pages.getLast? with
    | some p =>
      intro f1 f2 hnd
      obtain ⟨ys, hys⟩ := List.getLast?_eq_some_iff.1 hl
      have hdl : st.1.free_pages.dropLast = ys := by rw [hys]; simp
      have hnd2 := h.freed_nodup
      rw [hys] at hnd2
      have hsplit := List.nodup_append.1 hnd2
      refine ⟨h.reserved, h.fits, h.healthy, ?_, hnd, ?_, ?_⟩
      · show st.1.free_pages.dropLast.Nodup
        rw [hdl]
        exact hsplit.1
      · intro q hq
        have hq' : q ∈ st.1.free_pages.dropLast := hq
        rw [hdl] at hq'
        have hqm : q ∈ st.1.free_pages := by rw [hys]; exact List.mem_append_left _ hq'
        obtain ⟨a, b, c⟩ := h.freed q hqm
        refine ⟨a, b, ?_⟩
        intro hmem
        rcases List.mem_cons.1 hmem with e | e
        · exact hsplit.2.2 hq' (by rw [e]; simp)
        · exact c e
      · intro q hq
        rcases List.mem_cons.1 hq with e | e
        · rw [e]
          have hpm : p ∈ st.1.free_pages := by rw [hys]; simp
          exact ⟨(h.freed p hpm).1, (h.freed p hpm).2.1⟩
        · exact h.live q e
    | none =>
      intro f1 f2 hnd
      have hnil : st.1.free_pages = [] := List.getLast?_eq_none_iff.1 hl
      have hmod : (st.1.num_pages + 1) % PAGE_ID_MOD = st.1.num_pages + 1 := Nat.mod_eq_of_lt hb
      refine ⟨?_, ?_, h.healthy, h.freed_nodup, hnd, ?_, ?_⟩
      · show 2 ≤ (st.1.num_pages + 1) % PAGE_ID_MOD
        rw [hmod]
        have := h.reserved
        omega
      · show (st.1.num_pages + 1) % PAGE_ID_MOD < PAGE_ID_MOD
        rw [hmod]
        exact hb
      · intro q hq
        have hq' : q ∈ st.1.free_pages := hq
        rw [hnil] at hq'
        exact absurd hq' (by simp)
      · intro q hq
        show 2 ≤ q ∧ q < (st.1.num_pages + 1) % PAGE_ID_MOD
        rw [hmod]
        rcases List.mem_cons.1 hq with e | e
        · rw [e]
          exact ⟨h.reserved, Nat.lt_succ_self _⟩
        · exact ⟨(h.live q e).1, Nat.lt_succ_of_lt (h.live q e).2⟩
  | write p pg =>
    have hm : p ∈ st.2 := by simpa [DiscOp.disciplined] using hd
    have hlt := (h.live p hm).2
    obtain ⟨w1, w2⟩ := writePage_ids st.1 p pg hlt
    obtain ⟨_, _, w3⟩ := writePage_healthy st.1 p pg h.healthy
    show liveInv ((st.1.WritePage p pg).2, st.2)
    refine ⟨?_, ?_, w3, ?_, h.live_nodup, ?_, ?_⟩
    · show 2 ≤ (st.1.WritePage p pg).2.num_pages
      rw [w1]; exact h.reserved
    · show (st.1.WritePage p pg).2.num_pages < _
      rw [w1]; exact h.fits
    · show (st.1.WritePage p pg).2.free_pages.Nodup
      rw [w2]; exact h.freed_nodup
    · show ∀ q ∈ (st.1.WritePage p pg).2.free_pages,
        2 ≤ q ∧ q < (st.1.WritePage p pg).2.num_pages ∧ q ∉ st.2
      rw [w1, w2]; exact h.freed
    · show ∀ q ∈ st.2, 2 ≤ q ∧ q < (st.1.WritePage p pg).2.num_pages
      rw [w1]; exact h.live
  | deallocate p =>
    have hm : p ∈ st.2 := by simpa [DiscOp.disciplined] using hd
    obtain ⟨l1, l2⟩ := h.live p hm
    have h0 : p ≠ HEADER_PAGE_ID := by
      have : HEADER_PAGE_ID = 0 := rfl
      omega
    have hde : st.1.DeallocatePage p =
        (.ok (), { st.1 with free_pages := st.1.free_pages ++ [p] }) := by
      have hge : ¬ p ≥ st.1.num_pages := by omega
      simp [DiskManager.DeallocatePage, h0, hge]
    show liveInv ((st.1.DeallocatePage p).2, st.2.erase p)
    rw [hde]
    have hpf : p ∉ st.1.free_pages := fun hf => (h.freed p hf).2.2 hm
    refine ⟨h.reserved, h.fits, h.healthy, ?_, h.live_nodup.erase p, ?_, ?_⟩
    · show (st.1.free_pages ++ [p]).Nodup
      exact List.Nodup.append h.freed_nodup (List.nodup_singleton _)
        (by
          intro x hx1 hx2
          have : x = p := by simpa using hx2
          rw [this] at hx1
          exact hpf hx1)
    · intro q hq
      have hq' : q ∈ st.1.free_pages ++ [p] := hq
      rcases List.mem_append.1 hq' with e | e
      · obtain ⟨a, b, c⟩ := h.freed q e
        exact ⟨a, b, fun hmem => c (List.mem_of_mem_erase hmem)⟩
      · have hqp : q = p := by simpa using e
        rw [hqp]
        exact ⟨l1, l2, fun hmem => (List.Nodup.mem_erase_iff h.live_nodup).1 hmem |>.1 rfl⟩
    · intro q hq
      exact h.live q (List.mem_of_mem_erase hq)
  | reopen =>
    have hp' : st.1.file.length = st.1.num_pages ∧ st.1.free_pages.length ≤ 2016 := by
      simpa [DiscOp.persisted] using hp
    have hfile : st.1.file.length < PAGE_ID_MOD := by rw [hp'.1]; exact h.fits
    have hids : ∀ id ∈ st.1.free_pages, id < PAGE_ID_MOD := by
      intro id hid
      exact Nat.lt_trans (h.freed id hid).2.1 h.fits
    obtain ⟨_, _, r3, r4, r5, _⟩ := reopen_free_pages st.1 h.healthy hp'.2 hids hfile
    have hnum : (DiskManager.ctor (some st.1.dtor)).num_pages = st.1.num_pages := by
      rw [r4, hp'.1]
      have := h.reserved
      omega
    show liveInv (DiskManager.ctor (some st.1.dtor), st.2)
    refine ⟨?_, ?_, r5, ?_, h.live_nodup, ?_, ?_⟩
    · show 2 ≤ (DiskManager.ctor (some st.1.dtor)).num_pages
      rw [hnum]; exact h.reserved
    · show (DiskManager.ctor (some st.1.dtor)).num_pages < _
      rw [hnum]; exact h.fits
    · show (DiskManager.ctor (some st.1.dtor)).free_pages.Nodup
      rw [r3]; exact h.freed_nodup
    · show ∀ q ∈ (DiskManager.ctor (some st.1.dtor)).free_pages,
        2 ≤ q ∧ q < (DiskManager.ctor (some st.1.dtor)).num_pages ∧ q ∉ st.2
      rw [r3, hnum]; exact h.freed
    · show ∀ q ∈ st.2, 2 ≤ q ∧ q < (DiskManager.ctor (some st.1.dtor)).num_pages
      rw [hnum]; exact h.live

theorem liveInv_drun (ops : List DiscOp) (st : DiskManager × List Nat) (h : liveInv st)
    (hd : allDisciplined st ops = true) (hp : allPersisted st ops = true) :
    liveInv (drun st ops) := by
  induction ops generalizing st with
  | nil => exact h
  | cons op rest ih =>
    simp only [allDisciplined, Bool.and_eq_true] at hd
    simp only [allPersisted, Bool.and_eq_true] at hp
    exact ih (dstep st op) (liveInv_dstep st op h hd.1 hp.1) hd.2 hp.2

/-- C26 (amended): from a newly created file, after any sequence of allocate, write of
currently allocated page ids, deallocate of currently allocated page ids, and close
followed by reopen of the same file, in which every close finds all `num_pages_` pages
in the file and at most 2016 page ids free, and every allocate finds `num_pages_`
below the last value of its type, allocate returns a page id that is at least 2 and is
not currently allocated. -/
theorem allocation_fresh_under_discipline (ops : List DiscOp)
    (hd : allDisciplined (DiskManager.ctor none, []) ops = true)
    (hp : allPersisted (DiskManager.ctor none, []) ops = true) :
    2 ≤ (drun (DiskManager.ctor none, []) ops).1.AllocatePage.1 ∧
    (drun (DiskManager.ctor none, []) ops).1.AllocatePage.1 ∉
      (drun (DiskManager.ctor none, []) ops).2 :=
  liveInv_fresh _ (liveInv_drun ops _ liveInv_new hd hp)

/-- Witness for C26 (amended): pages 2 and 3 are allocated, page 3 is written (the file
then holds four pages), page 2 is deallocated, and the store is closed and opened
again; the next allocate returns page 2, which is not allocated, and not page 3. -/
theorem allocation_fresh_under_discipline_witness :
    (drun (DiskManager.ctor none, [])
      [.allocate, .allocate, .write 3 Page.zero, .deallocate 2, .reopen]).2 = [3] ∧
    (drun (DiskManager.ctor none, [])
      [.allocate, .allocate, .write 3 Page.zero, .deallocate 2, .reopen]).1.AllocatePage.1 ∉
      (drun (DiskManager.ctor none, [])
        [.allocate, .allocate, .write 3 Page.zero, .deallocate 2, .reopen]).2 :=
  ⟨by decide,
    (allocation_fresh_under_discipline
      [.allocate, .allocate, .write 3 Page.zero, .deallocate 2, .reopen] (by decide)
      (by decide)).2⟩

/-- Counterexample to C26 as stated: on a newly created file page 2 is allocated and the
store is closed and opened again without the page having been written. The file holds
two pages, so `num_pages_` is 2 again, and the next allocate returns page 2, which is
still allocated. -/
theorem allocation_fresh_under_discipline_counterexample :
    allDisciplined (DiskManager.ctor none, []) [.allocate, .reopen] = true ∧
    (drun (DiskManager.ctor none, []) [.allocate, .reopen]).2 = [2] ∧
    (drun (DiskManager.ctor none, []) [.allocate, .reopen]).1.num_pages = 2 ∧
    (drun (DiskManager.ctor none, []) [.allocate, .reopen]).1.AllocatePage.1 = 2 ∧
    (drun (DiskManager.ctor none, []) [.allocate, .reopen]).1.AllocatePage.1 ∈
      (drun (DiskManager.ctor none, []) [.allocate, .reopen]).2 := by
  decide

end logicmaze
